import Mathlib

/-!
# Pair balance in `positrons.c` and restart files in `restart.c`: a shallow embedding

The C translation units `src/core/positrons.c` and `src/core/restart.c` are
embedded as Lean functions.

Conventions of the embedding.

* A C `double` is an element of a linearly ordered field `F`.  Arithmetic is
  exact: rounding, overflow, infinities and NaN are outside the model, so
  `isnan` is constantly `false` and a division by zero is a hypothesis of the
  theorems that need to exclude it.  Instantiating `F := ℚ` makes every
  definition executable; instantiating `F := ℝ` gives the analytic statements.
* The functions of `math.h` and of GSL are not part of the source.  They are the
  fields of the records `Libm` and `Gsl`, passed to every function that calls
  them.  Theorems that need the analytic meaning of `exp`, `log`, `pow`, ...
  assume it through `Libm.IsReal`.
* Constants and globals declared in headers that are not under `src/`
  (`decs.h`, `positrons.h`, `cooling.h`, the parameter file) are the fields of
  the records `Consts`, `Units` and `Ext`.
* `exit(0)` after a `printf` is the `Except.error` of the printed message.  For
  `pair_production_1zone`, which also prints and then returns normally, the
  result is a `Run`: the list of printed messages and the final state, `none`
  when the process was terminated.
* A `for` loop is a recursive function on the number of iterations that are
  left; the loop counter is part of its result, because the source tests it
  after the loop.
* A `struct FluidState` is its primitive array `P`.  Where the identity of the
  two states `Ss` and `Sf` matters, the call is made on a memory that maps an
  address to a state (`pair_production_1zone_ptr`).
* For `restart.c` the globals are the fields of the record `Globals`, the
  preprocessor switches and grid sizes those of `Build`, and a restart file is
  the list of its named datasets.  The HDF5 helpers of `hdf5_utils.c` are not
  part of the source: they are modelled as reads and writes of that list, and a
  read fails when the dataset is missing or has another type.
-/

namespace Positrons

/-- The messages the translation unit prints. -/
inductive Msg where
  | net_rate_too_steep (i j k : Nat)
  | failure_in_implicit_method
  | no_solution
  | no_solution_in_xs
  | poor_initial_guess_xm
  | no_solution_in_xm
  deriving DecidableEq, Repr

/-- The functions and constants of `math.h` used by the source. -/
structure Libm (F : Type) where
  exp : F → F
  log : F → F
  log10 : F → F
  pow : F → F → F
  sqrt : F → F
  M_PI : F
  M_PI_2 : F

/-- The GSL special functions used by the source. -/
structure Gsl (F : Type) where
  sf_erf : F → F
  sf_bessel_Kn : Nat → F → F
  sf_gamma_inc : F → F → F
  sf_gamma_inc_P : F → F → F

/-- Physical constants and run parameters declared in headers outside `src/`. -/
structure Consts (F : Type) where
  CL : F
  RE : F
  ME : F
  MP : F
  QE : F
  KBOL : F
  hplanck : F
  sigma_t : F
  alphaf : F
  eta : F
  lambda_c : F
  sqrt2 : F
  GNEWT : F
  MSUN : F
  COULOMB_LOG : F
  SMALL : F
  ZMIN : F
  ME_MP : F
  bisects : F
  q_alpha : F
  h_r : F
  gam : F

/-- The unit globals assigned by `set_units`. -/
structure Units (F : Type) where
  Mbh : F
  L_unit : F
  T_unit : F
  RHO_unit : F
  U_unit : F
  B_unit : F

variable {F : Type} [LinearOrderedField F]

/-- The C macro `isnan`: no value of the exact model is a NaN. -/
def isnan (_ : F) : Bool := false

/-- Source constant `i0`. -/
def i0 : F := 4.0505

/-- Source constant `i1`. -/
def i1 : F := 4.0505 * 0.40

/-- Source constant `i2`. -/
def i2 : F := 4.0505 * 0.5316

/-- Source constant `i3`. -/
def i3 : F := 1.8899

/-- Function `set_units`: the unit conversion between code and cgs, from the black
hole mass `mbh` (solar masses) and the mass unit `M_unit`. -/
def set_units (L : Libm F) (C : Consts F) (mbh M_unit : F) : Units F :=
  let Mbh := mbh * C.MSUN
  let L_unit := C.GNEWT * Mbh / (C.CL * C.CL)
  let T_unit := L_unit / C.CL
  let RHO_unit := M_unit * L.pow L_unit (-3.0)
  let U_unit := RHO_unit * C.CL * C.CL
  let B_unit := C.CL * L.sqrt (4.0 * L.M_PI * RHO_unit)
  { Mbh := Mbh, L_unit := L_unit, T_unit := T_unit, RHO_unit := RHO_unit,
    U_unit := U_unit, B_unit := B_unit }

/-! ## Rate engine -/

/-- Function `get_ndotee`: e-e pair production rate. -/
def get_ndotee (L : Libm F) (C : Consts F) (nprot z theta : F) : F :=
  let ndot :=
    if theta ≤ 1.0e2 then
      2.0e-4 * L.pow theta 1.5 * L.exp (-2.0 / theta) * (1.0 + 0.015 * theta)
    else
      (112.0 / 27.0 / L.M_PI) * (C.alphaf * C.alphaf) * L.pow (L.log theta) 3.0
        / (1.0 + 0.058 / theta)
  ndot * C.CL * C.RE * C.RE * (nprot * (1.0 + z)) * (nprot * (1.0 + z))

/-- Function `nadot`: pair annihilation rate. -/
def nadot (L : Libm F) (C : Consts F) (z nprot theta : F) : F :=
  (3.0 / 8.0) * C.sigma_t * C.CL * (nprot * nprot * z * (z + 1.0))
    / (1.0 + 2.0 * theta * theta / L.log (1.12 * theta + 1.3))

/-- Function `get_ndotww`: Wien-Wien pair production. -/
def get_ndotww (L : Libm F) (C : Consts F) (ngamma theta : F) : F :=
  let out :=
    if theta ≤ 1.0 then
      0.125 * L.M_PI * L.M_PI * L.exp (-2.0 / theta) * (1.0 + 2.88 * L.pow theta 0.934)
        / L.pow theta 3.0
    else
      0.5 * L.M_PI * L.log (2.0 * C.eta * theta + 0.38) / L.pow theta 2.0
  out * C.CL * C.RE * C.RE * ngamma * ngamma

/-- Function `get_ndotwp`: Wien-proton pair production. -/
def get_ndotwp (L : Libm F) (C : Consts F) (ngamma nprot theta : F) : F :=
  let out :=
    if theta ≤ 2.0 then
      L.M_PI * theta * L.exp (-2.0 / theta) / (1.0 + 0.9 * theta)
    else
      (28.0 / 9.0) * L.log (2.0 * C.eta * theta + 1.7) - 92.0 / 27.0
  out * C.alphaf * C.CL * C.RE * C.RE * ngamma * nprot

/-- Function `get_ndotwe`: Wien-lepton pair production. -/
def get_ndotwe (L : Libm F) (C : Consts F) (ngamma nprot z theta : F) : F :=
  let out :=
    if theta ≤ 0.18 then
      (4.0 * L.M_PI / 27.0) * L.exp (-2.0 / theta) * (1.0 + 27.1 * L.pow theta 0.949)
    else if theta ≥ 2 then
      (56.0 / 9.0 * L.log (2.0 * C.eta * theta) - 8.0 / 27.0) / (1.0 + 0.5 / theta)
    else
      (4.0 * L.M_PI / 27.0) * L.exp (-2.0 / theta) * 16.1 * L.pow theta 0.541
  out * C.alphaf * C.CL * C.RE * C.RE * ngamma * (2.0 * z + 1.0) * nprot

/-- Function `get_ndotwf`: Wien-flat pair production. -/
def get_ndotwf (L : Libm F) (C : Consts F) (n1 ngamma theta : F) : F :=
  C.CL * C.RE * C.RE * n1 * ngamma * L.M_PI * L.M_PI / 4.0 * L.exp (-1.0 / theta)

/-- Function `ncdot`: total pair production rate, the sum of the five channels. -/
def ncdot (L : Libm F) (C : Consts F) (ngamma theta nprot z n1 : F) : F :=
  let ndotww := get_ndotww L C ngamma theta
  let ndotwp := get_ndotwp L C ngamma nprot theta
  let ndotwe := get_ndotwe L C ngamma nprot z theta
  let ndotwf := get_ndotwf L C n1 ngamma theta
  let ndotee := get_ndotee L C nprot z theta
  ndotee + ndotww + ndotwp + ndotwe + ndotwf

/-- Function `rate_ep`: electron-proton bremsstrahlung total rate. -/
def rate_ep (L : Libm F) (C : Consts F) (z _nprot theta xm : F) : F :=
  (1.0 + 2.0 * z) * (1.0 + 2.0 * theta + 2.0 * theta * theta)
    * L.log (4.0 * C.eta * (1.0 + 3.42 * theta) * L.sqrt (theta / xm))

/-- Function `rate_ee`: electron-electron bremsstrahlung total rate. -/
def rate_ee (L : Libm F) (C : Consts F) (z _nprot theta xm : F) : F :=
  (z * z + (1.0 + z) * (1.0 + z)) * (3.0 * C.sqrt2 / 5.0 * theta + 2.0 * theta * theta)
    * L.log (4.0 * C.eta * (11.2 + 10.4 * theta * theta) * L.sqrt (theta / xm))

/-- Function `rate_pm`: electron-positron bremsstrahlung total rate. -/
def rate_pm (L : Libm F) (C : Consts F) (z _nprot theta xm : F) : F :=
  z * (1.0 + z) * 2 * (C.sqrt2 + 2.0 * theta + 2.0 * theta * theta)
    * L.log (4.0 * C.eta * (1.0 + 10.4 * theta * theta) * L.sqrt (theta / xm))

/-- The local `corr` of `get_ndotbr` and `n0dot`: `exp(1/θ) K₂(1/θ)` or its
asymptotic form. -/
def bessel_corr (L : Libm F) (G : Gsl F) (thetam1 : F) : F :=
  if thetam1 < 500.0 then
    L.exp thetam1 * G.sf_bessel_Kn 2 thetam1
  else
    L.sqrt (L.M_PI_2 / thetam1)

/-- Function `get_ndotbr`: bremsstrahlung photon production rate. -/
def get_ndotbr (L : Libm F) (G : Gsl F) (C : Consts F) (z theta xm nprot : F) : F :=
  let thetam1 := 1.0 / theta
  let corr := bessel_corr L G thetam1
  let factor := (16.0 / 3.0) * C.alphaf * C.CL * (C.RE * C.RE) * (nprot * nprot) / corr
    * L.log (theta / xm)
  let ep := rate_ep L C z nprot theta xm
  let ee := rate_ee L C z nprot theta xm
  let pm := rate_pm L C z nprot theta xm
  factor * (ep + ee + pm)

/-- Function `nbb`: black body photon number density. -/
def nbb (L : Libm F) (C : Consts F) (x theta : F) : F :=
  let tmp := x / theta
  if tmp < 1.0e-5 then
    (x * theta) / (C.lambda_c * C.lambda_c * C.lambda_c) / (L.M_PI * L.M_PI)
  else
    (x * x) / (C.lambda_c * C.lambda_c * C.lambda_c) / (L.M_PI * L.M_PI) / (L.exp tmp - 1.0)

/-- Function `n0dot`: the common bremsstrahlung emissivity factor. -/
def n0dot (L : Libm F) (G : Gsl F) (C : Consts F) (x nprot theta : F) : F :=
  let thetam1 := 1.0 / theta
  let corr := bessel_corr L G thetam1
  (16.0 / 3.0) * C.alphaf * C.CL * (C.RE * C.RE) * (nprot * nprot) / corr
    * (L.exp (-x * thetam1) / x)

/-- Function `ndotep`: electron-proton bremsstrahlung per frequency. -/
def ndotep (L : Libm F) (C : Consts F) (x z _nprot theta : F) : F :=
  (1.0 + 2.0 * z) * L.log (4.0 * C.eta * (1.0 + 3.42 * theta) * (theta / x))
    * (1.0 + 2.0 * theta + 2.0 * theta * theta)

/-- Function `ndotee`: electron-electron bremsstrahlung per frequency. -/
def ndotee (L : Libm F) (C : Consts F) (x z _nprot theta : F) : F :=
  (z * z + (1.0 + z) * (1.0 + z))
    * L.log (4.0 * C.eta * (11.2 + 10.4 * theta * theta) * (theta / x))
    * (3.0 * C.sqrt2 / 5.0 * theta + 2.0 * theta * theta)

/-- Function `ndotpm`: electron-positron bremsstrahlung per frequency. -/
def ndotpm (L : Libm F) (C : Consts F) (x z _nprot theta : F) : F :=
  z * (1.0 + z) * L.log (4.0 * C.eta * (1.0 + 10.4 * theta * theta) * (theta / x))
    * 2.0 * (C.sqrt2 + 2.0 * theta + 2.0 * theta * theta)

/-- Function `brem_abs`: bremsstrahlung absorption coefficient. -/
def brem_abs (L : Libm F) (G : Gsl F) (C : Consts F) (x z nprot theta : F) : F :=
  let bb := nbb L C x theta
  let dn0dt := n0dot L G C x nprot theta
  let ep := ndotep L C x z nprot theta
  let ee := ndotee L C x z nprot theta
  let pm := ndotpm L C x z nprot theta
  dn0dt * (ep + ee + pm) / (C.CL * bb)

/-! ## Synchrotron emission -/

/-- Function `ix`: the residual whose root is the self-absorption frequency. -/
def ix (L : Libm F) (x A_in : F) : F :=
  (i0 / L.pow x (1.0 / 6.0) + i1 / L.pow x (5.0 / 12.0) + i2 / L.pow x (2.0 / 3.0))
    * L.exp (-i3 * L.pow x (1.0 / 3.0)) - A_in * x

/-- Function `didx`: the derivative used by the Newton-Raphson step. -/
def didx (L : Libm F) (x A_in : F) : F :=
  let out := (-i0 / 6.0 / L.pow x (7.0 / 6.0) - i1 * 5.0 / 12.0 / L.pow x (17.0 / 12.0)
      - i2 * 2.0 / 3.0 / L.pow x (5.0 / 3.0) - i0 * i3 / 3.0 / L.pow x (5.0 / 6.0)
      - i1 * i3 / 3.0 / L.pow x (13.0 / 12.0) - i2 * i3 / 3.0 / L.pow x (4.0 / 3.0))
    * L.exp (-i3 * L.pow x (1.0 / 3.0))
  out - A_in

/-- The prefactor `A_fac` computed at the top of `find_xs`. -/
def find_xs_A_fac (L : Libm F) (C : Consts F) (thetae nprot zfrac v0 h_scale : F) : F :=
  2.0 * L.sqrt 3.0 * C.ME * C.CL * thetae * (2.0 * thetae * thetae)
    * (3.0 * v0 * L.pow thetae 2.0 / 2.0) / 4.0 / L.pow C.QE 2.0 / nprot
    / (2.0 * zfrac + 1.0) / h_scale

/-- One Newton-Raphson update of `find_xs`: `xold - ix(xold)/didx(xold)`. -/
def newton_step (L : Libm F) (A_fac xold : F) : F :=
  xold - ix L xold A_fac / didx L xold A_fac

/-- The `for (n = 0; n <= 999; n++)` loop of `find_xs`.  The arguments are the
number of iterations left, the counter `n`, `xold` and the last `xnew`; the
result is the pair `(n, xnew)` after the loop. -/
def find_xs_loop (L : Libm F) (A_fac bisects : F) : Nat → Nat → F → F → Nat × F
  | 0, n, _, xnew => (n, xnew)
  | fuel + 1, n, xold, _ =>
    let xnew := newton_step L A_fac xold
    if |1.0 - xnew / xold| < bisects then (n, xnew)
    else find_xs_loop L A_fac bisects fuel (n + 1) xnew xnew

/-- Function `find_xs`: the self-absorption frequency by Newton-Raphson. -/
def find_xs (L : Libm F) (C : Consts F) (thetae nprot zfrac v0 h_scale : F) : Except Msg F :=
  let A_fac := find_xs_A_fac L C thetae nprot zfrac v0 h_scale
  let r := find_xs_loop L A_fac C.bisects 1000 0 1.0 0
  if r.1 = 999 then
    Except.error Msg.no_solution_in_xs
  else
    let nus := 1.5 * r.2 * v0 * thetae * thetae
    Except.ok nus

/-- Function `fraction`: fraction of photons scattered to the Wien peak. -/
def fraction (L : Libm F) (G : Gsl F) (x taut thetae : F) : F :=
  let alpha : F := 3.0
  let logthx := L.log (alpha * thetae / x)
  let logA := L.log (1.0 + 4.0 * thetae + 16.0 * L.pow thetae 2.0)
  let jm := logthx / logA
  if taut > 1.0 then
    L.exp (-jm / L.pow taut 2.0)
  else
    let stau := taut + taut * taut
    G.sf_gamma_inc_P jm stau

/-- Lines 686-703 of `find_ndots`: the synchrotron photon production rate `ndots`
for the self-absorption frequency `nus` returned by `find_xs` and the cyclotron
frequency `v0`. -/
def find_ndots_rate (L : Libm F) (G : Gsl F) (C : Consts F)
    (thetae nprot zfrac h_scale v0 nus : F) : F :=
  let a1 := 2.0 / 3.0 / v0 / thetae / thetae
  let a2 := 0.4 / L.pow a1 0.25
  let a3 := 0.5316 / L.sqrt a1
  let a4 := 1.8899 * L.pow a1 (1.0 / 3.0)
  let one := G.sf_gamma_inc 5.5 (a4 * L.pow nus (1.0 / 3.0)) / L.pow a4 5.5
  let two := G.sf_gamma_inc 4.75 (a4 * L.pow nus (1.0 / 3.0)) * a2 / L.pow a4 4.75
  let three := a3 * (L.pow a4 3.0 * nus + 3.0 * L.pow a4 2.0 * L.pow nus (2.0 / 3.0)
      + 6.0 * a4 * L.pow nus (1.0 / 3.0) + 6.0) * L.exp (-a4 * L.pow nus (1.0 / 3.0))
    / L.pow a4 4.0
  let gnus := one + two + three
  let qs := 2.0 * L.M_PI * (thetae * C.ME) * L.pow nus 3.0 / 3.0 / h_scale
  let qs := qs + 6.76e-28 * nprot * (2.0 * zfrac + 1.0) * gnus / (2.0 * thetae * thetae)
    / L.pow a1 (1.0 / 6.0)
  qs / C.hplanck / nus

/-- Function `find_ndots`: synchrotron photon production; the result is the pair
`(fs, ndots)` written through the two output pointers. -/
def find_ndots (L : Libm F) (G : Gsl F) (C : Consts F)
    (thetae taut nprot zfrac h_scale bfield : F) : Except Msg (F × F) := do
  let v0 := C.QE * bfield / 2.0 / L.M_PI / C.ME / C.CL
  let nus ← find_xs L C thetae nprot zfrac v0 h_scale
  let xs := C.hplanck * nus / C.ME / C.CL / C.CL
  let fs := fraction L G xs taut thetae
  let ndots := find_ndots_rate L G C thetae nprot zfrac h_scale v0 nus
  pure (fs, ndots)

/-! ## Radiative transfer -/

/-- The loop variables of `find_xm`. -/
structure XmState (F : Type) where
  n : Nat
  xl : F
  xr : F
  fl : F
  fr : F
  xc : F
  xcp : F
  fc : F

/-- The local `lhs` of `find_xm`. -/
def find_xm_lhs (C : Consts F) (z tau nprot theta : F) : F :=
  let a_t := (2.0 * z + 1.0) * nprot * C.sigma_t
  a_t * (1.0 + (tau * tau) * min 1.0 (8.0 * theta)) / (tau * (1 + tau))

/-- The residual `brem_abs(x) - lhs` bisected by `find_xm`, as a function of the
logarithmic coordinate: `x = pow(10, xc) * theta`. -/
def find_xm_f (L : Libm F) (G : Gsl F) (C : Consts F) (z nprot theta lhs xc : F) : F :=
  brem_abs L G C (L.pow 10.0 xc * theta) z nprot theta - lhs

/-- One execution of the body of the main loop of `find_xm`, up to and including
the recomputation of `xc`, `xcp` and `fc`. -/
def find_xm_body (L : Libm F) (G : Gsl F) (C : Consts F) (z nprot theta lhs : F)
    (s : XmState F) : XmState F :=
  let s1 : XmState F :=
    if s.fc * s.fl > 0.0 then { s with fl := s.fc, xl := s.xc }
    else if s.fc * s.fr > 0.0 then { s with fr := s.fc, xr := s.xc }
    else s
  let xc := 0.5 * (s1.xl + s1.xr)
  { s1 with xc := xc, xcp := L.pow 10.0 xc * theta,
            fc := find_xm_f L G C z nprot theta lhs xc }

/-- The `for (n = 0; n < 99999; n++)` loop of `find_xm`; the first argument is
the number of iterations left. -/
def find_xm_loop (L : Libm F) (G : Gsl F) (C : Consts F) (z nprot theta lhs : F) :
    Nat → XmState F → XmState F
  | 0, s => s
  | fuel + 1, s =>
    let xc_old := s.xc
    let s2 := find_xm_body L G C z nprot theta lhs s
    if |1.0 - s2.xc / xc_old| < C.bisects then s2
    else find_xm_loop L G C z nprot theta lhs fuel { s2 with n := s2.n + 1 }

/-- The loop variables of `find_xm` when the main loop is entered. -/
def find_xm_init (L : Libm F) (G : Gsl F) (C : Consts F) (z nprot theta lhs : F) : XmState F :=
  let xl : F := -50.0
  let xr : F := L.log10 700.0
  let xc := 0.5 * (xl + xr)
  { n := 0, xl := xl, xr := xr,
    fl := find_xm_f L G C z nprot theta lhs xl,
    fr := find_xm_f L G C z nprot theta lhs xr,
    xc := xc, xcp := L.pow 10.0 xc * theta,
    fc := find_xm_f L G C z nprot theta lhs xc }

/-- Function `find_xm`: the photon frequency below which the local spectrum is a
black body, by bisection in `log10(x/theta)`. -/
def find_xm (L : Libm F) (G : Gsl F) (C : Consts F) (z tau nprot theta : F) : Except Msg F :=
  let lhs := find_xm_lhs C z tau nprot theta
  let s0 := find_xm_init L G C z nprot theta lhs
  if s0.fl * s0.fr > 0.0 then
    Except.error Msg.poor_initial_guess_xm
  else
    let s := find_xm_loop L G C z nprot theta lhs 99999 s0
    if s.n = 99999 then
      Except.error Msg.no_solution_in_xm
    else
      Except.ok s.xcp

/-- The `for (o = 0; o <= n_grid; o += 4)` loop of `fbrem`: Boole's rule on
panels of width `4*dh`.  The arguments after the fixed ones are the number of
iterations left, the counter `o` and the accumulator `out`. -/
def fbrem_loop (G : Gsl F) (n_grid : Nat) (dh log_alpha logA stau : F) : Nat → Nat → F → F
  | 0, _, out => out
  | fuel + 1, o, out =>
    if o ≤ n_grid then
      let u0 := dh * (o : F)
      let u1 := u0 + dh
      let u2 := u0 + 2.0 * dh
      let u3 := u0 + 3.0 * dh
      let u4 := u0 + 4.0 * dh
      let f0 := u0 * G.sf_gamma_inc_P ((u0 + log_alpha) / logA) stau
      let f1 := u1 * G.sf_gamma_inc_P ((u1 + log_alpha) / logA) stau
      let f2 := u2 * G.sf_gamma_inc_P ((u2 + log_alpha) / logA) stau
      let f3 := u3 * G.sf_gamma_inc_P ((u3 + log_alpha) / logA) stau
      let f4 := u4 * G.sf_gamma_inc_P ((u4 + log_alpha) / logA) stau
      fbrem_loop G n_grid dh log_alpha logA stau fuel (o + 4)
        (out + (2.0 / 45.0) * dh * (7.0 * f0 + 32.0 * f1 + 12.0 * f2 + 32.0 * f3 + 7.0 * f4))
    else out

/-- Function `fbrem`: fraction of up-scattered bremsstrahlung photons. -/
def fbrem (L : Libm F) (G : Gsl F) (y taut theta xm : F) : F :=
  let alpha : F := 3.0
  let log_alpha := L.log alpha
  let logA := L.log (1.0 + 4.0 * theta + 16.0 * theta * theta)
  if taut > 1.0 then
    let out := if y ≤ 1e3 then 2.0 * (y * y - y * (1.0 + y) * L.exp (-1.0 / y))
      else 1.0 - 2.0 / 3.0 / y
    out * L.exp (-log_alpha / L.pow taut 2.0 / logA)
  else
    let n_grid : Nat := 100
    let stau := taut + L.pow taut 2.0
    let logthx := L.log (theta / xm)
    let dh := logthx / (n_grid : F)
    fbrem_loop G n_grid dh log_alpha logA stau (n_grid + 1) 0 0.0

/-- Function `comptony1`: the Compton `y1` parameter. -/
def comptony1 (L : Libm F) (x tau theta : F) : F :=
  (tau * tau) * L.log (1.0 + 4.0 * theta + 16.0 * theta * theta) / L.log (theta / x)

/-- Function `flatn1`: flat spectrum photon number density. -/
def flatn1 (L : Libm F) (C : Consts F) (x theta y : F) : F :=
  (2.0 / L.M_PI) * (C.alphaf * C.alphaf * C.alphaf) * (x * x) * theta
    * (1.0 / L.log (theta / x) + y / (1.0 + y)) / (C.RE * C.RE * C.RE)

/-- Function `ngamma`: Wien spectrum photon number density. -/
def ngamma (L : Libm F) (C : Consts F) (tau theta fb ndotbr fs ndots r_size : F) : F :=
  let gt :=
    if theta < 1.0 then 1.0 / (1.0 + 5.0 * theta + 0.4 * theta * theta)
    else 0.1875 * (L.log (2.0 * C.eta * theta) + 0.75) / (1.0 + (0.1 / theta)) / (theta * theta)
  r_size / C.CL * (1.0 + gt * tau) * (fb * ndotbr + fs * ndots)

/-- The Wien photon density `ng` that `ndot_net` computes once both solvers have
returned `xm` and `(fs, ndots)`. -/
def ndot_net_ng (L : Libm F) (G : Gsl F) (C : Consts F)
    (zfrac taut nprot theta r_size xm fs ndots : F) : F :=
  let ndotbr := get_ndotbr L G C zfrac theta xm nprot
  let y1 := comptony1 L xm taut theta
  let fb := fbrem L G y1 taut theta xm
  ngamma L C taut theta fb ndotbr fs ndots r_size

/-- The flat photon density `n1` that `ndot_net` computes once `find_xm` has
returned `xm`. -/
def ndot_net_n1 (L : Libm F) (C : Consts F) (taut theta xm : F) : F :=
  flatn1 L C xm theta (comptony1 L xm taut theta)

/-- Function `ndot_net`: net pair production rate. -/
def ndot_net (L : Libm F) (G : Gsl F) (C : Consts F)
    (zfrac taut nprot theta r_size bfield : F) : Except Msg F := do
  let xm ← find_xm L G C zfrac taut nprot theta
  let ndotbr := get_ndotbr L G C zfrac theta xm nprot
  let y1 := comptony1 L xm taut theta
  let fb := fbrem L G y1 taut theta xm
  let n1 := flatn1 L C xm theta y1
  let (fs, ndots) ← find_ndots L G C theta taut nprot zfrac r_size bfield
  let ng := ngamma L C taut theta fb ndotbr fs ndots r_size
  let nc := ncdot L C ng theta nprot zfrac n1
  let na := nadot L C zfrac nprot theta
  pure (nc - na)

/-! ## Miscellaneous -/

/-- Function `get_zfrac`: positron fraction in local thermal equilibrium. -/
def get_zfrac (L : Libm F) (C : Consts F) (nprot thetae : F) : F :=
  let kt := thetae * C.ME * C.CL * C.CL
  let lam_th := C.hplanck / L.sqrt (2.0 * L.M_PI * C.ME * kt)
  let u := 4.0 / nprot / nprot / L.pow lam_th 6.0 * L.exp (-2.0 / thetae)
  0.5 * (-1.0 + L.sqrt (1.0 + 4.0 * u))

/-- Function `safe_Kn`: modified Bessel function of the second kind with safe inputs. -/
def safe_Kn (L : Libm F) (G : Gsl F) (n : Nat) (x : F) : F :=
  if x > 100.0 then L.exp (-x) * L.sqrt (L.M_PI / (2.0 * x))
  else G.sf_bessel_Kn n x

/-- Function `coulomb_onezone`: Coulomb coupling energy transfer rate (cgs). -/
def coulomb_onezone (L : Libm F) (G : Gsl F) (C : Consts F)
    (thetap thetae nprot npost : F) (_i _j _k : Nat) : F :=
  let logCoul := C.COULOMB_LOG
  let thetam := 1.0 / (1.0 / thetae + 1.0 / thetap)
  let Tp := thetap * C.ME * C.CL * C.CL / C.KBOL
  let Te := thetae * C.ME * C.CL * C.CL / C.KBOL
  let nelec := npost + nprot
  if !isnan Te && !isnan Tp && decide (Te > 0.0) && decide (Tp > 0.0) then
    let prefac := 3.0 / 2.0 * C.ME / C.MP * (nelec + npost) * nprot * logCoul * C.CL * C.KBOL
      * C.sigma_t * (Tp - Te)
    let thetaCrit : F := 1.0e-2
    let term : F × F :=
      if thetae < thetaCrit ∧ thetap < thetaCrit then
        (L.sqrt (thetam / (L.M_PI * thetae * thetap / 2.0)),
         L.sqrt (thetam / (L.M_PI * thetae * thetap / 2.0)))
      else if thetae < thetaCrit then
        (L.exp (-1.0 / thetap) / safe_Kn L G 2 (1.0 / thetap) * L.sqrt (thetam / thetae),
         L.exp (-1.0 / thetap) / safe_Kn L G 2 (1.0 / thetap) * L.sqrt (thetam / thetae))
      else if thetap < thetaCrit then
        (L.exp (-1.0 / thetae) / safe_Kn L G 2 (1.0 / thetae) * L.sqrt (thetam / thetap),
         L.exp (-1.0 / thetae) / safe_Kn L G 2 (1.0 / thetae) * L.sqrt (thetam / thetap))
      else
        (safe_Kn L G 1 (1.0 / thetam)
            / (safe_Kn L G 2 (1.0 / thetae) * safe_Kn L G 2 (1.0 / thetap)),
         safe_Kn L G 0 (1.0 / thetam)
            / (safe_Kn L G 2 (1.0 / thetae) * safe_Kn L G 2 (1.0 / thetap)))
    let term1 := term.1 * ((2.0 * L.pow (thetae + thetap) 2.0 + 1.0) / (thetae + thetap))
    let term2 := term.2 * 2.0
    prefac * (term1 + term2)
  else
    0.0

/-- Function `series_asym`: five-term asymptotic series used in place of `erf`. -/
def series_asym (L : Libm F) (x_in : F) : F :=
  1.0 / x_in - 0.5 / L.pow x_in 3.0 + 0.75 / L.pow x_in 5.0 - 1.875 / L.pow x_in 7.0
    + 6.5625 / L.pow x_in 9.0

/-! ## The per-cell update -/

/-- The primitive array `P[var][k][j][i]` of a `struct FluidState`. -/
structure FluidState (F : Type) where
  P : Nat → Nat → Nat → Nat → F

/-- The assignment `S->P[v][k][j][i] = val`. -/
def FluidState.setP (S : FluidState F) (v k j i : Nat) (val : F) : FluidState F :=
  { P := fun v1 k1 j1 i1 =>
      if v1 = v ∧ k1 = k ∧ j1 = j ∧ i1 = i then val else S.P v1 k1 j1 i1 }

/-- The observable result of one call of `pair_production_1zone`: what was
printed, and the output state `Sf`, or `none` when `exit(0)` was reached. -/
structure Run (F : Type) where
  printed : List Msg
  Sf : Option (FluidState F)

/-- The residual of the implicit update,
`g(z) = (z - zfrac) - dt_real*ndot_net(z)/nprot`, for a net rate routine `rate`. -/
def implicit_g (rate : F → Except Msg F) (zfrac dt_real nprot z : F) : Except Msg F := do
  let ndot ← rate z
  pure ((z - zfrac) - dt_real * ndot / nprot)

/-- The bracket expansion loop `for (o = 0; o < 999; o++)` of the implicit branch.
The arguments after the fixed ones are the number of iterations left, the counter
`o`, the trial endpoint `zr` and the last residual `fr`; the result is `(o, zr, fr)`
after the loop. -/
def bracket_loop (g : F → Except Msg F) (fl steps : F) :
    Nat → Nat → F → F → Except Msg (Nat × F × F)
  | 0, o, zr, fr => pure (o, zr, fr)
  | fuel + 1, o, zr, _ => do
    let fr ← g zr
    if fr * fl < 0.0 then pure (o, zr, fr)
    else bracket_loop g fl steps fuel (o + 1) (zr * steps) fr

/-- The bisection loop `for (count = 0; count < 99999; count++)` of the implicit
branch.  The arguments after the fixed ones are the number of iterations left,
the counter `count`, the endpoints `zl`, `zr` and the last midpoint `zcen`; the
result is `(count, zl, zr, zcen)` after the loop. -/
def bisect_loop (g : F → Except Msg F) (fl fr bisects : F) :
    Nat → Nat → F → F → F → Except Msg (Nat × F × F × F)
  | 0, count, zl, zr, zcen => pure (count, zl, zr, zcen)
  | fuel + 1, count, zl, zr, zcen => do
    let zcen_old := zcen
    let zcen := 0.5 * (zl + zr)
    let fcen ← g zcen
    let zl1 := if fl * fcen > 0.0 then zcen else zl
    let zr1 := if fl * fcen > 0.0 then zr else if fr * fcen > 0.0 then zcen else zr
    if count > 0 ∧ |1.0 - zcen_old / zcen| < bisects then pure (count, zl1, zr1, zcen)
    else bisect_loop g fl fr bisects fuel (count + 1) zl1 zr1 zcen

/-- The factor `steps` by which the trial endpoint is multiplied: 10 when the net
rate is positive, 0.1 otherwise. -/
def implicit_steps (net_rate : F) : F :=
  if net_rate > 0.0 then 10.0 else 0.1

/-- Lines 245-355 of `pair_production_1zone`: the explicit or implicit update of
the positron density of cell `(i, j, k)`, once `nprot`, `npost` and `dt_real`
are known.  `rate z` stands for the call
`ndot_net(z, tau_depth, nprot, thetae, h_th, bfield)`, whose last five
arguments are the same at every call site. -/
def pair_update (C : Consts F) (U : Units F) (rate : F → Except Msg F)
    (nprot npost dt_real : F) (Sf : FluidState F) (RPL i j k : Nat) : Run F :=
  let zfrac := npost / nprot
  match rate zfrac with
  | Except.error m => { printed := [m], Sf := none }
  | Except.ok net_rate =>
    if |net_rate| > 0.0 then
      let qfac := |npost / net_rate|
      if dt_real > C.q_alpha * qfac then
        let zl := zfrac
        match rate zl with
        | Except.error m => { printed := [Msg.net_rate_too_steep i j k, m], Sf := none }
        | Except.ok ndotl =>
          let fl := (zl - zfrac) - dt_real * ndotl / nprot
          let steps : F := implicit_steps net_rate
          match bracket_loop (implicit_g rate zfrac dt_real nprot) fl steps 999 0 zl 0 with
          | Except.error m => { printed := [Msg.net_rate_too_steep i j k, m], Sf := none }
          | Except.ok (o, zr, fr) =>
            if o = 999 ∨ isnan fr = true then
              { printed := [Msg.net_rate_too_steep i j k, Msg.failure_in_implicit_method],
                Sf := none }
            else
              match bisect_loop (implicit_g rate zfrac dt_real nprot) fl fr C.bisects
                  99999 0 zl zr 0 with
              | Except.error m => { printed := [Msg.net_rate_too_steep i j k, m], Sf := none }
              | Except.ok (count, _, _, zcen) =>
                if count = 99999 then
                  { printed := [Msg.net_rate_too_steep i j k, Msg.no_solution],
                    Sf := some Sf }
                else
                  let npost := zcen * nprot
                  { printed := [Msg.net_rate_too_steep i j k],
                    Sf := some (Sf.setP RPL k j i (npost * (C.ME / U.RHO_unit))) }
      else
        let npost := npost + net_rate * dt_real
        { printed := [], Sf := some (Sf.setP RPL k j i (npost * (C.ME / U.RHO_unit))) }
    else
      { printed := [], Sf := some Sf }

/-- The compile-time selector `COMPUTE` of the optical depth strategy. -/
inductive Compute where
  | DIRECT_1
  | DIRECT_2
  | GAUSSIAN
  deriving DecidableEq, Repr

/-- What `pair_production_1zone` obtains from code outside `src/`: the indices of
the primitives, the grid sizes, the geometry at cell centres (`coord` followed by
`bl_coord`, `G->gdet[CENT]`, `G->gcov[CENT][2][2]`, `dx[2]`), the four-velocity
left in `Ss` by `get_state`, `bsq_calc`, and the electron temperature `t_elec`. -/
structure Ext (F : Type) where
  RHO : Nat
  UU : Nat
  RPL : Nat
  NG : Nat
  N2 : Nat
  dx2 : F
  bl_rad : Nat → Nat → Nat → F
  bl_theta : Nat → Nat → Nat → F
  gdet : Nat → Nat → F
  gcov22 : Nat → Nat → F
  ucon : FluidState F → Nat → Nat → Nat → Nat → F
  bsq_calc : FluidState F → Nat → Nat → Nat → F
  t_elec : F

/-- The column sums `upper` and `lower` of strategy `DIRECT_1`, for
`m = m_start, ..., m_end`. -/
def direct1_sums (L : Libm F) (C : Consts F) (U : Units F) (E : Ext F) (Ss : FluidState F)
    (i k m_start m_end : Nat) : F × F :=
  (List.range' m_start (m_end + 1 - m_start)).foldl
    (fun (acc : F × F) m =>
      let th_loc := E.bl_theta i m k
      let np := Ss.P E.RHO k m i * U.RHO_unit / C.MP
      let n_p := Ss.P E.RPL k m i * U.RHO_unit / C.ME
      let nt := 2 * n_p + np
      (acc.1 + nt * |th_loc - L.M_PI_2| * E.gdet m i * L.sqrt (E.gcov22 m i) * E.dx2,
       acc.2 + nt * E.gdet m i * E.dx2))
    (0.0, 0.0)

/-- The column sum `tau_depth` of strategy `DIRECT_2`, for `m = m_start, ..., m_end`. -/
def direct2_sum (L : Libm F) (C : Consts F) (U : Units F) (E : Ext F) (Ss : FluidState F)
    (i k m_start m_end : Nat) : F :=
  (List.range' m_start (m_end + 1 - m_start)).foldl
    (fun (tau_depth : F) m =>
      let np := Ss.P E.RHO k m i * U.RHO_unit / C.MP
      let n_p := Ss.P E.RPL k m i * U.RHO_unit / C.ME
      let nt := 2 * n_p + np
      tau_depth + nt * (L.sqrt (E.gcov22 m i) * E.dx2) * U.L_unit * C.sigma_t)
    0.0

/-- The optical depth and scale height `(tau_depth, h_th)` of cell `(i, j, k)`
under the strategy selected by `COMPUTE`. -/
def optical_depth (L : Libm F) (G : Gsl F) (C : Consts F) (U : Units F) (E : Ext F)
    (cmp : Compute) (Ss : FluidState F) (i j k : Nat) (rad theta nprot npost ntot : F) :
    F × F :=
  match cmp with
  | Compute.DIRECT_1 =>
    let m_start := if theta < L.M_PI_2 then E.NG else j
    let m_end := if theta < L.M_PI_2 then j else E.N2 + E.NG
    let sums := direct1_sums L C U E Ss i k m_start m_end
    let h_th := sums.1 / sums.2 * U.L_unit
    let tau_depth := (2.0 * npost + nprot) * h_th * C.sigma_t
    (tau_depth, h_th)
  | Compute.DIRECT_2 =>
    let m_start := if theta < L.M_PI_2 then E.NG else j
    let m_end := if theta < L.M_PI_2 then j else E.N2 + E.NG
    let tau_depth := direct2_sum L C U E Ss i k m_start m_end
    let h_th := tau_depth / C.sigma_t / ntot
    (tau_depth, h_th)
  | Compute.GAUSSIAN =>
    let j_mid := (E.NG + E.N2 + E.NG) / 2
    let np := Ss.P E.RHO k j_mid i * U.RHO_unit / C.MP
    let n_p := Ss.P E.RPL k j_mid i * U.RHO_unit / C.ME
    let nt := 2.0 * n_p + np
    let t1 := if theta < L.M_PI_2 then -L.M_PI_2 / C.h_r / L.sqrt 2
      else (theta - L.M_PI_2) / C.h_r / L.sqrt 2
    let t2 := if theta < L.M_PI_2 then (theta - L.M_PI_2) / C.h_r / L.sqrt 2
      else L.M_PI_2 / C.h_r / L.sqrt 2
    let dummy := if |t1| > 5.0 ∧ |t2| > 5.0 then series_asym L t2 - series_asym L t1
      else G.sf_erf t2 - G.sf_erf t1
    let tau_depth := |nt * (C.h_r * rad * U.L_unit) * L.sqrt L.M_PI_2 * dummy * C.sigma_t|
    let tau_depth := min tau_depth C.SMALL
    let h_th := tau_depth / C.sigma_t / ntot
    (tau_depth, h_th)

/-- The local variables of `pair_production_1zone` when line 256 is reached. -/
structure CellLocals (F : Type) where
  rad : F
  theta : F
  dt_real : F
  nprot : F
  npost : F
  ntot : F
  thetae : F
  ang_vel : F
  ue : F
  up : F
  thetap : F
  qcoul : F
  tcoul : F
  tomega : F
  tratio : F
  tau_depth : F
  h_th : F
  zfrac : F
  bsq : F
  bfield : F

/-- Lines 85-253 of `pair_production_1zone`: every local computed before the net
rate is evaluated. -/
def cell_locals (L : Libm F) (G : Gsl F) (C : Consts F) (U : Units F) (E : Ext F)
    (cmp : Compute) (Ss : FluidState F) (i j k : Nat) (dt_step : F) : CellLocals F :=
  let rad := E.bl_rad i j k
  let theta := E.bl_theta i j k
  let dt_real := dt_step * U.T_unit
  let nprot := Ss.P E.RHO k j i * U.RHO_unit / C.MP
  let npost := Ss.P E.RPL k j i * U.RHO_unit / C.ME
  let ntot := 2 * npost + nprot
  let thetae := C.KBOL * E.t_elec / (C.ME * C.CL * C.CL)
  let ang_vel := E.ucon Ss 3 k j i / E.ucon Ss 0 k j i
  let ue := (2.0 * npost + nprot) * C.KBOL * E.t_elec / (C.gam - 1.0)
  let up := Ss.P E.UU k j i * U.U_unit
  let thetap := (up * (C.gam - 1.0) / nprot) / (C.MP * C.CL * C.CL)
  let qcoul := coulomb_onezone L G C thetap thetae nprot npost i j k
  let tcoul := min |ue / qcoul| |up / qcoul|
  let tomega := 1.0 / |ang_vel| * U.T_unit
  let tratio := tcoul / tomega
  let od := optical_depth L G C U E cmp Ss i j k rad theta nprot npost ntot
  let zfrac := npost / nprot
  let bsq := E.bsq_calc Ss i j k
  let bfield := L.sqrt bsq * U.B_unit
  { rad := rad, theta := theta, dt_real := dt_real, nprot := nprot, npost := npost,
    ntot := ntot, thetae := thetae, ang_vel := ang_vel, ue := ue, up := up,
    thetap := thetap, qcoul := qcoul, tcoul := tcoul, tomega := tomega, tratio := tratio,
    tau_depth := od.1, h_th := od.2, zfrac := zfrac, bsq := bsq, bfield := bfield }

/-- Function `pair_production_1zone`: the pair production update of cell
`(i, j, k)`, reading `Ss` and writing `Sf`. -/
def pair_production_1zone (L : Libm F) (G : Gsl F) (C : Consts F) (U : Units F) (E : Ext F)
    (cmp : Compute) (Ss Sf : FluidState F) (i j k : Nat) (dt_step : F) : Run F :=
  let v := cell_locals L G C U E cmp Ss i j k dt_step
  pair_update C U (fun z => ndot_net L G C z v.tau_depth v.nprot v.thetae v.h_th v.bfield)
    v.nprot v.npost v.dt_real Sf E.RPL i j k

/-- The endpoints `(zl, zr)` of the implicit bisection after `n` executions of the
loop body, for a residual `gv` that returns at every point: the body replaces
`zl` by the midpoint when `fl*fcen > 0`, else `zr` when `fr*fcen > 0`. -/
def bisect_ends (gv : F → F) (fl fr zl zr : F) : Nat → F × F
  | 0 => (zl, zr)
  | n + 1 =>
    let s := bisect_ends gv fl fr zl zr n
    let zcen := 0.5 * (s.1 + s.2)
    let fcen := gv zcen
    (if fl * fcen > 0.0 then zcen else s.1,
     if fl * fcen > 0.0 then s.2 else if fr * fcen > 0.0 then zcen else s.2)

/-- The midpoint `zcen` computed by the loop body when the counter is `count`. -/
def bisect_mid (gv : F → F) (fl fr zl zr : F) (count : Nat) : F :=
  0.5 * ((bisect_ends gv fl fr zl zr count).1 + (bisect_ends gv fl fr zl zr count).2)

/-- The exit test of the bisection loop when the counter is `count`:
`count > 0` and `fabs(1.0 - zcen_old/zcen) < bisects`. -/
def bisect_test (gv : F → F) (fl fr zl zr bisects : F) (count : Nat) : Prop :=
  0 < count ∧
    |1.0 - bisect_mid gv fl fr zl zr (count - 1) / bisect_mid gv fl fr zl zr count| < bisects

/-- The residual `g(z) = (z - zfrac) - dt_real*r(z)/nprot` of the implicit update
for a net rate `r` that returns at every point. -/
def implicit_gv (r : F → F) (zfrac dt_real nprot z : F) : F :=
  (z - zfrac) - dt_real * r z / nprot

/-- Sample cgs values of the physical constants, with the bisection tolerance
`bisects` and the stiffness threshold `q_alpha` left open. -/
def cgs (bisects q_alpha : F) : Consts F :=
  { CL := 2.99792458e10, RE := 2.8179403e-13, ME := 9.1093826e-28, MP := 1.67262171e-24,
    QE := 4.8032068e-10, KBOL := 1.3806505e-16, hplanck := 6.6260693e-27,
    sigma_t := 6.65245873e-25, alphaf := 7.2973525e-3, eta := 0.5614595,
    lambda_c := 3.8615926e-11, sqrt2 := 1.4142135, GNEWT := 6.6742e-8, MSUN := 1.989e33,
    COULOMB_LOG := 20.0, SMALL := 1.0e-20, ZMIN := 1.0e-10, ME_MP := 5.4461702e-4,
    bisects := bisects, q_alpha := q_alpha, h_r := 0.1, gam := 5.0 / 3.0 }

/-- Sample unit globals: a black hole of ten solar masses and `M_unit = 1e10` g,
rounded to three digits. -/
def units10 : Units F :=
  { Mbh := 1.989e34, L_unit := 1.48e6, T_unit := 4.93e-5, RHO_unit := 3.1e-9,
    U_unit := 2.79e12, B_unit := 5.92e6 }

/-- A fluid state whose primitives all vanish. -/
def zeroState : FluidState F := { P := fun _ _ _ _ => 0 }

/-- The residual of the implicit update of a cell with densities `nprot`, `npost`
and step `dt_real`: `g(z) = (z - npost/nprot) - dt_real*r(z)/nprot`. -/
def cell_g (r : F → F) (nprot npost dt_real : F) (z : F) : F :=
  implicit_gv r (npost / nprot) dt_real nprot z

/-- The trial endpoint `zr` of bracket attempt number `m` (counted from 0):
`zfrac * steps^m`. -/
def trial_zr (r : F → F) (nprot npost : F) (m : Nat) : F :=
  npost / nprot * implicit_steps (r (npost / nprot)) ^ m

/-- Bracket attempt number `m` succeeds: `fr*fl < 0` for `fr = g(zr)` at the trial
endpoint and `fl = g(zfrac)`. -/
def sign_change (r : F → F) (nprot npost dt_real : F) (m : Nat) : Prop :=
  cell_g r nprot npost dt_real (trial_zr r nprot npost m)
    * cell_g r nprot npost dt_real (npost / nprot) < 0

/-- The midpoint of bisection iteration `count` when the bracket was found at
attempt `m`. -/
def cell_mid (r : F → F) (nprot npost dt_real : F) (m count : Nat) : F :=
  bisect_mid (cell_g r nprot npost dt_real) (cell_g r nprot npost dt_real (npost / nprot))
    (cell_g r nprot npost dt_real (trial_zr r nprot npost m)) (npost / nprot)
    (trial_zr r nprot npost m) count

/-- The exit test of bisection iteration `count` when the bracket was found at
attempt `m`: `count > 0` and `|1 - zcen_old/zcen| < bisects`. -/
def cell_test (C : Consts F) (r : F → F) (nprot npost dt_real : F) (m count : Nat) : Prop :=
  bisect_test (cell_g r nprot npost dt_real) (cell_g r nprot npost dt_real (npost / nprot))
    (cell_g r nprot npost dt_real (trial_zr r nprot npost m)) (npost / nprot)
    (trial_zr r nprot npost m) C.bisects count

/-- A sample net rate with an equilibrium at `z = 0.02`: creation exceeds
annihilation below it. -/
def rateLinear (z : ℚ) : ℚ := 1e20 * (0.02 - z)

/-- A sample net rate for which the implicit residual of the cell
`nprot = npost = dt_real = 1` vanishes at `z = 5.5`. -/
def rateTen (z : ℚ) : ℚ := 10 - z

/-- The math library over the reals: each function of `math.h` has its analytic
meaning.  `pow x y` is the real power `x ^ y`, which agrees with C for `x > 0`;
`log` agrees with C for a positive argument.  The seven equations determine `L`. -/
structure Libm.IsReal (L : Libm ℝ) : Prop where
  exp_eq : ∀ x, L.exp x = Real.exp x
  log_eq : ∀ x, L.log x = Real.log x
  log10_eq : ∀ x, L.log10 x = Real.log x / Real.log 10
  pow_eq : ∀ x y, L.pow x y = x ^ y
  sqrt_eq : ∀ x, L.sqrt x = Real.sqrt x
  pi_eq : L.M_PI = Real.pi
  pi2_eq : L.M_PI_2 = Real.pi / 2

/-- The GSL special functions over the reals, by their integral representations:
the error function, the modified Bessel function `K_n(x)` for `x > 0`, the upper
incomplete gamma function `Γ(a, x)` for `x ≥ 0`, and the regularised lower
incomplete gamma function `P(a, x)` for `a > 0`, `x ≥ 0`.  The four equations
determine `G`. -/
structure Gsl.IsReal (G : Gsl ℝ) : Prop where
  erf_eq : ∀ x, G.sf_erf x
    = 2 / Real.sqrt Real.pi * ∫ t in (0 : ℝ)..x, Real.exp (-(t ^ 2))
  bessel_eq : ∀ (n : Nat) (x : ℝ), G.sf_bessel_Kn n x
    = ∫ t in Set.Ioi (0 : ℝ), Real.exp (-x * Real.cosh t) * Real.cosh ((n : ℝ) * t)
  gamma_inc_eq : ∀ a x, G.sf_gamma_inc a x
    = ∫ t in Set.Ioi x, t ^ (a - 1) * Real.exp (-t)
  gamma_inc_P_eq : ∀ a x, G.sf_gamma_inc_P a x
    = (∫ t in (0 : ℝ)..x, t ^ (a - 1) * Real.exp (-t)) / Real.Gamma a

/-- The Newton-Raphson iterates of `find_xs`: `newton_iter n` is the value of
`xold` when the loop counter is `n`, so `newton_iter 0 = 1` and
`newton_iter (n + 1)` is the `xnew` computed in iteration `n`. -/
def newton_iter (L : Libm F) (A_fac : F) : Nat → F
  | 0 => 1.0
  | n + 1 => newton_step L A_fac (newton_iter L A_fac n)

/-- The convergence test of `find_xs` in iteration `n`:
`fabs(1.0 - xnew/xold) < bisects`. -/
def newton_test (L : Libm F) (A_fac bisects : F) (n : Nat) : Prop :=
  |1.0 - newton_iter L A_fac (n + 1) / newton_iter L A_fac n| < bisects

/-! ## Locals of the Gaussian closure -/

/-- The local `t1` of the Gaussian closure (lines 224-230 of
`pair_production_1zone`) for the polar angle `theta` of the cell. -/
def gaussian_t1 (L : Libm F) (C : Consts F) (theta : F) : F :=
  if theta < L.M_PI_2 then -L.M_PI_2 / C.h_r / L.sqrt 2
  else (theta - L.M_PI_2) / C.h_r / L.sqrt 2

/-- The local `t2` of the Gaussian closure (lines 224-230 of
`pair_production_1zone`) for the polar angle `theta` of the cell. -/
def gaussian_t2 (L : Libm F) (C : Consts F) (theta : F) : F :=
  if theta < L.M_PI_2 then (theta - L.M_PI_2) / C.h_r / L.sqrt 2
  else L.M_PI_2 / C.h_r / L.sqrt 2

/-- The local `dummy` of the Gaussian closure (lines 231-235): the asymptotic
series when `fabs(t1) > 5.0 && fabs(t2) > 5.0`, the error function otherwise. -/
def gaussian_dummy (L : Libm F) (G : Gsl F) (C : Consts F) (theta : F) : F :=
  let t1 := gaussian_t1 L C theta
  let t2 := gaussian_t2 L C theta
  if |t1| > 5.0 ∧ |t2| > 5.0 then series_asym L t2 - series_asym L t1
  else G.sf_erf t2 - G.sf_erf t1

/-- The value of the local `tau_depth` of the Gaussian closure after the assignment
`tau_depth = fabs(nt*(h_r*rad*L_unit)*sqrt(M_PI_2)*dummy*sigma_t)`, before the
following `fmin`. -/
def gaussian_tau_fabs (L : Libm F) (G : Gsl F) (C : Consts F) (U : Units F) (E : Ext F)
    (Ss : FluidState F) (i j k : Nat) : F :=
  let j_mid := (E.NG + E.N2 + E.NG) / 2
  let np := Ss.P E.RHO k j_mid i * U.RHO_unit / C.MP
  let n_p := Ss.P E.RPL k j_mid i * U.RHO_unit / C.ME
  let nt := 2.0 * n_p + np
  |nt * (C.h_r * E.bl_rad i j k * U.L_unit) * L.sqrt L.M_PI_2
    * gaussian_dummy L G C (E.bl_theta i j k) * C.sigma_t|

/-! ## The call through pointers -/

/-- The call `pair_production_1zone(G, Ss, Sf, i, j, k, dt_step)` on a memory
`mem` that maps the address of a `struct FluidState` to its primitive array: the
state at `Ss` is read, the result replaces the state at `Sf`.  The result is what
was printed and the memory after the call, `none` when `exit(0)` was reached. -/
def pair_production_1zone_ptr (L : Libm F) (G : Gsl F) (C : Consts F) (U : Units F)
    (E : Ext F) (cmp : Compute) (mem : Nat → FluidState F) (Ss Sf : Nat) (i j k : Nat)
    (dt_step : F) : List Msg × Option (Nat → FluidState F) :=
  let r := pair_production_1zone L G C U E cmp (mem Ss) (mem Sf) i j k dt_step
  (r.printed, r.Sf.map (fun S => fun p => if p = Sf then S else mem p))

/-! ## A sample zone -/

/-- Sample unit globals for which a code density of 1 is `1e15` protons per cm³:
`RHO_unit = 1e15*MP`, with `L_unit = 1e6` cm and `B_unit = 1e3` G. -/
def zone_units : Units F :=
  { Mbh := 1.989e34, L_unit := 1.0e6, T_unit := 1.0e6 / 2.99792458e10,
    RHO_unit := 1.67262171e-9, U_unit := 1.67262171e-9 * 2.99792458e10 * 2.99792458e10,
    B_unit := 1.0e3 }

/-- A sample grid column: three ghost zones, eight interior zones of width
`dx[2] = 0.1` in the polar direction, unit metric factors, unit `bsq`, a fluid at
rest, and the electron temperature for which `thetae = 1`.  The centre of polar
zone `m` is at the angle `pi2 - (0.7 - 0.1*m)`, where `pi2` stands for `π/2`. -/
def zone_ext (pi2 : F) : Ext F :=
  { RHO := 0, UU := 1, RPL := 8, NG := 3, N2 := 8, dx2 := 0.1,
    bl_rad := fun _ _ _ => 1.0,
    bl_theta := fun _ m _ => pi2 - (0.7 - 0.1 * (m : F)),
    gdet := fun _ _ => 1.0,
    gcov22 := fun _ _ => 1.0,
    ucon := fun _ mu _ _ _ => if mu = 0 then 1.0 else 0.0,
    bsq_calc := fun _ _ _ _ => 1.0,
    t_elec := 9.1093826e-28 * 2.99792458e10 * 2.99792458e10 / 1.3806505e-16 }

/-- A uniform fluid state: code density 1 and no positrons, internal energy 0. -/
def zone_state : FluidState F :=
  { P := fun v _ _ _ => if v = 0 then 1.0 else 0.0 }

/-! ## Restart files (`restart.c`) -/

/-- The HDF5 datatypes named in `restart.c`: the string type made by
`hdf5_make_str_type(20)`, `H5T_STD_I32LE` and `H5T_IEEE_F64LE`. -/
inductive H5Type where
  | STR20
  | STD_I32LE
  | IEEE_F64LE
  deriving DecidableEq, Repr

/-- The value of a C variable passed to the HDF5 helpers: a string, an `int` or a
`double`. -/
inductive H5Val (F : Type) where
  | str (s : String)
  | int (n : Int)
  | real (x : F)

/-- An array `hsize_t[4]` of sizes or offsets. -/
structure Dims4 where
  d0 : Nat
  d1 : Nat
  d2 : Nat
  d3 : Nat
  deriving DecidableEq, Repr

/-- A dataset of a restart file: a single value with its HDF5 type, or a
four-dimensional array with its HDF5 type and file dimensions. -/
inductive H5Data (F : Type) where
  | single (type : H5Type) (val : H5Val F)
  | array (type : H5Type) (fdims : Dims4) (data : Nat → Nat → Nat → Nat → F)

/-- A restart file: its datasets under their names, in the order written. -/
structure H5File (F : Type) where
  datasets : List (String × H5Data F)

/-- What `restart_read` prints before terminating the process, or the failure of
an HDF5 helper to find a dataset of the requested name and type. -/
inductive RestartMsg where
  | wrong_size
  | no_dataset (name : String)
  deriving DecidableEq, Repr

/-- Modelled from the spec: the helper `hdf5_create` of `hdf5_utils.c`, which is not
under `src/`.  A new file has no dataset. -/
def hdf5_create : H5File F := { datasets := [] }

/-- The dataset stored under `name`, if any. -/
def H5File.find (f : H5File F) (name : String) : Option (H5Data F) :=
  (f.datasets.find? (fun d => d.1 = name)).map (fun d => d.2)

/-- Modelled from the spec: the helper `hdf5_write_single_val(val, name, type)` of
`hdf5_utils.c`, which is not under `src/`.  The value is stored under `name` with
the HDF5 type `type`. -/
def hdf5_write_single_val (f : H5File F) (val : H5Val F) (name : String) (type : H5Type) :
    H5File F :=
  { datasets := f.datasets ++ [(name, H5Data.single type val)] }

/-- Modelled from the spec: the helper `hdf5_read_single_val(val, name, type)` of
`hdf5_utils.c`, which is not under `src/`.  It yields the value stored under
`name` when the dataset exists and has the HDF5 type `type`; conversions between
types are not modelled. -/
def hdf5_read_single_val (f : H5File F) (name : String) (type : H5Type) :
    Except RestartMsg (H5Val F) :=
  match f.find name with
  | some (H5Data.single ty v) => if ty = type then Except.ok v else Except.error (RestartMsg.no_dataset name)
  | _ => Except.error (RestartMsg.no_dataset name)

/-- The index `x` lies in the block of `count` entries that starts at `start`. -/
def in_block (start count x : Nat) : Prop := start ≤ x ∧ x < start + count

instance (start count x : Nat) : Decidable (in_block start count x) := by
  unfold in_block
  infer_instance

/-- Modelled from the spec: the helper
`hdf5_write_array(data, name, 4, fdims, fstart, fcount, mdims, mstart, type)` of
`hdf5_utils.c`, which is not under `src/`.
The block of `fcount` entries at `mstart` of the memory array `data` is stored at
`fstart` of a file array of dimensions `fdims`; the rest of the file array is 0. -/
def hdf5_write_array (f : H5File F) (data : Nat → Nat → Nat → Nat → F) (name : String)
    (fdims fstart fcount _mdims mstart : Dims4) (type : H5Type) : H5File F :=
  { datasets := f.datasets ++ [(name, H5Data.array type fdims (fun a b c d =>
      if in_block fstart.d0 fcount.d0 a ∧ in_block fstart.d1 fcount.d1 b
          ∧ in_block fstart.d2 fcount.d2 c ∧ in_block fstart.d3 fcount.d3 d then
        data (a - fstart.d0 + mstart.d0) (b - fstart.d1 + mstart.d1)
          (c - fstart.d2 + mstart.d2) (d - fstart.d3 + mstart.d3)
      else 0))] }

/-- Modelled from the spec: the helper
`hdf5_read_array(data, name, 4, fdims, fstart, fcount, mdims, mstart, type)` of
`hdf5_utils.c`, which is not under `src/`.
When the dataset `name` is an array of type `type` and dimensions `fdims`, the
block of `fcount` entries at `fstart` of the file array replaces the block at
`mstart` of the memory array `data`; the rest of `data` is kept. -/
def hdf5_read_array (f : H5File F) (data : Nat → Nat → Nat → Nat → F) (name : String)
    (fdims fstart fcount _mdims mstart : Dims4) (type : H5Type) :
    Except RestartMsg (Nat → Nat → Nat → Nat → F) :=
  match f.find name with
  | some (H5Data.array ty fd fdata) =>
    if ty = type ∧ fd = fdims then
      Except.ok (fun a b c d =>
        if in_block mstart.d0 fcount.d0 a ∧ in_block mstart.d1 fcount.d1 b
            ∧ in_block mstart.d2 fcount.d2 c ∧ in_block mstart.d3 fcount.d3 d then
          fdata (a - mstart.d0 + fstart.d0) (b - mstart.d1 + fstart.d1)
            (c - mstart.d2 + fstart.d2) (d - mstart.d3 + fstart.d3)
        else data a b c d)
    else Except.error (RestartMsg.no_dataset name)
  | _ => Except.error (RestartMsg.no_dataset name)

/-- The build configuration of `restart.c`: the preprocessor switches, the
version string and the grid sizes of `decs.h` and the parameter file, and the
offset `global_start` of this process in the global grid. -/
structure Build where
  ELECTRONS : Bool
  METRIC_MKS : Bool
  POSITRONS : Bool
  OVER_WRITE : Bool
  VERSION : String
  NVAR : Nat
  N1 : Nat
  N2 : Nat
  N3 : Nat
  NG : Nat
  N1TOT : Nat
  N2TOT : Nat
  N3TOT : Nat
  global_start : Nat → Nat

/-- The global variables that `restart.c` writes and reads, with the file-static
counter `restart_id`. -/
structure Globals (F : Type) where
  t : F
  nstep : Int
  tf : F
  gam : F
  game : F
  gamp : F
  fel0 : F
  cour : F
  DTd : F
  DTf : F
  DTl : F
  DTr : Int
  DTp : Int
  restart_id : Int
  dump_cnt : Int
  dt : F
  Rin : F
  Rout : F
  a : F
  hslope : F
  Rhor : F
  x1Min : F
  x1Max : F
  x2Min : F
  x2Max : F
  x3Min : F
  x3Max : F
  mbh : F
  eta_edd : F
  tdump : F
  tlog : F

/-- The static array `fdims` of `restart.c`. -/
def fdims (B : Build) : Dims4 := ⟨B.NVAR, B.N3TOT, B.N2TOT, B.N1TOT⟩

/-- The static array `fcount` of `restart.c`. -/
def fcount (B : Build) : Dims4 := ⟨B.NVAR, B.N3, B.N2, B.N1⟩

/-- The static array `mdims` of `restart.c`. -/
def mdims (B : Build) : Dims4 := ⟨B.NVAR, B.N3 + 2 * B.NG, B.N2 + 2 * B.NG, B.N1 + 2 * B.NG⟩

/-- The static array `mstart` of `restart.c`. -/
def mstart (B : Build) : Dims4 := ⟨0, B.NG, B.NG, B.NG⟩

/-- The local array `fstart` of `restart_write_backend` and `restart_read`. -/
def fstart (B : Build) : Dims4 :=
  ⟨0, B.global_start 2, B.global_start 1, B.global_start 0⟩

/-- One call `hdf5_write_single_val(&x, name, type)`: the value, the name and the
HDF5 type. -/
structure SingleWrite (F : Type) where
  val : H5Val F
  name : String
  type : H5Type

/-- The calls of `hdf5_write_single_val` made by `restart_write_backend`, in the
order of the source, for the globals `g` (after `restart_id++`). -/
def restart_header (B : Build) (g : Globals F) : List (SingleWrite F) :=
  [ ⟨H5Val.str B.VERSION, "version", H5Type.STR20⟩,
    ⟨H5Val.int B.N1TOT, "n1", H5Type.STD_I32LE⟩,
    ⟨H5Val.int B.N2TOT, "n2", H5Type.STD_I32LE⟩,
    ⟨H5Val.int B.N3TOT, "n3", H5Type.STD_I32LE⟩,
    ⟨H5Val.real g.t, "t", H5Type.IEEE_F64LE⟩,
    ⟨H5Val.int g.nstep, "nstep", H5Type.STD_I32LE⟩,
    ⟨H5Val.real g.tf, "tf", H5Type.IEEE_F64LE⟩,
    ⟨H5Val.real g.gam, "gam", H5Type.IEEE_F64LE⟩ ]
  ++ (if B.ELECTRONS then
      [ ⟨H5Val.real g.game, "game", H5Type.IEEE_F64LE⟩,
        ⟨H5Val.real g.gamp, "gamp", H5Type.IEEE_F64LE⟩,
        ⟨H5Val.real g.fel0, "fel0", H5Type.IEEE_F64LE⟩ ]
    else [])
  ++ [ ⟨H5Val.real g.cour, "cour", H5Type.IEEE_F64LE⟩,
    ⟨H5Val.real g.DTd, "DTd", H5Type.IEEE_F64LE⟩,
    ⟨H5Val.real g.DTf, "DTf", H5Type.IEEE_F64LE⟩,
    ⟨H5Val.real g.DTl, "DTl", H5Type.IEEE_F64LE⟩,
    ⟨H5Val.int g.DTr, "DTr", H5Type.STD_I32LE⟩,
    ⟨H5Val.int g.DTp, "DTp", H5Type.STD_I32LE⟩,
    ⟨H5Val.int g.restart_id, "restart_id", H5Type.STD_I32LE⟩,
    ⟨H5Val.int g.dump_cnt, "dump_cnt", H5Type.STD_I32LE⟩,
    ⟨H5Val.real g.dt, "dt", H5Type.IEEE_F64LE⟩ ]
  ++ (if B.METRIC_MKS then
      [ ⟨H5Val.real g.Rin, "Rin", H5Type.IEEE_F64LE⟩,
        ⟨H5Val.real g.Rout, "Rout", H5Type.IEEE_F64LE⟩,
        ⟨H5Val.real g.a, "a", H5Type.IEEE_F64LE⟩,
        ⟨H5Val.real g.hslope, "hslope", H5Type.IEEE_F64LE⟩,
        ⟨H5Val.real g.Rhor, "Rhor", H5Type.IEEE_F64LE⟩ ]
    else
      [ ⟨H5Val.real g.x1Min, "x1Min", H5Type.IEEE_F64LE⟩,
        ⟨H5Val.real g.x1Max, "x1Max", H5Type.IEEE_F64LE⟩,
        ⟨H5Val.real g.x2Min, "x2Min", H5Type.IEEE_F64LE⟩,
        ⟨H5Val.real g.x2Max, "x2Max", H5Type.IEEE_F64LE⟩,
        ⟨H5Val.real g.x3Min, "x3Min", H5Type.IEEE_F64LE⟩,
        ⟨H5Val.real g.x3Max, "x3Max", H5Type.IEEE_F64LE⟩ ])
  ++ [ ⟨H5Val.real g.mbh, "mbh", H5Type.IEEE_F64LE⟩,
    ⟨H5Val.real g.eta_edd, "eta_edd", H5Type.IEEE_F64LE⟩,
    ⟨H5Val.real g.tdump, "tdump", H5Type.IEEE_F64LE⟩,
    ⟨H5Val.real g.tlog, "tlog", H5Type.IEEE_F64LE⟩ ]

/-- Function `restart_write_backend`: the globals after the call (the counter
`restart_id` is incremented first) and the content of the restart file: the
single values of `restart_header`, then the primitive array `p`.  The name of
the file, the timers and the symbolic link made after the file is closed are not
part of the model. -/
def restart_write_backend (B : Build) (g : Globals F) (S : FluidState F) :
    Globals F × H5File F :=
  let g1 : Globals F := { g with restart_id := g.restart_id + 1 }
  let f0 : H5File F := hdf5_create
  let f1 : H5File F := (restart_header B g1).foldl
    (fun f w => hdf5_write_single_val f w.val w.name w.type) f0
  let f2 : H5File F := hdf5_write_array f1 S.P "p" (fdims B) (fstart B) (fcount B) (mdims B)
    (mstart B) H5Type.IEEE_F64LE
  (g1, f2)

/-- Function `restart_write`: `restart_write_backend` for a regular restart file. -/
def restart_write (B : Build) (g : Globals F) (S : FluidState F) : Globals F × H5File F :=
  restart_write_backend B g S

/-- A `double` read by `hdf5_read_single_val(&x, name, H5T_IEEE_F64LE)`. -/
def read_double (f : H5File F) (name : String) : Except RestartMsg F :=
  match hdf5_read_single_val f name H5Type.IEEE_F64LE with
  | Except.ok (H5Val.real x) => Except.ok x
  | _ => Except.error (RestartMsg.no_dataset name)

/-- An `int` read by `hdf5_read_single_val(&n, name, H5T_STD_I32LE)`. -/
def read_int (f : H5File F) (name : String) : Except RestartMsg Int :=
  match hdf5_read_single_val f name H5Type.STD_I32LE with
  | Except.ok (H5Val.int n) => Except.ok n
  | _ => Except.error (RestartMsg.no_dataset name)

/-- The reads of `restart_read` under `#if ELECTRONS`. -/
def read_electrons (B : Build) (f : H5File F) (g : Globals F) : Except RestartMsg (Globals F) :=
  if B.ELECTRONS then do
    let game ← read_double f "game"
    let gamp ← read_double f "gamp"
    let fel0 ← read_double f "fel0"
    pure { g with game := game, gamp := gamp, fel0 := fel0 }
  else pure g

/-- The reads of `restart_read` under `if (METRIC != MKS)`. -/
def read_run_parameters (B : Build) (f : H5File F) (g : Globals F) :
    Except RestartMsg (Globals F) :=
  if ¬ B.METRIC_MKS then do
    let tf ← read_double f "tf"
    let cour ← read_double f "cour"
    let DTd ← read_double f "DTd"
    let DTf ← read_double f "DTf"
    let DTl ← read_double f "DTl"
    let DTr ← read_int f "DTr"
    let DTp ← read_int f "DTp"
    pure { g with tf := tf, cour := cour, DTd := DTd, DTf := DTf, DTl := DTl, DTr := DTr,
                  DTp := DTp }
  else pure g

/-- The reads of `restart_read` under `#if METRIC == MKS ... #else ... #endif`. -/
def read_grid (B : Build) (f : H5File F) (g : Globals F) : Except RestartMsg (Globals F) :=
  if B.METRIC_MKS then do
    let Rin ← read_double f "Rin"
    let Rout ← read_double f "Rout"
    let a ← read_double f "a"
    let hslope ← read_double f "hslope"
    let Rhor ← read_double f "Rhor"
    pure { g with Rin := Rin, Rout := Rout, a := a, hslope := hslope, Rhor := Rhor }
  else do
    let x1Min ← read_double f "x1Min"
    let x1Max ← read_double f "x1Max"
    let x2Min ← read_double f "x2Min"
    let x2Max ← read_double f "x2Max"
    let x3Min ← read_double f "x3Min"
    let x3Max ← read_double f "x3Max"
    pure { g with x1Min := x1Min, x1Max := x1Max, x2Min := x2Min, x2Max := x2Max,
                  x3Min := x3Min, x3Max := x3Max }

/-- The reads of `restart_read` under `#if POSITRONS && !OVER_WRITE`. -/
def read_positrons (B : Build) (f : H5File F) (g : Globals F) : Except RestartMsg (Globals F) :=
  if B.POSITRONS ∧ ¬ B.OVER_WRITE then do
    let mbh ← read_double f "mbh"
    let eta_edd ← read_double f "eta_edd"
    pure { g with mbh := mbh, eta_edd := eta_edd }
  else pure g

/-- Function `restart_read`: the globals and the fluid state after reading the
restart file `f`, or the reason why the process was terminated. -/
def restart_read (B : Build) (f : H5File F) (g : Globals F) (S : FluidState F) :
    Except RestartMsg (Globals F × FluidState F) := do
  let _version ← hdf5_read_single_val f "version" H5Type.STR20
  let n1 ← read_int f "n1"
  let n2 ← read_int f "n2"
  let n3 ← read_int f "n3"
  if n1 ≠ B.N1TOT ∨ n2 ≠ B.N2TOT ∨ n3 ≠ B.N3TOT then
    throw RestartMsg.wrong_size
  let t ← read_double f "t"
  let nstep ← read_int f "nstep"
  let gam ← read_double f "gam"
  let g1 : Globals F := { g with t := t, nstep := nstep, gam := gam }
  let g2 ← read_electrons B f g1
  let g3 ← read_run_parameters B f g2
  let restart_id ← read_int f "restart_id"
  let dump_cnt ← read_int f "dump_cnt"
  let dt ← read_double f "dt"
  let g4 : Globals F := { g3 with restart_id := restart_id, dump_cnt := dump_cnt, dt := dt }
  let g5 ← read_grid B f g4
  let g6 ← read_positrons B f g5
  let P ← hdf5_read_array f S.P "p" (fdims B) (fstart B) (fcount B) (mdims B) (mstart B)
    H5Type.IEEE_F64LE
  pure (g6, { P := P })

/-- The sample cgs constants with the aspect ratio `h_r` of the Gaussian closure
left open. -/
def cgs_h_r (h_r : F) : Consts F :=
  { cgs 2 0.5 with h_r := h_r }

/-- The sample cgs constants with the constant `eta` left open. -/
def cgs_eta (eta : F) : Consts F :=
  { cgs 2 0.5 with eta := eta }

/-! ## Locals and index ranges named by later statements -/

/-- The endpoints `(zl, zr)` of the implicit bisection of a cell after `n`
executions of the loop body, when the bracket was found at attempt `m`. -/
def cell_ends (r : F → F) (nprot npost dt_real : F) (m n : Nat) : F × F :=
  bisect_ends (cell_g r nprot npost dt_real) (cell_g r nprot npost dt_real (npost / nprot))
    (cell_g r nprot npost dt_real (trial_zr r nprot npost m)) (npost / nprot)
    (trial_zr r nprot npost m) n

/-- Sample unit globals like `zone_units` with the larger unit of length
`L_unit = 1e10` cm, for which the column of the sample zone is optically thick. -/
def thick_units : Units F :=
  { Mbh := 1.989e34, L_unit := 1.0e10, T_unit := 1.0e10 / 2.99792458e10,
    RHO_unit := 1.67262171e-9, U_unit := 1.67262171e-9 * 2.99792458e10 * 2.99792458e10,
    B_unit := 1.0e3 }

/-- The local `m_start` of the direct integrations: `NG` in the upper hemisphere
(`theta < M_PI_2`), `j` otherwise. -/
def m_start (L : Libm F) (E : Ext F) (theta : F) (j : Nat) : Nat :=
  if theta < L.M_PI_2 then E.NG else j

/-- The local `m_end` of the direct integrations: `j` in the upper hemisphere
(`theta < M_PI_2`), `N2 + NG` otherwise. -/
def m_end (L : Libm F) (E : Ext F) (theta : F) (j : Nat) : Nat :=
  if theta < L.M_PI_2 then j else E.N2 + E.NG

/-- The values of `m` for which the body of
`for (int m = m_start; m <= m_end; m++)` is executed, in order. -/
def column_indices (L : Libm F) (E : Ext F) (theta : F) (j : Nat) : List Nat :=
  List.range' (m_start L E theta j) (m_end L E theta j + 1 - m_start L E theta j)

/-- One panel of Boole's rule for the integrand `f`, starting at `u0 = dh*o` and
spanning `4*dh`: `(2/45)*dh*(7 f(u0) + 32 f(u1) + 12 f(u2) + 32 f(u3) + 7 f(u4))`. -/
def boole_panel (f : F → F) (dh : F) (o : Nat) : F :=
  (2.0 / 45.0) * dh * (7.0 * f (dh * (o : F)) + 32.0 * f (dh * (o : F) + dh)
    + 12.0 * f (dh * (o : F) + 2.0 * dh) + 32.0 * f (dh * (o : F) + 3.0 * dh)
    + 7.0 * f (dh * (o : F) + 4.0 * dh))

/-- Boole's rule for the integrand `f` on the first `n` panels, which start at
`dh*0, dh*4, ..., dh*(4*(n - 1))`: an approximation of the integral of `f` over
`[0, 4*n*dh]`. -/
def boole_sum (f : F → F) (dh : F) : Nat → F
  | 0 => 0.0
  | n + 1 => boole_sum f dh n + boole_panel f dh (4 * n)

/-- The integrand of the quadrature of `fbrem`:
`u*gsl_sf_gamma_inc_P((u + log_alpha)/logA, stau)`. -/
def fbrem_integrand (G : Gsl F) (log_alpha logA stau : F) (u : F) : F :=
  u * G.sf_gamma_inc_P ((u + log_alpha) / logA) stau

/-- The local `lam_th` of `get_zfrac`: `hplanck/sqrt(2.0*M_PI*ME*kt)` with
`kt = thetae*ME*CL*CL`. -/
def zfrac_lam_th (L : Libm F) (C : Consts F) (thetae : F) : F :=
  let kt := thetae * C.ME * C.CL * C.CL
  C.hplanck / L.sqrt (2.0 * L.M_PI * C.ME * kt)

/-- The local `u` of `get_zfrac`:
`4.0/nprot/nprot/pow(lam_th,6.0)*exp(-2.0/thetae)`. -/
def zfrac_u (L : Libm F) (C : Consts F) (nprot thetae : F) : F :=
  4.0 / nprot / nprot / L.pow (zfrac_lam_th L C thetae) 6.0 * L.exp (-2.0 / thetae)

/-- The effect of a returning run on the output state: `Sf` is left as it was
(`none`), or the one assignment `Sf->P[RPL][k][j][i] = val` is made (`some val`). -/
def write_back (Sf : FluidState F) (RPL i j k : Nat) (w : Option F) : FluidState F :=
  match w with
  | none => Sf
  | some val => Sf.setP RPL k j i val

/-- A variant of the sample grid column whose four-velocity depends on the state:
`ucon[3]` is the primitive number 4 of the cell, so that the angular velocity
`ucon[3]/ucon[0]` differs between states. -/
def spin_ext (pi2 : F) : Ext F :=
  { RHO := 0, UU := 1, RPL := 8, NG := 3, N2 := 8, dx2 := 0.1,
    bl_rad := fun _ _ _ => 1.0,
    bl_theta := fun _ m _ => pi2 - (0.7 - 0.1 * (m : F)),
    gdet := fun _ _ => 1.0,
    gcov22 := fun _ _ => 1.0,
    ucon := fun S mu k j i => if mu = 0 then 1.0 else if mu = 3 then S.P 4 k j i else 0.0,
    bsq_calc := fun _ _ _ _ => 1.0,
    t_elec := 9.1093826e-28 * 2.99792458e10 * 2.99792458e10 / 1.3806505e-16 }

/-- A uniform fluid state with the density of `zone_state` and no positrons, but
with internal energy 2 and the primitive number 4 equal to 0.5. -/
def spin_state : FluidState F :=
  { P := fun v _ _ _ => if v = 0 then 1.0 else if v = 1 then 2.0 else if v = 4 then 0.5 else 0.0 }

/-! ## Loop lemmas for the per-cell update -/

section Update
variable {F : Type} [LinearOrderedField F]

theorem lit_zero : (0.0 : F) = 0 := by norm_num

theorem lit_one : (1.0 : F) = 1 := by norm_num

theorem lit_half : (0.5 : F) = 1 / 2 := by norm_num

theorem implicit_g_ok (r : F → F) (zfrac dt nprot z : F) :
    implicit_g (fun z => Except.ok (r z)) zfrac dt nprot z
      = Except.ok ((z - zfrac) - dt * r z / nprot) := rfl

/-- When the trial endpoint number `m` (counted from 0) is the first that changes
the sign of the residual, the bracket loop stops there with the counter at `o + m`. -/
theorem bracket_loop_found (gv : F → F) (fl steps : F) :
    ∀ (m fuel o : Nat) (zr fr0 : F), m < fuel →
      (∀ m1, m1 < m → ¬ (gv (zr * steps ^ m1) * fl < 0)) →
      gv (zr * steps ^ m) * fl < 0 →
      bracket_loop (fun z => Except.ok (gv z)) fl steps fuel o zr fr0
        = Except.ok (o + m, zr * steps ^ m, gv (zr * steps ^ m)) := by
  intro m
  induction m with
  | zero =>
    intro fuel o zr fr0 hm _ hs
    obtain ⟨f, rfl⟩ : ∃ f, fuel = f + 1 := ⟨fuel - 1, by omega⟩
    have hs0 : gv zr * fl < 0 := by simpa using hs
    simp [bracket_loop, lit_zero, hs0, bind, Except.bind, pure, Except.pure]
  | succ m ih =>
    intro fuel o zr fr0 hm hno hs
    obtain ⟨f, rfl⟩ : ∃ f, fuel = f + 1 := ⟨fuel - 1, by omega⟩
    have h0 : ¬ (gv zr * fl < 0) := by simpa using hno 0 (Nat.succ_pos m)
    have e3 : ∀ q : Nat, zr * steps * steps ^ q = zr * steps ^ (q + 1) := by
      intro q; ring
    have hrec := ih f (o + 1) (zr * steps) (gv zr) (by omega)
      (by
        intro m1 hm1
        have := hno (m1 + 1) (Nat.succ_lt_succ hm1)
        rw [e3]; exact this)
      (by rw [e3]; exact hs)
    have e : bracket_loop (fun z => Except.ok (gv z)) fl steps (f + 1) o zr fr0
        = bracket_loop (fun z => Except.ok (gv z)) fl steps f (o + 1) (zr * steps)
            (gv zr) := by
      simp [bracket_loop, lit_zero, h0, bind, Except.bind]
    rw [e, hrec, e3, Nat.add_assoc, Nat.add_comm 1 m]

end Update

section Bisect
variable {F : Type} [LinearOrderedField F]

theorem bisect_ends_zero (gv : F → F) (fl fr zl zr : F) :
    bisect_ends gv fl fr zl zr 0 = (zl, zr) := rfl

theorem bisect_loop_step (gv : F → F) (fl fr b : F) (fuel count : Nat) (zl zr zprev : F) :
    bisect_loop (fun z => Except.ok (gv z)) fl fr b (fuel + 1) count zl zr zprev
      = if count > 0 ∧ |1.0 - zprev / (0.5 * (zl + zr))| < b then
          Except.ok (count,
            (if fl * gv (0.5 * (zl + zr)) > 0.0 then 0.5 * (zl + zr) else zl),
            (if fl * gv (0.5 * (zl + zr)) > 0.0 then zr
              else if fr * gv (0.5 * (zl + zr)) > 0.0 then 0.5 * (zl + zr) else zr),
            0.5 * (zl + zr))
        else
          bisect_loop (fun z => Except.ok (gv z)) fl fr b fuel (count + 1)
            (if fl * gv (0.5 * (zl + zr)) > 0.0 then 0.5 * (zl + zr) else zl)
            (if fl * gv (0.5 * (zl + zr)) > 0.0 then zr
              else if fr * gv (0.5 * (zl + zr)) > 0.0 then 0.5 * (zl + zr) else zr)
            (0.5 * (zl + zr)) := by
  simp only [bisect_loop, bind, Except.bind, pure, Except.pure]

/-- When the exit test fails at every counter value from `count` to `count + n`,
the bisection loop runs `n + 1` more times and leaves the counter at
`count + n + 1`. -/
theorem bisect_loop_exhaust (gv : F → F) (fl fr b zl zr : F) :
    ∀ (n count : Nat) (zprev : F),
      (0 < count → zprev = bisect_mid gv fl fr zl zr (count - 1)) →
      (∀ c, count ≤ c → c ≤ count + n → ¬ bisect_test gv fl fr zl zr b c) →
      bisect_loop (fun z => Except.ok (gv z)) fl fr b (n + 1) count
          (bisect_ends gv fl fr zl zr count).1 (bisect_ends gv fl fr zl zr count).2 zprev
        = Except.ok (count + n + 1,
            (bisect_ends gv fl fr zl zr (count + n + 1)).1,
            (bisect_ends gv fl fr zl zr (count + n + 1)).2,
            bisect_mid gv fl fr zl zr (count + n)) := by
  intro n
  induction n with
  | zero =>
    intro count zprev hprev hno
    have h0 := hno count (le_refl _) (by omega)
    have hcond : ¬ (count > 0 ∧ |1.0 - zprev / (0.5 * ((bisect_ends gv fl fr zl zr count).1
        + (bisect_ends gv fl fr zl zr count).2))| < b) := by
      rintro ⟨hc, ht⟩
      exact h0 ⟨hc, by rw [← hprev hc]; exact ht⟩
    rw [bisect_loop_step, if_neg hcond]
    simp [bisect_loop, bisect_ends, bisect_mid, pure, Except.pure]
  | succ n ih =>
    intro count zprev hprev hno
    have h0 := hno count (le_refl _) (by omega)
    have hcond : ¬ (count > 0 ∧ |1.0 - zprev / (0.5 * ((bisect_ends gv fl fr zl zr count).1
        + (bisect_ends gv fl fr zl zr count).2))| < b) := by
      rintro ⟨hc, ht⟩
      exact h0 ⟨hc, by rw [← hprev hc]; exact ht⟩
    rw [bisect_loop_step, if_neg hcond]
    have hrec := ih (count + 1) (bisect_mid gv fl fr zl zr count)
      (by intro _; simp)
      (by intro c hc1 hc2; exact hno c (by omega) (by omega))
    have e : count + 1 + n = count + (n + 1) := by omega
    rw [e] at hrec
    rw [← hrec]
    simp [bisect_ends, bisect_mid]

/-- When the exit test first succeeds `d` iterations after the counter value
`count`, the bisection loop stops there, with the counter at `count + d` and the
midpoint of that iteration. -/
theorem bisect_loop_found (gv : F → F) (fl fr b zl zr : F) :
    ∀ (d fuel count : Nat) (zprev : F), d < fuel →
      (0 < count → zprev = bisect_mid gv fl fr zl zr (count - 1)) →
      (∀ c, count ≤ c → c < count + d → ¬ bisect_test gv fl fr zl zr b c) →
      bisect_test gv fl fr zl zr b (count + d) →
      bisect_loop (fun z => Except.ok (gv z)) fl fr b fuel count
          (bisect_ends gv fl fr zl zr count).1 (bisect_ends gv fl fr zl zr count).2 zprev
        = Except.ok (count + d,
            (bisect_ends gv fl fr zl zr (count + d + 1)).1,
            (bisect_ends gv fl fr zl zr (count + d + 1)).2,
            bisect_mid gv fl fr zl zr (count + d)) := by
  intro d
  induction d with
  | zero =>
    intro fuel count zprev hd hprev _ ht
    obtain ⟨f, rfl⟩ : ∃ f, fuel = f + 1 := ⟨fuel - 1, by omega⟩
    have hcond : count > 0 ∧ |1.0 - zprev / (0.5 * ((bisect_ends gv fl fr zl zr count).1
        + (bisect_ends gv fl fr zl zr count).2))| < b := by
      obtain ⟨hc, h⟩ := ht
      exact ⟨hc, by rw [hprev hc]; exact h⟩
    rw [bisect_loop_step, if_pos hcond]
    simp [bisect_ends, bisect_mid]
  | succ d ih =>
    intro fuel count zprev hd hprev hno ht
    obtain ⟨f, rfl⟩ : ∃ f, fuel = f + 1 := ⟨fuel - 1, by omega⟩
    have h0 := hno count (le_refl _) (by omega)
    have hcond : ¬ (count > 0 ∧ |1.0 - zprev / (0.5 * ((bisect_ends gv fl fr zl zr count).1
        + (bisect_ends gv fl fr zl zr count).2))| < b) := by
      rintro ⟨hc, h⟩
      exact h0 ⟨hc, by rw [← hprev hc]; exact h⟩
    rw [bisect_loop_step, if_neg hcond]
    have e : count + 1 + d = count + (d + 1) := by omega
    have hrec := ih f (count + 1) (bisect_mid gv fl fr zl zr count) (by omega)
      (by intro _; simp)
      (by intro c hc1 hc2; exact hno c (by omega) (by omega))
      (by rw [e]; exact ht)
    rw [e] at hrec
    rw [← hrec]
    simp [bisect_ends, bisect_mid]

end Bisect

/-! ## The per-cell update: explicit branch, no update, implicit branch -/

section PairUpdate
variable {F : Type} [LinearOrderedField F]

/-- The function `pair_production_1zone` is `pair_update` applied to the locals of
the cell: the rate routine is `ndot_net` at the cell's optical depth, density,
temperature, scale height and field, `npost` is `Ss->P[RPL][k][j][i]*RHO_unit/ME`
and `dt_real` is `dt_step*T_unit`. -/
theorem pair_production_1zone_unfold (L : Libm F) (G : Gsl F) (C : Consts F) (U : Units F)
    (E : Ext F) (cmp : Compute) (Ss Sf : FluidState F) (i j k : Nat) (dt_step : F) :
    pair_production_1zone L G C U E cmp Ss Sf i j k dt_step
        = pair_update C U
            (fun z => ndot_net L G C z (cell_locals L G C U E cmp Ss i j k dt_step).tau_depth
              (Ss.P E.RHO k j i * U.RHO_unit / C.MP)
              (cell_locals L G C U E cmp Ss i j k dt_step).thetae
              (cell_locals L G C U E cmp Ss i j k dt_step).h_th
              (cell_locals L G C U E cmp Ss i j k dt_step).bfield)
            (Ss.P E.RHO k j i * U.RHO_unit / C.MP) (Ss.P E.RPL k j i * U.RHO_unit / C.ME)
            (dt_step * U.T_unit) Sf E.RPL i j k :=
  rfl

/-- C2.  When the net rate at `zfrac = npost/nprot` is exactly 0, the call prints
nothing and returns with `Sf` unchanged: no entry of `Sf->P` is written. -/
theorem zero_rate_no_update (C : Consts F) (U : Units F) (rate : F → Except Msg F)
    (nprot npost dt_real : F) (Sf : FluidState F) (RPL i j k : Nat)
    (hrate : rate (npost / nprot) = Except.ok 0) :
    pair_update C U rate nprot npost dt_real Sf RPL i j k
      = { printed := [], Sf := some Sf } := by
  simp [pair_update, hrate, lit_zero]

end PairUpdate

section Implicit
variable {F : Type} [LinearOrderedField F]

theorem implicit_g_total (r : F → F) (zfrac dt nprot : F) :
    implicit_g (fun z => Except.ok (r z)) zfrac dt nprot
      = fun z => Except.ok (implicit_gv r zfrac dt nprot z) := rfl

/-- The implicit branch of `pair_update` for a net rate that returns at every
point: bracket expansion, exit test, bisection, and the final write. -/
theorem pair_update_implicit (C : Consts F) (U : Units F) (r : F → F)
    (nprot npost dt_real : F) (Sf : FluidState F) (RPL i j k : Nat)
    (hne : r (npost / nprot) ≠ 0)
    (hstiff : dt_real > C.q_alpha * |npost / r (npost / nprot)|) :
    pair_update C U (fun z => Except.ok (r z)) nprot npost dt_real Sf RPL i j k
      = match bracket_loop (fun z => Except.ok (implicit_gv r (npost / nprot) dt_real nprot z))
            (implicit_gv r (npost / nprot) dt_real nprot (npost / nprot))
            (implicit_steps (r (npost / nprot))) 999 0 (npost / nprot) 0 with
        | Except.error m => { printed := [Msg.net_rate_too_steep i j k, m], Sf := none }
        | Except.ok (o, zr, fr) =>
          if o = 999 ∨ isnan fr = true then
            { printed := [Msg.net_rate_too_steep i j k, Msg.failure_in_implicit_method],
              Sf := none }
          else
            match bisect_loop
                (fun z => Except.ok (implicit_gv r (npost / nprot) dt_real nprot z))
                (implicit_gv r (npost / nprot) dt_real nprot (npost / nprot)) fr C.bisects
                99999 0 (npost / nprot) zr 0 with
            | Except.error m => { printed := [Msg.net_rate_too_steep i j k, m], Sf := none }
            | Except.ok (count, _, _, zcen) =>
              if count = 99999 then
                { printed := [Msg.net_rate_too_steep i j k, Msg.no_solution], Sf := some Sf }
              else
                { printed := [Msg.net_rate_too_steep i j k],
                  Sf := some (Sf.setP RPL k j i (zcen * nprot * (C.ME / U.RHO_unit))) } := by
  have hpos : |r (npost / nprot)| > 0 := abs_pos.mpr hne
  simp only [pair_update, lit_zero, hpos, if_true, hstiff, implicit_g_total]
  rfl

end Implicit

section ImplicitClaims
variable {F : Type} [LinearOrderedField F]

/-- If bracket attempt `m < 999` is the first to change the sign of the residual,
the implicit branch goes on to bisect between `zfrac` and that trial endpoint. -/
theorem pair_update_bracketed (C : Consts F) (U : Units F) (r : F → F)
    (nprot npost dt_real : F) (Sf : FluidState F) (RPL i j k m : Nat)
    (hne : r (npost / nprot) ≠ 0)
    (hstiff : dt_real > C.q_alpha * |npost / r (npost / nprot)|)
    (hm : m < 999)
    (hfirst : ∀ m1, m1 < m → ¬ sign_change r nprot npost dt_real m1)
    (hsign : sign_change r nprot npost dt_real m) :
    pair_update C U (fun z => Except.ok (r z)) nprot npost dt_real Sf RPL i j k
      = match bisect_loop (fun z => Except.ok (cell_g r nprot npost dt_real z))
            (cell_g r nprot npost dt_real (npost / nprot))
            (cell_g r nprot npost dt_real (trial_zr r nprot npost m)) C.bisects
            99999 0 (npost / nprot) (trial_zr r nprot npost m) 0 with
        | Except.error e => { printed := [Msg.net_rate_too_steep i j k, e], Sf := none }
        | Except.ok (count, _, _, zcen) =>
          if count = 99999 then
            { printed := [Msg.net_rate_too_steep i j k, Msg.no_solution], Sf := some Sf }
          else
            { printed := [Msg.net_rate_too_steep i j k],
              Sf := some (Sf.setP RPL k j i (zcen * nprot * (C.ME / U.RHO_unit))) } := by
  rw [pair_update_implicit C U r nprot npost dt_real Sf RPL i j k hne hstiff]
  have h := bracket_loop_found (implicit_gv r (npost / nprot) dt_real nprot)
    (implicit_gv r (npost / nprot) dt_real nprot (npost / nprot))
    (implicit_steps (r (npost / nprot))) m 999 0 (npost / nprot) 0 hm hfirst hsign
  rw [h]
  have hm9 : ¬ (0 + m = 999) := by omega
  simp only [hm9, isnan, false_or, if_false, Bool.false_eq_true]
  rfl

/-- C3.  Non-convergence of the implicit bisection is not fatal and leaves the
field alone: when the implicit branch is taken, a bracket is found at attempt
`m`, and the exit test fails at every one of the 99999 iterations, the call
prints `No solution` and returns (the process is not terminated) with `Sf`
unchanged. -/
theorem bisection_cap_skips_update (C : Consts F) (U : Units F) (r : F → F)
    (nprot npost dt_real : F) (Sf : FluidState F) (RPL i j k m : Nat)
    (hne : r (npost / nprot) ≠ 0)
    (hstiff : dt_real > C.q_alpha * |npost / r (npost / nprot)|)
    (hm : m < 999)
    (hfirst : ∀ m1, m1 < m → ¬ sign_change r nprot npost dt_real m1)
    (hsign : sign_change r nprot npost dt_real m)
    (hnever : ∀ c, c < 99999 → ¬ cell_test C r nprot npost dt_real m c) :
    pair_update C U (fun z => Except.ok (r z)) nprot npost dt_real Sf RPL i j k
      = { printed := [Msg.net_rate_too_steep i j k, Msg.no_solution], Sf := some Sf } := by
  rw [pair_update_bracketed C U r nprot npost dt_real Sf RPL i j k m hne hstiff hm hfirst hsign]
  have h := bisect_loop_exhaust (cell_g r nprot npost dt_real)
    (cell_g r nprot npost dt_real (npost / nprot))
    (cell_g r nprot npost dt_real (trial_zr r nprot npost m)) C.bisects (npost / nprot)
    (trial_zr r nprot npost m) 99998 0 0 (by intro h; exact absurd h (lt_irrefl 0))
    (by intro c _ hc; exact hnever c (by omega))
  rw [bisect_ends_zero] at h
  rw [h]
  have h9 : (0 + 99998 + 1 : Nat) = 99999 := rfl
  simp only [h9, if_true]

end ImplicitClaims

section Witnesses

/-- Witness of C2: at the equilibrium `z = 0.02` of the sample rate nothing is
written. -/
theorem zero_rate_no_update_witness :
    pair_update (cgs (1e-10 : ℚ) 0.5) units10 (fun z => Except.ok (rateLinear z)) 1e15 2e13
        1 zeroState 8 3 4 5
      = { printed := [], Sf := some zeroState } :=
  zero_rate_no_update (cgs (1e-10 : ℚ) 0.5) units10 (fun z => Except.ok (rateLinear z))
    1e15 2e13 1 zeroState 8 3 4 5 (by norm_num [rateLinear])

theorem rateTen_steps : implicit_steps (rateTen (1 / 1)) = 10 := by
  norm_num [implicit_steps, rateTen]

theorem rateTen_first (m1 : Nat) (h : m1 < 1) : ¬ sign_change rateTen 1 1 1 m1 := by
  have h0 : m1 = 0 := by omega
  subst h0
  norm_num [sign_change, cell_g, implicit_gv, trial_zr, rateTen]

theorem rateTen_sign : sign_change rateTen 1 1 1 1 := by
  norm_num [sign_change, cell_g, implicit_gv, trial_zr, rateTen, implicit_steps]

/-- Witness of C3: with the tolerance `bisects = 0` the exit test can never
succeed, so the bisection runs to the cap and the field is left alone. -/
theorem bisection_cap_skips_update_witness :
    pair_update (cgs (0 : ℚ) 0.5) units10 (fun z => Except.ok (rateTen z)) 1 1 1
        zeroState 8 3 4 5
      = { printed := [Msg.net_rate_too_steep 3 4 5, Msg.no_solution], Sf := some zeroState } :=
  bisection_cap_skips_update (cgs (0 : ℚ) 0.5) units10 rateTen 1 1 1 zeroState 8 3 4 5 1
    (by norm_num [rateTen])
    (by norm_num [rateTen, cgs, abs_div])
    (by norm_num) rateTen_first rateTen_sign
    (by
      intro c _ h
      exact absurd h.2 (not_lt.mpr (abs_nonneg _)))

end Witnesses

/-! ## Rate engine over the reals -/

section RealRates

/-- C10.  Sign of the annihilation rate: for `theta > 0` the logarithm
`log(1.12*theta + 1.3)` and the denominator `1 + 2*theta^2/log(1.12*theta + 1.3)`
are strictly positive, so for `z ≥ 0` (and non-negative `sigma_t`, `CL`)
`nadot(z, nprot, theta)
  = (3/8)*sigma_t*CL*nprot^2*z*(z+1)/(1 + 2*theta^2/log(1.12*theta + 1.3))`
is non-negative for every `nprot`, and `nadot(0, nprot, theta) = 0`. -/
theorem nadot_nonneg (L : Libm ℝ) (hL : L.IsReal) (C : Consts ℝ)
    (hs : 0 ≤ C.sigma_t) (hc : 0 ≤ C.CL) (z nprot theta : ℝ)
    (htheta : 0 < theta) (hz : 0 ≤ z) :
    nadot L C z nprot theta
        = (3 / 8) * C.sigma_t * C.CL * (nprot ^ 2 * z * (z + 1))
          / (1 + 2 * theta ^ 2 / Real.log (1.12 * theta + 1.3))
      ∧ 0 < Real.log (1.12 * theta + 1.3)
      ∧ 0 < 1 + 2 * theta ^ 2 / Real.log (1.12 * theta + 1.3)
      ∧ 0 ≤ nadot L C z nprot theta
      ∧ nadot L C 0 nprot theta = 0 := by
  have hlog : 0 < Real.log (1.12 * theta + 1.3) := by
    apply Real.log_pos
    have : 0 < 1.12 * theta := by positivity
    norm_num at this ⊢
    linarith
  have hden : 0 < 1 + 2 * theta ^ 2 / Real.log (1.12 * theta + 1.3) := by positivity
  have heq : nadot L C z nprot theta
      = (3 / 8) * C.sigma_t * C.CL * (nprot ^ 2 * z * (z + 1))
        / (1 + 2 * theta ^ 2 / Real.log (1.12 * theta + 1.3)) := by
    simp only [nadot, hL.log_eq]
    norm_num
    ring_nf
  refine ⟨heq, hlog, hden, ?_, ?_⟩
  · rw [heq]
    apply div_nonneg _ hden.le
    have : 0 ≤ nprot ^ 2 * z * (z + 1) := by positivity
    positivity
  · simp [nadot]

/-- Witness of C10: the rate at `z = 0.01`, `nprot = 1e15`, `theta = 1` for the
real math library and the cgs constants. -/
theorem nadot_nonneg_witness :
    0 ≤ nadot
      { exp := Real.exp, log := Real.log, log10 := fun x => Real.log x / Real.log 10,
        pow := fun x y => x ^ y, sqrt := Real.sqrt, M_PI := Real.pi, M_PI_2 := Real.pi / 2 }
      (cgs 1e-10 0.5) 0.01 1e15 1 :=
  (nadot_nonneg
    { exp := Real.exp, log := Real.log, log10 := fun x => Real.log x / Real.log 10,
      pow := fun x y => x ^ y, sqrt := Real.sqrt, M_PI := Real.pi, M_PI_2 := Real.pi / 2 }
    ⟨fun _ => rfl, fun _ => rfl, fun _ => rfl, fun _ _ => rfl, fun _ => rfl, rfl, rfl⟩
    (cgs 1e-10 0.5) (by norm_num [cgs]) (by norm_num [cgs]) 0.01 1e15 1
    (by norm_num) (by norm_num)).2.2.2.1

end RealRates

/-! ## The bisection of `find_xm` -/

section FindXm
variable {F : Type} [LinearOrderedField F]

/-- One execution of the loop body of `find_xm` never moves an endpoint outward,
and the new midpoint lies between the new endpoints. -/
theorem find_xm_body_inward (L : Libm F) (G : Gsl F) (C : Consts F) (z nprot theta lhs : F)
    (s : XmState F) (h1 : s.xl ≤ s.xc) (h2 : s.xc ≤ s.xr) :
    s.xl ≤ (find_xm_body L G C z nprot theta lhs s).xl
      ∧ (find_xm_body L G C z nprot theta lhs s).xr ≤ s.xr
      ∧ (find_xm_body L G C z nprot theta lhs s).xl
          ≤ (find_xm_body L G C z nprot theta lhs s).xc
      ∧ (find_xm_body L G C z nprot theta lhs s).xc
          ≤ (find_xm_body L G C z nprot theta lhs s).xr
      ∧ (find_xm_body L G C z nprot theta lhs s).xcp
          = L.pow 10.0 (find_xm_body L G C z nprot theta lhs s).xc * theta := by
  have h3 : s.xl ≤ s.xr := le_trans h1 h2
  simp only [find_xm_body, lit_half]
  split_ifs <;> refine ⟨?_, ?_, ?_, ?_, trivial⟩ <;> linarith

/-- The loop of `find_xm` keeps the endpoints inside any interval `[lo, hi]` that
contains them on entry, keeps the midpoint between them, and keeps
`xcp = pow(10, xc)*theta`. -/
theorem find_xm_loop_inv (L : Libm F) (G : Gsl F) (C : Consts F) (z nprot theta lhs lo hi : F) :
    ∀ (fuel : Nat) (s : XmState F), lo ≤ s.xl → s.xl ≤ s.xc → s.xc ≤ s.xr → s.xr ≤ hi →
      s.xcp = L.pow 10.0 s.xc * theta →
      lo ≤ (find_xm_loop L G C z nprot theta lhs fuel s).xc
        ∧ (find_xm_loop L G C z nprot theta lhs fuel s).xc ≤ hi
        ∧ (find_xm_loop L G C z nprot theta lhs fuel s).xcp
            = L.pow 10.0 (find_xm_loop L G C z nprot theta lhs fuel s).xc * theta := by
  intro fuel
  induction fuel with
  | zero =>
    intro s h0 h1 h2 h3 h4
    exact ⟨le_trans h0 h1, le_trans h2 h3, h4⟩
  | succ n ih =>
    intro s h0 h1 h2 h3 h4
    obtain ⟨b1, b2, b3, b4, b5⟩ := find_xm_body_inward L G C z nprot theta lhs s h1 h2
    simp only [find_xm_loop]
    split
    · exact ⟨le_trans (le_trans h0 b1) b3, le_trans b4 (le_trans b2 h3), b5⟩
    · exact ih _ (le_trans h0 b1) b3 b4 (le_trans b2 h3) b5

/-- A value returned by `find_xm` is `pow(10, xc)*theta` for some `xc` between the
initial endpoints `-50` and `log10(700)`. -/
theorem find_xm_ok_form (L : Libm F) (G : Gsl F) (C : Consts F) (z tau nprot theta xm : F)
    (hends : (-50.0 : F) ≤ L.log10 700.0)
    (hret : find_xm L G C z tau nprot theta = Except.ok xm) :
    ∃ xc, (-50.0 : F) ≤ xc ∧ xc ≤ L.log10 700.0 ∧ xm = L.pow 10.0 xc * theta := by
  have hinv := find_xm_loop_inv L G C z nprot theta (find_xm_lhs C z tau nprot theta)
    (-50.0) (L.log10 700.0) 99999
    (find_xm_init L G C z nprot theta (find_xm_lhs C z tau nprot theta))
    (le_refl _)
    (by simp only [find_xm_init, lit_half]; linarith)
    (by simp only [find_xm_init, lit_half]; linarith)
    (le_refl _) rfl
  simp only [find_xm] at hret
  split at hret
  · exact absurd hret (by simp)
  · split at hret
    · exact absurd hret (by simp)
    · refine ⟨_, hinv.1, hinv.2.1, ?_⟩
      have := Except.ok.inj hret
      rw [← this]
      exact hinv.2.2

/-- The bracket test of `find_xm`: the function fails with `poor initial guess xm`
exactly when the residuals at the two initial endpoints have a positive product. -/
theorem find_xm_poor_iff (L : Libm F) (G : Gsl F) (C : Consts F) (z tau nprot theta : F) :
    find_xm L G C z tau nprot theta = Except.error Msg.poor_initial_guess_xm
      ↔ find_xm_f L G C z nprot theta (find_xm_lhs C z tau nprot theta) (-50.0)
          * find_xm_f L G C z nprot theta (find_xm_lhs C z tau nprot theta) (L.log10 700.0)
          > 0 := by
  simp only [find_xm, find_xm_init, lit_zero]
  constructor
  · intro h
    by_contra hn
    rw [if_neg hn] at h
    split at h <;> simp at h
  · intro h
    rw [if_pos h]

end FindXm

section FindXmReal

theorem real_pow_ten_neg50 : (10.0 : ℝ) ^ (-50.0 : ℝ) = 1e-50 := by
  have h : (-50.0 : ℝ) = -((50 : ℕ) : ℝ) := by norm_num
  rw [h, Real.rpow_neg (by norm_num), Real.rpow_natCast]
  norm_num

theorem real_pow_ten_log10 (a : ℝ) (ha : 0 < a) :
    (10.0 : ℝ) ^ (Real.log a / Real.log 10) = a := by
  have h10 : (10.0 : ℝ) = 10 := by norm_num
  have hl : Real.log 10 ≠ 0 := by
    have : 0 < Real.log 10 := Real.log_pos (by norm_num)
    exact this.ne'
  rw [h10, Real.rpow_def_of_pos (by norm_num), mul_div_cancel₀ _ hl, Real.exp_log ha]

theorem real_log10_700_pos : 0 < Real.log 700.0 / Real.log 10 := by
  apply div_pos
  · exact Real.log_pos (by norm_num)
  · exact Real.log_pos (by norm_num)

/-- C7.  Bracket check of `find_xm`, with `f(x) = brem_abs(x, z, nprot, theta) - lhs`:
the function terminates the process at the check, before any bisection step,
exactly when `f(1e-50*theta)*f(700*theta) > 0`; for such inputs it returns no
value, and for inputs with a product `≤ 0` it does not fail at this check. -/
theorem find_xm_bracket_check (L : Libm ℝ) (hL : L.IsReal) (G : Gsl ℝ) (C : Consts ℝ)
    (z tau nprot theta : ℝ) :
    (find_xm L G C z tau nprot theta = Except.error Msg.poor_initial_guess_xm
      ↔ (brem_abs L G C (1e-50 * theta) z nprot theta - find_xm_lhs C z tau nprot theta)
          * (brem_abs L G C (700 * theta) z nprot theta - find_xm_lhs C z tau nprot theta)
          > 0)
    ∧ ((brem_abs L G C (1e-50 * theta) z nprot theta - find_xm_lhs C z tau nprot theta)
          * (brem_abs L G C (700 * theta) z nprot theta - find_xm_lhs C z tau nprot theta)
          > 0 → ∀ xm, find_xm L G C z tau nprot theta ≠ Except.ok xm) := by
  have key := find_xm_poor_iff L G C z tau nprot theta
  have e1 : L.pow 10.0 (-50.0) = 1e-50 := by rw [hL.pow_eq]; exact real_pow_ten_neg50
  have e2 : L.pow 10.0 (L.log10 700.0) = 700 := by
    rw [hL.pow_eq, hL.log10_eq, real_pow_ten_log10 _ (by norm_num)]
    norm_num
  simp only [find_xm_f, e1, e2] at key
  refine ⟨key, ?_⟩
  intro hpos xm hxm
  rw [key.mpr hpos] at hxm
  exact absurd hxm (by simp)

/-- Witness of C7: the equivalence at a cell with `z = 0`, `tau = 2`,
`nprot = 1e15`, `theta = 1`, for the real math library. -/
theorem find_xm_bracket_check_witness :
    find_xm
        { exp := Real.exp, log := Real.log, log10 := fun x => Real.log x / Real.log 10,
          pow := fun x y => x ^ y, sqrt := Real.sqrt, M_PI := Real.pi,
          M_PI_2 := Real.pi / 2 }
        { sf_erf := fun _ => 0, sf_bessel_Kn := fun _ _ => 1, sf_gamma_inc := fun _ _ => 0,
          sf_gamma_inc_P := fun _ _ => 0 }
        (cgs 1e-10 0.5) 0 2 1e15 1 = Except.error Msg.poor_initial_guess_xm
      ↔ (brem_abs
            { exp := Real.exp, log := Real.log, log10 := fun x => Real.log x / Real.log 10,
              pow := fun x y => x ^ y, sqrt := Real.sqrt, M_PI := Real.pi,
              M_PI_2 := Real.pi / 2 }
            { sf_erf := fun _ => 0, sf_bessel_Kn := fun _ _ => 1,
              sf_gamma_inc := fun _ _ => 0, sf_gamma_inc_P := fun _ _ => 0 }
            (cgs 1e-10 0.5) (1e-50 * 1) 0 1e15 1 - find_xm_lhs (cgs 1e-10 0.5) 0 2 1e15 1)
          * (brem_abs
            { exp := Real.exp, log := Real.log, log10 := fun x => Real.log x / Real.log 10,
              pow := fun x y => x ^ y, sqrt := Real.sqrt, M_PI := Real.pi,
              M_PI_2 := Real.pi / 2 }
            { sf_erf := fun _ => 0, sf_bessel_Kn := fun _ _ => 1,
              sf_gamma_inc := fun _ _ => 0, sf_gamma_inc_P := fun _ _ => 0 }
            (cgs 1e-10 0.5) (700 * 1) 0 1e15 1 - find_xm_lhs (cgs 1e-10 0.5) 0 2 1e15 1)
          > 0 :=
  (find_xm_bracket_check
    { exp := Real.exp, log := Real.log, log10 := fun x => Real.log x / Real.log 10,
      pow := fun x y => x ^ y, sqrt := Real.sqrt, M_PI := Real.pi, M_PI_2 := Real.pi / 2 }
    ⟨fun _ => rfl, fun _ => rfl, fun _ => rfl, fun _ _ => rfl, fun _ => rfl, rfl, rfl⟩
    { sf_erf := fun _ => 0, sf_bessel_Kn := fun _ _ => 1, sf_gamma_inc := fun _ _ => 0,
      sf_gamma_inc_P := fun _ _ => 0 }
    (cgs 1e-10 0.5) 0 2 1e15 1).1

end FindXmReal

/-! ## Bounds on the special functions -/

section Special
open MeasureTheory Set

theorem cosh_lower (t : ℝ) (ht : 0 ≤ t) : 1 + t ^ 2 / 4 ≤ Real.cosh t := by
  rw [Real.cosh_eq]
  have h1 := Real.quadratic_le_exp_of_nonneg ht
  have h2 := Real.add_one_le_exp (-t)
  linarith

theorem cosh_upper (y : ℝ) (hy : 0 ≤ y) : Real.cosh y ≤ Real.exp y := by
  rw [Real.cosh_eq]
  have h : Real.exp (-y) ≤ Real.exp y := Real.exp_le_exp.mpr (by linarith)
  linarith

theorem bessel_integrand_le (n : ℕ) (x t : ℝ) (hx : 0 < x) (ht : 0 ≤ t) :
    Real.exp (-x * Real.cosh t) * Real.cosh ((n : ℝ) * t)
      ≤ Real.exp (-x + ((n : ℝ) + 1) ^ 2 / x) * Real.exp (-t) := by
  have hn : (0 : ℝ) ≤ (n : ℝ) * t := mul_nonneg (Nat.cast_nonneg n) ht
  have h1 : Real.cosh ((n : ℝ) * t) ≤ Real.exp ((n : ℝ) * t) := cosh_upper _ hn
  have h2 : Real.exp (-x * Real.cosh t) ≤ Real.exp (-x * (1 + t ^ 2 / 4)) := by
    apply Real.exp_le_exp.mpr
    have := cosh_lower t ht
    nlinarith
  calc Real.exp (-x * Real.cosh t) * Real.cosh ((n : ℝ) * t)
      ≤ Real.exp (-x * (1 + t ^ 2 / 4)) * Real.exp ((n : ℝ) * t) :=
        mul_le_mul h2 h1 (Real.cosh_pos _).le (Real.exp_pos _).le
    _ = Real.exp (-x * (1 + t ^ 2 / 4) + (n : ℝ) * t) := (Real.exp_add _ _).symm
    _ ≤ Real.exp (-x + ((n : ℝ) + 1) ^ 2 / x + -t) := by
        apply Real.exp_le_exp.mpr
        have hsq : 0 ≤ (x * t / 2 - ((n : ℝ) + 1)) ^ 2 / x := by positivity
        have e : (x * t / 2 - ((n : ℝ) + 1)) ^ 2 / x
            = x * t ^ 2 / 4 - ((n : ℝ) + 1) * t + ((n : ℝ) + 1) ^ 2 / x := by
          field_simp
          ring
        rw [e] at hsq
        linarith
    _ = Real.exp (-x + ((n : ℝ) + 1) ^ 2 / x) * Real.exp (-t) := Real.exp_add _ _

/-- The integral that represents `K_n(x)` is positive and at most
`exp(-x + (n+1)^2/x)` for `x > 0`. -/
theorem bessel_integral_bounds (n : ℕ) (x : ℝ) (hx : 0 < x) :
    0 < (∫ t in Ioi (0 : ℝ), Real.exp (-x * Real.cosh t) * Real.cosh ((n : ℝ) * t))
      ∧ (∫ t in Ioi (0 : ℝ), Real.exp (-x * Real.cosh t) * Real.cosh ((n : ℝ) * t))
          ≤ Real.exp (-x + ((n : ℝ) + 1) ^ 2 / x) := by
  have hcont : Continuous
      (fun t : ℝ => Real.exp (-x * Real.cosh t) * Real.cosh ((n : ℝ) * t)) := by
    fun_prop
  have hg : IntegrableOn
      (fun t : ℝ => Real.exp (-x + ((n : ℝ) + 1) ^ 2 / x) * Real.exp (-t)) (Ioi 0) := by
    have h := exp_neg_integrableOn_Ioi 0 (one_pos : (0 : ℝ) < 1)
    simp only [neg_mul, one_mul] at h
    exact h.const_mul _
  have hpos : ∀ t : ℝ, 0 < Real.exp (-x * Real.cosh t) * Real.cosh ((n : ℝ) * t) :=
    fun t => mul_pos (Real.exp_pos _) (Real.cosh_pos _)
  have hf : IntegrableOn
      (fun t : ℝ => Real.exp (-x * Real.cosh t) * Real.cosh ((n : ℝ) * t)) (Ioi 0) := by
    refine Integrable.mono' hg hcont.aestronglyMeasurable ?_
    refine (ae_restrict_iff' measurableSet_Ioi).mpr (Filter.Eventually.of_forall ?_)
    intro t ht
    rw [Real.norm_of_nonneg (hpos t).le]
    exact bessel_integrand_le n x t hx (le_of_lt ht)
  constructor
  · rw [integral_pos_iff_support_of_nonneg (fun t => (hpos t).le) hf]
    have hsupp : Function.support
        (fun t : ℝ => Real.exp (-x * Real.cosh t) * Real.cosh ((n : ℝ) * t)) = univ := by
      ext t
      simp only [Function.mem_support, mem_univ, iff_true]
      exact (hpos t).ne'
    rw [hsupp, Measure.restrict_apply MeasurableSet.univ, univ_inter, Real.volume_Ioi]
    exact ENNReal.zero_lt_top
  · have h := setIntegral_mono_on hf hg measurableSet_Ioi
      (fun t ht => bessel_integrand_le n x t hx (le_of_lt ht))
    rw [integral_mul_left, integral_exp_neg_Ioi_zero, mul_one] at h
    exact h

/-- The integral that represents `Γ(a, x)` is non-negative for `x ≥ 0`. -/
theorem gamma_inc_integral_nonneg (a x : ℝ) (hx : 0 ≤ x) :
    0 ≤ ∫ t in Ioi x, t ^ (a - 1) * Real.exp (-t) := by
  apply setIntegral_nonneg measurableSet_Ioi
  intro t ht
  have ht0 : 0 < t := lt_of_le_of_lt hx ht
  exact mul_nonneg (Real.rpow_nonneg ht0.le _) (Real.exp_pos _).le

/-- The real math library and the real special functions exist. -/
theorem exists_real_libs : ∃ (L : Libm ℝ) (G : Gsl ℝ), L.IsReal ∧ G.IsReal :=
  ⟨{ exp := Real.exp, log := Real.log, log10 := fun x => Real.log x / Real.log 10,
     pow := fun x y => x ^ y, sqrt := Real.sqrt, M_PI := Real.pi, M_PI_2 := Real.pi / 2 },
   { sf_erf := fun x => 2 / Real.sqrt Real.pi * ∫ t in (0 : ℝ)..x, Real.exp (-(t ^ 2)),
     sf_bessel_Kn := fun n x =>
       ∫ t in Set.Ioi (0 : ℝ), Real.exp (-x * Real.cosh t) * Real.cosh ((n : ℝ) * t),
     sf_gamma_inc := fun a x => ∫ t in Set.Ioi x, t ^ (a - 1) * Real.exp (-t),
     sf_gamma_inc_P := fun a x =>
       (∫ t in (0 : ℝ)..x, t ^ (a - 1) * Real.exp (-t)) / Real.Gamma a },
   ⟨fun _ => rfl, fun _ => rfl, fun _ => rfl, fun _ _ => rfl, fun _ => rfl, rfl, rfl⟩,
   ⟨fun _ => rfl, fun _ _ => rfl, fun _ _ => rfl, fun _ _ => rfl⟩⟩

end Special

/-! ## The Newton-Raphson loop of `find_xs` -/

section FindXs
variable {F : Type} [LinearOrderedField F]

theorem find_xs_loop_step (L : Libm F) (A b : F) (fuel n : Nat) (xold x0 : F) :
    find_xs_loop L A b (fuel + 1) n xold x0
      = if |1.0 - newton_step L A xold / xold| < b then (n, newton_step L A xold)
        else find_xs_loop L A b fuel (n + 1) (newton_step L A xold) (newton_step L A xold) :=
  rfl

/-- When the convergence test fails in the iterations `n, ..., n + k`, the loop
of `find_xs` runs `k + 1` more times and leaves the counter at `n + k + 1`. -/
theorem find_xs_loop_exhaust (L : Libm F) (A b : F) :
    ∀ (k n : Nat) (x0 : F),
      (∀ m, n ≤ m → m ≤ n + k → ¬ newton_test L A b m) →
      find_xs_loop L A b (k + 1) n (newton_iter L A n) x0
        = (n + k + 1, newton_iter L A (n + k + 1)) := by
  intro k
  induction k with
  | zero =>
    intro n x0 hno
    have h0 : ¬ (|1.0 - newton_step L A (newton_iter L A n) / newton_iter L A n| < b) :=
      hno n (le_refl _) (by omega)
    rw [find_xs_loop_step, if_neg h0]
    rfl
  | succ k ih =>
    intro n x0 hno
    have h0 : ¬ (|1.0 - newton_step L A (newton_iter L A n) / newton_iter L A n| < b) :=
      hno n (le_refl _) (by omega)
    rw [find_xs_loop_step, if_neg h0]
    have hrec := ih (n + 1) (newton_step L A (newton_iter L A n))
      (by intro m h1 h2; exact hno m (by omega) (by omega))
    have e : n + 1 + k + 1 = n + (k + 1) + 1 := by omega
    rw [e] at hrec
    exact hrec

/-- When the convergence test first succeeds `d` iterations after `n`, the loop
of `find_xs` stops there with the counter at `n + d`. -/
theorem find_xs_loop_found (L : Libm F) (A b : F) :
    ∀ (d fuel n : Nat) (x0 : F), d < fuel →
      (∀ m, n ≤ m → m < n + d → ¬ newton_test L A b m) →
      newton_test L A b (n + d) →
      find_xs_loop L A b fuel n (newton_iter L A n) x0
        = (n + d, newton_iter L A (n + d + 1)) := by
  intro d
  induction d with
  | zero =>
    intro fuel n x0 hd _ ht
    obtain ⟨f, rfl⟩ : ∃ f, fuel = f + 1 := ⟨fuel - 1, by omega⟩
    have h0 : |1.0 - newton_step L A (newton_iter L A n) / newton_iter L A n| < b := ht
    rw [find_xs_loop_step, if_pos h0]
    rfl
  | succ d ih =>
    intro fuel n x0 hd hno ht
    obtain ⟨f, rfl⟩ : ∃ f, fuel = f + 1 := ⟨fuel - 1, by omega⟩
    have h0 : ¬ (|1.0 - newton_step L A (newton_iter L A n) / newton_iter L A n| < b) :=
      hno n (le_refl _) (by omega)
    rw [find_xs_loop_step, if_neg h0]
    have e : n + 1 + d = n + (d + 1) := by omega
    have hrec := ih f (n + 1) (newton_step L A (newton_iter L A n)) (by omega)
      (by intro m h1 h2; exact hno m (by omega) (by omega))
      (by rw [e]; exact ht)
    rw [e] at hrec
    exact hrec

/-- When the convergence test fails in all 1000 iterations
`n = 0, ..., 999`, the loop ends with `n = 1000`, the exit test `n == 999` is
false, and `find_xs` returns `1.5*x*v0*thetae^2` for the iterate `x` number 1000,
which never passed the test. -/
theorem find_xs_unconverged (L : Libm F) (C : Consts F) (thetae nprot zfrac v0 h_scale : F)
    (hno : ∀ n, n ≤ 999 → ¬ newton_test L (find_xs_A_fac L C thetae nprot zfrac v0 h_scale)
      C.bisects n) :
    find_xs L C thetae nprot zfrac v0 h_scale
      = Except.ok (1.5 * newton_iter L (find_xs_A_fac L C thetae nprot zfrac v0 h_scale) 1000
          * v0 * thetae * thetae) := by
  have h := find_xs_loop_exhaust L (find_xs_A_fac L C thetae nprot zfrac v0 h_scale)
    C.bisects 999 0 0 (by intro m _ hm; exact hno m (by omega))
  have e : find_xs_loop L (find_xs_A_fac L C thetae nprot zfrac v0 h_scale) C.bisects 1000 0
      1.0 0 = (1000, newton_iter L (find_xs_A_fac L C thetae nprot zfrac v0 h_scale) 1000) := h
  have e9 : ¬ ((1000 : Nat) = 999) := by omega
  simp only [find_xs, e, e9, if_false]

end FindXs

/-! ## The solvers at their first iteration -/

section FirstIteration

/-- The first Newton-Raphson step of `find_xs` from `x = 1`, for a prefactor
`A ≥ 0`: the new iterate is positive and differs from 1 by less than 2. -/
theorem newton_first (L : Libm ℝ) (hL : L.IsReal) (A : ℝ) (hA : 0 ≤ A) :
    0 < newton_step L A 1.0 ∧ |1.0 - newton_step L A 1.0 / 1.0| < 2 := by
  have h1 : (1.0 : ℝ) = 1 := by norm_num
  have he : 0 < Real.exp (-1.8899 * 1) := Real.exp_pos _
  simp only [newton_step, ix, didx, hL.pow_eq, hL.exp_eq, h1, Real.one_rpow, i0, i1, i2, i3]
  generalize Real.exp (-1.8899 * 1) = e at he ⊢
  norm_num
  have hM : -(1157173338371 / 150000000000 * e) - A < 0 := by nlinarith
  constructor
  · rw [div_lt_one_of_neg hM]
    nlinarith
  · rw [abs_lt]
    constructor
    · rw [lt_div_iff_of_neg hM]
      nlinarith
    · rw [div_lt_iff_of_neg hM]
      nlinarith

theorem find_xm_loop_succ (L : Libm ℝ) (G : Gsl ℝ) (C : Consts ℝ) (z nprot theta lhs : ℝ)
    (fuel : Nat) (s : XmState ℝ) :
    find_xm_loop L G C z nprot theta lhs (fuel + 1) s
      = if |1.0 - (find_xm_body L G C z nprot theta lhs s).xc / s.xc| < C.bisects then
          find_xm_body L G C z nprot theta lhs s
        else find_xm_loop L G C z nprot theta lhs fuel
          { find_xm_body L G C z nprot theta lhs s with
            n := (find_xm_body L G C z nprot theta lhs s).n + 1 } :=
  rfl

/-- With a tolerance `bisects ≥ 2` and a prefactor `A_fac ≥ 0`, `find_xs` stops at
its first iteration (`n = 0`) and returns `1.5*xnew*v0*thetae^2` for the first
Newton iterate. -/
theorem find_xs_first (L : Libm ℝ) (hL : L.IsReal) (C : Consts ℝ)
    (thetae nprot zfrac v0 h_scale : ℝ) (hb : 2 ≤ C.bisects)
    (hA : 0 ≤ find_xs_A_fac L C thetae nprot zfrac v0 h_scale) :
    find_xs L C thetae nprot zfrac v0 h_scale
      = Except.ok (1.5 * newton_step L (find_xs_A_fac L C thetae nprot zfrac v0 h_scale) 1.0
          * v0 * thetae * thetae) := by
  have htest := (newton_first L hL _ hA).2
  have hloop : find_xs_loop L (find_xs_A_fac L C thetae nprot zfrac v0 h_scale) C.bisects
      1000 0 1.0 0
      = (0, newton_step L (find_xs_A_fac L C thetae nprot zfrac v0 h_scale) 1.0) := by
    show find_xs_loop L (find_xs_A_fac L C thetae nprot zfrac v0 h_scale) C.bisects
      (999 + 1) 0 1.0 0 = _
    rw [find_xs_loop_step, if_pos (lt_of_lt_of_le htest hb)]
  have e0 : ¬ ((0 : Nat) = 999) := by omega
  simp only [find_xs, hloop, e0, if_false]

theorem log10_700_bounds : 2 < Real.log 700.0 / Real.log 10 ∧ Real.log 700.0 / Real.log 10 < 3 := by
  have h10 : 0 < Real.log 10 := Real.log_pos (by norm_num)
  have e2 : Real.log 100 = 2 * Real.log 10 := by
    rw [show (100 : ℝ) = 10 ^ 2 by norm_num, Real.log_pow]
    norm_num
  have e3 : Real.log 1000 = 3 * Real.log 10 := by
    rw [show (1000 : ℝ) = 10 ^ 3 by norm_num, Real.log_pow]
    norm_num
  have l1 : Real.log 100 < Real.log 700.0 := Real.log_lt_log (by norm_num) (by norm_num)
  have l2 : Real.log 700.0 < Real.log 1000 := Real.log_lt_log (by norm_num) (by norm_num)
  constructor
  · rw [lt_div_iff₀ h10]; linarith
  · rw [div_lt_iff₀ h10]; linarith

/-- With a tolerance `bisects ≥ 0.6` and a valid bracket, `find_xm` stops at its
first iteration (`n = 0`) and returns `10^xc * theta` for a midpoint `xc < 0`. -/
theorem find_xm_first (L : Libm ℝ) (hL : L.IsReal) (G : Gsl ℝ) (C : Consts ℝ)
    (z tau nprot theta : ℝ) (hb : 0.6 ≤ C.bisects)
    (hbr : ¬ (find_xm_f L G C z nprot theta (find_xm_lhs C z tau nprot theta) (-50.0)
        * find_xm_f L G C z nprot theta (find_xm_lhs C z tau nprot theta) (L.log10 700.0)
        > 0)) :
    ∃ xc : ℝ, -50 ≤ xc ∧ xc < 0 ∧
      find_xm L G C z tau nprot theta = Except.ok ((10 : ℝ) ^ xc * theta) := by
  obtain ⟨hl2, hl3⟩ := log10_700_bounds
  have hlog : L.log10 700.0 = Real.log 700.0 / Real.log 10 := hL.log10_eq _
  set s0 := find_xm_init L G C z nprot theta (find_xm_lhs C z tau nprot theta) with hs0
  set s1 := find_xm_body L G C z nprot theta (find_xm_lhs C z tau nprot theta) s0 with hs1
  have hxl : s0.xl = -50 := by simp only [hs0, find_xm_init]; norm_num
  have hxr : s0.xr = Real.log 700.0 / Real.log 10 := by simp only [hs0, find_xm_init, hlog]
  have hxc : s0.xc = 0.5 * (-50 + Real.log 700.0 / Real.log 10) := by
    simp only [hs0, find_xm_init, hlog]; norm_num
  have hn : s0.n = 0 := rfl
  obtain ⟨b1, b2, b3, b4, b5⟩ := find_xm_body_inward L G C z nprot theta
    (find_xm_lhs C z tau nprot theta) s0 (by rw [hxl, hxc]; linarith) (by rw [hxr, hxc]; linarith)
  have hn1 : s1.n = 0 := by
    simp only [hs1, find_xm_body]
    split_ifs <;> exact hn
  have hcases : s1.xc = 0.5 * (s0.xc + s0.xr) ∨ s1.xc = 0.5 * (s0.xl + s0.xc)
      ∨ s1.xc = 0.5 * (s0.xl + s0.xr) := by
    simp only [hs1, find_xm_body]
    split_ifs
    · left; rfl
    · right; left; rfl
    · right; right; rfl
  have hxc0 : s0.xc < 0 := by rw [hxc]; linarith
  have hneg : s1.xc < 0 := by
    rcases hcases with h | h | h <;> rw [h] <;> linarith
  have hlow : -50 ≤ s1.xc := by
    have := le_trans b1 b3
    rw [hxl] at this
    exact this
  have htest : |1.0 - s1.xc / s0.xc| < C.bisects := by
    refine lt_of_lt_of_le ?_ hb
    have e : (1.0 : ℝ) - s1.xc / s0.xc = (s0.xc - s1.xc) / s0.xc := by
      rw [show (1.0 : ℝ) = 1 by norm_num]
      field_simp [hxc0.ne]
    rw [e, abs_div, abs_of_neg hxc0, div_lt_iff₀ (by linarith)]
    rw [abs_lt]
    rcases hcases with h | h | h <;> rw [h] <;> constructor <;> linarith
  have hloop : find_xm_loop L G C z nprot theta (find_xm_lhs C z tau nprot theta) 99999 s0
      = s1 := by
    show find_xm_loop L G C z nprot theta (find_xm_lhs C z tau nprot theta) (99998 + 1) s0 = _
    rw [find_xm_loop_succ, if_pos htest]
  refine ⟨s1.xc, hlow, hneg, ?_⟩
  have hbr0 : ¬ (s0.fl * s0.fr > 0.0) := by
    simpa only [hs0, find_xm_init, lit_zero] using hbr
  have e0 : ¬ ((0 : Nat) = 99999) := by omega
  simp only [find_xm]
  rw [if_neg hbr0, hloop, hn1, if_neg e0, b5, hL.pow_eq]
  norm_num

end FirstIteration

/-! ## Signs in the synchrotron and transfer chain -/

section ChainSigns

theorem gsl_gamma_inc_nonneg (G : Gsl ℝ) (hG : G.IsReal) (a x : ℝ) (hx : 0 ≤ x) :
    0 ≤ G.sf_gamma_inc a x := by
  rw [hG.gamma_inc_eq]
  exact gamma_inc_integral_nonneg a x hx

/-- The synchrotron photon production rate is non-negative for positive
temperature, scale height, cyclotron frequency and self-absorption frequency. -/
theorem find_ndots_rate_nonneg (L : Libm ℝ) (hL : L.IsReal) (G : Gsl ℝ) (hG : G.IsReal)
    (C : Consts ℝ) (hME : 0 < C.ME) (hh : 0 < C.hplanck)
    (thetae nprot zfrac h_scale v0 nus : ℝ) (ht : 0 < thetae) (hn : 0 ≤ nprot)
    (hz : 0 ≤ zfrac) (hs : 0 < h_scale) (hv : 0 < v0) (hnus : 0 < nus) :
    0 ≤ find_ndots_rate L G C thetae nprot zfrac h_scale v0 nus := by
  have ha1 : 0 < 2.0 / 3.0 / v0 / thetae / thetae := by positivity
  simp only [find_ndots_rate, hL.pow_eq, hL.sqrt_eq, hL.exp_eq, hL.pi_eq]
  generalize 2.0 / 3.0 / v0 / thetae / thetae = a1 at ha1 ⊢
  have ha4 : 0 < 1.8899 * a1 ^ ((1.0 : ℝ) / 3.0) := by positivity
  generalize 1.8899 * a1 ^ ((1.0 : ℝ) / 3.0) = a4 at ha4 ⊢
  have hX : 0 ≤ a4 * nus ^ ((1.0 : ℝ) / 3.0) := by positivity
  have g1 := gsl_gamma_inc_nonneg G hG 5.5 _ hX
  have g2 := gsl_gamma_inc_nonneg G hG 4.75 _ hX
  have hpi := Real.pi_pos
  positivity

theorem log_ratio_pos (theta xm : ℝ) (hx : 0 < xm) (hlt : xm < theta) :
    0 < Real.log (theta / xm) :=
  Real.log_pos (by rw [one_lt_div hx]; exact hlt)

theorem sqrt_ratio_ge_one (theta xm : ℝ) (hx : 0 < xm) (hlt : xm < theta) :
    1 ≤ Real.sqrt (theta / xm) := by
  rw [Real.one_le_sqrt, one_le_div hx]
  exact hlt.le

/-- The bremsstrahlung photon production rate is non-negative below the
temperature, `0 < xm < theta`. -/
theorem get_ndotbr_nonneg (L : Libm ℝ) (hL : L.IsReal) (G : Gsl ℝ) (C : Consts ℝ)
    (ha : 0 ≤ C.alphaf) (hc : 0 ≤ C.CL) (he : 1 / 4 ≤ C.eta) (h2 : 0 ≤ C.sqrt2)
    (z theta xm nprot : ℝ) (hcorr : 0 < bessel_corr L G (1.0 / theta))
    (hz : 0 ≤ z) (hx : 0 < xm) (hlt : xm < theta) :
    0 ≤ get_ndotbr L G C z theta xm nprot := by
  have ht : 0 < theta := lt_trans hx hlt
  have hlog := log_ratio_pos theta xm hx hlt
  have hsq := sqrt_ratio_ge_one theta xm hx hlt
  have l1 : 0 ≤ Real.log (4.0 * C.eta * (1.0 + 3.42 * theta) * Real.sqrt (theta / xm)) := by
    apply Real.log_nonneg
    have : 1 ≤ 4.0 * C.eta * (1.0 + 3.42 * theta) := by
      norm_num
      nlinarith
    nlinarith
  have l2 : 0 ≤ Real.log
      (4.0 * C.eta * (11.2 + 10.4 * theta * theta) * Real.sqrt (theta / xm)) := by
    apply Real.log_nonneg
    have : 1 ≤ 4.0 * C.eta * (11.2 + 10.4 * theta * theta) := by
      norm_num
      nlinarith [mul_pos ht ht]
    nlinarith
  have l3 : 0 ≤ Real.log
      (4.0 * C.eta * (1.0 + 10.4 * theta * theta) * Real.sqrt (theta / xm)) := by
    apply Real.log_nonneg
    have : 1 ≤ 4.0 * C.eta * (1.0 + 10.4 * theta * theta) := by
      norm_num
      nlinarith [mul_pos ht ht]
    nlinarith
  have n2 := mul_self_nonneg nprot
  have r2 := mul_self_nonneg C.RE
  have z2 := mul_self_nonneg z
  simp only [get_ndotbr, rate_ep, rate_ee, rate_pm, hL.log_eq, hL.sqrt_eq]
  positivity

/-- The Compton parameter `y1` is positive for `tau ≠ 0` and `0 < x < theta`. -/
theorem comptony1_pos (L : Libm ℝ) (hL : L.IsReal) (x tau theta : ℝ)
    (htau : tau ≠ 0) (hx : 0 < x) (hlt : x < theta) :
    0 < comptony1 L x tau theta := by
  have ht : 0 < theta := lt_trans hx hlt
  have hlog := log_ratio_pos theta x hx hlt
  have hA : 0 < Real.log (1.0 + 4.0 * theta + 16.0 * theta * theta) := by
    apply Real.log_pos
    norm_num
    nlinarith [mul_pos ht ht]
  have t2 : 0 < tau * tau := mul_self_pos.mpr htau
  simp only [comptony1, hL.log_eq]
  positivity

/-- In the optically thick branch, `taut > 1`, the up-scattered fraction `fbrem` is
non-negative for `y > 0`. -/
theorem fbrem_thick_nonneg (L : Libm ℝ) (hL : L.IsReal) (G : Gsl ℝ)
    (y taut theta xm : ℝ) (hy : 0 < y) (htau : taut > 1.0) :
    0 ≤ fbrem L G y taut theta xm := by
  simp only [fbrem, if_pos htau, hL.exp_eq]
  apply mul_nonneg _ (Real.exp_pos _).le
  split_ifs with h
  · have h1 : 1 + 1 / y ≤ Real.exp (1 / y) := by
      have := Real.add_one_le_exp (1 / y)
      linarith
    have h2 : Real.exp (-1.0 / y) * Real.exp (1 / y) = 1 := by
      rw [← Real.exp_add]
      have : -1.0 / y + 1 / y = 0 := by ring
      rw [this, Real.exp_zero]
    have h3 : 0 < Real.exp (-1.0 / y) := Real.exp_pos _
    have h4 : (1.0 + y) * Real.exp (-1.0 / y) ≤ y := by
      have h5 : y * (1 + 1 / y) = 1 + y := by field_simp; ring
      have h6 : (1 + y) * Real.exp (-1.0 / y) ≤ y * (Real.exp (1 / y) * Real.exp (-1.0 / y)) := by
        rw [← h5]
        nlinarith [mul_le_mul_of_nonneg_right h1 h3.le]
      rw [mul_comm (Real.exp (1 / y)), h2, mul_one] at h6
      norm_num
      linarith
    have : y * (1.0 + y) * Real.exp (-1.0 / y) ≤ y * y := by
      rw [mul_assoc]
      exact mul_le_mul_of_nonneg_left h4 hy.le
    linarith
  · push_neg at h
    have hy3 : (1000 : ℝ) < y := by norm_num at h; exact h
    have : 2.0 / 3.0 / y ≤ 1 := by
      rw [div_le_one hy]
      norm_num
      linarith
    norm_num at this ⊢
    linarith

/-- The flat photon density is non-negative for `y > 0` and `0 < x < theta`. -/
theorem flatn1_nonneg (L : Libm ℝ) (hL : L.IsReal) (C : Consts ℝ)
    (ha : 0 ≤ C.alphaf) (hr : 0 ≤ C.RE) (x theta y : ℝ)
    (hy : 0 < y) (hx : 0 < x) (hlt : x < theta) :
    0 ≤ flatn1 L C x theta y := by
  have ht : 0 < theta := lt_trans hx hlt
  have hlog := log_ratio_pos theta x hx hlt
  have hpi := Real.pi_pos
  simp only [flatn1, hL.log_eq, hL.pi_eq]
  positivity

/-- The Wien photon density is non-negative when both photon sources are, for
`theta ≥ 1` and `2*eta ≥ 1`. -/
theorem ngamma_nonneg_hot (L : Libm ℝ) (hL : L.IsReal) (C : Consts ℝ)
    (hc : 0 ≤ C.CL) (he : 1 / 2 ≤ C.eta)
    (tau theta fb ndotbr fs ndots r_size : ℝ) (ht : 1 ≤ theta) (htau : 0 ≤ tau)
    (hr : 0 ≤ r_size) (hb : 0 ≤ fb * ndotbr) (hs : 0 ≤ fs * ndots) :
    0 ≤ ngamma L C tau theta fb ndotbr fs ndots r_size := by
  have hnot : ¬ (theta < 1.0) := by norm_num; exact ht
  have hlog : 0 ≤ Real.log (2.0 * C.eta * theta) := by
    apply Real.log_nonneg
    norm_num
    nlinarith
  have ht0 : 0 < theta := by linarith
  simp only [ngamma, if_neg hnot, hL.log_eq]
  positivity

/-- In the optically thick branch, `taut > 1`, the fraction scattered to the Wien
peak is positive. -/
theorem fraction_thick_pos (L : Libm ℝ) (hL : L.IsReal) (G : Gsl ℝ)
    (x taut thetae : ℝ) (htau : taut > 1.0) :
    0 < fraction L G x taut thetae := by
  simp only [fraction, if_pos htau, hL.exp_eq]
  exact Real.exp_pos _

/-- For `0.18 < theta ≤ 1` every pair creation channel is non-negative when the
photon densities are, and the e-e channel is positive: the total creation rate
is positive. -/
theorem ncdot_pos_warm (L : Libm ℝ) (hL : L.IsReal) (C : Consts ℝ)
    (ha : 0 < C.alphaf) (hc : 0 < C.CL) (hr : 0 < C.RE)
    (ng theta nprot z n1 : ℝ) (h1 : 0.18 < theta) (h2 : theta ≤ 1)
    (hn : 0 < nprot) (hz : 0 ≤ z) (hng : 0 ≤ ng) (hn1 : 0 ≤ n1) :
    0 < get_ndotee L C nprot z theta
      ∧ 0 ≤ get_ndotww L C ng theta ∧ 0 ≤ get_ndotwp L C ng nprot theta
      ∧ 0 ≤ get_ndotwe L C ng nprot z theta ∧ 0 ≤ get_ndotwf L C n1 ng theta
      ∧ 0 < ncdot L C ng theta nprot z n1 := by
  have ht : 0 < theta := by norm_num at h1; linarith
  have hpi := Real.pi_pos
  have c1 : theta ≤ 1.0e2 := by norm_num; linarith
  have c2 : theta ≤ 1.0 := by norm_num; linarith
  have c3 : theta ≤ 2.0 := by norm_num; linarith
  have c4 : ¬ (theta ≤ 0.18) := not_le.mpr h1
  have c5 : ¬ (theta ≥ 2) := by push_neg; linarith
  have hee : 0 < get_ndotee L C nprot z theta := by
    simp only [get_ndotee, if_pos c1, hL.pow_eq, hL.exp_eq]
    positivity
  have hww : 0 ≤ get_ndotww L C ng theta := by
    simp only [get_ndotww, if_pos c2, hL.pow_eq, hL.exp_eq, hL.pi_eq]
    positivity
  have hwp : 0 ≤ get_ndotwp L C ng nprot theta := by
    simp only [get_ndotwp, if_pos c3, hL.exp_eq, hL.pi_eq]
    positivity
  have hwe : 0 ≤ get_ndotwe L C ng nprot z theta := by
    simp only [get_ndotwe, if_neg c4, if_neg c5, hL.pow_eq, hL.exp_eq, hL.pi_eq]
    positivity
  have hwf : 0 ≤ get_ndotwf L C n1 ng theta := by
    simp only [get_ndotwf, hL.exp_eq, hL.pi_eq]
    positivity
  refine ⟨hee, hww, hwp, hwe, hwf, ?_⟩
  simp only [ncdot]
  linarith

end ChainSigns

/-! ## A sample cell over the reals

The cell has `z = 0`, `tau = 2`, `nprot = 1e15`, `theta = 1`, scale height `1e6` and
field `1e3`; the constants are `cgs 2 0.5`, that is the tolerance is `bisects = 2`,
for which both solvers stop at their first iteration. -/

section SampleCell

theorem sample_lhs : find_xm_lhs (cgs (2 : ℝ) 0.5) 0 2 1e15 1 = 665245873 / 1200000000000000000 := by
  simp only [find_xm_lhs, cgs]
  norm_num

theorem sample_corr (L : Libm ℝ) (hL : L.IsReal) (G : Gsl ℝ) (hG : G.IsReal) :
    0 < bessel_corr L G (1.0 / 1) ∧ bessel_corr L G (1.0 / 1) ≤ 19683 := by
  have hb := bessel_integral_bounds 2 1 one_pos
  have e1 : (1.0 : ℝ) / 1 = 1 := by norm_num
  have hlt : (1 : ℝ) < 500.0 := by norm_num
  simp only [bessel_corr, e1, if_pos hlt, hL.exp_eq, hG.bessel_eq]
  have he3 : Real.exp 1 ≤ 3 := by
    have := Real.exp_one_lt_d9
    linarith
  have he9 : Real.exp 1 * Real.exp (-1 + ((2 : ℕ) + 1 : ℝ) ^ 2 / 1) ≤ 19683 := by
    rw [← Real.exp_add]
    have : (1 : ℝ) + (-1 + ((2 : ℕ) + 1 : ℝ) ^ 2 / 1) = ((9 : ℕ) : ℝ) * 1 := by norm_num
    rw [this, Real.exp_nat_mul]
    calc Real.exp 1 ^ 9 ≤ 3 ^ 9 := pow_le_pow_left₀ (Real.exp_pos 1).le he3 9
      _ = 19683 := by norm_num
  constructor
  · exact mul_pos (Real.exp_pos 1) hb.1
  · calc Real.exp 1 * _ ≤ Real.exp 1 * Real.exp (-1 + ((2 : ℕ) + 1 : ℝ) ^ 2 / 1) :=
        mul_le_mul_of_nonneg_left hb.2 (Real.exp_pos 1).le
      _ ≤ 19683 := he9

theorem sample_fr_neg (L : Libm ℝ) (hL : L.IsReal) (G : Gsl ℝ) (hG : G.IsReal) :
    brem_abs L G (cgs 2 0.5) (700 * 1) 0 1e15 1 < 0 := by
  obtain ⟨hc0, _⟩ := sample_corr L hL G hG
  have hpi : 0 < Real.pi := Real.pi_pos
  have hexp : 0 < Real.exp (700 * 1 / 1) - 1.0 := by
    have h : (1 : ℝ) < Real.exp (700 * 1 / 1) := by
      rw [Real.one_lt_exp_iff]; norm_num
    have e : (1.0 : ℝ) = 1 := by norm_num
    rw [e]
    linarith
  have hbb : 0 < nbb L (cgs 2 0.5) (700 * 1) 1 := by
    have hnot : ¬ ((700 : ℝ) * 1 / 1 < 1.0e-5) := by norm_num
    simp only [nbb, if_neg hnot, hL.pi_eq, hL.exp_eq, cgs]
    positivity
  have hn0 : 0 < n0dot L G (cgs 2 0.5) (700 * 1) 1e15 1 := by
    simp only [n0dot, hL.exp_eq, cgs]
    have := Real.exp_pos (-(700 * 1) * (1.0 / 1))
    positivity
  have hep : ndotep L (cgs 2 0.5) (700 * 1) 0 1e15 1 < 0 := by
    simp only [ndotep, hL.log_eq, cgs]
    have hl : Real.log (4.0 * 0.5614595 * (1.0 + 3.42 * 1) * (1 / (700 * 1))) < 0 :=
      Real.log_neg (by norm_num) (by norm_num)
    nlinarith
  have hee : ndotee L (cgs 2 0.5) (700 * 1) 0 1e15 1 < 0 := by
    simp only [ndotee, hL.log_eq, cgs]
    have hl : Real.log (4.0 * 0.5614595 * (11.2 + 10.4 * 1 * 1) * (1 / (700 * 1))) < 0 :=
      Real.log_neg (by norm_num) (by norm_num)
    nlinarith
  have hpm : ndotpm L (cgs 2 0.5) (700 * 1) 0 1e15 1 = 0 := by
    simp [ndotpm]
  have hcl : (0 : ℝ) < (cgs (2 : ℝ) 0.5).CL := by norm_num [cgs]
  simp only [brem_abs]
  rw [hpm, add_zero]
  apply div_neg_of_neg_of_pos
  · exact mul_neg_of_pos_of_neg hn0 (by linarith)
  · exact mul_pos hcl hbb

theorem sample_fl_pos (L : Libm ℝ) (hL : L.IsReal) (G : Gsl ℝ) (hG : G.IsReal) :
    1 ≤ brem_abs L G (cgs 2 0.5) (1e-50 * 1) 0 1e15 1 := by
  obtain ⟨hc0, hc1⟩ := sample_corr L hL G hG
  have hpi : 3 ≤ Real.pi := Real.pi_gt_three.le
  have ha : 1 / 2 ≤ Real.exp (-(1e-50 * 1) * (1.0 / 1)) := by
    have := Real.add_one_le_exp (-(1e-50 * 1) * (1.0 / 1) : ℝ)
    norm_num at this ⊢
    linarith
  have hlog1 : 1 ≤ Real.log (4.0 * 0.5614595 * (1.0 + 3.42 * 1) * (1 / (1e-50 * 1))) := by
    have h3 : Real.exp 1 ≤ 4.0 * 0.5614595 * (1.0 + 3.42 * 1) * (1 / (1e-50 * 1)) := by
      have := Real.exp_one_lt_d9
      norm_num at this ⊢
      linarith
    calc (1 : ℝ) = Real.log (Real.exp 1) := (Real.log_exp 1).symm
      _ ≤ _ := Real.log_le_log (Real.exp_pos 1) h3
  have hlog2 : 0 ≤ Real.log (4.0 * 0.5614595 * (11.2 + 10.4 * 1 * 1) * (1 / (1e-50 * 1))) :=
    Real.log_nonneg (by norm_num)
  have hlt : (1e-50 : ℝ) * 1 / 1 < 1.0e-5 := by norm_num
  simp only [brem_abs, nbb, n0dot, ndotep, ndotee, ndotpm, if_pos hlt, hL.pi_eq, hL.exp_eq,
    hL.log_eq, cgs]
  generalize bessel_corr L G (1.0 / 1) = K at hc0 hc1 ⊢
  generalize Real.exp (-(1e-50 * 1) * (1.0 / 1)) = a at ha ⊢
  generalize Real.log (4.0 * 0.5614595 * (1.0 + 3.42 * 1) * (1 / (1e-50 * 1))) = l1 at hlog1 ⊢
  generalize Real.log (4.0 * 0.5614595 * (11.2 + 10.4 * 1 * 1) * (1 / (1e-50 * 1))) = l2
    at hlog2 ⊢
  generalize Real.pi = p at hpi ⊢
  norm_num
  have h1 : (347439827007985803500924761001 / 3750000000000000 / 19683 : ℝ)
      ≤ 347439827007985803500924761001 / 3750000000000000 / K :=
    div_le_div_of_nonneg_left (by norm_num) hc0 hc1
  have h2 : (5e49 : ℝ) ≤ a / (1 / 100000000000000000000000000000000000000000000000000) := by
    rw [le_div_iff₀ (by norm_num)]
    norm_num
    linarith
  have h3 : (5 : ℝ) ≤ l1 * 5 + l2 * (28485281 / 10000000) := by nlinarith
  have hp : (9 : ℝ) ≤ p * p := by nlinarith
  have hp0 : (0 : ℝ) < p * p := by linarith
  have h4 : (29979245800 : ℝ) * (1250 / 7197959085517393905347 / (p * p)) ≤ 1 := by
    have : (1250 / 7197959085517393905347 / (p * p) : ℝ)
        ≤ 1250 / 7197959085517393905347 / 9 :=
      div_le_div_of_nonneg_left (by norm_num) (by norm_num) hp
    linarith
  have h4pos : (0 : ℝ) < 29979245800 * (1250 / 7197959085517393905347 / (p * p)) := by
    positivity
  have hK : (0 : ℝ) ≤ 347439827007985803500924761001 / 3750000000000000 / K := by positivity
  have ha0 : (0 : ℝ) ≤ a / (1 / 100000000000000000000000000000000000000000000000000) := by
    have : 0 ≤ a := by linarith
    positivity
  rw [le_div_iff₀ h4pos]
  calc 1 * ((29979245800 : ℝ) * (1250 / 7197959085517393905347 / (p * p))) ≤ 1 := by linarith
    _ ≤ 347439827007985803500924761001 / 3750000000000000 / 19683 * 5e49 * 5 := by norm_num
    _ ≤ 347439827007985803500924761001 / 3750000000000000 / K
          * (a / (1 / 100000000000000000000000000000000000000000000000000))
          * (l1 * 5 + l2 * (28485281 / 10000000)) :=
        mul_le_mul (mul_le_mul h1 h2 (by norm_num) hK) h3 (by norm_num) (mul_nonneg hK ha0)

/-- The bracket of `find_xm` is valid at the sample cell: the residual is positive
at `1e-50*theta` and negative at `700*theta`. -/
theorem sample_bracket (L : Libm ℝ) (hL : L.IsReal) (G : Gsl ℝ) (hG : G.IsReal) :
    ¬ (find_xm_f L G (cgs 2 0.5) 0 1e15 1 (find_xm_lhs (cgs 2 0.5) 0 2 1e15 1) (-50.0)
        * find_xm_f L G (cgs 2 0.5) 0 1e15 1 (find_xm_lhs (cgs 2 0.5) 0 2 1e15 1)
            (L.log10 700.0) > 0) := by
  have e1 : L.pow 10.0 (-50.0) = 1e-50 := by rw [hL.pow_eq]; exact real_pow_ten_neg50
  have e2 : L.pow 10.0 (L.log10 700.0) = 700 := by
    rw [hL.pow_eq, hL.log10_eq, real_pow_ten_log10 _ (by norm_num)]
    norm_num
  have hl := sample_fl_pos L hL G hG
  have hr := sample_fr_neg L hL G hG
  simp only [find_xm_f, e1, e2, sample_lhs]
  have h1 : 0 < brem_abs L G (cgs 2 0.5) (1e-50 * 1) 0 1e15 1
      - 665245873 / 1200000000000000000 := by
    have : (665245873 / 1200000000000000000 : ℝ) < 1 := by norm_num
    linarith
  have h2 : brem_abs L G (cgs 2 0.5) (700 * 1) 0 1e15 1 - 665245873 / 1200000000000000000 < 0 := by
    have : (0 : ℝ) < 665245873 / 1200000000000000000 := by norm_num
    linarith
  exact not_lt.mpr (le_of_lt (mul_neg_of_pos_of_neg h1 h2))

/-- At the sample cell both solvers return and the net pair production rate is
strictly positive. -/
theorem sample_ndot_net (L : Libm ℝ) (hL : L.IsReal) (G : Gsl ℝ) (hG : G.IsReal) :
    ∃ r, ndot_net L G (cgs 2 0.5) 0 2 1e15 1 1e6 1e3 = Except.ok r ∧ 0 < r := by
  obtain ⟨xc, _, hneg, hxm⟩ := find_xm_first L hL G (cgs 2 0.5) 0 2 1e15 1
    (by norm_num [cgs]) (sample_bracket L hL G hG)
  have hx0 : (0 : ℝ) < 10 ^ xc * 1 := by positivity
  have hx1 : (10 : ℝ) ^ xc * 1 < 1 := by
    rw [mul_one]
    exact Real.rpow_lt_one_of_one_lt_of_neg (by norm_num) hneg
  have hpi := Real.pi_pos
  have hv0 : 0 < (cgs (2 : ℝ) 0.5).QE * 1e3 / 2.0 / L.M_PI / (cgs (2 : ℝ) 0.5).ME
      / (cgs (2 : ℝ) 0.5).CL := by
    rw [hL.pi_eq]
    simp only [cgs]
    positivity
  have hA : 0 ≤ find_xs_A_fac L (cgs 2 0.5) 1 1e15 0
      ((cgs (2 : ℝ) 0.5).QE * 1e3 / 2.0 / L.M_PI / (cgs (2 : ℝ) 0.5).ME
        / (cgs (2 : ℝ) 0.5).CL) 1e6 := by
    generalize (cgs (2 : ℝ) 0.5).QE * 1e3 / 2.0 / L.M_PI / (cgs (2 : ℝ) 0.5).ME
      / (cgs (2 : ℝ) 0.5).CL = v0 at hv0 ⊢
    simp only [find_xs_A_fac, hL.sqrt_eq, hL.pow_eq, cgs]
    positivity
  have hxs := find_xs_first L hL (cgs 2 0.5) 1 1e15 0 _ 1e6 (by norm_num [cgs]) hA
  have hnew := (newton_first L hL _ hA).1
  have hnus : 0 < 1.5 * newton_step L (find_xs_A_fac L (cgs 2 0.5) 1 1e15 0
      ((cgs (2 : ℝ) 0.5).QE * 1e3 / 2.0 / L.M_PI / (cgs (2 : ℝ) 0.5).ME
        / (cgs (2 : ℝ) 0.5).CL) 1e6) 1.0
      * ((cgs (2 : ℝ) 0.5).QE * 1e3 / 2.0 / L.M_PI / (cgs (2 : ℝ) 0.5).ME
        / (cgs (2 : ℝ) 0.5).CL) * 1 * 1 := by
    positivity
  have htau : (2 : ℝ) > 1.0 := by norm_num
  have hcorr := (sample_corr L hL G hG).1
  have hbr := get_ndotbr_nonneg L hL G (cgs 2 0.5) (by norm_num [cgs]) (by norm_num [cgs])
    (by norm_num [cgs]) (by norm_num [cgs]) 0 1 (10 ^ xc * 1) 1e15 hcorr (le_refl 0) hx0 hx1
  have hy := comptony1_pos L hL (10 ^ xc * 1) 2 1 (by norm_num) hx0 hx1
  have hfb := fbrem_thick_nonneg L hL G _ 2 1 (10 ^ xc * 1) hy htau
  have hn1 := flatn1_nonneg L hL (cgs 2 0.5) (by norm_num [cgs]) (by norm_num [cgs])
    (10 ^ xc * 1) 1 _ hy hx0 hx1
  have hfs := fraction_thick_pos L hL G
    ((cgs (2 : ℝ) 0.5).hplanck * (1.5 * newton_step L (find_xs_A_fac L (cgs 2 0.5) 1 1e15 0
      ((cgs (2 : ℝ) 0.5).QE * 1e3 / 2.0 / L.M_PI / (cgs (2 : ℝ) 0.5).ME
        / (cgs (2 : ℝ) 0.5).CL) 1e6) 1.0
      * ((cgs (2 : ℝ) 0.5).QE * 1e3 / 2.0 / L.M_PI / (cgs (2 : ℝ) 0.5).ME
        / (cgs (2 : ℝ) 0.5).CL) * 1 * 1) / (cgs (2 : ℝ) 0.5).ME / (cgs (2 : ℝ) 0.5).CL
      / (cgs (2 : ℝ) 0.5).CL) 2 1 htau
  have hnd := find_ndots_rate_nonneg L hL G hG (cgs 2 0.5) (by norm_num [cgs])
    (by norm_num [cgs]) 1 1e15 0 1e6 _ _ one_pos (by norm_num) (le_refl 0) (by norm_num)
    hv0 hnus
  have hng := ngamma_nonneg_hot L hL (cgs 2 0.5) (by norm_num [cgs]) (by norm_num [cgs])
    2 1 _ _ _ _ 1e6 (le_refl 1) (by norm_num) (by norm_num) (mul_nonneg hfb hbr)
    (mul_nonneg hfs.le hnd)
  have hnc := (ncdot_pos_warm L hL (cgs 2 0.5) (by norm_num [cgs]) (by norm_num [cgs])
    (by norm_num [cgs]) _ 1 1e15 0 _ (by norm_num) (le_refl 1) (by norm_num) (le_refl 0)
    hng hn1).2.2.2.2.2
  have hna : nadot L (cgs 2 0.5) 0 1e15 1 = 0 := by simp [nadot]
  simp only [ndot_net, find_ndots, hxm, hxs, bind, Except.bind, pure, Except.pure]
  refine ⟨_, rfl, ?_⟩
  rw [hna, sub_zero]
  exact hnc

end SampleCell

/-! ## The net rate at zero positron fraction, and the range of `find_xm` -/

section NetRateZero
open MeasureTheory

/-- The e-e pair production rate is strictly positive for `theta > 0`, `nprot > 0`
and `z ≥ 0`, in both temperature branches. -/
theorem get_ndotee_pos (L : Libm ℝ) (hL : L.IsReal) (C : Consts ℝ)
    (ha : 0 < C.alphaf) (hc : 0 < C.CL) (hr : 0 < C.RE)
    (nprot z theta : ℝ) (hn : 0 < nprot) (hz : 0 ≤ z) (ht : 0 < theta) :
    0 < get_ndotee L C nprot z theta := by
  have hpi := Real.pi_pos
  simp only [get_ndotee, hL.pow_eq, hL.exp_eq, hL.log_eq, hL.pi_eq]
  split_ifs with h
  · positivity
  · push_neg at h
    have hlog : 0 < Real.log theta := Real.log_pos (by norm_num at h; linarith)
    positivity

/-- When `ndot_net` returns, both solvers have returned and the result is the
creation rate minus the annihilation rate for their values. -/
theorem ndot_net_ok_form {F : Type} [LinearOrderedField F] (L : Libm F) (G : Gsl F)
    (C : Consts F) (zfrac taut nprot theta r_size bfield r : F)
    (hret : ndot_net L G C zfrac taut nprot theta r_size bfield = Except.ok r) :
    ∃ xm fs ndots, find_xm L G C zfrac taut nprot theta = Except.ok xm
      ∧ find_ndots L G C theta taut nprot zfrac r_size bfield = Except.ok (fs, ndots)
      ∧ r = ncdot L C (ndot_net_ng L G C zfrac taut nprot theta r_size xm fs ndots) theta
              nprot zfrac (ndot_net_n1 L C taut theta xm)
            - nadot L C zfrac nprot theta := by
  simp only [ndot_net, bind, Except.bind, pure, Except.pure] at hret
  cases hxm : find_xm L G C zfrac taut nprot theta with
  | error e => rw [hxm] at hret; exact absurd hret (by simp)
  | ok xm =>
    rw [hxm] at hret
    cases hnd : find_ndots L G C theta taut nprot zfrac r_size bfield with
    | error e => rw [hnd] at hret; exact absurd hret (by simp)
    | ok p =>
      rw [hnd] at hret
      obtain ⟨fs, ndots⟩ := p
      refine ⟨xm, fs, ndots, rfl, rfl, ?_⟩
      have := Except.ok.inj hret
      rw [← this]
      rfl

/-- C9, as the code has it.  For a cell state with `nprot > 0` and `theta > 0` on
which the solvers return, the annihilation rate at zero positron fraction is 0
and `ndot_net(0, tau, nprot, theta, h, B)` is the pair creation rate
`ncdot(ng, theta, nprot, 0, n1)` for the photon densities `ng`, `n1` computed from
the solver results; its e-e channel `get_ndotee(nprot, 0, theta)` is strictly
positive. -/
theorem net_rate_at_zero (L : Libm ℝ) (hL : L.IsReal) (G : Gsl ℝ) (C : Consts ℝ)
    (ha : 0 < C.alphaf) (hc : 0 < C.CL) (hr : 0 < C.RE)
    (tau nprot theta h B r : ℝ) (hn : 0 < nprot) (ht : 0 < theta)
    (hret : ndot_net L G C 0 tau nprot theta h B = Except.ok r) :
    ∃ xm fs ndots, find_xm L G C 0 tau nprot theta = Except.ok xm
      ∧ find_ndots L G C theta tau nprot 0 h B = Except.ok (fs, ndots)
      ∧ nadot L C 0 nprot theta = 0
      ∧ r = ncdot L C (ndot_net_ng L G C 0 tau nprot theta h xm fs ndots) theta nprot 0
              (ndot_net_n1 L C tau theta xm)
      ∧ 0 < get_ndotee L C nprot 0 theta := by
  obtain ⟨xm, fs, ndots, h1, h2, h3⟩ := ndot_net_ok_form L G C 0 tau nprot theta h B r hret
  have hna : nadot L C 0 nprot theta = 0 := by simp [nadot]
  refine ⟨xm, fs, ndots, h1, h2, hna, ?_, get_ndotee_pos L hL C ha hc hr nprot 0 theta hn
    (le_refl 0) ht⟩
  rw [h3, hna, sub_zero]

/-- Witness of C9 as amended: at the sample cell the solvers return, so the
statement applies. -/
theorem net_rate_at_zero_witness :
    ∃ (L : Libm ℝ) (G : Gsl ℝ) (r : ℝ), L.IsReal ∧ G.IsReal
      ∧ ndot_net L G (cgs 2 0.5) 0 2 1e15 1 1e6 1e3 = Except.ok r
      ∧ nadot L (cgs 2 0.5) 0 1e15 1 = 0
      ∧ 0 < get_ndotee L (cgs 2 0.5) 1e15 0 1 := by
  obtain ⟨L, G, hL, hG⟩ := exists_real_libs
  obtain ⟨r, hr, _⟩ := sample_ndot_net L hL G hG
  obtain ⟨_, _, _, _, _, h3, _, h5⟩ := net_rate_at_zero L hL G (cgs 2 0.5)
    (by norm_num [cgs]) (by norm_num [cgs]) (by norm_num [cgs]) 2 1e15 1 1e6 1e3 r
    (by norm_num) one_pos hr
  exact ⟨L, G, r, hL, hG, hr, h3, h5⟩

/-- C9 as stated fails.  At the admissible sample cell (`nprot = 1e15`,
`theta = 1`, `tau = 2`, `h = 1e6`, `B = 1e3`) both solvers return and the net
rate at zero positron fraction is not 0. -/
theorem net_rate_at_zero_counterexample :
    ∃ (L : Libm ℝ) (G : Gsl ℝ) (r : ℝ), L.IsReal ∧ G.IsReal
      ∧ ndot_net L G (cgs 2 0.5) 0 2 1e15 1 1e6 1e3 = Except.ok r ∧ r ≠ 0 := by
  obtain ⟨L, G, hL, hG⟩ := exists_real_libs
  obtain ⟨r, hr, hpos⟩ := sample_ndot_net L hL G hG
  exact ⟨L, G, r, hL, hG, hr, hpos.ne'⟩

/-- C8.  Range of `find_xm`: for `theta > 0`, a returned value is
`x_m = 10^xc * theta` with `-50 ≤ xc ≤ log10(700)`, hence
`1e-50*theta ≤ x_m ≤ 700*theta`; and in every execution of the loop body from a
state with `xl ≤ xc ≤ xr` the endpoints only move inward (`xl` does not decrease,
`xr` does not increase) and the new midpoint lies between the new endpoints. -/
theorem find_xm_range (L : Libm ℝ) (hL : L.IsReal) (G : Gsl ℝ) (C : Consts ℝ)
    (z tau nprot theta xm : ℝ) (ht : 0 < theta)
    (hret : find_xm L G C z tau nprot theta = Except.ok xm) :
    (∃ xc : ℝ, -50 ≤ xc ∧ xc ≤ Real.log 700 / Real.log 10 ∧ xm = 10 ^ xc * theta)
      ∧ 1e-50 * theta ≤ xm ∧ xm ≤ 700 * theta
      ∧ ∀ s : XmState ℝ, s.xl ≤ s.xc → s.xc ≤ s.xr →
          s.xl ≤ (find_xm_body L G C z nprot theta (find_xm_lhs C z tau nprot theta) s).xl
          ∧ (find_xm_body L G C z nprot theta (find_xm_lhs C z tau nprot theta) s).xr ≤ s.xr
          ∧ (find_xm_body L G C z nprot theta (find_xm_lhs C z tau nprot theta) s).xl
              ≤ (find_xm_body L G C z nprot theta (find_xm_lhs C z tau nprot theta) s).xc
          ∧ (find_xm_body L G C z nprot theta (find_xm_lhs C z tau nprot theta) s).xc
              ≤ (find_xm_body L G C z nprot theta (find_xm_lhs C z tau nprot theta) s).xr := by
  have hends : (-50.0 : ℝ) ≤ L.log10 700.0 := by
    rw [hL.log10_eq]
    have := real_log10_700_pos
    norm_num at this ⊢
    linarith
  obtain ⟨xc, h1, h2, h3⟩ := find_xm_ok_form L G C z tau nprot theta xm hends hret
  rw [hL.log10_eq] at h2
  rw [hL.pow_eq] at h3
  have h10 : (10.0 : ℝ) = 10 := by norm_num
  have h700 : (700.0 : ℝ) = 700 := by norm_num
  have h50 : (-50.0 : ℝ) = -50 := by norm_num
  rw [h10] at h3
  rw [h700] at h2
  rw [h50] at h1
  have hlo : (1e-50 : ℝ) ≤ 10 ^ xc := by
    have e := real_pow_ten_neg50
    rw [h10, h50] at e
    rw [← e]
    exact Real.rpow_le_rpow_of_exponent_le (by norm_num) h1
  have hhi : (10 : ℝ) ^ xc ≤ 700 := by
    have e := real_pow_ten_log10 700 (by norm_num)
    rw [h10] at e
    calc (10 : ℝ) ^ xc ≤ 10 ^ (Real.log 700 / Real.log 10) :=
          Real.rpow_le_rpow_of_exponent_le (by norm_num) h2
      _ = 700 := e
  refine ⟨⟨xc, h1, h2, h3⟩, ?_, ?_, ?_⟩
  · rw [h3]; exact mul_le_mul_of_nonneg_right hlo ht.le
  · rw [h3]; exact mul_le_mul_of_nonneg_right hhi ht.le
  · intro s hs1 hs2
    obtain ⟨b1, b2, b3, b4, _⟩ := find_xm_body_inward L G C z nprot theta
      (find_xm_lhs C z tau nprot theta) s hs1 hs2
    exact ⟨b1, b2, b3, b4⟩

/-- Witness of C8: at the sample cell `find_xm` returns, and the returned value
lies in `[1e-50*theta, 700*theta]`. -/
theorem find_xm_range_witness :
    ∃ (L : Libm ℝ) (G : Gsl ℝ) (xm : ℝ), L.IsReal ∧ G.IsReal
      ∧ find_xm L G (cgs 2 0.5) 0 2 1e15 1 = Except.ok xm
      ∧ 1e-50 * 1 ≤ xm ∧ xm ≤ 700 * 1 := by
  obtain ⟨L, G, hL, hG⟩ := exists_real_libs
  obtain ⟨xc, _, _, hxm⟩ := find_xm_first L hL G (cgs 2 0.5) 0 2 1e15 1
    (by norm_num [cgs]) (sample_bracket L hL G hG)
  obtain ⟨_, h2, h3, _⟩ := find_xm_range L hL G (cgs 2 0.5) 0 2 1e15 1 _ one_pos hxm
  exact ⟨L, G, _, hL, hG, hxm, h2, h3⟩

end NetRateZero

/-! ## `find_xs` at zero magnetic field -/

section ZeroField

theorem rpow_twelfth (x : ℝ) (hx : 0 ≤ x) (k : ℕ) (q : ℝ) (hq : q = (1 / 12) * (k : ℝ)) :
    x ^ q = (x ^ ((1 : ℝ) / 12)) ^ k := by
  rw [hq, Real.rpow_mul hx, Real.rpow_natCast]

/-- Every power of `x > 0` that occurs in `ix` and `didx` is a natural power of
`w = x^(1/12)`. -/
theorem twelfth_root (x : ℝ) (hx : 0 < x) :
    ∃ w : ℝ, 0 < w ∧ x = w ^ 12
      ∧ x ^ ((1.0 : ℝ) / 6.0) = w ^ 2 ∧ x ^ ((5.0 : ℝ) / 12.0) = w ^ 5
      ∧ x ^ ((2.0 : ℝ) / 3.0) = w ^ 8 ∧ x ^ ((1.0 : ℝ) / 3.0) = w ^ 4
      ∧ x ^ ((7.0 : ℝ) / 6.0) = w ^ 14 ∧ x ^ ((17.0 : ℝ) / 12.0) = w ^ 17
      ∧ x ^ ((5.0 : ℝ) / 3.0) = w ^ 20 ∧ x ^ ((5.0 : ℝ) / 6.0) = w ^ 10
      ∧ x ^ ((13.0 : ℝ) / 12.0) = w ^ 13 ∧ x ^ ((4.0 : ℝ) / 3.0) = w ^ 16 := by
  refine ⟨x ^ ((1 : ℝ) / 12), Real.rpow_pos_of_pos hx _, ?_, ?_, ?_, ?_, ?_, ?_, ?_, ?_, ?_, ?_, ?_⟩
  · rw [← rpow_twelfth x hx.le 12 1 (by norm_num), Real.rpow_one]
  all_goals exact rpow_twelfth x hx.le _ _ (by norm_num)

/-- One Newton-Raphson step at `A_fac = 0`, in terms of `w = x^(1/12)`:
`xnew = x*(1 + P/(Q + (i3/3) w^4 P))` with
`P = i0 w^6 + i1 w^3 + i2` and `Q = i0/6 w^6 + 5 i1/12 w^3 + 2 i2/3`. -/
theorem newton_step_zero (L : Libm ℝ) (hL : L.IsReal) (w : ℝ) (hw : 0 < w)
    (e2 : (w ^ 12) ^ ((1.0 : ℝ) / 6.0) = w ^ 2) (e5 : (w ^ 12) ^ ((5.0 : ℝ) / 12.0) = w ^ 5)
    (e8 : (w ^ 12) ^ ((2.0 : ℝ) / 3.0) = w ^ 8) (e4 : (w ^ 12) ^ ((1.0 : ℝ) / 3.0) = w ^ 4)
    (e14 : (w ^ 12) ^ ((7.0 : ℝ) / 6.0) = w ^ 14)
    (e17 : (w ^ 12) ^ ((17.0 : ℝ) / 12.0) = w ^ 17)
    (e20 : (w ^ 12) ^ ((5.0 : ℝ) / 3.0) = w ^ 20)
    (e10 : (w ^ 12) ^ ((5.0 : ℝ) / 6.0) = w ^ 10)
    (e13 : (w ^ 12) ^ ((13.0 : ℝ) / 12.0) = w ^ 13)
    (e16 : (w ^ 12) ^ ((4.0 : ℝ) / 3.0) = w ^ 16) :
    newton_step L 0 (w ^ 12)
      = w ^ 12 * (1 + (i0 * w ^ 6 + i1 * w ^ 3 + i2)
          / ((i0 / 6 * w ^ 6 + 5 * i1 / 12 * w ^ 3 + 2 * i2 / 3)
              + i3 / 3 * w ^ 4 * (i0 * w ^ 6 + i1 * w ^ 3 + i2))) := by
  have hE : Real.exp (-i3 * w ^ 4) ≠ 0 := (Real.exp_pos _).ne'
  have hP : 0 < (i0 : ℝ) * w ^ 6 + i1 * w ^ 3 + i2 := by
    simp only [i0, i1, i2]; positivity
  have hQ : 0 < ((i0 : ℝ) / 6 * w ^ 6 + 5 * i1 / 12 * w ^ 3 + 2 * i2 / 3)
      + i3 / 3 * w ^ 4 * (i0 * w ^ 6 + i1 * w ^ 3 + i2) := by
    simp only [i0, i1, i2, i3]; positivity
  simp only [newton_step, ix, didx, hL.pow_eq, hL.exp_eq, e2, e5, e8, e4, e14, e17, e20, e10,
    e13, e16]
  generalize Real.exp (-i3 * w ^ 4) = E at hE ⊢
  have hD : (-(i0 : ℝ) / 6.0 / w ^ 14 - i1 * 5.0 / 12.0 / w ^ 17 - i2 * 2.0 / 3.0 / w ^ 20
      - i0 * i3 / 3.0 / w ^ 10 - i1 * i3 / 3.0 / w ^ 13 - i2 * i3 / 3.0 / w ^ 16) * E - 0
      = -(((i0 : ℝ) / 6 * w ^ 6 + 5 * i1 / 12 * w ^ 3 + 2 * i2 / 3)
          + i3 / 3 * w ^ 4 * (i0 * w ^ 6 + i1 * w ^ 3 + i2)) * E / w ^ 20 := by
    field_simp
    ring
  have hN : ((i0 : ℝ) / w ^ 2 + i1 / w ^ 5 + i2 / w ^ 8) * E - 0 * w ^ 12
      = (i0 * w ^ 6 + i1 * w ^ 3 + i2) * E / w ^ 8 := by
    field_simp
    ring
  rw [hD, hN]
  generalize (i0 : ℝ) * w ^ 6 + i1 * w ^ 3 + i2 = P at hP hQ ⊢
  generalize (i0 : ℝ) / 6 * w ^ 6 + 5 * i1 / 12 * w ^ 3 + 2 * i2 / 3 + i3 / 3 * w ^ 4 * P = Qt
    at hQ ⊢
  have hQ0 : Qt ≠ 0 := hQ.ne'
  have hw0 : w ≠ 0 := hw.ne'
  field_simp
  ring

/-- Bounds on one Newton-Raphson step at `A_fac = 0` from `x > 0`, with
`y = x^(1/3)`: the iterate grows, by at most `3 y^2`, and the relative step that
the convergence test looks at is at least `1/(2/3 + (i3/3) y)`. -/
theorem zero_field_step (L : Libm ℝ) (hL : L.IsReal) (x : ℝ) (hx : 0 < x) :
    ∃ y : ℝ, 0 < y ∧ x = y ^ 3 ∧ x ≤ newton_step L 0 x
      ∧ newton_step L 0 x ≤ y ^ 3 + 3 * y ^ 2
      ∧ 1 / (2 / 3 + i3 / 3 * y) ≤ |1.0 - newton_step L 0 x / x| := by
  obtain ⟨w, hw, rfl, e2, e5, e8, e4, e14, e17, e20, e10, e13, e16⟩ := twelfth_root x hx
  have hstep := newton_step_zero L hL w hw e2 e5 e8 e4 e14 e17 e20 e10 e13 e16
  clear e2 e5 e8 e4 e14 e17 e20 e10 e13 e16
  have hP : 0 < (i0 : ℝ) * w ^ 6 + i1 * w ^ 3 + i2 := by
    simp only [i0, i1, i2]; positivity
  have hQ : 0 < (i0 : ℝ) / 6 * w ^ 6 + 5 * i1 / 12 * w ^ 3 + 2 * i2 / 3 := by
    simp only [i0, i1, i2]; positivity
  have hQP : (i0 : ℝ) / 6 * w ^ 6 + 5 * i1 / 12 * w ^ 3 + 2 * i2 / 3
      ≤ 2 / 3 * (i0 * w ^ 6 + i1 * w ^ 3 + i2) := by
    have h6 : 0 < w ^ 6 := by positivity
    have h3 : 0 < w ^ 3 := by positivity
    simp only [i0, i1, i2]
    nlinarith
  have hi3 : (1 : ℝ) ≤ i3 := by simp only [i3]; norm_num
  have hi3' : (0 : ℝ) < i3 := by linarith
  have hy : 0 < w ^ 4 := by positivity
  generalize (i0 : ℝ) * w ^ 6 + i1 * w ^ 3 + i2 = P at hP hQP hstep
  generalize (i0 : ℝ) / 6 * w ^ 6 + 5 * i1 / 12 * w ^ 3 + 2 * i2 / 3 = Q at hQ hQP hstep
  have hden : 0 < Q + i3 / 3 * w ^ 4 * P := by positivity
  have hrho : 0 < P / (Q + i3 / 3 * w ^ 4 * P) := div_pos hP hden
  have hup : P / (Q + i3 / 3 * w ^ 4 * P) ≤ 3 / w ^ 4 := by
    rw [div_le_div_iff₀ hden hy]
    have : 0 ≤ (i3 - 1) * (w ^ 4 * P) := by
      apply mul_nonneg (by linarith)
      positivity
    nlinarith [mul_pos hQ hy]
  have hlow : 1 / (2 / 3 + i3 / 3 * w ^ 4) ≤ P / (Q + i3 / 3 * w ^ 4 * P) := by
    have h1 : 0 < 2 / 3 + i3 / 3 * w ^ 4 := by positivity
    rw [div_le_div_iff₀ h1 hden]
    nlinarith
  have h12 : (0 : ℝ) < w ^ 12 := by positivity
  refine ⟨w ^ 4, hy, by ring, ?_, ?_, ?_⟩
  · rw [hstep]
    have := mul_pos h12 hrho
    nlinarith only [this]
  · rw [hstep]
    have e : w ^ 12 * (3 / w ^ 4) = 3 * (w ^ 4) ^ 2 := by
      field_simp
      ring
    have hm := mul_le_mul_of_nonneg_left hup h12.le
    rw [e] at hm
    have e3 : (w ^ 4) ^ 3 = w ^ 12 := by ring
    rw [e3]
    linarith only [hm]
  · rw [hstep]
    clear hstep
    have e0 : w ^ 12 * (1 + P / (Q + i3 / 3 * w ^ 4 * P)) / w ^ 12
        = 1 + P / (Q + i3 / 3 * w ^ 4 * P) := by
      rw [mul_comm, mul_div_assoc, div_self h12.ne', mul_one]
    have e : (1.0 : ℝ) - w ^ 12 * (1 + P / (Q + i3 / 3 * w ^ 4 * P)) / w ^ 12
        = -(P / (Q + i3 / 3 * w ^ 4 * P)) := by
      rw [e0]
      norm_num
    rw [e, abs_neg, abs_of_pos hrho]
    exact hlow

/-- At `A_fac = 0` the Newton-Raphson iterates stay between 1 and `(n + 1)^3`. -/
theorem zero_field_iterates (L : Libm ℝ) (hL : L.IsReal) :
    ∀ n : Nat, 1 ≤ newton_iter L 0 n ∧ newton_iter L 0 n ≤ ((n : ℝ) + 1) ^ 3 := by
  intro n
  induction n with
  | zero =>
    simp only [newton_iter]
    norm_num
  | succ n ih =>
    obtain ⟨h1, h2⟩ := ih
    obtain ⟨y, hy, hxy, s1, s2, _⟩ := zero_field_step L hL (newton_iter L 0 n) (by linarith)
    have hyn : y ≤ (n : ℝ) + 1 := by
      rw [hxy] at h2
      exact (pow_le_pow_iff_left₀ hy.le (by positivity) (by norm_num)).mp h2
    have hn0 : (0 : ℝ) ≤ n := Nat.cast_nonneg n
    constructor
    · simp only [newton_iter]
      linarith
    · simp only [newton_iter]
      push_cast
      have hy2 : y ^ 2 ≤ ((n : ℝ) + 1) ^ 2 := pow_le_pow_left₀ hy.le hyn 2
      have hy3 : y ^ 3 ≤ ((n : ℝ) + 1) ^ 3 := pow_le_pow_left₀ hy.le hyn 3
      nlinarith

/-- At `A_fac = 0` the convergence test fails in each of the 1000 iterations for
every tolerance `bisects ≤ 1/631`. -/
theorem zero_field_no_convergence (L : Libm ℝ) (hL : L.IsReal) (b : ℝ) (hb : b ≤ 1 / 631)
    (n : Nat) (hn : n ≤ 999) : ¬ newton_test L 0 b n := by
  obtain ⟨h1, h2⟩ := zero_field_iterates L hL n
  obtain ⟨y, hy, hxy, _, _, s3⟩ := zero_field_step L hL (newton_iter L 0 n) (by linarith)
  have hyn : y ≤ (n : ℝ) + 1 := by
    rw [hxy] at h2
    exact (pow_le_pow_iff_left₀ hy.le (by positivity) (by norm_num)).mp h2
  have hn9 : (n : ℝ) ≤ 999 := by exact_mod_cast hn
  have hden : 0 < 2 / 3 + (i3 : ℝ) / 3 * y := by simp only [i3]; positivity
  have hbig : (1 : ℝ) / 631 ≤ 1 / (2 / 3 + i3 / 3 * y) := by
    rw [div_le_div_iff₀ (by norm_num) hden]
    simp only [i3]
    nlinarith
  simp only [newton_test, newton_iter, not_lt]
  linarith

/-- C6, the code at a failing input.  With zero magnetic field (`v0 = 0`, so
`A_fac = 0`) and the tolerance `bisects = 1e-6`, no iteration among the 1000 of
`find_xs` passes the convergence test, and yet `find_xs` returns normally (the
value 0) instead of terminating the process. -/
theorem find_xs_zero_field_returns :
    ∃ L : Libm ℝ, L.IsReal
      ∧ find_xs L (cgs 1e-6 0.5) 1 1e15 0 0 1e6 = Except.ok 0
      ∧ ∀ n, n ≤ 999 →
          ¬ newton_test L (find_xs_A_fac L (cgs 1e-6 0.5) 1 1e15 0 0 1e6)
              (cgs (1e-6 : ℝ) 0.5).bisects n := by
  obtain ⟨L, _, hL, _⟩ := exists_real_libs
  have hA : find_xs_A_fac L (cgs 1e-6 0.5) 1 1e15 0 0 1e6 = 0 := by
    simp [find_xs_A_fac]
  have hno : ∀ n, n ≤ 999 →
      ¬ newton_test L (find_xs_A_fac L (cgs 1e-6 0.5) 1 1e15 0 0 1e6)
          (cgs (1e-6 : ℝ) 0.5).bisects n := by
    intro n hn
    rw [hA]
    exact zero_field_no_convergence L hL _ (by norm_num [cgs]) n hn
  refine ⟨L, hL, ?_, hno⟩
  rw [find_xs_unconverged L (cgs 1e-6 0.5) 1 1e15 0 0 1e6 hno]
  simp

end ZeroField

/-! ## Pair creation channels -/

section Creation

/-- The value `exp(-γ)` of `eta`, for Euler's constant `γ`, is at least `1/2`. -/
theorem eta_euler_ge_half : 1 / 2 ≤ Real.exp (-Real.eulerMascheroniConstant) := by
  have hg := Real.eulerMascheroniConstant_lt_two_thirds
  have h3 : Real.exp (2 / 3) ^ 3 = Real.exp 1 ^ 2 := by
    rw [← Real.exp_nat_mul, ← Real.exp_nat_mul]
    norm_num
  have he := Real.exp_one_lt_d9
  have hlt : Real.exp (2 / 3) < 2 := by
    by_contra h
    push_neg at h
    have h8 : (2 : ℝ) ^ 3 ≤ Real.exp (2 / 3) ^ 3 := pow_le_pow_left₀ (by norm_num) h 3
    have h9 : Real.exp 1 ^ 2 < 2.7182818286 ^ 2 :=
      pow_lt_pow_left₀ he (Real.exp_pos 1).le (by norm_num)
    rw [h3] at h8
    norm_num at h8 h9
    linarith
  have hmono : Real.exp (-(2 / 3)) ≤ Real.exp (-Real.eulerMascheroniConstant) :=
    Real.exp_le_exp.mpr (by linarith)
  have hinv : Real.exp (-(2 / 3)) = (Real.exp (2 / 3))⁻¹ := Real.exp_neg _
  have hpos := Real.exp_pos (2 / 3)
  have : (1 / 2 : ℝ) ≤ (Real.exp (2 / 3))⁻¹ := by
    rw [one_div]
    exact inv_anti₀ hpos hlt.le
  linarith

/-- For `x ≥ 3.7` the logarithm exceeds `23/21`, the zero of the high-temperature
Wien-proton formula. -/
theorem log_ge_wp (x : ℝ) (hx : 3.7 ≤ x) : 23 / 21 ≤ Real.log x := by
  have hx0 : (0 : ℝ) < x := by norm_num at hx; linarith
  rw [Real.le_log_iff_exp_le hx0]
  have he := Real.exp_one_lt_d9
  have h1 : Real.exp (23 / 21) = Real.exp 1 * Real.exp (2 / 21) := by
    rw [← Real.exp_add]
    norm_num
  have h2 : Real.exp (2 / 21) ≤ 21 / 19 := by
    have h := Real.add_one_le_exp (-(2 / 21) : ℝ)
    have hinv : Real.exp (-(2 / 21)) = (Real.exp (2 / 21))⁻¹ := Real.exp_neg _
    have hpos := Real.exp_pos (2 / 21)
    rw [hinv] at h
    have h19 : (19 / 21 : ℝ) ≤ (Real.exp (2 / 21))⁻¹ := by linarith
    have := inv_anti₀ (by norm_num) h19
    rw [inv_inv] at this
    norm_num at this ⊢
    linarith
  have hpos := Real.exp_pos (2 / 21)
  rw [h1]
  norm_num at hx he ⊢
  nlinarith

/-- C11.  Non-negativity of pair creation: for `theta > 0`, `z ≥ 0`, `nprot ≥ 0`,
`ngamma ≥ 0`, `n1 ≥ 0`, with `alphaf > 0`, `CL ≥ 0` and `eta ≥ 1/2` (which holds for
`eta = exp(-γ) ≈ 0.5616`), each of the five channels `get_ndotee`, `get_ndotww`,
`get_ndotwp`, `get_ndotwe`, `get_ndotwf` is non-negative in every temperature
branch, and so is their sum `ncdot`. -/
theorem pair_creation_nonneg (L : Libm ℝ) (hL : L.IsReal) (C : Consts ℝ)
    (ha : 0 < C.alphaf) (hc : 0 ≤ C.CL) (he : 1 / 2 ≤ C.eta)
    (ngamma theta nprot z n1 : ℝ) (ht : 0 < theta) (hz : 0 ≤ z) (hn : 0 ≤ nprot)
    (hg : 0 ≤ ngamma) (h1 : 0 ≤ n1) :
    0 ≤ get_ndotee L C nprot z theta
      ∧ 0 ≤ get_ndotww L C ngamma theta
      ∧ 0 ≤ get_ndotwp L C ngamma nprot theta
      ∧ 0 ≤ get_ndotwe L C ngamma nprot z theta
      ∧ 0 ≤ get_ndotwf L C n1 ngamma theta
      ∧ 0 ≤ ncdot L C ngamma theta nprot z n1 := by
  have hpi := Real.pi_pos
  have hre := mul_self_nonneg C.RE
  have eRE : ∀ a : ℝ, a * C.RE * C.RE = a * (C.RE * C.RE) := fun a => mul_assoc _ _ _
  have hee : 0 ≤ get_ndotee L C nprot z theta := by
    simp only [get_ndotee, hL.pow_eq, hL.exp_eq, hL.log_eq, hL.pi_eq, eRE]
    split_ifs with h
    · positivity
    · push_neg at h
      have hlog : 0 < Real.log theta := Real.log_pos (by norm_num at h; linarith)
      positivity
  have hww : 0 ≤ get_ndotww L C ngamma theta := by
    simp only [get_ndotww, hL.pow_eq, hL.exp_eq, hL.log_eq, hL.pi_eq, eRE]
    split_ifs with h
    · positivity
    · push_neg at h
      have hlog : 0 ≤ Real.log (2.0 * C.eta * theta + 0.38) := by
        apply Real.log_nonneg
        norm_num at h ⊢
        nlinarith
      positivity
  have hwp : 0 ≤ get_ndotwp L C ngamma nprot theta := by
    simp only [get_ndotwp, hL.exp_eq, hL.log_eq, hL.pi_eq, eRE]
    split_ifs with h
    · positivity
    · push_neg at h
      have hlog : 23 / 21 ≤ Real.log (2.0 * C.eta * theta + 1.7) := by
        apply log_ge_wp
        norm_num at h ⊢
        nlinarith
      have hout : 0 ≤ (28.0 / 9.0) * Real.log (2.0 * C.eta * theta + 1.7) - 92.0 / 27.0 := by
        norm_num
        linarith
      positivity
  have hwe : 0 ≤ get_ndotwe L C ngamma nprot z theta := by
    simp only [get_ndotwe, hL.pow_eq, hL.exp_eq, hL.log_eq, hL.pi_eq, eRE]
    split_ifs with h h2
    · positivity
    · have hlog : Real.log 2 ≤ Real.log (2.0 * C.eta * theta) := by
        apply Real.log_le_log (by norm_num)
        norm_num
        nlinarith
      have hl2 := Real.log_two_gt_d9
      have hout : 0 ≤ 56.0 / 9.0 * Real.log (2.0 * C.eta * theta) - 8.0 / 27.0 := by
        norm_num at hl2 ⊢
        linarith
      positivity
    · positivity
  have hwf : 0 ≤ get_ndotwf L C n1 ngamma theta := by
    simp only [get_ndotwf, hL.exp_eq, hL.pi_eq, eRE]
    positivity
  refine ⟨hee, hww, hwp, hwe, hwf, ?_⟩
  simp only [ncdot]
  linarith

/-- Witness of C11: the cgs constants with `eta = exp(-γ)` at the sample state
`ngamma = 1e20`, `theta = 3`, `nprot = 1e15`, `z = 0.5`, `n1 = 1e18`. -/
theorem pair_creation_nonneg_witness :
    ∃ L : Libm ℝ, L.IsReal
      ∧ 0 ≤ ncdot L (cgs_eta (Real.exp (-Real.eulerMascheroniConstant)))
          1e20 3 1e15 0.5 1e18 := by
  obtain ⟨L, _, hL, _⟩ := exists_real_libs
  exact ⟨L, hL, (pair_creation_nonneg L hL
    (cgs_eta (Real.exp (-Real.eulerMascheroniConstant)))
    (by norm_num [cgs_eta, cgs]) (by norm_num [cgs_eta, cgs]) eta_euler_ge_half
    1e20 3 1e15 0.5 1e18 (by norm_num) (by norm_num) (by norm_num) (by norm_num)
    (by norm_num)).2.2.2.2.2⟩

end Creation

/-! ## The threshold of `get_ndotee` -/

section Threshold
open Filter Topology

/-- The value `pow(100, 1.5)` of the real power. -/
theorem real_pow_hundred : (100 : ℝ) ^ (1.5 : ℝ) = 1000 := by
  have h : (100 : ℝ) = 10 ^ (2 : ℝ) := by norm_num
  rw [h, ← Real.rpow_mul (by norm_num)]
  norm_num

/-- The real cube `pow(x, 3.0)` is the product `x*x*x`. -/
theorem real_pow_three (x : ℝ) : x ^ (3.0 : ℝ) = x ^ 3 := by
  rw [show (3.0 : ℝ) = ((3 : ℕ) : ℝ) by norm_num, Real.rpow_natCast]

/-- Bounds for `ln 100`. -/
theorem log_hundred_bounds : 4 < Real.log 100 ∧ Real.log 100 < 4.66 := by
  have h2 := Real.log_two_lt_d9
  have h2' := Real.log_two_gt_d9
  have e100 : Real.log 100 = 2 * Real.log 10 := by
    rw [show (100 : ℝ) = 10 ^ 2 by norm_num, Real.log_pow]
    norm_num
  have e10 : Real.log 10 = 3 * Real.log 2 + Real.log 1.25 := by
    rw [show (10 : ℝ) = 2 ^ 3 * 1.25 by norm_num, Real.log_mul (by norm_num) (by norm_num),
      Real.log_pow]
    norm_num
  have u : Real.log 1.25 ≤ 0.25 := by
    have := Real.log_le_sub_one_of_pos (show (0 : ℝ) < 1.25 by norm_num)
    norm_num at this ⊢
    linarith
  have l : 0 ≤ Real.log 1.25 := Real.log_nonneg (by norm_num)
  rw [e100, e10]
  norm_num at h2 h2' u l ⊢
  constructor <;> linarith

/-- Below the threshold, `theta ≤ 100`, `get_ndotee` is its low-temperature formula;
at `theta = 100` the formula is `2e-4 * 1000 * exp(-2/100) * 2.5`. -/
theorem get_ndotee_at_threshold (L : Libm ℝ) (hL : L.IsReal) (C : Consts ℝ) (nprot z : ℝ) :
    get_ndotee L C nprot z 100
      = 2.0e-4 * 1000 * Real.exp (-2 / 100) * (1 + 0.015 * 100)
          * C.CL * C.RE * C.RE * (nprot * (1 + z)) * (nprot * (1 + z)) := by
  have h : (100 : ℝ) ≤ 1.0e2 := by norm_num
  simp only [get_ndotee, if_pos h, hL.pow_eq, hL.exp_eq, real_pow_hundred]
  norm_num

/-- Above the threshold, `theta > 100`, `get_ndotee` is its high-temperature
formula. -/
theorem get_ndotee_above (L : Libm ℝ) (hL : L.IsReal) (C : Consts ℝ) (nprot z theta : ℝ)
    (h : 100 < theta) :
    get_ndotee L C nprot z theta
      = 112 / 27 / Real.pi * (C.alphaf * C.alphaf) * Real.log theta ^ 3 / (1 + 0.058 / theta)
          * C.CL * C.RE * C.RE * (nprot * (1 + z)) * (nprot * (1 + z)) := by
  have hn : ¬ (theta ≤ 1.0e2) := by norm_num; exact h
  simp only [get_ndotee, if_neg hn, hL.pow_eq, hL.log_eq, hL.pi_eq, real_pow_three]
  norm_num

/-- The limit of `get_ndotee` as `theta → 100` from above is the high-temperature
formula evaluated at `theta = 100`. -/
theorem get_ndotee_limit (L : Libm ℝ) (hL : L.IsReal) (C : Consts ℝ) (nprot z : ℝ) :
    Tendsto (fun theta => get_ndotee L C nprot z theta) (𝓝[>] (100 : ℝ))
      (𝓝 (112 / 27 / Real.pi * (C.alphaf * C.alphaf) * Real.log 100 ^ 3 / (1 + 0.058 / 100)
          * C.CL * C.RE * C.RE * (nprot * (1 + z)) * (nprot * (1 + z)))) := by
  have hcont : ContinuousAt (fun theta : ℝ =>
      112 / 27 / Real.pi * (C.alphaf * C.alphaf) * Real.log theta ^ 3 / (1 + 0.058 / theta)
          * C.CL * C.RE * C.RE * (nprot * (1 + z)) * (nprot * (1 + z))) 100 := by
    have hlog : ContinuousAt Real.log (100 : ℝ) := Real.continuousAt_log (by norm_num)
    have hid : ContinuousAt (fun theta : ℝ => theta) 100 := continuousAt_id
    have hden : ContinuousAt (fun theta : ℝ => 1 + 0.058 / theta) 100 :=
      continuousAt_const.add (continuousAt_const.div hid (by norm_num))
    have hnum : ContinuousAt (fun theta : ℝ =>
        112 / 27 / Real.pi * (C.alphaf * C.alphaf) * Real.log theta ^ 3) 100 :=
      continuousAt_const.mul (hlog.pow 3)
    have hq := hnum.div hden (by norm_num)
    exact ((((hq.mul continuousAt_const).mul continuousAt_const).mul continuousAt_const).mul
      continuousAt_const).mul continuousAt_const
  have ht := tendsto_nhdsWithin_of_tendsto_nhds (s := Set.Ioi (100 : ℝ)) hcont.tendsto
  refine ht.congr' ?_
  filter_upwards [self_mem_nhdsWithin] with theta htheta
  exact (get_ndotee_above L hL C nprot z theta htheta).symm

/-- The two branch formulas at `theta = 100`, without the common factor: for
`0 < alphaf ≤ 0.0073` fifty times the high-temperature value is below the
low-temperature value. -/
theorem branch_values_hundred (a : ℝ) (ha0 : 0 < a) (ha : a ≤ 0.0073) :
    0 < 112 / 27 / Real.pi * (a * a) * Real.log 100 ^ 3 / (1 + 0.058 / 100)
      ∧ 50 * (112 / 27 / Real.pi * (a * a) * Real.log 100 ^ 3 / (1 + 0.058 / 100))
          < 2.0e-4 * 1000 * Real.exp (-2 / 100) * (1 + 0.015 * 100) := by
  obtain ⟨hl4, hl⟩ := log_hundred_bounds
  have hpi := Real.pi_gt_d2
  have hpi0 := Real.pi_pos
  have hexp : (0.98 : ℝ) ≤ Real.exp (-2 / 100) := by
    have := Real.add_one_le_exp (-2 / 100 : ℝ)
    norm_num at this ⊢
    linarith
  have hl0 : 0 < Real.log 100 := by linarith
  have hcube : Real.log 100 ^ 3 ≤ 4.66 ^ 3 := pow_le_pow_left₀ hl0.le hl.le 3
  have hsq : a * a ≤ 0.0073 * 0.0073 := mul_le_mul ha ha ha0.le (by norm_num)
  have hprod : a * a * Real.log 100 ^ 3 ≤ 0.0073 * 0.0073 * 4.66 ^ 3 :=
    mul_le_mul hsq hcube (by positivity) (by norm_num)
  have hl3 : 0 < Real.log 100 ^ 3 := by positivity
  constructor
  · positivity
  · generalize Real.exp (-2 / 100) = e at hexp ⊢
    generalize Real.log 100 ^ 3 = l3 at hcube hprod hl3 ⊢
    have hinv : 112 / 27 / Real.pi ≤ 112 / 27 / 3.14 :=
      div_le_div_of_nonneg_left (by norm_num) (by norm_num) hpi.le
    have hP0 : 0 ≤ a * a * l3 := by positivity
    have hc0 : 0 ≤ 112 / 27 / Real.pi := by positivity
    have h1 : 112 / 27 / Real.pi * (a * a * l3)
        ≤ 112 / 27 / 3.14 * (0.0073 * 0.0073 * 4.66 ^ 3) :=
      mul_le_mul hinv hprod hP0 (by norm_num)
    have h2 : 112 / 27 / Real.pi * (a * a) * l3 / (1 + 0.058 / 100)
        ≤ 112 / 27 / Real.pi * (a * a * l3) := by
      rw [mul_assoc]
      apply div_le_self (mul_nonneg hc0 hP0)
      norm_num
    have h3 : (50 : ℝ) * (112 / 27 / 3.14 * (0.0073 * 0.0073 * 4.66 ^ 3)) < 0.49 := by
      norm_num
    have h4 : (0.49 : ℝ) ≤ 2.0e-4 * 1000 * e * (1 + 0.015 * 100) := by
      norm_num at hexp ⊢
      linarith
    linarith

/-- The jump of `get_ndotee` at `theta = 100` for a positive common factor: the
limit from above is positive and fifty times smaller than the value at 100. -/
theorem get_ndotee_jump_size (L : Libm ℝ) (hL : L.IsReal) (C : Consts ℝ)
    (ha0 : 0 < C.alphaf) (ha : C.alphaf ≤ 0.0073) (hc : 0 < C.CL) (hr : C.RE ≠ 0)
    (nprot z : ℝ) (hn : 0 < nprot) (hz : 0 ≤ z) :
    0 < 112 / 27 / Real.pi * (C.alphaf * C.alphaf) * Real.log 100 ^ 3 / (1 + 0.058 / 100)
          * C.CL * C.RE * C.RE * (nprot * (1 + z)) * (nprot * (1 + z))
      ∧ 50 * (112 / 27 / Real.pi * (C.alphaf * C.alphaf) * Real.log 100 ^ 3 / (1 + 0.058 / 100)
          * C.CL * C.RE * C.RE * (nprot * (1 + z)) * (nprot * (1 + z)))
        < get_ndotee L C nprot z 100 := by
  obtain ⟨h0, h50⟩ := branch_values_hundred C.alphaf ha0 ha
  have hK : 0 < C.CL * (C.RE * C.RE) * ((nprot * (1 + z)) * (nprot * (1 + z))) := by
    have := mul_self_pos.mpr hr
    positivity
  rw [get_ndotee_at_threshold L hL]
  generalize 112 / 27 / Real.pi * (C.alphaf * C.alphaf) * Real.log 100 ^ 3 / (1 + 0.058 / 100)
    = hi at h0 h50 ⊢
  generalize 2.0e-4 * 1000 * Real.exp (-2 / 100) * (1 + 0.015 * 100) = lo at h50 ⊢
  generalize hKe : C.CL * (C.RE * C.RE) * ((nprot * (1 + z)) * (nprot * (1 + z))) = K at hK
  have e1 : hi * C.CL * C.RE * C.RE * (nprot * (1 + z)) * (nprot * (1 + z)) = hi * K := by
    rw [← hKe]; ring
  have e2 : lo * C.CL * C.RE * C.RE * (nprot * (1 + z)) * (nprot * (1 + z)) = lo * K := by
    rw [← hKe]; ring
  rw [e1, e2]
  constructor
  · positivity
  · nlinarith

/-- C12, as the code has it.  At its threshold `theta = 1.0e2` the rate
`get_ndotee` is not continuous: for `nprot > 0`, `z ≥ 0` and `0 < alphaf ≤ 0.0073`,
with the common factor `CL*RE^2*(nprot*(1+z))^2`, the value at `theta = 100` is that
of the low-temperature branch, `2e-4 * 100^1.5 * exp(-2/100) * (1 + 0.015*100)`, the
limit as `theta → 100` from above is that of the high-temperature branch,
`(112/(27π)) * alphaf^2 * (ln 100)^3 / (1 + 0.058/100)`, and the limit is positive and
less than one fiftieth of the value: the rate jumps down at the threshold. -/
theorem get_ndotee_threshold_jump (L : Libm ℝ) (hL : L.IsReal) (C : Consts ℝ)
    (ha0 : 0 < C.alphaf) (ha : C.alphaf ≤ 0.0073) (hc : 0 < C.CL) (hr : C.RE ≠ 0)
    (nprot z : ℝ) (hn : 0 < nprot) (hz : 0 ≤ z) :
    ∃ lim : ℝ,
      Tendsto (fun theta => get_ndotee L C nprot z theta) (𝓝[>] (100 : ℝ)) (𝓝 lim)
      ∧ lim = 112 / 27 / Real.pi * (C.alphaf * C.alphaf) * Real.log 100 ^ 3
                / (1 + 0.058 / 100)
                * C.CL * C.RE * C.RE * (nprot * (1 + z)) * (nprot * (1 + z))
      ∧ get_ndotee L C nprot z 100
          = 2.0e-4 * 1000 * Real.exp (-2 / 100) * (1 + 0.015 * 100)
              * C.CL * C.RE * C.RE * (nprot * (1 + z)) * (nprot * (1 + z))
      ∧ 0 < lim ∧ 50 * lim < get_ndotee L C nprot z 100 := by
  obtain ⟨h0, h50⟩ := get_ndotee_jump_size L hL C ha0 ha hc hr nprot z hn hz
  exact ⟨_, get_ndotee_limit L hL C nprot z, rfl, get_ndotee_at_threshold L hL C nprot z,
    h0, h50⟩

/-- Witness of C12 as amended: the cgs constants, `nprot = 1e15`, `z = 0`. -/
theorem get_ndotee_threshold_jump_witness :
    ∃ (L : Libm ℝ) (lim : ℝ), L.IsReal
      ∧ Tendsto (fun theta => get_ndotee L (cgs 2 0.5) 1e15 0 theta) (𝓝[>] (100 : ℝ)) (𝓝 lim)
      ∧ 0 < lim ∧ 50 * lim < get_ndotee L (cgs 2 0.5) 1e15 0 100 := by
  obtain ⟨L, _, hL, _⟩ := exists_real_libs
  obtain ⟨lim, h1, _, _, h4, h5⟩ := get_ndotee_threshold_jump L hL (cgs 2 0.5)
    (by norm_num [cgs]) (by norm_num [cgs]) (by norm_num [cgs]) (by norm_num [cgs])
    1e15 0 (by norm_num) (le_refl 0)
  exact ⟨L, lim, hL, h1, h4, h5⟩

/-- C12 as stated fails.  With the cgs constants, `nprot = 1e15` and `z = 0`, the
value of `get_ndotee` at `theta = 100` and its limit from above do not agree to
within 5%: their difference exceeds 5% of the larger of the two. -/
theorem get_ndotee_continuity_counterexample :
    ∃ (L : Libm ℝ) (lim : ℝ), L.IsReal
      ∧ Tendsto (fun theta => get_ndotee L (cgs 2 0.5) 1e15 0 theta) (𝓝[>] (100 : ℝ)) (𝓝 lim)
      ∧ ¬ (|get_ndotee L (cgs 2 0.5) 1e15 0 100 - lim|
            ≤ 0.05 * max |get_ndotee L (cgs 2 0.5) 1e15 0 100| |lim|) := by
  obtain ⟨L, _, hL, _⟩ := exists_real_libs
  obtain ⟨h0, h50⟩ := get_ndotee_jump_size L hL (cgs 2 0.5)
    (by norm_num [cgs]) (by norm_num [cgs]) (by norm_num [cgs]) (by norm_num [cgs])
    1e15 0 (by norm_num) (le_refl 0)
  refine ⟨L, _, hL, get_ndotee_limit L hL (cgs 2 0.5) 1e15 0, ?_⟩
  generalize 112 / 27 / Real.pi * ((cgs (2 : ℝ) 0.5).alphaf * (cgs (2 : ℝ) 0.5).alphaf)
      * Real.log 100 ^ 3 / (1 + 0.058 / 100) * (cgs (2 : ℝ) 0.5).CL * (cgs (2 : ℝ) 0.5).RE
      * (cgs (2 : ℝ) 0.5).RE * (1e15 * (1 + 0)) * (1e15 * (1 + 0)) = lim at h0 h50 ⊢
  generalize get_ndotee L (cgs 2 0.5) 1e15 0 100 = v at h50 ⊢
  have hv : 0 < v := by linarith
  have hmax : max |v| |lim| = v := by
    rw [abs_of_pos hv, abs_of_pos h0]
    exact max_eq_left (by linarith)
  rw [hmax, abs_of_pos (by linarith)]
  intro h
  norm_num at h
  linarith

end Threshold

/-! ## Composition of the net rate -/

section Composition
variable {F : Type} [LinearOrderedField F]

/-- When `find_xs` returns `nus`, `find_ndots` returns the Wien fraction and the
synchrotron rate computed from it. -/
theorem find_ndots_ok (L : Libm F) (G : Gsl F) (C : Consts F)
    (thetae taut nprot zfrac h_scale bfield nus : F)
    (hxs : find_xs L C thetae nprot zfrac (C.QE * bfield / 2.0 / L.M_PI / C.ME / C.CL) h_scale
      = Except.ok nus) :
    find_ndots L G C thetae taut nprot zfrac h_scale bfield
      = Except.ok (fraction L G (C.hplanck * nus / C.ME / C.CL / C.CL) taut thetae,
          find_ndots_rate L G C thetae nprot zfrac h_scale
            (C.QE * bfield / 2.0 / L.M_PI / C.ME / C.CL) nus) := by
  simp only [find_ndots, hxs, bind, Except.bind, pure, Except.pure]

/-- C13.  Composition of the net rate: `ncdot` is the sum of exactly the five
channels `get_ndotee`, `get_ndotww`, `get_ndotwp`, `get_ndotwe`, `get_ndotwf`; and
on every input on which `find_xm` returns `xm` and `find_xs` returns `nus`,
`ndot_net` returns `ncdot(ng, theta, nprot, z, n1) - nadot(z, nprot, theta)`, where
`ng` and `n1` are the Wien and flat photon densities computed from the same
inputs and from `xm`, `nus`. -/
theorem net_rate_composition (L : Libm F) (G : Gsl F) (C : Consts F)
    (zfrac taut nprot theta r_size bfield xm nus : F)
    (hxm : find_xm L G C zfrac taut nprot theta = Except.ok xm)
    (hxs : find_xs L C theta nprot zfrac (C.QE * bfield / 2.0 / L.M_PI / C.ME / C.CL) r_size
      = Except.ok nus) :
    (∀ ngamma th np z n1 : F,
        ncdot L C ngamma th np z n1
          = get_ndotee L C np z th + get_ndotww L C ngamma th + get_ndotwp L C ngamma np th
            + get_ndotwe L C ngamma np z th + get_ndotwf L C n1 ngamma th)
      ∧ ndot_net L G C zfrac taut nprot theta r_size bfield
          = Except.ok
              (ncdot L C
                  (ndot_net_ng L G C zfrac taut nprot theta r_size xm
                    (fraction L G (C.hplanck * nus / C.ME / C.CL / C.CL) taut theta)
                    (find_ndots_rate L G C theta nprot zfrac r_size
                      (C.QE * bfield / 2.0 / L.M_PI / C.ME / C.CL) nus))
                  theta nprot zfrac (ndot_net_n1 L C taut theta xm)
                - nadot L C zfrac nprot theta) := by
  constructor
  · intro ngamma th np z n1
    rfl
  · have hnd := find_ndots_ok L G C theta taut nprot zfrac r_size bfield nus hxs
    simp only [ndot_net, hxm, hnd, bind, Except.bind, pure, Except.pure]
    rfl

end Composition

section CompositionWitness

/-- At the sample cell `find_xs` returns. -/
theorem sample_find_xs (L : Libm ℝ) (hL : L.IsReal) :
    ∃ nus, find_xs L (cgs 2 0.5) 1 1e15 0
      ((cgs (2 : ℝ) 0.5).QE * 1e3 / 2.0 / L.M_PI / (cgs (2 : ℝ) 0.5).ME / (cgs (2 : ℝ) 0.5).CL)
      1e6 = Except.ok nus := by
  have hpi := Real.pi_pos
  have hv0 : 0 < (cgs (2 : ℝ) 0.5).QE * 1e3 / 2.0 / L.M_PI / (cgs (2 : ℝ) 0.5).ME
      / (cgs (2 : ℝ) 0.5).CL := by
    rw [hL.pi_eq]
    simp only [cgs]
    positivity
  have hA : 0 ≤ find_xs_A_fac L (cgs 2 0.5) 1 1e15 0
      ((cgs (2 : ℝ) 0.5).QE * 1e3 / 2.0 / L.M_PI / (cgs (2 : ℝ) 0.5).ME
        / (cgs (2 : ℝ) 0.5).CL) 1e6 := by
    generalize (cgs (2 : ℝ) 0.5).QE * 1e3 / 2.0 / L.M_PI / (cgs (2 : ℝ) 0.5).ME
      / (cgs (2 : ℝ) 0.5).CL = v0 at hv0 ⊢
    simp only [find_xs_A_fac, hL.sqrt_eq, hL.pow_eq, cgs]
    positivity
  exact ⟨_, find_xs_first L hL (cgs 2 0.5) 1 1e15 0 _ 1e6 (by norm_num [cgs]) hA⟩

/-- Witness of C13: at the sample cell both solvers return, and the net rate is
the creation rate minus the annihilation rate. -/
theorem net_rate_composition_witness :
    ∃ (L : Libm ℝ) (G : Gsl ℝ) (xm nus : ℝ), L.IsReal ∧ G.IsReal
      ∧ find_xm L G (cgs 2 0.5) 0 2 1e15 1 = Except.ok xm
      ∧ find_xs L (cgs 2 0.5) 1 1e15 0
          ((cgs (2 : ℝ) 0.5).QE * 1e3 / 2.0 / L.M_PI / (cgs (2 : ℝ) 0.5).ME
            / (cgs (2 : ℝ) 0.5).CL) 1e6 = Except.ok nus
      ∧ ndot_net L G (cgs 2 0.5) 0 2 1e15 1 1e6 1e3
          = Except.ok
              (ncdot L (cgs 2 0.5)
                  (ndot_net_ng L G (cgs 2 0.5) 0 2 1e15 1 1e6 xm
                    (fraction L G ((cgs (2 : ℝ) 0.5).hplanck * nus / (cgs (2 : ℝ) 0.5).ME
                      / (cgs (2 : ℝ) 0.5).CL / (cgs (2 : ℝ) 0.5).CL) 2 1)
                    (find_ndots_rate L G (cgs 2 0.5) 1 1e15 0 1e6
                      ((cgs (2 : ℝ) 0.5).QE * 1e3 / 2.0 / L.M_PI / (cgs (2 : ℝ) 0.5).ME
                        / (cgs (2 : ℝ) 0.5).CL) nus))
                  1 1e15 0 (ndot_net_n1 L (cgs 2 0.5) 2 1 xm)
                - nadot L (cgs 2 0.5) 0 1e15 1) := by
  obtain ⟨L, G, hL, hG⟩ := exists_real_libs
  obtain ⟨xc, _, _, hxm⟩ := find_xm_first L hL G (cgs 2 0.5) 0 2 1e15 1
    (by norm_num [cgs]) (sample_bracket L hL G hG)
  obtain ⟨nus, hxs⟩ := sample_find_xs L hL
  exact ⟨L, G, _, nus, hL, hG, hxm, hxs,
    (net_rate_composition L G (cgs 2 0.5) 0 2 1e15 1 1e6 1e3 _ nus hxm hxs).2⟩

end CompositionWitness

/-! ## The unit system -/

section UnitSystem

/-- The real power `pow(x, -3.0)` of a positive `x` is `1/x^3`. -/
theorem real_pow_neg_three (x : ℝ) (hx : 0 < x) : x ^ (-3.0 : ℝ) = 1 / x ^ 3 := by
  rw [show (-3.0 : ℝ) = -((3 : ℕ) : ℝ) by norm_num, Real.rpow_neg hx.le, Real.rpow_natCast,
    one_div]

/-- C14.  Unit system: after `set_units`, for positive constants `CL`, `GNEWT`,
`MSUN` and inputs `mbh > 0`, `M_unit > 0`:
`L_unit = GNEWT*mbh*MSUN/CL^2`, `T_unit = L_unit/CL`, `RHO_unit = M_unit/L_unit^3`,
`U_unit = RHO_unit*CL^2` and `B_unit = CL*sqrt(4*pi*RHO_unit)`; hence
`L_unit = CL*T_unit` and `B_unit^2 = 4*pi*U_unit`; and doubling `mbh` at fixed
`M_unit` doubles `L_unit` and `T_unit` and divides `RHO_unit` by 8. -/
theorem set_units_relations (L : Libm ℝ) (hL : L.IsReal) (C : Consts ℝ)
    (hCL : 0 < C.CL) (hG : 0 < C.GNEWT) (hS : 0 < C.MSUN)
    (mbh M_unit : ℝ) (hm : 0 < mbh) (hM : 0 < M_unit) :
    (set_units L C mbh M_unit).L_unit = C.GNEWT * mbh * C.MSUN / C.CL ^ 2
      ∧ (set_units L C mbh M_unit).T_unit = (set_units L C mbh M_unit).L_unit / C.CL
      ∧ (set_units L C mbh M_unit).RHO_unit = M_unit / (set_units L C mbh M_unit).L_unit ^ 3
      ∧ (set_units L C mbh M_unit).U_unit = (set_units L C mbh M_unit).RHO_unit * C.CL ^ 2
      ∧ (set_units L C mbh M_unit).B_unit
          = C.CL * Real.sqrt (4 * Real.pi * (set_units L C mbh M_unit).RHO_unit)
      ∧ (set_units L C mbh M_unit).L_unit = C.CL * (set_units L C mbh M_unit).T_unit
      ∧ (set_units L C mbh M_unit).B_unit ^ 2
          = 4 * Real.pi * (set_units L C mbh M_unit).U_unit
      ∧ (set_units L C (2 * mbh) M_unit).L_unit = 2 * (set_units L C mbh M_unit).L_unit
      ∧ (set_units L C (2 * mbh) M_unit).T_unit = 2 * (set_units L C mbh M_unit).T_unit
      ∧ (set_units L C (2 * mbh) M_unit).RHO_unit
          = (set_units L C mbh M_unit).RHO_unit / 8 := by
  have hpi := Real.pi_pos
  have hL0 : 0 < C.GNEWT * (mbh * C.MSUN) / (C.CL * C.CL) := by positivity
  have hL2 : 0 < C.GNEWT * (2 * mbh * C.MSUN) / (C.CL * C.CL) := by positivity
  have e4 : (4.0 : ℝ) = 4 := by norm_num
  simp only [set_units, hL.pow_eq, hL.sqrt_eq, hL.pi_eq, real_pow_neg_three _ hL0,
    real_pow_neg_three _ hL2, e4]
  have hrho : 0 ≤ 4 * Real.pi * (M_unit * (1 / (C.GNEWT * (mbh * C.MSUN) / (C.CL * C.CL)) ^ 3)) := by
    positivity
  refine ⟨by ring, trivial, by ring, by ring, trivial, ?_, ?_, by ring, by ring, ?_⟩
  · field_simp
    ring
  · rw [mul_pow, Real.sq_sqrt hrho]
    ring
  · field_simp
    ring

/-- Witness of C14: the cgs constants, a black hole of ten solar masses and
`M_unit = 1e10`. -/
theorem set_units_relations_witness :
    ∃ L : Libm ℝ, L.IsReal
      ∧ (set_units L (cgs 2 0.5) 10 1e10).L_unit
          = (cgs (2 : ℝ) 0.5).CL * (set_units L (cgs 2 0.5) 10 1e10).T_unit
      ∧ (set_units L (cgs 2 0.5) 10 1e10).B_unit ^ 2
          = 4 * Real.pi * (set_units L (cgs 2 0.5) 10 1e10).U_unit
      ∧ (set_units L (cgs 2 0.5) (2 * 10) 1e10).RHO_unit
          = (set_units L (cgs 2 0.5) 10 1e10).RHO_unit / 8 := by
  obtain ⟨L, _, hL, _⟩ := exists_real_libs
  obtain ⟨_, _, _, _, _, h6, h7, _, _, h10⟩ := set_units_relations L hL (cgs 2 0.5)
    (by norm_num [cgs]) (by norm_num [cgs]) (by norm_num [cgs]) 10 1e10 (by norm_num)
    (by norm_num)
  exact ⟨L, hL, h6, h7, h10⟩

end UnitSystem

/-! ## The optical depth strategies -/

section Closure
variable {F : Type} [LinearOrderedField F]

/-- Under `DIRECT_1` the optical depth is `(2.0*npost + nprot)*h_th*sigma_t` by
its assignment. -/
theorem optical_depth_direct1 (L : Libm F) (G : Gsl F) (C : Consts F) (U : Units F) (E : Ext F)
    (Ss : FluidState F) (i j k : Nat) (rad theta nprot npost ntot : F) :
    (optical_depth L G C U E Compute.DIRECT_1 Ss i j k rad theta nprot npost ntot).1
      = (2.0 * npost + nprot)
        * (optical_depth L G C U E Compute.DIRECT_1 Ss i j k rad theta nprot npost ntot).2
        * C.sigma_t :=
  rfl

/-- Under `DIRECT_2` the scale height is `tau_depth/sigma_t/ntot` by its
assignment. -/
theorem optical_depth_direct2 (L : Libm F) (G : Gsl F) (C : Consts F) (U : Units F) (E : Ext F)
    (Ss : FluidState F) (i j k : Nat) (rad theta nprot npost ntot : F) :
    (optical_depth L G C U E Compute.DIRECT_2 Ss i j k rad theta nprot npost ntot).2
      = (optical_depth L G C U E Compute.DIRECT_2 Ss i j k rad theta nprot npost ntot).1
        / C.sigma_t / ntot :=
  rfl

/-- Under `GAUSSIAN` the scale height is `tau_depth/sigma_t/ntot` by its
assignment. -/
theorem optical_depth_gaussian (L : Libm F) (G : Gsl F) (C : Consts F) (U : Units F) (E : Ext F)
    (Ss : FluidState F) (i j k : Nat) (rad theta nprot npost ntot : F) :
    (optical_depth L G C U E Compute.GAUSSIAN Ss i j k rad theta nprot npost ntot).2
      = (optical_depth L G C U E Compute.GAUSSIAN Ss i j k rad theta nprot npost ntot).1
        / C.sigma_t / ntot :=
  rfl

/-- The optical depth and scale height among the locals of the cell are those of
`optical_depth` for the cell's radius, angle and densities. -/
theorem cell_locals_depth (L : Libm F) (G : Gsl F) (C : Consts F) (U : Units F) (E : Ext F)
    (cmp : Compute) (Ss : FluidState F) (i j k : Nat) (dt_step : F) :
    (cell_locals L G C U E cmp Ss i j k dt_step).tau_depth
        = (optical_depth L G C U E cmp Ss i j k (E.bl_rad i j k) (E.bl_theta i j k)
            (Ss.P E.RHO k j i * U.RHO_unit / C.MP) (Ss.P E.RPL k j i * U.RHO_unit / C.ME)
            (2 * (Ss.P E.RPL k j i * U.RHO_unit / C.ME)
              + Ss.P E.RHO k j i * U.RHO_unit / C.MP)).1
      ∧ (cell_locals L G C U E cmp Ss i j k dt_step).h_th
        = (optical_depth L G C U E cmp Ss i j k (E.bl_rad i j k) (E.bl_theta i j k)
            (Ss.P E.RHO k j i * U.RHO_unit / C.MP) (Ss.P E.RPL k j i * U.RHO_unit / C.ME)
            (2 * (Ss.P E.RPL k j i * U.RHO_unit / C.ME)
              + Ss.P E.RHO k j i * U.RHO_unit / C.MP)).2
      ∧ (cell_locals L G C U E cmp Ss i j k dt_step).nprot
        = Ss.P E.RHO k j i * U.RHO_unit / C.MP
      ∧ (cell_locals L G C U E cmp Ss i j k dt_step).npost
        = Ss.P E.RPL k j i * U.RHO_unit / C.ME :=
  ⟨rfl, rfl, rfl, rfl⟩

/-- C15.  Closure relation shared by the three optical depth strategies: whichever
of `DIRECT_1`, `DIRECT_2`, `GAUSSIAN` is compiled in, the pair `(tau_depth, h_th)`
that `pair_production_1zone` hands to `ndot_net` satisfies
`tau_depth = (2*npost + nprot)*h_th*sigma_t` for the target cell, given
`2*npost + nprot > 0` and `sigma_t > 0`. -/
theorem closure_relation (L : Libm F) (G : Gsl F) (C : Consts F) (U : Units F) (E : Ext F)
    (cmp : Compute) (Ss : FluidState F) (i j k : Nat) (dt_step : F)
    (hn : 0 < 2 * (cell_locals L G C U E cmp Ss i j k dt_step).npost
            + (cell_locals L G C U E cmp Ss i j k dt_step).nprot)
    (hs : 0 < C.sigma_t) :
    (cell_locals L G C U E cmp Ss i j k dt_step).tau_depth
      = (2 * (cell_locals L G C U E cmp Ss i j k dt_step).npost
          + (cell_locals L G C U E cmp Ss i j k dt_step).nprot)
        * (cell_locals L G C U E cmp Ss i j k dt_step).h_th * C.sigma_t := by
  obtain ⟨h1, h2, h3, h4⟩ := cell_locals_depth L G C U E cmp Ss i j k dt_step
  rw [h3, h4] at hn
  rw [h1, h2, h3, h4]
  have key : ∀ T n s : F, 0 < n → 0 < s → T = n * (T / s / n) * s := by
    intro T n s hn0 hs0
    field_simp
    ring
  cases cmp
  · rw [optical_depth_direct1]
    norm_num
  · rw [optical_depth_direct2]
    exact key _ _ _ hn hs
  · rw [optical_depth_gaussian]
    exact key _ _ _ hn hs

/-- Witness of C15: the sample zone, cell `(0, 5, 0)`, under each of the three
strategies. -/
theorem closure_relation_witness :
    ∃ (L : Libm ℝ) (G : Gsl ℝ), L.IsReal ∧ G.IsReal ∧ ∀ cmp : Compute,
      (cell_locals L G (cgs 2 0.5) zone_units (zone_ext (Real.pi / 2)) cmp zone_state
          0 5 0 1).tau_depth
        = (2 * (cell_locals L G (cgs 2 0.5) zone_units (zone_ext (Real.pi / 2)) cmp zone_state
              0 5 0 1).npost
            + (cell_locals L G (cgs 2 0.5) zone_units (zone_ext (Real.pi / 2)) cmp zone_state
              0 5 0 1).nprot)
          * (cell_locals L G (cgs 2 0.5) zone_units (zone_ext (Real.pi / 2)) cmp zone_state
              0 5 0 1).h_th * (cgs (2 : ℝ) 0.5).sigma_t := by
  obtain ⟨L, G, hL, hG⟩ := exists_real_libs
  refine ⟨L, G, hL, hG, fun cmp => ?_⟩
  exact closure_relation L G (cgs 2 0.5) zone_units (zone_ext (Real.pi / 2)) cmp zone_state
    0 5 0 1 (by norm_num [cell_locals, zone_state, zone_units, zone_ext, cgs])
    (by norm_num [cgs])

end Closure

/-! ## The Gaussian closure: error function and asymptotic series -/

section GaussianClosure

/-- Over the reals the powers in `series_asym` are natural powers. -/
theorem series_asym_real (L : Libm ℝ) (hL : L.IsReal) (x : ℝ) :
    series_asym L x
      = 1 / x - 0.5 / x ^ 3 + 0.75 / x ^ 5 - 1.875 / x ^ 7 + 6.5625 / x ^ 9 := by
  have e3 : x ^ (3.0 : ℝ) = x ^ 3 := by
    rw [show (3.0 : ℝ) = ((3 : ℕ) : ℝ) by norm_num, Real.rpow_natCast]
  have e5 : x ^ (5.0 : ℝ) = x ^ 5 := by
    rw [show (5.0 : ℝ) = ((5 : ℕ) : ℝ) by norm_num, Real.rpow_natCast]
  have e7 : x ^ (7.0 : ℝ) = x ^ 7 := by
    rw [show (7.0 : ℝ) = ((7 : ℕ) : ℝ) by norm_num, Real.rpow_natCast]
  have e9 : x ^ (9.0 : ℝ) = x ^ 9 := by
    rw [show (9.0 : ℝ) = ((9 : ℕ) : ℝ) by norm_num, Real.rpow_natCast]
  simp only [series_asym, hL.pow_eq, e3, e5, e7, e9]
  norm_num

/-- The difference of two values of the error function is the Gaussian integral
between the arguments. -/
theorem erf_sub (G : Gsl ℝ) (hG : G.IsReal) (a b : ℝ) :
    G.sf_erf b - G.sf_erf a
      = 2 / Real.sqrt Real.pi * ∫ t in a..b, Real.exp (-(t ^ 2)) := by
  have hc : Continuous (fun t : ℝ => Real.exp (-(t ^ 2))) := by fun_prop
  rw [hG.erf_eq, hG.erf_eq, ← mul_sub,
    intervalIntegral.integral_interval_sub_left (hc.intervalIntegrable _ _)
      (hc.intervalIntegrable _ _)]

/-- The error function is non-decreasing. -/
theorem erf_sub_nonneg (G : Gsl ℝ) (hG : G.IsReal) (a b : ℝ) (hab : a ≤ b) :
    0 ≤ G.sf_erf b - G.sf_erf a := by
  rw [erf_sub G hG]
  have hpi : 0 < Real.sqrt Real.pi := Real.sqrt_pos.mpr Real.pi_pos
  apply mul_nonneg (by positivity)
  exact intervalIntegral.integral_nonneg hab (fun t _ => (Real.exp_pos _).le)

/-- On the negative axis the increase of the error function over `[a, b]` is at
most `2*(b - a)*exp(-b^2)`. -/
theorem erf_sub_le (G : Gsl ℝ) (hG : G.IsReal) (a b : ℝ) (hab : a ≤ b) (hb : b ≤ 0) :
    G.sf_erf b - G.sf_erf a ≤ 2 * (b - a) * Real.exp (-(b ^ 2)) := by
  rw [erf_sub G hG]
  have hpi : 1 ≤ Real.sqrt Real.pi := by
    rw [Real.one_le_sqrt]
    have := Real.pi_gt_three
    linarith
  have hbound : ∀ t ∈ Set.uIoc a b, ‖Real.exp (-(t ^ 2))‖ ≤ Real.exp (-(b ^ 2)) := by
    intro t ht
    rw [Set.uIoc_of_le hab] at ht
    rw [Real.norm_of_nonneg (Real.exp_pos _).le, Real.exp_le_exp]
    have h1 : t ≤ b := ht.2
    nlinarith
  have hint := intervalIntegral.norm_integral_le_of_norm_le_const hbound
  rw [Real.norm_eq_abs, abs_of_nonneg (sub_nonneg.mpr hab)] at hint
  have hle : (∫ t in a..b, Real.exp (-(t ^ 2))) ≤ Real.exp (-(b ^ 2)) * (b - a) :=
    le_trans (le_abs_self _) hint
  have hI0 : 0 ≤ ∫ t in a..b, Real.exp (-(t ^ 2)) :=
    intervalIntegral.integral_nonneg hab (fun t _ => (Real.exp_pos _).le)
  have h2 : 2 / Real.sqrt Real.pi ≤ 2 := by
    rw [div_le_iff₀ (by linarith)]
    linarith
  calc 2 / Real.sqrt Real.pi * ∫ t in a..b, Real.exp (-(t ^ 2))
      ≤ 2 * ∫ t in a..b, Real.exp (-(t ^ 2)) := mul_le_mul_of_nonneg_right h2 hI0
    _ ≤ 2 * (Real.exp (-(b ^ 2)) * (b - a)) := by linarith
    _ = 2 * (b - a) * Real.exp (-(b ^ 2)) := by ring

/-- The value `exp(-36)` is below `1e-14`. -/
theorem exp_neg_36_small : Real.exp (-(((-6 : ℝ)) ^ 2)) < 1e-14 := by
  have he : Real.exp (-1) < 0.4 := by
    have h := Real.exp_one_gt_d9
    rw [Real.exp_neg]
    have hpos := Real.exp_pos 1
    rw [inv_lt_comm₀ hpos (by norm_num)]
    norm_num at h ⊢
    linarith
  have e : Real.exp (-(((-6 : ℝ)) ^ 2)) = Real.exp (-1) ^ 36 := by
    rw [← Real.exp_nat_mul]
    norm_num
  rw [e]
  calc Real.exp (-1) ^ 36 < 0.4 ^ 36 :=
        pow_lt_pow_left₀ he (Real.exp_pos _).le (by norm_num)
    _ < 1e-14 := by norm_num

/-- For the aspect ratio `h_r = π/(20√2)` and a cell at the polar angle
`π/2 - m*(π/20)`, `m > 0`, the scaled arguments are `t1 = -10` and `t2 = -m`. -/
theorem gaussian_args (L : Libm ℝ) (hL : L.IsReal) (C : Consts ℝ)
    (hr : C.h_r = Real.pi / (20 * Real.sqrt 2)) (m : ℝ) (hm : 0 < m) :
    gaussian_t1 L C (Real.pi / 2 - m * (Real.pi / 20)) = -10
      ∧ gaussian_t2 L C (Real.pi / 2 - m * (Real.pi / 20)) = -m := by
  have hpi := Real.pi_pos
  have hs : 0 < Real.sqrt 2 := Real.sqrt_pos.mpr (by norm_num)
  have hlt : Real.pi / 2 - m * (Real.pi / 20) < L.M_PI_2 := by
    rw [hL.pi2_eq]
    have : 0 < m * (Real.pi / 20) := by positivity
    linarith
  rw [hL.pi2_eq] at hlt
  simp only [gaussian_t1, gaussian_t2, hL.pi2_eq, hL.sqrt_eq, hr, if_pos hlt]
  constructor
  · field_simp
    ring
  · field_simp
    ring

/-- The series is selected when both magnitudes exceed 5. -/
theorem gaussian_dummy_series {F : Type} [LinearOrderedField F] (L : Libm F) (G : Gsl F)
    (C : Consts F) (theta : F)
    (h : |gaussian_t1 L C theta| > 5 ∧ |gaussian_t2 L C theta| > 5) :
    gaussian_dummy L G C theta
      = series_asym L (gaussian_t2 L C theta) - series_asym L (gaussian_t1 L C theta) := by
  have h5 : |gaussian_t1 L C theta| > 5.0 ∧ |gaussian_t2 L C theta| > 5.0 := by
    norm_num
    exact h
  simp only [gaussian_dummy, if_pos h5]

/-- The error function is selected when a magnitude does not exceed 5. -/
theorem gaussian_dummy_erf {F : Type} [LinearOrderedField F] (L : Libm F) (G : Gsl F)
    (C : Consts F) (theta : F)
    (h : |gaussian_t1 L C theta| ≤ 5 ∨ |gaussian_t2 L C theta| ≤ 5) :
    gaussian_dummy L G C theta
      = G.sf_erf (gaussian_t2 L C theta) - G.sf_erf (gaussian_t1 L C theta) := by
  have h5 : ¬ (|gaussian_t1 L C theta| > 5.0 ∧ |gaussian_t2 L C theta| > 5.0) := by
    norm_num
    intro h1
    rcases h with h | h
    · exact absurd h1 (not_lt.mpr h)
    · exact h
  simp only [gaussian_dummy, if_neg h5]

/-- C16, as the code has it.  Under `GAUSSIAN` the optical depth is
`fmin(|nt*(h_r*rad*L_unit)*sqrt(M_PI_2)*dummy*sigma_t|, SMALL)`, where the profile
integral `dummy` is the asymptotic series `series_asym(t2) - series_asym(t1)` when
the magnitudes of both scaled arguments exceed 5, and the error function
`gsl_sf_erf(t2) - gsl_sf_erf(t1)` whenever at least one magnitude does not exceed 5. -/
theorem gaussian_series_selection {F : Type} [LinearOrderedField F] (L : Libm F) (G : Gsl F)
    (C : Consts F) (U : Units F) (E : Ext F) (Ss : FluidState F) (i j k : Nat)
    (rad theta nprot npost ntot : F) :
    (optical_depth L G C U E Compute.GAUSSIAN Ss i j k rad theta nprot npost ntot).1
        = min |(2.0 * (Ss.P E.RPL k ((E.NG + E.N2 + E.NG) / 2) i * U.RHO_unit / C.ME)
                + Ss.P E.RHO k ((E.NG + E.N2 + E.NG) / 2) i * U.RHO_unit / C.MP)
              * (C.h_r * rad * U.L_unit) * L.sqrt L.M_PI_2 * gaussian_dummy L G C theta
              * C.sigma_t| C.SMALL
      ∧ (|gaussian_t1 L C theta| > 5 ∧ |gaussian_t2 L C theta| > 5 →
          gaussian_dummy L G C theta
            = series_asym L (gaussian_t2 L C theta) - series_asym L (gaussian_t1 L C theta))
      ∧ (|gaussian_t1 L C theta| ≤ 5 ∨ |gaussian_t2 L C theta| ≤ 5 →
          gaussian_dummy L G C theta
            = G.sf_erf (gaussian_t2 L C theta) - G.sf_erf (gaussian_t1 L C theta)) := by
  refine ⟨rfl, ?_, ?_⟩
  · intro h
    exact gaussian_dummy_series L G C theta h
  · intro h
    exact gaussian_dummy_erf L G C theta h

/-- C16 as stated fails.  For the aspect ratio `h_r = π/(20√2)` and a cell at the
polar angle `π/2 - 3π/20` the scaled arguments are `t1 = -10` and `t2 = -3`:
`|t1| > 5` and `|t2| ≤ 5`, and the profile integral is evaluated with the error
function, not with the series, whose value is different. -/
theorem gaussian_series_counterexample :
    ∃ (L : Libm ℝ) (G : Gsl ℝ), L.IsReal ∧ G.IsReal
      ∧ |gaussian_t1 L (cgs_h_r (Real.pi / (20 * Real.sqrt 2)))
            (Real.pi / 2 - 3 * (Real.pi / 20))| > 5
      ∧ |gaussian_t2 L (cgs_h_r (Real.pi / (20 * Real.sqrt 2)))
            (Real.pi / 2 - 3 * (Real.pi / 20))| ≤ 5
      ∧ gaussian_dummy L G (cgs_h_r (Real.pi / (20 * Real.sqrt 2)))
            (Real.pi / 2 - 3 * (Real.pi / 20))
          = G.sf_erf (-3) - G.sf_erf (-10)
      ∧ gaussian_dummy L G (cgs_h_r (Real.pi / (20 * Real.sqrt 2)))
            (Real.pi / 2 - 3 * (Real.pi / 20))
          ≠ series_asym L (-3) - series_asym L (-10) := by
  obtain ⟨L, G, hL, hG⟩ := exists_real_libs
  obtain ⟨h1, h2⟩ := gaussian_args L hL
    (cgs_h_r (Real.pi / (20 * Real.sqrt 2))) rfl 3 (by norm_num)
  have herf := gaussian_dummy_erf L G (cgs_h_r (Real.pi / (20 * Real.sqrt 2)))
    (Real.pi / 2 - 3 * (Real.pi / 20)) (Or.inr (by rw [h2]; norm_num))
  rw [h1, h2] at herf
  refine ⟨L, G, hL, hG, by rw [h1]; norm_num, by rw [h2]; norm_num, herf, ?_⟩
  rw [herf]
  have hpos := erf_sub_nonneg G hG (-10) (-3) (by norm_num)
  have hneg : series_asym L (-3) - series_asym L (-10) < 0 := by
    rw [series_asym_real L hL, series_asym_real L hL]
    norm_num
  linarith

/-- C17, the code at a failing input.  For the aspect ratio `h_r = π/(20√2)` and a
cell at the polar angle `π/5` the scaled arguments are `t1 = -10` and `t2 = -6`,
both of magnitude above 5, so the profile integral is
`series_asym(-6) - series_asym(-10)`, which is below `-0.06`, while the quantity it
replaces, `erf(-6) - erf(-10)`, lies between 0 and `1e-13`. -/
theorem series_asym_misses_erf :
    ∃ (L : Libm ℝ) (G : Gsl ℝ), L.IsReal ∧ G.IsReal
      ∧ gaussian_t1 L (cgs_h_r (Real.pi / (20 * Real.sqrt 2)))
            (Real.pi / 2 - 6 * (Real.pi / 20)) = -10
      ∧ gaussian_t2 L (cgs_h_r (Real.pi / (20 * Real.sqrt 2)))
            (Real.pi / 2 - 6 * (Real.pi / 20)) = -6
      ∧ gaussian_dummy L G (cgs_h_r (Real.pi / (20 * Real.sqrt 2)))
            (Real.pi / 2 - 6 * (Real.pi / 20))
          = series_asym L (-6) - series_asym L (-10)
      ∧ series_asym L (-6) - series_asym L (-10) < -0.06
      ∧ 0 ≤ G.sf_erf (-6) - G.sf_erf (-10)
      ∧ G.sf_erf (-6) - G.sf_erf (-10) < 1e-13 := by
  obtain ⟨L, G, hL, hG⟩ := exists_real_libs
  obtain ⟨h1, h2⟩ := gaussian_args L hL
    (cgs_h_r (Real.pi / (20 * Real.sqrt 2))) rfl 6 (by norm_num)
  have hser := gaussian_dummy_series L G
    (cgs_h_r (Real.pi / (20 * Real.sqrt 2)))
    (Real.pi / 2 - 6 * (Real.pi / 20)) (by rw [h1, h2]; norm_num)
  rw [h1, h2] at hser
  have hval : series_asym L (-6) - series_asym L (-10) < -0.06 := by
    rw [series_asym_real L hL, series_asym_real L hL]
    norm_num
  have hle := erf_sub_le G hG (-10) (-6) (by norm_num) (by norm_num)
  have hsmall := exp_neg_36_small
  refine ⟨L, G, hL, hG, h1, h2, hser, hval, erf_sub_nonneg G hG (-10) (-6) (by norm_num), ?_⟩
  refine lt_of_le_of_lt hle ?_
  norm_num at hsmall ⊢
  linarith

end GaussianClosure

/-! ## Frame of the per-cell update -/

section Frame
/-- The assignment `S->P[v][k][j][i] = val` changes no other entry. -/
theorem setP_other {F : Type} (S : FluidState F) (v k j i : Nat) (val : F) (v1 k1 j1 i1 : Nat)
    (h : ¬ (v1 = v ∧ k1 = k ∧ j1 = j ∧ i1 = i)) :
    (S.setP v k j i val).P v1 k1 j1 i1 = S.P v1 k1 j1 i1 := by
  simp only [FluidState.setP, if_neg h]

/-- Every run of the update that returns leaves `Sf` as it was or assigns one
value to `Sf->P[RPL][k][j][i]`, whatever the rate routine. -/
theorem pair_update_writes {F : Type} [LinearOrderedField F] (C : Consts F) (U : Units F) (rate : F → Except Msg F)
    (nprot npost dt_real : F) (Sf : FluidState F) (RPL i j k : Nat) :
    ∀ S1, (pair_update C U rate nprot npost dt_real Sf RPL i j k).Sf = some S1 →
      S1 = Sf ∨ ∃ val, S1 = Sf.setP RPL k j i val := by
  unfold pair_update
  simp only []
  repeat' split
  all_goals
    intro S1 h
    first
      | (left; exact (Option.some.inj h).symm)
      | (right; exact ⟨_, (Option.some.inj h).symm⟩)
      | exact Option.noConfusion h

/-- With a time step `dt_real = 0` and `q_alpha ≥ 0` the update returns whenever
the rate routine returns at the cell's positron fraction: nothing is printed and
the state is `Sf`, or `Sf` with `npost*(ME/RHO_unit)` assigned to the cell. -/
theorem pair_update_zero_dt {F : Type} [LinearOrderedField F] (C : Consts F) (U : Units F)
    (rate : F → Except Msg F) (nprot npost r : F) (Sf : FluidState F) (RPL i j k : Nat)
    (hq : 0 ≤ C.q_alpha) (hr : rate (npost / nprot) = Except.ok r) :
    pair_update C U rate nprot npost 0 Sf RPL i j k
      = { printed := [],
          Sf := some (if |r| > 0.0 then Sf.setP RPL k j i ((npost + r * 0) * (C.ME / U.RHO_unit))
                      else Sf) } := by
  have hnot : ¬ ((0 : F) > C.q_alpha * |npost / r|) :=
    not_lt.mpr (mul_nonneg hq (abs_nonneg _))
  by_cases h : |r| > 0.0
  · simp only [pair_update, hr, h, hnot, if_true, if_false]
  · simp only [pair_update, hr, h, if_false]

/-- C18.  Frame of the per-cell update, for the call through pointers: in every
outcome that returns, the memory after the call differs from the memory before
at most in the entry `Sf->P[RPL][k][j][i]`: no other entry of `Sf->P` is modified,
no other state is modified, and when `Ss` and `Sf` are distinct the state at `Ss`
is unchanged. -/
theorem update_frame {F : Type} [LinearOrderedField F] (L : Libm F) (G : Gsl F) (C : Consts F)
    (U : Units F) (E : Ext F) (cmp : Compute) (mem : Nat → FluidState F) (Ss Sf : Nat)
    (i j k : Nat) (dt_step : F) (mem1 : Nat → FluidState F)
    (hret : (pair_production_1zone_ptr L G C U E cmp mem Ss Sf i j k dt_step).2 = some mem1) :
    (∀ v k1 j1 i1, ¬ (v = E.RPL ∧ k1 = k ∧ j1 = j ∧ i1 = i) →
        (mem1 Sf).P v k1 j1 i1 = (mem Sf).P v k1 j1 i1)
      ∧ (∀ p, p ≠ Sf → mem1 p = mem p)
      ∧ (Ss ≠ Sf → mem1 Ss = mem Ss) := by
  simp only [pair_production_1zone_ptr, Option.map_eq_some'] at hret
  obtain ⟨S1, hS1, hmem⟩ := hret
  have hw := pair_update_writes C U _ _ _ _ (mem Sf) E.RPL i j k S1 hS1
  have hother : ∀ p, p ≠ Sf → mem1 p = mem p := by
    intro p hp
    rw [← hmem]
    simp only [if_neg hp]
  have hself : mem1 Sf = S1 := by
    rw [← hmem]
    simp only [if_true]
  refine ⟨?_, hother, fun h => hother Ss h⟩
  intro v k1 j1 i1 hne
  rw [hself]
  rcases hw with h | ⟨val, h⟩
  · rw [h]
  · rw [h]
    exact setP_other (mem Sf) E.RPL k j i val v k1 j1 i1 hne

end Frame

/-! ## The sample zone -/

section Zone

/-- The bracket of `find_xm` is valid for `z = 0`, `nprot = 1e15`, `theta = 1` and
every optical depth whose `lhs` lies strictly between 0 and 1. -/
theorem zone_bracket (L : Libm ℝ) (hL : L.IsReal) (G : Gsl ℝ) (hG : G.IsReal) (tau : ℝ)
    (h0 : 0 < find_xm_lhs (cgs 2 0.5) 0 tau 1e15 1)
    (h1 : find_xm_lhs (cgs 2 0.5) 0 tau 1e15 1 < 1) :
    ¬ (find_xm_f L G (cgs 2 0.5) 0 1e15 1 (find_xm_lhs (cgs 2 0.5) 0 tau 1e15 1) (-50.0)
        * find_xm_f L G (cgs 2 0.5) 0 1e15 1 (find_xm_lhs (cgs 2 0.5) 0 tau 1e15 1)
            (L.log10 700.0) > 0) := by
  have e1 : L.pow 10.0 (-50.0) = 1e-50 := by rw [hL.pow_eq]; exact real_pow_ten_neg50
  have e2 : L.pow 10.0 (L.log10 700.0) = 700 := by
    rw [hL.pow_eq, hL.log10_eq, real_pow_ten_log10 _ (by norm_num)]
    norm_num
  have hl := sample_fl_pos L hL G hG
  have hr := sample_fr_neg L hL G hG
  simp only [find_xm_f, e1, e2]
  generalize find_xm_lhs (cgs 2 0.5) 0 tau 1e15 1 = lhs at h0 h1 ⊢
  have h3 : 0 < brem_abs L G (cgs 2 0.5) (1e-50 * 1) 0 1e15 1 - lhs := by linarith
  have h4 : brem_abs L G (cgs 2 0.5) (700 * 1) 0 1e15 1 - lhs < 0 := by linarith
  exact not_lt.mpr (le_of_lt (mul_neg_of_pos_of_neg h3 h4))

/-- For `z = 0`, `nprot = 1e15`, `theta = 1`, a field of `1e3` G and every positive
scale height, `find_xs` returns. -/
theorem zone_find_xs (L : Libm ℝ) (hL : L.IsReal) (h : ℝ) (hh : 0 < h) :
    ∃ nus, find_xs L (cgs 2 0.5) 1 1e15 0
      ((cgs (2 : ℝ) 0.5).QE * 1e3 / 2.0 / L.M_PI / (cgs (2 : ℝ) 0.5).ME / (cgs (2 : ℝ) 0.5).CL)
      h = Except.ok nus := by
  have hpi := Real.pi_pos
  have hv0 : 0 < (cgs (2 : ℝ) 0.5).QE * 1e3 / 2.0 / L.M_PI / (cgs (2 : ℝ) 0.5).ME
      / (cgs (2 : ℝ) 0.5).CL := by
    rw [hL.pi_eq]
    simp only [cgs]
    positivity
  have hA : 0 ≤ find_xs_A_fac L (cgs 2 0.5) 1 1e15 0
      ((cgs (2 : ℝ) 0.5).QE * 1e3 / 2.0 / L.M_PI / (cgs (2 : ℝ) 0.5).ME
        / (cgs (2 : ℝ) 0.5).CL) h := by
    generalize (cgs (2 : ℝ) 0.5).QE * 1e3 / 2.0 / L.M_PI / (cgs (2 : ℝ) 0.5).ME
      / (cgs (2 : ℝ) 0.5).CL = v0 at hv0 ⊢
    simp only [find_xs_A_fac, hL.sqrt_eq, hL.pow_eq, cgs]
    positivity
  exact ⟨_, find_xs_first L hL (cgs 2 0.5) 1 1e15 0 _ h (by norm_num [cgs]) hA⟩

/-- For `z = 0`, `nprot = 1e15`, `theta = 1`, a field of `1e3` G, a positive scale
height and an optical depth whose `lhs` lies strictly between 0 and 1, both
solvers return and so does `ndot_net`. -/
theorem zone_ndot_net (L : Libm ℝ) (hL : L.IsReal) (G : Gsl ℝ) (hG : G.IsReal) (tau h : ℝ)
    (h0 : 0 < find_xm_lhs (cgs 2 0.5) 0 tau 1e15 1)
    (h1 : find_xm_lhs (cgs 2 0.5) 0 tau 1e15 1 < 1) (hh : 0 < h) :
    ∃ r, ndot_net L G (cgs 2 0.5) 0 tau 1e15 1 h 1e3 = Except.ok r := by
  obtain ⟨xc, _, _, hxm⟩ := find_xm_first L hL G (cgs 2 0.5) 0 tau 1e15 1
    (by norm_num [cgs]) (zone_bracket L hL G hG tau h0 h1)
  obtain ⟨nus, hxs⟩ := zone_find_xs L hL h hh
  simp only [ndot_net, find_ndots, hxm, hxs, bind, Except.bind, pure, Except.pure]
  exact ⟨_, rfl⟩

/-- The locals of cell `(0, 5, 0)` of the sample zone under `DIRECT_2`: the column
has the three zones 3, 4, 5, each of optical depth `6.65245873e-5`. -/
theorem zone_locals (L : Libm ℝ) (hL : L.IsReal) (G : Gsl ℝ) (dt_step : ℝ) :
    (cell_locals L G (cgs 2 0.5) zone_units (zone_ext (Real.pi / 2)) Compute.DIRECT_2
        zone_state 0 5 0 dt_step).tau_depth = 1.995737619e-4
      ∧ (cell_locals L G (cgs 2 0.5) zone_units (zone_ext (Real.pi / 2)) Compute.DIRECT_2
        zone_state 0 5 0 dt_step).h_th = 3.0e5
      ∧ (cell_locals L G (cgs 2 0.5) zone_units (zone_ext (Real.pi / 2)) Compute.DIRECT_2
        zone_state 0 5 0 dt_step).nprot = 1e15
      ∧ (cell_locals L G (cgs 2 0.5) zone_units (zone_ext (Real.pi / 2)) Compute.DIRECT_2
        zone_state 0 5 0 dt_step).npost = 0
      ∧ (cell_locals L G (cgs 2 0.5) zone_units (zone_ext (Real.pi / 2)) Compute.DIRECT_2
        zone_state 0 5 0 dt_step).thetae = 1
      ∧ (cell_locals L G (cgs 2 0.5) zone_units (zone_ext (Real.pi / 2)) Compute.DIRECT_2
        zone_state 0 5 0 dt_step).bfield = 1e3
      ∧ (cell_locals L G (cgs 2 0.5) zone_units (zone_ext (Real.pi / 2)) Compute.DIRECT_2
        zone_state 0 5 0 dt_step).dt_real = dt_step * (1.0e6 / 2.99792458e10) := by
  have hlt : (zone_ext (Real.pi / 2)).bl_theta 0 5 0 < L.M_PI_2 := by
    rw [hL.pi2_eq]
    simp only [zone_ext]
    norm_num
  have hr : List.range' 3 (5 + 1 - 3) = [3, 4, 5] := rfl
  simp only [cell_locals, optical_depth, if_pos hlt, direct2_sum]
  simp only [zone_ext, hr, List.foldl, zone_state, zone_units, cgs, hL.sqrt_eq]
  norm_num

/-- With `dt_step = 0` the update of cell `(0, 5, 0)` of the sample zone returns. -/
theorem zone_run_returns (L : Libm ℝ) (hL : L.IsReal) (G : Gsl ℝ) (hG : G.IsReal)
    (Sf : FluidState ℝ) :
    ∃ S1, (pair_production_1zone L G (cgs 2 0.5) zone_units (zone_ext (Real.pi / 2))
      Compute.DIRECT_2 zone_state Sf 0 5 0 0).Sf = some S1 := by
  obtain ⟨e1, e2, e3, e4, e5, e6, e7⟩ := zone_locals L hL G 0
  obtain ⟨r, hr⟩ := zone_ndot_net L hL G hG 1.995737619e-4 3.0e5
    (by norm_num [find_xm_lhs, cgs]) (by norm_num [find_xm_lhs, cgs]) (by norm_num)
  have hq : (0 : ℝ) ≤ (cgs (2 : ℝ) 0.5).q_alpha := by norm_num [cgs]
  have hrate : (fun z => ndot_net L G (cgs 2 0.5) z 1.995737619e-4 1e15 1 3.0e5 1e3)
      (0 / 1e15) = Except.ok r := by
    show ndot_net L G (cgs 2 0.5) (0 / 1e15) 1.995737619e-4 1e15 1 3.0e5 1e3 = Except.ok r
    rw [zero_div]
    exact hr
  have hz : (0 : ℝ) * (1.0e6 / 2.99792458e10) = 0 := zero_mul _
  simp only [pair_production_1zone, e1, e2, e3, e4, e5, e6, e7, hz]
  rw [pair_update_zero_dt (cgs 2 0.5) zone_units _ 1e15 0 r Sf _ 0 5 0 hq hrate]
  exact ⟨_, rfl⟩

/-- Witness of C18: cell `(0, 5, 0)` of the sample zone with `dt_step = 0`, the
input state at address 0 and the output state at address 1.  The call returns;
the state at address 0 is unchanged and the state at address 1 is unchanged
outside `P[RPL][0][5][0]`. -/
theorem update_frame_witness :
    ∃ (L : Libm ℝ) (G : Gsl ℝ) (mem1 : Nat → FluidState ℝ), L.IsReal ∧ G.IsReal
      ∧ (pair_production_1zone_ptr L G (cgs 2 0.5) zone_units (zone_ext (Real.pi / 2))
          Compute.DIRECT_2 (fun _ => zone_state) 0 1 0 5 0 0).2 = some mem1
      ∧ (∀ v k1 j1 i1, ¬ (v = (zone_ext (Real.pi / 2)).RPL ∧ k1 = 0 ∧ j1 = 5 ∧ i1 = 0) →
          (mem1 1).P v k1 j1 i1 = (zone_state : FluidState ℝ).P v k1 j1 i1)
      ∧ mem1 0 = zone_state := by
  obtain ⟨L, G, hL, hG⟩ := exists_real_libs
  obtain ⟨S1, hS1⟩ := zone_run_returns L hL G hG zone_state
  have hret : (pair_production_1zone_ptr L G (cgs 2 0.5) zone_units (zone_ext (Real.pi / 2))
      Compute.DIRECT_2 (fun _ => zone_state) 0 1 0 5 0 0).2
      = some (fun p => if p = 1 then S1 else zone_state) := by
    simp only [pair_production_1zone_ptr, hS1, Option.map_some']
  obtain ⟨h1, _, h3⟩ := update_frame L G (cgs 2 0.5) zone_units (zone_ext (Real.pi / 2))
    Compute.DIRECT_2 (fun _ => zone_state) 0 1 0 5 0 0 _ hret
  exact ⟨L, G, _, hL, hG, hret, h1, h3 (by norm_num)⟩

end Zone

/-! ## Agreement of the optical depth strategies -/

section ErrorFunction
open MeasureTheory Set

/-- The Gaussian integrand is integrable on every half-line. -/
theorem gauss_integrableOn (a : ℝ) :
    IntegrableOn (fun t : ℝ => Real.exp (-(t ^ 2))) (Ioi a) := by
  have h := integrable_exp_neg_mul_sq (one_pos : (0 : ℝ) < 1)
  simp only [neg_mul, one_mul] at h
  exact h.integrableOn

/-- The Gaussian integral over the positive half-line. -/
theorem gauss_integral_Ioi : ∫ t in Ioi (0 : ℝ), Real.exp (-(t ^ 2)) = Real.sqrt Real.pi / 2 := by
  have h := integral_gaussian_Ioi 1
  simp only [neg_mul, one_mul, div_one] at h
  exact h

/-- The tail of the Gaussian integral beyond `b ≥ 1/2` is at most `exp(-b^2)`. -/
theorem gauss_tail_le (b : ℝ) (hb : 1 / 2 ≤ b) :
    ∫ t in Ioi b, Real.exp (-(t ^ 2)) ≤ Real.exp (-(b ^ 2)) := by
  have hg : IntegrableOn (fun t : ℝ => Real.exp (b - b ^ 2) * Real.exp (-t)) (Ioi b) := by
    have h := exp_neg_integrableOn_Ioi b (one_pos : (0 : ℝ) < 1)
    simp only [neg_mul, one_mul] at h
    exact h.const_mul _
  have h := setIntegral_mono_on (gauss_integrableOn b) hg measurableSet_Ioi
    (fun t ht => by
      have htb : b < t := ht
      rw [← Real.exp_add, Real.exp_le_exp]
      nlinarith [mul_nonneg (sub_nonneg.mpr htb.le) (by linarith : (0 : ℝ) ≤ t + b - 1)])
  rw [integral_mul_left, integral_exp_neg_Ioi, ← Real.exp_add] at h
  have e : b - b ^ 2 + -b = -(b ^ 2) := by ring
  rw [e] at h
  exact h

/-- The Gaussian integral over `[0, b]` is the integral over the positive
half-line minus the tail beyond `b`. -/
theorem gauss_integral_split (b : ℝ) (hb : 0 ≤ b) :
    (∫ t in (0 : ℝ)..b, Real.exp (-(t ^ 2)))
      = Real.sqrt Real.pi / 2 - ∫ t in Ioi b, Real.exp (-(t ^ 2)) := by
  rw [intervalIntegral.integral_of_le hb, ← gauss_integral_Ioi, ← Ioc_union_Ioi_eq_Ioi hb,
    setIntegral_union (Ioc_disjoint_Ioi (le_refl b)) measurableSet_Ioi
      ((gauss_integrableOn 0).mono_set Ioc_subset_Ioi_self) (gauss_integrableOn b)]
  ring

/-- The error function is odd. -/
theorem erf_neg (G : Gsl ℝ) (hG : G.IsReal) (x : ℝ) : G.sf_erf (-x) = -G.sf_erf x := by
  rw [hG.erf_eq, hG.erf_eq]
  have h := intervalIntegral.integral_comp_neg (a := (0 : ℝ)) (b := x)
    (fun t : ℝ => Real.exp (-(t ^ 2)))
  simp only [neg_sq, neg_zero] at h
  rw [intervalIntegral.integral_symm, h]
  ring

/-- For `b ≥ 1/2` the error function lies between `1 - 2*exp(-b^2)` and 1. -/
theorem erf_large (G : Gsl ℝ) (hG : G.IsReal) (b : ℝ) (hb : 1 / 2 ≤ b) :
    1 - 2 * Real.exp (-(b ^ 2)) ≤ G.sf_erf b ∧ G.sf_erf b ≤ 1 := by
  have hpi : 1 ≤ Real.sqrt Real.pi := by
    rw [Real.one_le_sqrt]
    have := Real.pi_gt_three
    linarith
  have hpi0 : 0 < Real.sqrt Real.pi := by linarith
  have htail := gauss_tail_le b hb
  have htail0 : 0 ≤ ∫ t in Ioi b, Real.exp (-(t ^ 2)) :=
    setIntegral_nonneg measurableSet_Ioi (fun t _ => (Real.exp_pos _).le)
  rw [hG.erf_eq, gauss_integral_split b (by linarith)]
  generalize (∫ t in Ioi b, Real.exp (-(t ^ 2))) = T at htail htail0
  generalize Real.exp (-(b ^ 2)) = e at htail
  have e1 : 2 / Real.sqrt Real.pi * (Real.sqrt Real.pi / 2 - T)
      = 1 - 2 / Real.sqrt Real.pi * T := by
    field_simp
    ring
  have h2 : 2 / Real.sqrt Real.pi ≤ 2 := by
    rw [div_le_iff₀ hpi0]
    linarith
  have h3 : 0 ≤ 2 / Real.sqrt Real.pi := by positivity
  rw [e1]
  constructor
  · nlinarith [mul_le_mul h2 htail htail0 (by norm_num : (0 : ℝ) ≤ 2)]
  · nlinarith [mul_nonneg h3 htail0]

/-- For `a ≥ 0` the Gaussian integral over `[0, a]` lies between `a - a^3/3` and
`a`. -/
theorem gauss_integral_small (a : ℝ) (ha : 0 ≤ a) :
    a - a ^ 3 / 3 ≤ (∫ t in (0 : ℝ)..a, Real.exp (-(t ^ 2)))
      ∧ (∫ t in (0 : ℝ)..a, Real.exp (-(t ^ 2))) ≤ a := by
  have hc : Continuous (fun t : ℝ => Real.exp (-(t ^ 2))) := by fun_prop
  have hp : Continuous (fun t : ℝ => 1 - t ^ 2) := by fun_prop
  have hci : IntervalIntegrable (fun t : ℝ => Real.exp (-(t ^ 2))) volume 0 a :=
    hc.intervalIntegrable 0 a
  have hpi : IntervalIntegrable (fun t : ℝ => 1 - t ^ 2) volume 0 a :=
    hp.intervalIntegrable 0 a
  have h1i : IntervalIntegrable (fun _ : ℝ => (1 : ℝ)) volume 0 a := intervalIntegrable_const
  constructor
  · have h := intervalIntegral.integral_mono_on ha hpi hci (fun t _ => by
        have := Real.add_one_le_exp (-(t ^ 2))
        linarith)
    have e : (∫ t in (0 : ℝ)..a, (1 - t ^ 2)) = a - a ^ 3 / 3 := by
      have h1 : IntervalIntegrable (fun _ : ℝ => (1 : ℝ)) volume 0 a := intervalIntegrable_const
      have h2 : IntervalIntegrable (fun t : ℝ => t ^ 2) volume 0 a :=
        (continuous_pow 2).intervalIntegrable 0 a
      rw [intervalIntegral.integral_sub h1 h2, intervalIntegral.integral_const, integral_pow]
      norm_num
    rw [e] at h
    exact h
  · have h := intervalIntegral.integral_mono_on ha hci h1i (fun t _ => by
        show Real.exp (-(t ^ 2)) ≤ 1
        rw [Real.exp_le_one_iff]
        nlinarith [sq_nonneg t])
    rw [intervalIntegral.integral_const] at h
    simpa using h

end ErrorFunction

section Agreement

/-- The optical depth of cell `(0, 5, 0)` of the sample zone under `DIRECT_1` and
under `DIRECT_2`, for every aspect ratio `h_r`: both are `1.995737619e-4`. -/
theorem zone_direct_depths (L : Libm ℝ) (hL : L.IsReal) (G : Gsl ℝ) (h_r dt_step : ℝ) :
    (cell_locals L G (cgs_h_r h_r) zone_units (zone_ext (Real.pi / 2)) Compute.DIRECT_1
        zone_state 0 5 0 dt_step).tau_depth = 1.995737619e-4
      ∧ (cell_locals L G (cgs_h_r h_r) zone_units (zone_ext (Real.pi / 2)) Compute.DIRECT_2
        zone_state 0 5 0 dt_step).tau_depth = 1.995737619e-4 := by
  have hlt : (zone_ext (Real.pi / 2)).bl_theta 0 5 0 < L.M_PI_2 := by
    rw [hL.pi2_eq]
    simp only [zone_ext]
    norm_num
  have hr : List.range' 3 (5 + 1 - 3) = [3, 4, 5] := rfl
  have habs : ∀ c : ℝ, 0 ≤ c → |Real.pi / 2 - c - Real.pi / 2| = c := by
    intro c hc
    rw [show Real.pi / 2 - c - Real.pi / 2 = -c by ring, abs_neg, abs_of_nonneg hc]
  constructor
  · simp only [cell_locals, optical_depth, if_pos hlt, direct1_sums]
    simp only [zone_ext, hr, List.foldl, zone_state, zone_units, cgs_h_r, cgs, hL.sqrt_eq,
      hL.pi2_eq]
    rw [habs _ (by norm_num), habs _ (by norm_num), habs _ (by norm_num)]
    norm_num
  · simp only [cell_locals, optical_depth, if_pos hlt, direct2_sum]
    simp only [zone_ext, hr, List.foldl, zone_state, zone_units, cgs_h_r, cgs, hL.sqrt_eq]
    norm_num

/-- On the negative axis the increase of the error function over `[a, b]` is at
least `(b - a)*exp(-a^2)`. -/
theorem erf_sub_ge (G : Gsl ℝ) (hG : G.IsReal) (a b : ℝ) (hab : a ≤ b) (hb : b ≤ 0) :
    (b - a) * Real.exp (-(a ^ 2)) ≤ G.sf_erf b - G.sf_erf a := by
  rw [erf_sub G hG]
  have hc : Continuous (fun t : ℝ => Real.exp (-(t ^ 2))) := by fun_prop
  have hpi : Real.sqrt Real.pi ≤ 2 := by
    rw [Real.sqrt_le_iff]
    have := Real.pi_le_four
    constructor <;> norm_num
    linarith
  have hpi0 : 0 < Real.sqrt Real.pi := Real.sqrt_pos.mpr Real.pi_pos
  have hmono : (∫ _t in a..b, Real.exp (-(a ^ 2))) ≤ ∫ t in a..b, Real.exp (-(t ^ 2)) := by
    apply intervalIntegral.integral_mono_on hab intervalIntegrable_const
      (hc.intervalIntegrable _ _)
    intro t ht
    rw [Real.exp_le_exp]
    have h1 : a ≤ t := ht.1
    have h2 : t ≤ b := ht.2
    nlinarith
  rw [intervalIntegral.integral_const, smul_eq_mul] at hmono
  have h1 : 1 ≤ 2 / Real.sqrt Real.pi := by
    rw [le_div_iff₀ hpi0]
    linarith
  have hI : 0 ≤ (b - a) * Real.exp (-(a ^ 2)) :=
    mul_nonneg (sub_nonneg.mpr hab) (Real.exp_pos _).le
  calc (b - a) * Real.exp (-(a ^ 2)) ≤ ∫ t in a..b, Real.exp (-(t ^ 2)) := hmono
    _ = 1 * ∫ t in a..b, Real.exp (-(t ^ 2)) := (one_mul _).symm
    _ ≤ 2 / Real.sqrt Real.pi * ∫ t in a..b, Real.exp (-(t ^ 2)) :=
        mul_le_mul_of_nonneg_right h1 (le_trans hI hmono)

/-- Bounds for `√2`. -/
theorem sqrt_two_bounds : 1.4 ≤ Real.sqrt 2 ∧ Real.sqrt 2 ≤ 1.5 := by
  constructor
  · apply Real.le_sqrt_of_sq_le
    norm_num
  · rw [Real.sqrt_le_iff]
    constructor <;> norm_num

/-- The value `exp(-16)` is at least `3^(-16)`. -/
theorem exp_neg_16_ge : (1 / 3 : ℝ) ^ 16 ≤ Real.exp (-16) := by
  have he : (1 / 3 : ℝ) ≤ Real.exp (-1) := by
    rw [Real.exp_neg, one_div]
    apply inv_anti₀ (Real.exp_pos 1)
    have := Real.exp_one_lt_d9
    linarith
  have e : Real.exp (-16) = Real.exp (-1) ^ 16 := by
    rw [← Real.exp_nat_mul]
    norm_num
  rw [e]
  exact pow_le_pow_left₀ (by norm_num) he 16

/-- Under `GAUSSIAN` the optical depth among the locals of the cell is
`fmin(|nt*(h_r*rad*L_unit)*sqrt(M_PI_2)*dummy*sigma_t|, SMALL)` for the mid-plane
density `nt` and the profile integral `dummy`. -/
theorem cell_gaussian_tau {F : Type} [LinearOrderedField F] (L : Libm F) (G : Gsl F)
    (C : Consts F) (U : Units F) (E : Ext F) (Ss : FluidState F) (i j k : Nat) (dt_step : F) :
    (cell_locals L G C U E Compute.GAUSSIAN Ss i j k dt_step).tau_depth
      = min |(2.0 * (Ss.P E.RPL k ((E.NG + E.N2 + E.NG) / 2) i * U.RHO_unit / C.ME)
                + Ss.P E.RHO k ((E.NG + E.N2 + E.NG) / 2) i * U.RHO_unit / C.MP)
              * (C.h_r * E.bl_rad i j k * U.L_unit) * L.sqrt L.M_PI_2
              * gaussian_dummy L G C (E.bl_theta i j k) * C.sigma_t| C.SMALL :=
  rfl

/-- The profile integral of cell `(0, 5, 0)` of the sample zone for the aspect
ratio `h_r = 0.3` is evaluated with the error function and is at least `4e-8`. -/
theorem zone_gaussian_dummy (L : Libm ℝ) (hL : L.IsReal) (G : Gsl ℝ) (hG : G.IsReal) :
    4e-8 ≤ gaussian_dummy L G (cgs_h_r 0.3) ((zone_ext (Real.pi / 2)).bl_theta 0 5 0) := by
  obtain ⟨hs1, hs2⟩ := sqrt_two_bounds
  have hs0 : 0 < Real.sqrt 2 := by linarith
  have hp1 := Real.pi_gt_three
  have hp2 := Real.pi_lt_d2
  have hth : (zone_ext (Real.pi / 2)).bl_theta 0 5 0 = Real.pi / 2 - 0.2 := by
    simp only [zone_ext]
    norm_num
  have hlt : Real.pi / 2 - 0.2 < Real.pi / 2 := by norm_num
  have ht1 : gaussian_t1 L (cgs_h_r 0.3) (Real.pi / 2 - 0.2)
      = -(Real.pi / 2) / 0.3 / Real.sqrt 2 := by
    simp only [gaussian_t1, hL.pi2_eq, hL.sqrt_eq, if_pos hlt, cgs_h_r]
  have ht2 : gaussian_t2 L (cgs_h_r 0.3) (Real.pi / 2 - 0.2)
      = -0.2 / 0.3 / Real.sqrt 2 := by
    simp only [gaussian_t2, hL.pi2_eq, hL.sqrt_eq, if_pos hlt, cgs_h_r]
    norm_num
  have hd : 0 < 0.3 * Real.sqrt 2 := by positivity
  -- bounds for the two arguments
  have b1 : -4 ≤ -(Real.pi / 2) / 0.3 / Real.sqrt 2 := by
    rw [div_div, le_div_iff₀ hd]
    norm_num at hp2 ⊢
    nlinarith
  have b1' : -(Real.pi / 2) / 0.3 / Real.sqrt 2 ≤ 0 := by
    rw [div_div]
    apply div_nonpos_of_nonpos_of_nonneg _ hd.le
    linarith
  have b2 : -0.2 / 0.3 / Real.sqrt 2 ≤ 0 := by
    rw [div_div]
    apply div_nonpos_of_nonpos_of_nonneg _ hd.le
    norm_num
  have b2' : -1 ≤ -0.2 / 0.3 / Real.sqrt 2 := by
    rw [div_div, le_div_iff₀ hd]
    norm_num at hs1 ⊢
    linarith
  have bdiff : 2 ≤ -0.2 / 0.3 / Real.sqrt 2 - -(Real.pi / 2) / 0.3 / Real.sqrt 2 := by
    rw [← sub_div, ← sub_div, div_div, le_div_iff₀ hd]
    norm_num at hs2 ⊢
    linarith
  have hle : -(Real.pi / 2) / 0.3 / Real.sqrt 2 ≤ -0.2 / 0.3 / Real.sqrt 2 := by linarith
  have herf := gaussian_dummy_erf L G (cgs_h_r 0.3) (Real.pi / 2 - 0.2)
    (Or.inr (by rw [ht2, abs_le]; constructor <;> linarith))
  rw [hth, herf, ht1, ht2]
  have hge := erf_sub_ge G hG _ _ hle b2
  have hexp : (1 / 3 : ℝ) ^ 16 ≤ Real.exp (-((-(Real.pi / 2) / 0.3 / Real.sqrt 2) ^ 2)) := by
    refine le_trans exp_neg_16_ge ?_
    rw [Real.exp_le_exp]
    nlinarith
  have hpos : (0 : ℝ) ≤ (1 / 3 : ℝ) ^ 16 := by positivity
  calc (4e-8 : ℝ) ≤ 2 * (1 / 3 : ℝ) ^ 16 := by norm_num
    _ ≤ (-0.2 / 0.3 / Real.sqrt 2 - -(Real.pi / 2) / 0.3 / Real.sqrt 2)
          * Real.exp (-((-(Real.pi / 2) / 0.3 / Real.sqrt 2) ^ 2)) :=
        mul_le_mul bdiff hexp hpos (by linarith)
    _ ≤ _ := hge

/-- Under `GAUSSIAN` the optical depth of cell `(0, 5, 0)` of the sample zone, for
the aspect ratio `h_r = 0.3`, is exactly `SMALL = 1e-20`: the analytic value
exceeds `SMALL` and is cut down to it. -/
theorem zone_gaussian_depth (L : Libm ℝ) (hL : L.IsReal) (G : Gsl ℝ) (hG : G.IsReal)
    (dt_step : ℝ) :
    (cell_locals L G (cgs_h_r 0.3) zone_units (zone_ext (Real.pi / 2)) Compute.GAUSSIAN
        zone_state 0 5 0 dt_step).tau_depth = 1e-20 := by
  have hd := zone_gaussian_dummy L hL G hG
  have hsq : 1 ≤ Real.sqrt (Real.pi / 2) := by
    rw [Real.one_le_sqrt]
    have := Real.pi_gt_three
    linarith
  rw [cell_gaussian_tau]
  generalize gaussian_dummy L G (cgs_h_r 0.3) ((zone_ext (Real.pi / 2)).bl_theta 0 5 0) = d
    at hd ⊢
  simp only [zone_ext, zone_state, zone_units, cgs_h_r, cgs, hL.sqrt_eq, hL.pi2_eq]
  generalize Real.sqrt (Real.pi / 2) = q at hsq ⊢
  have hd0 : (0 : ℝ) ≤ d := by
    norm_num at hd
    linarith
  norm_num
  rw [abs_of_nonneg (by positivity)]
  norm_num at hd
  nlinarith [mul_le_mul hsq hd (by norm_num) (by linarith : (0 : ℝ) ≤ q)]

/-- Under `GAUSSIAN` the optical depth among the locals of the cell is
`fmin(tau_depth, SMALL)` of the value after the `fabs` assignment. -/
theorem cell_gaussian_fabs {F : Type} [LinearOrderedField F] (L : Libm F) (G : Gsl F)
    (C : Consts F) (U : Units F) (E : Ext F) (Ss : FluidState F) (i j k : Nat) (dt_step : F) :
    (cell_locals L G C U E Compute.GAUSSIAN Ss i j k dt_step).tau_depth
      = min (gaussian_tau_fabs L G C U E Ss i j k) C.SMALL :=
  rfl

/-- Under `GAUSSIAN` the optical depth of a cell never exceeds `SMALL`. -/
theorem gaussian_tau_le_small {F : Type} [LinearOrderedField F] (L : Libm F) (G : Gsl F)
    (C : Consts F) (U : Units F) (E : Ext F) (Ss : FluidState F) (i j k : Nat) (dt_step : F) :
    (cell_locals L G C U E Compute.GAUSSIAN Ss i j k dt_step).tau_depth ≤ C.SMALL :=
  min_le_right _ _

/-- Bounds for `√π`. -/
theorem sqrt_pi_bounds : 1.77 ≤ Real.sqrt Real.pi ∧ Real.sqrt Real.pi ≤ 1.78 := by
  have h1 := Real.pi_gt_d2
  have h2 := Real.pi_lt_d2
  constructor
  · apply Real.le_sqrt_of_sq_le
    norm_num at h1 ⊢
    linarith
  · rw [Real.sqrt_le_iff]
    constructor
    · norm_num
    · norm_num at h2 ⊢
      linarith

/-- The value `exp(-7)` is at most `0.4^7`. -/
theorem exp_neg_7_le : Real.exp (-7) ≤ (0.4 : ℝ) ^ 7 := by
  have he : Real.exp (-1) ≤ 0.4 := by
    rw [Real.exp_neg, inv_le_comm₀ (Real.exp_pos 1) (by norm_num)]
    have := Real.exp_one_gt_d9
    norm_num at this ⊢
    linarith
  have e : Real.exp (-7) = Real.exp (-1) ^ 7 := by
    rw [← Real.exp_nat_mul]
    norm_num
  rw [e]
  exact pow_le_pow_left₀ (Real.exp_pos _).le he 7

/-- The Gaussian integral over `[0.36, 0.9π]` lies between 0.5233 and 0.5456. -/
theorem gauss_integral_zone :
    0.5233 ≤ (∫ t in (0 : ℝ)..(0.9 * Real.pi), Real.exp (-(t ^ 2)))
        - (∫ t in (0 : ℝ)..0.36, Real.exp (-(t ^ 2)))
      ∧ (∫ t in (0 : ℝ)..(0.9 * Real.pi), Real.exp (-(t ^ 2)))
        - (∫ t in (0 : ℝ)..0.36, Real.exp (-(t ^ 2))) ≤ 0.5456 := by
  obtain ⟨hq1, hq2⟩ := sqrt_pi_bounds
  have hp := Real.pi_gt_three
  have hb : (1 / 2 : ℝ) ≤ 0.9 * Real.pi := by linarith
  obtain ⟨ha1, ha2⟩ := gauss_integral_small 0.36 (by norm_num)
  have htail := gauss_tail_le (0.9 * Real.pi) hb
  have htail0 : 0 ≤ ∫ t in Set.Ioi (0.9 * Real.pi), Real.exp (-(t ^ 2)) :=
    MeasureTheory.setIntegral_nonneg measurableSet_Ioi (fun t _ => (Real.exp_pos _).le)
  have hexp : Real.exp (-((0.9 * Real.pi) ^ 2)) ≤ (0.4 : ℝ) ^ 7 := by
    refine le_trans ?_ exp_neg_7_le
    rw [Real.exp_le_exp]
    nlinarith
  rw [gauss_integral_split (0.9 * Real.pi) (by linarith)]
  norm_num at ha1 ha2 hexp hq1 hq2 ⊢
  constructor <;> linarith

/-- The profile integral of cell `(0, 5, 0)` of the sample zone for the aspect
ratio `h_r = 5/(9√2)`: the scaled arguments are `t1 = -0.9π` and `t2 = -0.36`, the
error function is selected, and `dummy*√π/2` lies between 0.5233 and 0.5456. -/
theorem matched_gaussian_dummy (L : Libm ℝ) (hL : L.IsReal) (G : Gsl ℝ) (hG : G.IsReal) :
    0.5233 ≤ gaussian_dummy L G (cgs_h_r (5 / (9 * Real.sqrt 2)))
          ((zone_ext (Real.pi / 2)).bl_theta 0 5 0) * (Real.sqrt Real.pi / 2)
      ∧ gaussian_dummy L G (cgs_h_r (5 / (9 * Real.sqrt 2)))
          ((zone_ext (Real.pi / 2)).bl_theta 0 5 0) * (Real.sqrt Real.pi / 2) ≤ 0.5456 := by
  have hs0 : 0 < Real.sqrt 2 := Real.sqrt_pos.mpr (by norm_num)
  have hq0 : 0 < Real.sqrt Real.pi := Real.sqrt_pos.mpr Real.pi_pos
  have hp := Real.pi_gt_three
  have hth : (zone_ext (Real.pi / 2)).bl_theta 0 5 0 = Real.pi / 2 - 0.2 := by
    simp only [zone_ext]
    norm_num
  have hlt : Real.pi / 2 - 0.2 < Real.pi / 2 := by norm_num
  have ht1 : gaussian_t1 L (cgs_h_r (5 / (9 * Real.sqrt 2))) (Real.pi / 2 - 0.2)
      = -(0.9 * Real.pi) := by
    simp only [gaussian_t1, hL.pi2_eq, hL.sqrt_eq, if_pos hlt, cgs_h_r]
    field_simp
    ring
  have ht2 : gaussian_t2 L (cgs_h_r (5 / (9 * Real.sqrt 2))) (Real.pi / 2 - 0.2)
      = -0.36 := by
    simp only [gaussian_t2, hL.pi2_eq, hL.sqrt_eq, if_pos hlt, cgs_h_r]
    field_simp
    ring
  have herf := gaussian_dummy_erf L G (cgs_h_r (5 / (9 * Real.sqrt 2))) (Real.pi / 2 - 0.2)
    (Or.inr (by rw [ht2, abs_neg, abs_of_pos (by norm_num)]; norm_num))
  rw [hth, herf, ht1, ht2, erf_neg G hG, erf_neg G hG, hG.erf_eq, hG.erf_eq]
  have e : ∀ x y : ℝ, (-(2 / Real.sqrt Real.pi * y) - -(2 / Real.sqrt Real.pi * x))
      * (Real.sqrt Real.pi / 2) = x - y := by
    intro x y
    have hc : 2 / Real.sqrt Real.pi * (Real.sqrt Real.pi / 2) = 1 := by field_simp
    calc (-(2 / Real.sqrt Real.pi * y) - -(2 / Real.sqrt Real.pi * x))
          * (Real.sqrt Real.pi / 2)
        = 2 / Real.sqrt Real.pi * (Real.sqrt Real.pi / 2) * (x - y) := by ring
      _ = x - y := by rw [hc, one_mul]
  rw [e]
  exact gauss_integral_zone

/-- The optical depth of cell `(0, 5, 0)` of the sample zone after the `fabs`
assignment of the Gaussian closure, for the aspect ratio `h_r = 5/(9√2)`, lies
between `1.93e-4` and `2.02e-4`. -/
theorem matched_gaussian_fabs (L : Libm ℝ) (hL : L.IsReal) (G : Gsl ℝ) (hG : G.IsReal) :
    1.93e-4 ≤ gaussian_tau_fabs L G (cgs_h_r (5 / (9 * Real.sqrt 2))) zone_units
          (zone_ext (Real.pi / 2)) zone_state 0 5 0
      ∧ gaussian_tau_fabs L G (cgs_h_r (5 / (9 * Real.sqrt 2))) zone_units
          (zone_ext (Real.pi / 2)) zone_state 0 5 0 ≤ 2.02e-4 := by
  obtain ⟨hd1, hd2⟩ := matched_gaussian_dummy L hL G hG
  have hs0 : 0 < Real.sqrt 2 := Real.sqrt_pos.mpr (by norm_num)
  have hq0 : 0 < Real.sqrt Real.pi := Real.sqrt_pos.mpr Real.pi_pos
  have hsq : Real.sqrt (Real.pi / 2) = Real.sqrt Real.pi / Real.sqrt 2 :=
    Real.sqrt_div Real.pi_pos.le 2
  have hss : Real.sqrt 2 * Real.sqrt 2 = 2 := Real.mul_self_sqrt (by norm_num)
  unfold gaussian_tau_fabs
  generalize gaussian_dummy L G (cgs_h_r (5 / (9 * Real.sqrt 2)))
    ((zone_ext (Real.pi / 2)).bl_theta 0 5 0) = d at hd1 hd2 ⊢
  simp only [zone_ext, zone_state, zone_units, cgs_h_r, cgs, hL.sqrt_eq, hL.pi2_eq, hsq]
  norm_num
  have e : (1000000000000000 : ℝ) * (5 / (9 * Real.sqrt 2) * 1000000)
        * (Real.sqrt Real.pi / Real.sqrt 2) * d
        * (665245873 / 1000000000000000000000000000000000)
      = 665245873 / 1000000000000 * (5 / 9) * (d * (Real.sqrt Real.pi / 2)) := by
    have h2 : 1 / (Real.sqrt 2 * Real.sqrt 2) = 1 / 2 := by rw [hss]
    calc (1000000000000000 : ℝ) * (5 / (9 * Real.sqrt 2) * 1000000)
          * (Real.sqrt Real.pi / Real.sqrt 2) * d
          * (665245873 / 1000000000000000000000000000000000)
        = 665245873 / 1000000000000 * (5 / 9) * (d * Real.sqrt Real.pi)
            * (1 / (Real.sqrt 2 * Real.sqrt 2)) := by
          ring
      _ = 665245873 / 1000000000000 * (5 / 9) * (d * (Real.sqrt Real.pi / 2)) := by
          rw [h2]
          ring
  rw [e]
  generalize d * (Real.sqrt Real.pi / 2) = J at hd1 hd2 ⊢
  norm_num at hd1 hd2
  rw [abs_of_nonneg (by nlinarith)]
  constructor <;> linarith

/-- Under `GAUSSIAN` the optical depth of cell `(0, 5, 0)` of the sample zone, for
the aspect ratio `h_r = 5/(9√2)`, is exactly `SMALL = 1e-20`: the value after the
`fabs` assignment exceeds `SMALL` and is cut down to it. -/
theorem matched_gaussian_depth (L : Libm ℝ) (hL : L.IsReal) (G : Gsl ℝ) (hG : G.IsReal)
    (dt_step : ℝ) :
    (cell_locals L G (cgs_h_r (5 / (9 * Real.sqrt 2))) zone_units (zone_ext (Real.pi / 2))
        Compute.GAUSSIAN zone_state 0 5 0 dt_step).tau_depth = 1e-20 := by
  obtain ⟨hv, _⟩ := matched_gaussian_fabs L hL G hG
  rw [cell_gaussian_fabs]
  have hs : (cgs_h_r (5 / (9 * Real.sqrt 2))).SMALL = 1e-20 := by
    simp only [cgs_h_r, cgs]
    norm_num
  rw [hs]
  apply min_eq_right
  norm_num at hv ⊢
  linarith

/-- C19, the code at a failing input.  The sample zone is a column of uniform
proton density `1e15` without positrons; the column of cell `(0, 5, 0)` has three
zones of polar width 0.1, and the aspect ratio is `h_r = 5/(9√2)`, about 0.39.
`DIRECT_1` and `DIRECT_2` both give `tau_depth = 1.995737619e-4`.  Under
`GAUSSIAN` the value of `tau_depth` after the `fabs` assignment agrees with them
to within 5%, but the next assignment `tau_depth = fmin(tau_depth, SMALL)` cuts it
down to `SMALL = 1e-20`, so the three results do not agree to within 5%: the
difference exceeds 5% of the larger value. -/
theorem strategies_disagree :
    ∃ (L : Libm ℝ) (G : Gsl ℝ), L.IsReal ∧ G.IsReal
      ∧ (cell_locals L G (cgs_h_r (5 / (9 * Real.sqrt 2))) zone_units (zone_ext (Real.pi / 2))
          Compute.DIRECT_1 zone_state 0 5 0 1).tau_depth = 1.995737619e-4
      ∧ (cell_locals L G (cgs_h_r (5 / (9 * Real.sqrt 2))) zone_units (zone_ext (Real.pi / 2))
          Compute.DIRECT_2 zone_state 0 5 0 1).tau_depth = 1.995737619e-4
      ∧ |(cell_locals L G (cgs_h_r (5 / (9 * Real.sqrt 2))) zone_units
              (zone_ext (Real.pi / 2)) Compute.DIRECT_2 zone_state 0 5 0 1).tau_depth
            - gaussian_tau_fabs L G (cgs_h_r (5 / (9 * Real.sqrt 2))) zone_units
                (zone_ext (Real.pi / 2)) zone_state 0 5 0|
          ≤ 0.05 * max
              |(cell_locals L G (cgs_h_r (5 / (9 * Real.sqrt 2))) zone_units
                (zone_ext (Real.pi / 2)) Compute.DIRECT_2 zone_state 0 5 0 1).tau_depth|
              |gaussian_tau_fabs L G (cgs_h_r (5 / (9 * Real.sqrt 2))) zone_units
                (zone_ext (Real.pi / 2)) zone_state 0 5 0|
      ∧ (cell_locals L G (cgs_h_r (5 / (9 * Real.sqrt 2))) zone_units (zone_ext (Real.pi / 2))
          Compute.GAUSSIAN zone_state 0 5 0 1).tau_depth
          = min (gaussian_tau_fabs L G (cgs_h_r (5 / (9 * Real.sqrt 2))) zone_units
                (zone_ext (Real.pi / 2)) zone_state 0 5 0)
              (cgs_h_r (5 / (9 * Real.sqrt 2))).SMALL
      ∧ (cell_locals L G (cgs_h_r (5 / (9 * Real.sqrt 2))) zone_units (zone_ext (Real.pi / 2))
          Compute.GAUSSIAN zone_state 0 5 0 1).tau_depth = 1e-20
      ∧ ¬ (|(cell_locals L G (cgs_h_r (5 / (9 * Real.sqrt 2))) zone_units
              (zone_ext (Real.pi / 2)) Compute.DIRECT_2 zone_state 0 5 0 1).tau_depth
            - (cell_locals L G (cgs_h_r (5 / (9 * Real.sqrt 2))) zone_units
              (zone_ext (Real.pi / 2)) Compute.GAUSSIAN zone_state 0 5 0 1).tau_depth|
          ≤ 0.05 * max
              |(cell_locals L G (cgs_h_r (5 / (9 * Real.sqrt 2))) zone_units
                (zone_ext (Real.pi / 2)) Compute.DIRECT_2 zone_state 0 5 0 1).tau_depth|
              |(cell_locals L G (cgs_h_r (5 / (9 * Real.sqrt 2))) zone_units
                (zone_ext (Real.pi / 2)) Compute.GAUSSIAN zone_state 0 5 0 1).tau_depth|) := by
  obtain ⟨L, G, hL, hG⟩ := exists_real_libs
  obtain ⟨h1, h2⟩ := zone_direct_depths L hL G (5 / (9 * Real.sqrt 2)) 1
  obtain ⟨hv1, hv2⟩ := matched_gaussian_fabs L hL G hG
  have h3 := matched_gaussian_depth L hL G hG 1
  refine ⟨L, G, hL, hG, h1, h2, ?_, cell_gaussian_fabs _ _ _ _ _ _ _ _ _ _, h3, ?_⟩
  · rw [h2]
    generalize gaussian_tau_fabs L G (cgs_h_r (5 / (9 * Real.sqrt 2))) zone_units
      (zone_ext (Real.pi / 2)) zone_state 0 5 0 = v at hv1 hv2
    have hm : (1.995737619e-4 : ℝ) ≤ max |(1.995737619e-4 : ℝ)| |v| :=
      le_trans (le_abs_self _) (le_max_left _ _)
    generalize max |(1.995737619e-4 : ℝ)| |v| = M at hm ⊢
    rw [abs_le]
    norm_num at hv1 hv2 hm ⊢
    constructor <;> linarith
  · rw [h2, h3]
    have hmax : max |(1.995737619e-4 : ℝ)| |(1e-20 : ℝ)| = 1.995737619e-4 := by
      rw [abs_of_pos (by norm_num), abs_of_pos (by norm_num)]
      exact max_eq_left (by norm_num)
    rw [hmax, abs_of_pos (by norm_num)]
    norm_num

end Agreement

/-! ## Restart round trip -/

section Restart

/-- The single values written in a row are appended to the file in order. -/
theorem write_header_datasets {F : Type} (ws : List (SingleWrite F)) (f : H5File F) :
    (ws.foldl (fun f w => hdf5_write_single_val f w.val w.name w.type) f).datasets
      = f.datasets ++ ws.map (fun w => (w.name, H5Data.single w.type w.val)) := by
  induction ws generalizing f with
  | nil => simp
  | cons w ws ih =>
    rw [List.foldl_cons, ih]
    simp only [hdf5_write_single_val, List.map_cons, List.append_assoc, List.singleton_append]

variable {F : Type} [LinearOrderedField F]

/-- The datasets of a restart file just written: the header values, then `p`. -/
theorem restart_file_datasets (B : Build) (g : Globals F) (S : FluidState F) :
    (restart_write_backend B g S).2.datasets
      = (restart_header B { g with restart_id := g.restart_id + 1 }).map
          (fun w => (w.name, H5Data.single w.type w.val))
        ++ [("p", H5Data.array H5Type.IEEE_F64LE (fdims B) (fun a b c d =>
            if in_block (fstart B).d0 (fcount B).d0 a ∧ in_block (fstart B).d1 (fcount B).d1 b
                ∧ in_block (fstart B).d2 (fcount B).d2 c
                ∧ in_block (fstart B).d3 (fcount B).d3 d then
              S.P (a - (fstart B).d0 + (mstart B).d0) (b - (fstart B).d1 + (mstart B).d1)
                (c - (fstart B).d2 + (mstart B).d2) (d - (fstart B).d3 + (mstart B).d3)
            else 0))] := by
  simp only [restart_write_backend, hdf5_write_array, write_header_datasets, hdf5_create,
    List.nil_append]

/-- An index of the memory block corresponds to an index of the file block, and
back. -/
theorem block_shift (m f c x : Nat) (h : in_block m c x) :
    in_block f c (x - m + f) ∧ x - m + f - f + m = x := by
  unfold in_block at *
  omega

/-- The block of the file array read back into memory is the block of the memory
array that was written, when both calls use the same offsets and counts. -/
theorem array_round_trip (P P0 : Nat → Nat → Nat → Nat → F) (fs fc ms : Dims4) :
    (fun a b c d =>
        if in_block ms.d0 fc.d0 a ∧ in_block ms.d1 fc.d1 b ∧ in_block ms.d2 fc.d2 c
            ∧ in_block ms.d3 fc.d3 d then
          (fun a b c d =>
            if in_block fs.d0 fc.d0 a ∧ in_block fs.d1 fc.d1 b ∧ in_block fs.d2 fc.d2 c
                ∧ in_block fs.d3 fc.d3 d then
              P (a - fs.d0 + ms.d0) (b - fs.d1 + ms.d1) (c - fs.d2 + ms.d2) (d - fs.d3 + ms.d3)
            else 0)
            (a - ms.d0 + fs.d0) (b - ms.d1 + fs.d1) (c - ms.d2 + fs.d2) (d - ms.d3 + fs.d3)
        else P0 a b c d)
      = fun a b c d =>
        if in_block ms.d0 fc.d0 a ∧ in_block ms.d1 fc.d1 b ∧ in_block ms.d2 fc.d2 c
            ∧ in_block ms.d3 fc.d3 d then P a b c d
        else P0 a b c d := by
  funext a b c d
  by_cases h : in_block ms.d0 fc.d0 a ∧ in_block ms.d1 fc.d1 b ∧ in_block ms.d2 fc.d2 c
      ∧ in_block ms.d3 fc.d3 d
  · obtain ⟨h0, h1, h2, h3⟩ := h
    have s0 := block_shift ms.d0 fs.d0 fc.d0 a h0
    have s1 := block_shift ms.d1 fs.d1 fc.d1 b h1
    have s2 := block_shift ms.d2 fs.d2 fc.d2 c h2
    have s3 := block_shift ms.d3 fs.d3 fc.d3 d h3
    simp only [if_pos (And.intro h0 (And.intro h1 (And.intro h2 h3))),
      if_pos (And.intro s0.1 (And.intro s1.1 (And.intro s2.1 s3.1))), s0.2, s1.2, s2.2, s3.2]
  · rw [if_neg h, if_neg h]

/-- In a list of named entries without repeated names, the first entry of a
given name is the entry of that name. -/
theorem find_of_mem {α : Type} (l : List (String × α)) (n : String) (d : α)
    (hnd : (l.map Prod.fst).Nodup) (hm : (n, d) ∈ l) :
    (l.find? (fun x => x.1 = n)).map (fun x => x.2) = some d := by
  induction l with
  | nil => exact absurd hm (List.not_mem_nil _)
  | cons x xs ih =>
    rw [List.map_cons, List.nodup_cons] at hnd
    rcases List.mem_cons.mp hm with h | h
    · rw [← h]
      simp
    · have hne : ¬ (x.1 = n) := by
        intro he
        apply hnd.1
        rw [he]
        exact List.mem_map_of_mem Prod.fst h
      rw [List.find?_cons_of_neg _ (by simpa using hne)]
      exact ih hnd.2 h

/-- No two datasets of a restart file just written have the same name. -/
theorem restart_names_nodup (B : Build) (g : Globals F) (S : FluidState F) :
    ((restart_write_backend B g S).2.datasets.map Prod.fst).Nodup := by
  rw [restart_file_datasets]
  obtain ⟨E, M, P, O, V, NVAR, N1, N2, N3, NG, N1T, N2T, N3T, gs⟩ := B
  cases E <;> cases M <;> simp [restart_header]

/-- A single value written to a restart file is found under its name, with its
type and value. -/
theorem find_written (B : Build) (g : Globals F) (S : FluidState F) (w : SingleWrite F)
    (hw : w ∈ restart_header B (restart_write_backend B g S).1) :
    (restart_write_backend B g S).2.find w.name = some (H5Data.single w.type w.val) := by
  unfold H5File.find
  apply find_of_mem _ _ _ (restart_names_nodup B g S)
  rw [restart_file_datasets]
  apply List.mem_append_left
  exact List.mem_map_of_mem (fun w => (w.name, H5Data.single w.type w.val)) hw

/-- The primitive array written to a restart file is found under the name `p`. -/
theorem find_written_p (B : Build) (g : Globals F) (S : FluidState F) :
    (restart_write_backend B g S).2.find "p"
      = some (H5Data.array H5Type.IEEE_F64LE (fdims B) (fun a b c d =>
            if in_block (fstart B).d0 (fcount B).d0 a ∧ in_block (fstart B).d1 (fcount B).d1 b
                ∧ in_block (fstart B).d2 (fcount B).d2 c
                ∧ in_block (fstart B).d3 (fcount B).d3 d then
              S.P (a - (fstart B).d0 + (mstart B).d0) (b - (fstart B).d1 + (mstart B).d1)
                (c - (fstart B).d2 + (mstart B).d2) (d - (fstart B).d3 + (mstart B).d3)
            else 0)) := by
  unfold H5File.find
  apply find_of_mem _ _ _ (restart_names_nodup B g S)
  rw [restart_file_datasets]
  apply List.mem_append_right
  exact List.mem_singleton.mpr rfl

/-- A `double` written with type `H5T_IEEE_F64LE` is read back. -/
theorem read_double_written (B : Build) (g : Globals F) (S : FluidState F) (n : String) (x : F)
    (hw : (⟨H5Val.real x, n, H5Type.IEEE_F64LE⟩ : SingleWrite F)
      ∈ restart_header B (restart_write_backend B g S).1) :
    read_double (restart_write_backend B g S).2 n = Except.ok x := by
  have h := find_written B g S _ hw
  simp only [read_double, hdf5_read_single_val, h, if_true]

/-- An `int` written with type `H5T_STD_I32LE` is read back. -/
theorem read_int_written (B : Build) (g : Globals F) (S : FluidState F) (n : String) (x : Int)
    (hw : (⟨H5Val.int x, n, H5Type.STD_I32LE⟩ : SingleWrite F)
      ∈ restart_header B (restart_write_backend B g S).1) :
    read_int (restart_write_backend B g S).2 n = Except.ok x := by
  have h := find_written B g S _ hw
  simp only [read_int, hdf5_read_single_val, h, if_true]

/-- The reads under `#if ELECTRONS` succeed on a file just written. -/
theorem read_electrons_written (B : Build) (g g1 : Globals F) (S : FluidState F) :
    read_electrons B (restart_write_backend B g S).2 g1
      = Except.ok { g1 with game := if B.ELECTRONS then g.game else g1.game,
                            gamp := if B.ELECTRONS then g.gamp else g1.gamp,
                            fel0 := if B.ELECTRONS then g.fel0 else g1.fel0 } := by
  cases h : B.ELECTRONS
  · simp [read_electrons, h, pure, Except.pure]
  · have h1 := read_double_written B g S "game" g.game
      (by simp [restart_header, restart_write_backend, h])
    have h2 := read_double_written B g S "gamp" g.gamp
      (by simp [restart_header, restart_write_backend, h])
    have h3 := read_double_written B g S "fel0" g.fel0
      (by simp [restart_header, restart_write_backend, h])
    simp [read_electrons, h, h1, h2, h3, bind, Except.bind, pure, Except.pure]

/-- The reads under `if (METRIC != MKS)` succeed on a file just written. -/
theorem read_run_parameters_written (B : Build) (g g1 : Globals F) (S : FluidState F) :
    read_run_parameters B (restart_write_backend B g S).2 g1
      = Except.ok { g1 with tf := if B.METRIC_MKS then g1.tf else g.tf,
                            cour := if B.METRIC_MKS then g1.cour else g.cour,
                            DTd := if B.METRIC_MKS then g1.DTd else g.DTd,
                            DTf := if B.METRIC_MKS then g1.DTf else g.DTf,
                            DTl := if B.METRIC_MKS then g1.DTl else g.DTl,
                            DTr := if B.METRIC_MKS then g1.DTr else g.DTr,
                            DTp := if B.METRIC_MKS then g1.DTp else g.DTp } := by
  cases h : B.METRIC_MKS
  · have h1 := read_double_written B g S "tf" g.tf
      (by simp [restart_header, restart_write_backend])
    have h2 := read_double_written B g S "cour" g.cour
      (by simp [restart_header, restart_write_backend])
    have h3 := read_double_written B g S "DTd" g.DTd
      (by simp [restart_header, restart_write_backend])
    have h4 := read_double_written B g S "DTf" g.DTf
      (by simp [restart_header, restart_write_backend])
    have h5 := read_double_written B g S "DTl" g.DTl
      (by simp [restart_header, restart_write_backend])
    have h6 := read_int_written B g S "DTr" g.DTr
      (by simp [restart_header, restart_write_backend])
    have h7 := read_int_written B g S "DTp" g.DTp
      (by simp [restart_header, restart_write_backend])
    simp [read_run_parameters, h, h1, h2, h3, h4, h5, h6, h7, bind, Except.bind, pure,
      Except.pure]
  · simp [read_run_parameters, h, pure, Except.pure]

/-- The reads of the grid scalars succeed on a file just written. -/
theorem read_grid_written (B : Build) (g g1 : Globals F) (S : FluidState F) :
    read_grid B (restart_write_backend B g S).2 g1
      = Except.ok { g1 with Rin := if B.METRIC_MKS then g.Rin else g1.Rin,
                            Rout := if B.METRIC_MKS then g.Rout else g1.Rout,
                            a := if B.METRIC_MKS then g.a else g1.a,
                            hslope := if B.METRIC_MKS then g.hslope else g1.hslope,
                            Rhor := if B.METRIC_MKS then g.Rhor else g1.Rhor,
                            x1Min := if B.METRIC_MKS then g1.x1Min else g.x1Min,
                            x1Max := if B.METRIC_MKS then g1.x1Max else g.x1Max,
                            x2Min := if B.METRIC_MKS then g1.x2Min else g.x2Min,
                            x2Max := if B.METRIC_MKS then g1.x2Max else g.x2Max,
                            x3Min := if B.METRIC_MKS then g1.x3Min else g.x3Min,
                            x3Max := if B.METRIC_MKS then g1.x3Max else g.x3Max } := by
  cases h : B.METRIC_MKS
  · have h1 := read_double_written B g S "x1Min" g.x1Min
      (by simp [restart_header, restart_write_backend, h])
    have h2 := read_double_written B g S "x1Max" g.x1Max
      (by simp [restart_header, restart_write_backend, h])
    have h3 := read_double_written B g S "x2Min" g.x2Min
      (by simp [restart_header, restart_write_backend, h])
    have h4 := read_double_written B g S "x2Max" g.x2Max
      (by simp [restart_header, restart_write_backend, h])
    have h5 := read_double_written B g S "x3Min" g.x3Min
      (by simp [restart_header, restart_write_backend, h])
    have h6 := read_double_written B g S "x3Max" g.x3Max
      (by simp [restart_header, restart_write_backend, h])
    simp [read_grid, h, h1, h2, h3, h4, h5, h6, bind, Except.bind, pure, Except.pure]
  · have h1 := read_double_written B g S "Rin" g.Rin
      (by simp [restart_header, restart_write_backend, h])
    have h2 := read_double_written B g S "Rout" g.Rout
      (by simp [restart_header, restart_write_backend, h])
    have h3 := read_double_written B g S "a" g.a
      (by simp [restart_header, restart_write_backend, h])
    have h4 := read_double_written B g S "hslope" g.hslope
      (by simp [restart_header, restart_write_backend, h])
    have h5 := read_double_written B g S "Rhor" g.Rhor
      (by simp [restart_header, restart_write_backend, h])
    simp [read_grid, h, h1, h2, h3, h4, h5, bind, Except.bind, pure, Except.pure]

/-- The reads under `#if POSITRONS && !OVER_WRITE` succeed on a file just written. -/
theorem read_positrons_written (B : Build) (g g1 : Globals F) (S : FluidState F) :
    read_positrons B (restart_write_backend B g S).2 g1
      = Except.ok { g1 with
          mbh := if B.POSITRONS ∧ ¬ B.OVER_WRITE then g.mbh else g1.mbh,
          eta_edd := if B.POSITRONS ∧ ¬ B.OVER_WRITE then g.eta_edd else g1.eta_edd } := by
  have h1 := read_double_written B g S "mbh" g.mbh
    (by simp [restart_header, restart_write_backend])
  have h2 := read_double_written B g S "eta_edd" g.eta_edd
    (by simp [restart_header, restart_write_backend])
  by_cases h : B.POSITRONS ∧ ¬ B.OVER_WRITE
  · simp only [read_positrons, if_pos h, h1, h2, bind, Except.bind, pure, Except.pure]
  · simp only [read_positrons, if_neg h, pure, Except.pure]

/-- The primitive array is read back from a file just written: the interior block
comes from the written state, the rest of the memory array is kept. -/
theorem read_array_written (B : Build) (g : Globals F) (S S0 : FluidState F) :
    hdf5_read_array (restart_write_backend B g S).2 S0.P "p" (fdims B) (fstart B) (fcount B)
        (mdims B) (mstart B) H5Type.IEEE_F64LE
      = Except.ok (fun v k j i =>
          if in_block (mstart B).d0 (fcount B).d0 v ∧ in_block (mstart B).d1 (fcount B).d1 k
              ∧ in_block (mstart B).d2 (fcount B).d2 j
              ∧ in_block (mstart B).d3 (fcount B).d3 i then S.P v k j i
          else S0.P v k j i) := by
  have h := find_written_p B g S
  simp only [hdf5_read_array, h, and_self, if_true]
  rw [array_round_trip]

/-- C20.  Restart round trip of header and field: in every build configuration
(`ELECTRONS`, `METRIC == MKS`, `POSITRONS`, `OVER_WRITE` on or off) `restart_read`
applied to the file just written by `restart_write_backend` does not fail: every
dataset it asks for is in the file under the same name with the same HDF5 type,
and `p` with the same `fdims`, `fstart`, `fcount`, `mdims`, `mstart`.  It restores
`t`, `nstep`, `gam`, `dt`, `dump_cnt`, the counter `restart_id` (as incremented by
the writer), the scalars read under the configuration, and every primitive
(every variable `v < NVAR`, so also `RPL`) of the interior cells. -/
theorem restart_round_trip (B : Build) (g g0 : Globals F) (S S0 : FluidState F) :
    ∃ (g1 : Globals F) (S1 : FluidState F),
      restart_read B (restart_write_backend B g S).2 g0 S0 = Except.ok (g1, S1)
      ∧ g1.t = g.t ∧ g1.nstep = g.nstep ∧ g1.gam = g.gam ∧ g1.dt = g.dt
      ∧ g1.dump_cnt = g.dump_cnt
      ∧ g1.restart_id = (restart_write_backend B g S).1.restart_id
      ∧ (restart_write_backend B g S).1.restart_id = g.restart_id + 1
      ∧ (B.ELECTRONS = true → g1.game = g.game ∧ g1.gamp = g.gamp ∧ g1.fel0 = g.fel0)
      ∧ (B.METRIC_MKS = false → g1.tf = g.tf ∧ g1.cour = g.cour ∧ g1.DTd = g.DTd
          ∧ g1.DTf = g.DTf ∧ g1.DTl = g.DTl ∧ g1.DTr = g.DTr ∧ g1.DTp = g.DTp)
      ∧ (B.METRIC_MKS = true → g1.Rin = g.Rin ∧ g1.Rout = g.Rout ∧ g1.a = g.a
          ∧ g1.hslope = g.hslope ∧ g1.Rhor = g.Rhor)
      ∧ (B.METRIC_MKS = false → g1.x1Min = g.x1Min ∧ g1.x1Max = g.x1Max
          ∧ g1.x2Min = g.x2Min ∧ g1.x2Max = g.x2Max ∧ g1.x3Min = g.x3Min
          ∧ g1.x3Max = g.x3Max)
      ∧ (B.POSITRONS = true ∧ B.OVER_WRITE = false →
          g1.mbh = g.mbh ∧ g1.eta_edd = g.eta_edd)
      ∧ (∀ v k j i, v < B.NVAR → B.NG ≤ k → k < B.NG + B.N3 → B.NG ≤ j → j < B.NG + B.N2 →
          B.NG ≤ i → i < B.NG + B.N1 → S1.P v k j i = S.P v k j i) := by
  have hv : hdf5_read_single_val (restart_write_backend B g S).2 "version" H5Type.STR20
      = Except.ok (H5Val.str B.VERSION) := by
    have h := find_written B g S ⟨H5Val.str B.VERSION, "version", H5Type.STR20⟩
      (by simp [restart_header])
    simp only [hdf5_read_single_val, h, if_true]
  have hn1 := read_int_written B g S "n1" B.N1TOT (by simp [restart_header])
  have hn2 := read_int_written B g S "n2" B.N2TOT (by simp [restart_header])
  have hn3 := read_int_written B g S "n3" B.N3TOT (by simp [restart_header])
  have ht := read_double_written B g S "t" g.t (by simp [restart_header, restart_write_backend])
  have hns := read_int_written B g S "nstep" g.nstep
    (by simp [restart_header, restart_write_backend])
  have hgam := read_double_written B g S "gam" g.gam
    (by simp [restart_header, restart_write_backend])
  have hid := read_int_written B g S "restart_id" (g.restart_id + 1)
    (by simp [restart_header, restart_write_backend])
  have hdc := read_int_written B g S "dump_cnt" g.dump_cnt
    (by simp [restart_header, restart_write_backend])
  have hdt := read_double_written B g S "dt" g.dt
    (by simp [restart_header, restart_write_backend])
  have hsize : ¬ ((B.N1TOT : Int) ≠ B.N1TOT ∨ (B.N2TOT : Int) ≠ B.N2TOT
      ∨ (B.N3TOT : Int) ≠ B.N3TOT) := by simp
  simp only [restart_read, hv, hn1, hn2, hn3, ht, hns, hgam, hid, hdc, hdt,
    read_electrons_written, read_run_parameters_written, read_grid_written,
    read_positrons_written, read_array_written, hsize, if_false, bind, Except.bind, pure,
    Except.pure]
  refine ⟨_, _, rfl, ?_⟩
  have hblock : ∀ v k j i, v < B.NVAR → B.NG ≤ k → k < B.NG + B.N3 → B.NG ≤ j →
      j < B.NG + B.N2 → B.NG ≤ i → i < B.NG + B.N1 →
      (in_block (mstart B).d0 (fcount B).d0 v ∧ in_block (mstart B).d1 (fcount B).d1 k
        ∧ in_block (mstart B).d2 (fcount B).d2 j ∧ in_block (mstart B).d3 (fcount B).d3 i) := by
    intro v k j i h1 h2 h3 h4 h5 h6 h7
    simp only [in_block, mstart, fcount]
    omega
  have hrid : (restart_write_backend B g S).1.restart_id = g.restart_id + 1 := rfl
  have hP1 : ∀ v k j i, v < B.NVAR → B.NG ≤ k → k < B.NG + B.N3 → B.NG ≤ j →
      j < B.NG + B.N2 → B.NG ≤ i → i < B.NG + B.N1 →
      (if in_block (mstart B).d0 (fcount B).d0 v ∧ in_block (mstart B).d1 (fcount B).d1 k
          ∧ in_block (mstart B).d2 (fcount B).d2 j ∧ in_block (mstart B).d3 (fcount B).d3 i
        then S.P v k j i else S0.P v k j i) = S.P v k j i :=
    fun v k j i h1 h2 h3 h4 h5 h6 h7 => if_pos (hblock v k j i h1 h2 h3 h4 h5 h6 h7)
  refine ⟨rfl, rfl, rfl, rfl, rfl, rfl, hrid, ?_, ?_, ?_, ?_, ?_, hP1⟩
  · intro h
    simp only [h, if_true]
    exact ⟨trivial, trivial, trivial⟩
  · intro h
    simp only [h, Bool.false_eq_true, if_false]
    exact ⟨trivial, trivial, trivial, trivial, trivial, trivial, trivial⟩
  · intro h
    simp only [h, if_true]
    exact ⟨trivial, trivial, trivial, trivial, trivial⟩
  · intro h
    simp only [h, Bool.false_eq_true, if_false]
    exact ⟨trivial, trivial, trivial, trivial, trivial, trivial⟩
  · intro h
    have hc : B.POSITRONS = true ∧ ¬ B.OVER_WRITE = true := by
      refine ⟨h.1, ?_⟩
      rw [h.2]
      exact Bool.false_ne_true
    simp only [if_pos hc]
    exact ⟨trivial, trivial⟩

end Restart

/-! ## The implicit bisection, the Newton-Raphson loop and the closures, continued -/

section BracketInvariant
variable {F : Type} [LinearOrderedField F]

/-- The left endpoint after one more execution of the loop body. -/
theorem bisect_ends_succ_fst (gv : F → F) (fl fr zl zr : F) (n : Nat) :
    (bisect_ends gv fl fr zl zr (n + 1)).1
      = if fl * gv (bisect_mid gv fl fr zl zr n) > 0 then bisect_mid gv fl fr zl zr n
        else (bisect_ends gv fl fr zl zr n).1 := by
  simp only [bisect_ends, bisect_mid, lit_zero]

/-- The right endpoint after one more execution of the loop body. -/
theorem bisect_ends_succ_snd (gv : F → F) (fl fr zl zr : F) (n : Nat) :
    (bisect_ends gv fl fr zl zr (n + 1)).2
      = if fl * gv (bisect_mid gv fl fr zl zr n) > 0 then (bisect_ends gv fl fr zl zr n).2
        else if fr * gv (bisect_mid gv fl fr zl zr n) > 0 then bisect_mid gv fl fr zl zr n
        else (bisect_ends gv fl fr zl zr n).2 := by
  simp only [bisect_ends, bisect_mid, lit_zero]

/-- With `fl*g(zl) > 0` and `fr*g(zr) > 0` at the start, every later pair of
endpoints has the same property. -/
theorem bisect_signs (gv : F → F) (fl fr zl zr : F) (hl : fl * gv zl > 0)
    (hr : fr * gv zr > 0) :
    ∀ n, fl * gv (bisect_ends gv fl fr zl zr n).1 > 0
      ∧ fr * gv (bisect_ends gv fl fr zl zr n).2 > 0 := by
  intro n
  induction n with
  | zero => exact ⟨hl, hr⟩
  | succ n ih =>
    rw [bisect_ends_succ_fst, bisect_ends_succ_snd]
    by_cases h1 : fl * gv (bisect_mid gv fl fr zl zr n) > 0
    · simp only [if_pos h1]
      exact ⟨h1, ih.2⟩
    · by_cases h2 : fr * gv (bisect_mid gv fl fr zl zr n) > 0
      · simp only [if_neg h1, if_pos h2]
        exact ⟨ih.1, h2⟩
      · simp only [if_neg h1, if_neg h2]
        exact ih

/-- With `fl*fr < 0`, an iteration whose midpoint is not a root halves the
bracket, and an iteration whose midpoint is a root leaves the endpoints alone. -/
theorem bisect_width (gv : F → F) (fl fr zl zr : F) (hs : fl * fr < 0) (n : Nat) :
    (gv (bisect_mid gv fl fr zl zr n) ≠ 0 →
        |(bisect_ends gv fl fr zl zr (n + 1)).2 - (bisect_ends gv fl fr zl zr (n + 1)).1|
          = |(bisect_ends gv fl fr zl zr n).2 - (bisect_ends gv fl fr zl zr n).1| / 2)
      ∧ (gv (bisect_mid gv fl fr zl zr n) = 0 →
        bisect_ends gv fl fr zl zr (n + 1) = bisect_ends gv fl fr zl zr n
          ∧ bisect_mid gv fl fr zl zr (n + 1) = bisect_mid gv fl fr zl zr n) := by
  have h2 : |(2 : F)| = 2 := abs_of_pos (by norm_num)
  have hM : bisect_mid gv fl fr zl zr n
      = ((bisect_ends gv fl fr zl zr n).1 + (bisect_ends gv fl fr zl zr n).2) / 2 := by
    simp only [bisect_mid, lit_half]
    ring
  have hhalf : ∀ a b : F, |b - (a + b) / 2| = |b - a| / 2 ∧ |(a + b) / 2 - a| = |b - a| / 2 := by
    intro a b
    constructor
    · rw [show b - (a + b) / 2 = (b - a) / 2 by ring, abs_div, h2]
    · rw [show (a + b) / 2 - a = (b - a) / 2 by ring, abs_div, h2]
  constructor
  · intro hne
    rw [bisect_ends_succ_fst, bisect_ends_succ_snd]
    by_cases h1 : fl * gv (bisect_mid gv fl fr zl zr n) > 0
    · rw [if_pos h1, if_pos h1, hM]
      exact (hhalf _ _).1
    · have hfr : fr * gv (bisect_mid gv fl fr zl zr n) > 0 := by
        rcases lt_or_gt_of_ne hne with hneg | hpos
        · have hflpos : 0 ≤ fl := by
            by_contra hc
            exact h1 (mul_pos_of_neg_of_neg (not_le.mp hc) hneg)
          have hfrneg : fr < 0 := by
            by_contra hc
            exact absurd hs (not_lt.mpr (mul_nonneg hflpos (not_lt.mp hc)))
          exact mul_pos_of_neg_of_neg hfrneg hneg
        · have hflneg : fl ≤ 0 := by
            by_contra hc
            exact h1 (mul_pos (not_le.mp hc) hpos)
          have hfrpos : 0 < fr := by
            by_contra hc
            exact absurd hs (not_lt.mpr (mul_nonneg_of_nonpos_of_nonpos hflneg (not_lt.mp hc)))
          exact mul_pos hfrpos hpos
      rw [if_neg h1, if_neg h1, if_pos hfr, hM]
      exact (hhalf _ _).2
  · intro h0
    have h1 : ¬ (fl * gv (bisect_mid gv fl fr zl zr n) > 0) := by
      rw [h0, mul_zero]
      exact lt_irrefl 0
    have h3 : ¬ (fr * gv (bisect_mid gv fl fr zl zr n) > 0) := by
      rw [h0, mul_zero]
      exact lt_irrefl 0
    have e : bisect_ends gv fl fr zl zr (n + 1) = bisect_ends gv fl fr zl zr n := by
      apply Prod.ext
      · rw [bisect_ends_succ_fst, if_neg h1]
      · rw [bisect_ends_succ_snd, if_neg h1, if_neg h3]
    refine ⟨e, ?_⟩
    simp only [bisect_mid, e]

/-- Positive endpoints stay positive, and so do the midpoints. -/
theorem bisect_ends_pos (gv : F → F) (fl fr zl zr : F) (hl : 0 < zl) (hr : 0 < zr) :
    ∀ n, 0 < (bisect_ends gv fl fr zl zr n).1 ∧ 0 < (bisect_ends gv fl fr zl zr n).2
      ∧ 0 < bisect_mid gv fl fr zl zr n := by
  have key : ∀ n, 0 < (bisect_ends gv fl fr zl zr n).1
      ∧ 0 < (bisect_ends gv fl fr zl zr n).2 := by
    intro n
    induction n with
    | zero => exact ⟨hl, hr⟩
    | succ n ih =>
      have hm : 0 < bisect_mid gv fl fr zl zr n := by
        simp only [bisect_mid, lit_half]
        linarith [ih.1, ih.2]
      rw [bisect_ends_succ_fst, bisect_ends_succ_snd]
      constructor
      · split_ifs
        · exact hm
        · exact ih.1
      · split_ifs
        · exact ih.2
        · exact hm
        · exact ih.2
  intro n
  refine ⟨(key n).1, (key n).2, ?_⟩
  simp only [bisect_mid, lit_half]
  linarith [(key n).1, (key n).2]

/-- Negative endpoints stay negative, and so do the midpoints. -/
theorem bisect_ends_neg (gv : F → F) (fl fr zl zr : F) (hl : zl < 0) (hr : zr < 0) :
    ∀ n, (bisect_ends gv fl fr zl zr n).1 < 0 ∧ (bisect_ends gv fl fr zl zr n).2 < 0
      ∧ bisect_mid gv fl fr zl zr n < 0 := by
  have key : ∀ n, (bisect_ends gv fl fr zl zr n).1 < 0
      ∧ (bisect_ends gv fl fr zl zr n).2 < 0 := by
    intro n
    induction n with
    | zero => exact ⟨hl, hr⟩
    | succ n ih =>
      have hm : bisect_mid gv fl fr zl zr n < 0 := by
        simp only [bisect_mid, lit_half]
        linarith [ih.1, ih.2]
      rw [bisect_ends_succ_fst, bisect_ends_succ_snd]
      constructor
      · split_ifs
        · exact hm
        · exact ih.1
      · split_ifs
        · exact ih.2
        · exact hm
        · exact ih.2
  intro n
  refine ⟨(key n).1, (key n).2, ?_⟩
  simp only [bisect_mid, lit_half]
  linarith [(key n).1, (key n).2]

/-- The factor `steps` is positive. -/
theorem implicit_steps_pos (net_rate : F) : 0 < implicit_steps net_rate := by
  simp only [implicit_steps]
  split_ifs <;> norm_num

/-- When a bracket is found the positron fraction is not 0, and no midpoint of
the bisection is 0. -/
theorem cell_mid_ne_zero (r : F → F) (nprot npost dt_real : F) (m : Nat)
    (hsign : sign_change r nprot npost dt_real m) (n : Nat) :
    cell_mid r nprot npost dt_real m n ≠ 0 := by
  have hz : npost / nprot ≠ 0 := by
    intro h0
    have e : trial_zr r nprot npost m = npost / nprot := by
      simp only [trial_zr, h0, zero_mul]
    simp only [sign_change, e] at hsign
    exact absurd hsign (not_lt.mpr (mul_self_nonneg _))
  have hs := pow_pos (implicit_steps_pos (r (npost / nprot))) m
  rcases lt_or_gt_of_ne hz with hneg | hpos
  · have ht : trial_zr r nprot npost m < 0 := mul_neg_of_neg_of_pos hneg hs
    exact (bisect_ends_neg _ _ _ _ _ hneg ht n).2.2.ne
  · have ht : 0 < trial_zr r nprot npost m := mul_pos hpos hs
    exact (bisect_ends_pos _ _ _ _ _ hpos ht n).2.2.ne'

/-- C21.  Bracket invariant of the implicit bisection.  With
`g(z) = (z - zfrac) - dt_real*r(z)/nprot`, `fl = g(zfrac)` and `fr = g(zr)` fixed
before the loop and `fr*fl < 0`: after any number `n` of executions of the loop
body `fl*g(zl) > 0` and `fr*g(zr) > 0`, although `fl` and `fr` are never
recomputed, hence `g(zl)*g(zr) < 0`; an iteration with `g(zcen) ≠ 0` halves
`|zr - zl|`; an iteration with `g(zcen) = 0` leaves the endpoints where they are,
the next midpoint is the same `zcen`, the exit test of the next iteration holds
for every tolerance `bisects > 0`, and if the loop is still running it stops
there and returns that `zcen`. -/
theorem bisection_bracket_invariant (C : Consts F) (r : F → F) (nprot npost dt_real : F)
    (m : Nat) (hsign : sign_change r nprot npost dt_real m) :
    (∀ n,
        cell_g r nprot npost dt_real (npost / nprot)
            * cell_g r nprot npost dt_real (cell_ends r nprot npost dt_real m n).1 > 0
          ∧ cell_g r nprot npost dt_real (trial_zr r nprot npost m)
            * cell_g r nprot npost dt_real (cell_ends r nprot npost dt_real m n).2 > 0
          ∧ cell_g r nprot npost dt_real (cell_ends r nprot npost dt_real m n).1
            * cell_g r nprot npost dt_real (cell_ends r nprot npost dt_real m n).2 < 0)
      ∧ (∀ n, cell_mid r nprot npost dt_real m n
          = 0.5 * ((cell_ends r nprot npost dt_real m n).1
              + (cell_ends r nprot npost dt_real m n).2))
      ∧ (∀ n, cell_g r nprot npost dt_real (cell_mid r nprot npost dt_real m n) ≠ 0 →
          |(cell_ends r nprot npost dt_real m (n + 1)).2
              - (cell_ends r nprot npost dt_real m (n + 1)).1|
            = |(cell_ends r nprot npost dt_real m n).2
              - (cell_ends r nprot npost dt_real m n).1| / 2)
      ∧ (∀ n, cell_g r nprot npost dt_real (cell_mid r nprot npost dt_real m n) = 0 →
          cell_ends r nprot npost dt_real m (n + 1) = cell_ends r nprot npost dt_real m n
            ∧ cell_mid r nprot npost dt_real m (n + 1) = cell_mid r nprot npost dt_real m n
            ∧ (0 < C.bisects → cell_test C r nprot npost dt_real m (n + 1))
            ∧ (0 < C.bisects → ∀ (fuel : Nat) (z0 : F), n + 1 < fuel →
                (∀ c, c ≤ n → ¬ cell_test C r nprot npost dt_real m c) →
                bisect_loop (fun z => Except.ok (cell_g r nprot npost dt_real z))
                    (cell_g r nprot npost dt_real (npost / nprot))
                    (cell_g r nprot npost dt_real (trial_zr r nprot npost m)) C.bisects
                    fuel 0 (npost / nprot) (trial_zr r nprot npost m) z0
                  = Except.ok (n + 1, (cell_ends r nprot npost dt_real m n).1,
                      (cell_ends r nprot npost dt_real m n).2,
                      cell_mid r nprot npost dt_real m n))) := by
  have hs : cell_g r nprot npost dt_real (npost / nprot)
      * cell_g r nprot npost dt_real (trial_zr r nprot npost m) < 0 := by
    rw [mul_comm]
    exact hsign
  have hfl : cell_g r nprot npost dt_real (npost / nprot) ≠ 0 := by
    intro h0
    rw [h0, zero_mul] at hs
    exact lt_irrefl 0 hs
  have hfr : cell_g r nprot npost dt_real (trial_zr r nprot npost m) ≠ 0 := by
    intro h0
    rw [h0, mul_zero] at hs
    exact lt_irrefl 0 hs
  have hinv := bisect_signs (cell_g r nprot npost dt_real)
    (cell_g r nprot npost dt_real (npost / nprot))
    (cell_g r nprot npost dt_real (trial_zr r nprot npost m)) (npost / nprot)
    (trial_zr r nprot npost m) (mul_self_pos.mpr hfl) (mul_self_pos.mpr hfr)
  have hw := bisect_width (cell_g r nprot npost dt_real)
    (cell_g r nprot npost dt_real (npost / nprot))
    (cell_g r nprot npost dt_real (trial_zr r nprot npost m)) (npost / nprot)
    (trial_zr r nprot npost m) hs
  have htest : ∀ n, cell_g r nprot npost dt_real (cell_mid r nprot npost dt_real m n) = 0 →
      0 < C.bisects → cell_test C r nprot npost dt_real m (n + 1) := by
    intro n h0 hb
    have hmid := ((hw n).2 h0).2
    have hne := cell_mid_ne_zero r nprot npost dt_real m hsign n
    refine ⟨Nat.succ_pos n, ?_⟩
    have e : n + 1 - 1 = n := rfl
    rw [e, hmid]
    have hne' : bisect_mid (cell_g r nprot npost dt_real)
        (cell_g r nprot npost dt_real (npost / nprot))
        (cell_g r nprot npost dt_real (trial_zr r nprot npost m)) (npost / nprot)
        (trial_zr r nprot npost m) n ≠ 0 := hne
    rw [div_self hne', lit_one, sub_self, abs_zero]
    exact hb
  refine ⟨?_, fun n => rfl, fun n => (hw n).1, ?_⟩
  · intro n
    obtain ⟨h1, h2⟩ := hinv n
    refine ⟨h1, h2, ?_⟩
    simp only [cell_ends]
    by_contra hc
    have hge := not_lt.mp hc
    have hprod := mul_pos h1 h2
    have hneg : cell_g r nprot npost dt_real (npost / nprot)
        * cell_g r nprot npost dt_real (trial_zr r nprot npost m)
        * (cell_g r nprot npost dt_real (bisect_ends (cell_g r nprot npost dt_real)
            (cell_g r nprot npost dt_real (npost / nprot))
            (cell_g r nprot npost dt_real (trial_zr r nprot npost m)) (npost / nprot)
            (trial_zr r nprot npost m) n).1
          * cell_g r nprot npost dt_real (bisect_ends (cell_g r nprot npost dt_real)
            (cell_g r nprot npost dt_real (npost / nprot))
            (cell_g r nprot npost dt_real (trial_zr r nprot npost m)) (npost / nprot)
            (trial_zr r nprot npost m) n).2) ≤ 0 :=
      mul_nonpos_of_nonpos_of_nonneg hs.le hge
    nlinarith
  · intro n h0
    obtain ⟨he, hmid⟩ := (hw n).2 h0
    refine ⟨he, hmid, htest n h0, ?_⟩
    intro hb fuel z0 hfuel hbefore
    have hfound := bisect_loop_found (cell_g r nprot npost dt_real)
      (cell_g r nprot npost dt_real (npost / nprot))
      (cell_g r nprot npost dt_real (trial_zr r nprot npost m)) C.bisects (npost / nprot)
      (trial_zr r nprot npost m) (n + 1) fuel 0 z0 hfuel
      (by intro h; exact absurd h (lt_irrefl 0))
      (by intro c _ hc; exact hbefore c (by omega))
      (by rw [Nat.zero_add]; exact htest n h0 hb)
    rw [bisect_ends_zero] at hfound
    rw [hfound, Nat.zero_add]
    have h1 : cell_g r nprot npost dt_real (cell_mid r nprot npost dt_real m (n + 1)) = 0 := by
      show cell_g r nprot npost dt_real (bisect_mid _ _ _ _ _ (n + 1)) = 0
      rw [hmid]
      exact h0
    have he1 := ((hw (n + 1)).2 h1).1
    have hm' : cell_mid r nprot npost dt_real m (n + 1) = cell_mid r nprot npost dt_real m n :=
      hmid
    simp only [cell_ends, cell_mid] at he hm' ⊢
    rw [he1, he, hm']

end BracketInvariant

section BracketWitness

/-- Witness of C21: the sample rate `rateTen` with `nprot = npost = dt_real = 1`,
whose bracket `[1, 10]` is found at attempt 1.  The residual vanishes at the first
midpoint `5.5`: the endpoints stay at `(1, 10)` and the exit test holds at the
next iteration. -/
theorem bisection_bracket_invariant_witness :
    sign_change rateTen 1 1 1 1
      ∧ cell_ends rateTen 1 1 1 1 1 = cell_ends rateTen 1 1 1 1 0
      ∧ cell_ends rateTen 1 1 1 1 0 = (1, 10)
      ∧ cell_mid rateTen 1 1 1 1 1 = 5.5
      ∧ cell_test (cgs (1e-10 : ℚ) 0.5) rateTen 1 1 1 1 1 := by
  have h := bisection_bracket_invariant (cgs (1e-10 : ℚ) 0.5) rateTen 1 1 1 1 rateTen_sign
  have h0 : cell_g rateTen 1 1 1 (cell_mid rateTen 1 1 1 1 0) = 0 := by
    norm_num [cell_mid, bisect_mid, bisect_ends, cell_g, implicit_gv, trial_zr, rateTen,
      implicit_steps]
  obtain ⟨he, hm, ht, _⟩ := h.2.2.2 0 h0
  refine ⟨rateTen_sign, he, ?_, ?_, ht (by norm_num [cgs])⟩
  · norm_num [cell_ends, bisect_ends, trial_zr, rateTen, implicit_steps]
  · rw [hm]
    norm_num [cell_mid, bisect_mid, bisect_ends, trial_zr, rateTen, implicit_steps]

end BracketWitness

section Newton

/-- The derivative of `y ↦ c / y^p` at `x > 0` is `-(c*p) / x^(p + 1)`. -/
theorem hasDerivAt_div_rpow (c p x : ℝ) (hx : 0 < x) :
    HasDerivAt (fun y : ℝ => c / y ^ p) (-(c * p) / x ^ (p + 1)) x := by
  have h1 : HasDerivAt (fun y : ℝ => y ^ p) (p * x ^ (p - 1)) x :=
    Real.hasDerivAt_rpow_const (Or.inl hx.ne')
  have hne : x ^ p ≠ 0 := (Real.rpow_pos_of_pos hx p).ne'
  have h2 := (hasDerivAt_const x c).div h1 hne
  refine h2.congr_deriv ?_
  have hxp : 0 < x ^ p := Real.rpow_pos_of_pos hx p
  rw [Real.rpow_sub_one hx.ne', Real.rpow_add_one hx.ne']
  field_simp
  ring

/-- The derivative of `y ↦ exp(-c*y^(1/3))` at `x > 0`. -/
theorem hasDerivAt_exp_cbrt (c x : ℝ) (hx : 0 < x) :
    HasDerivAt (fun y : ℝ => Real.exp (-c * y ^ ((1.0 : ℝ) / 3.0)))
      (Real.exp (-c * x ^ ((1.0 : ℝ) / 3.0)) * (-c * ((1.0 / 3.0) * x ^ ((1.0 : ℝ) / 3.0 - 1))))
      x := by
  have h1 : HasDerivAt (fun y : ℝ => y ^ ((1.0 : ℝ) / 3.0))
      ((1.0 / 3.0) * x ^ ((1.0 : ℝ) / 3.0 - 1)) x :=
    Real.hasDerivAt_rpow_const (Or.inl hx.ne')
  exact (h1.const_mul (-c)).exp

/-- Over the reals `didx(x, A)` is the derivative of `ix(·, A)` at every `x > 0`. -/
theorem ix_hasDerivAt (L : Libm ℝ) (hL : L.IsReal) (x A : ℝ) (hx : 0 < x) :
    HasDerivAt (fun y => ix L y A) (didx L x A) x := by
  have hfun : (fun y => ix L y A) = fun y : ℝ =>
      (i0 / y ^ ((1.0 : ℝ) / 6.0) + i1 / y ^ ((5.0 : ℝ) / 12.0) + i2 / y ^ ((2.0 : ℝ) / 3.0))
        * Real.exp (-i3 * y ^ ((1.0 : ℝ) / 3.0)) - A * y := by
    funext y
    simp only [ix, hL.pow_eq, hL.exp_eq]
  rw [hfun]
  have h0 := hasDerivAt_div_rpow i0 ((1.0 : ℝ) / 6.0) x hx
  have h1 := hasDerivAt_div_rpow i1 ((5.0 : ℝ) / 12.0) x hx
  have h2 := hasDerivAt_div_rpow i2 ((2.0 : ℝ) / 3.0) x hx
  have he := hasDerivAt_exp_cbrt i3 x hx
  have hlin : HasDerivAt (fun y : ℝ => A * y) A x := by
    simpa using (hasDerivAt_id x).const_mul A
  have h := (((h0.add h1).add h2).mul he).sub hlin
  refine h.congr_deriv ?_
  obtain ⟨w, hw, rfl, e2, e5, e8, e4, e14, e17, e20, e10, e13, e16⟩ := twelfth_root x hx
  have hw12 : (0 : ℝ) < w ^ 12 := by positivity
  have e6a : (1.0 : ℝ) / 6.0 + 1 = 7.0 / 6.0 := by norm_num
  have e6b : (5.0 : ℝ) / 12.0 + 1 = 17.0 / 12.0 := by norm_num
  have e6c : (2.0 : ℝ) / 3.0 + 1 = 5.0 / 3.0 := by norm_num
  have em : (w ^ 12) ^ ((1.0 : ℝ) / 3.0 - 1) = w ^ 4 / w ^ 12 := by
    rw [Real.rpow_sub_one hw12.ne', e4]
  simp only [didx, hL.pow_eq, hL.exp_eq, e6a, e6b, e6c, em, e2, e5, e8, e4, e14, e17, e20, e10,
    e13, e16]
  generalize Real.exp (-i3 * w ^ 4) = E
  have hw0 : w ≠ 0 := hw.ne'
  field_simp
  ring

/-- C22.  Newton-Raphson derivative.  Over the reals, for every `x > 0` and every
`A`, `didx(x, A)` is the derivative with respect to `x` of
`ix(x, A) = (i0*x^(-1/6) + i1*x^(-5/12) + i2*x^(-2/3))*exp(-i3*x^(1/3)) - A*x`,
so the update `xnew = xold - ix(xold)/didx(xold)` of `find_xs` is a Newton step
for the equation `i(x) = A*x`. -/
theorem didx_is_derivative (L : Libm ℝ) (hL : L.IsReal) (x A : ℝ) (hx : 0 < x) :
    HasDerivAt (fun y => ix L y A) (didx L x A) x
      ∧ ix L x A = (i0 * x ^ (-(1 / 6 : ℝ)) + i1 * x ^ (-(5 / 12 : ℝ)) + i2 * x ^ (-(2 / 3 : ℝ)))
          * Real.exp (-i3 * x ^ (1 / 3 : ℝ)) - A * x
      ∧ newton_step L A x = x - ix L x A / deriv (fun y => ix L y A) x := by
  have hd := ix_hasDerivAt L hL x A hx
  refine ⟨hd, ?_, ?_⟩
  · simp only [ix, hL.pow_eq, hL.exp_eq, Real.rpow_neg hx.le, div_eq_mul_inv]
    norm_num
  · rw [hd.deriv]
    rfl

/-- Witness of C22: the derivative at the starting point `x = 1` of `find_xs`. -/
theorem didx_is_derivative_witness :
    ∃ L : Libm ℝ, L.IsReal ∧ HasDerivAt (fun y => ix L y 1) (didx L 1 1) 1 := by
  obtain ⟨L, _, hL, _⟩ := exists_real_libs
  exact ⟨L, hL, (didx_is_derivative L hL 1 1 one_pos).1⟩

end Newton

section Regimes
variable {F : Type} [LinearOrderedField F]

/-- C23.  Regime thresholds of the Wien-particle channels.  `get_ndotwe` has
exactly three regimes: `theta ≤ 0.18` (the formula with `1 + 27.1*theta^0.949`),
`0.18 < theta < 2` (the formula with `16.1*theta^0.541`) and `theta ≥ 2` (the
logarithmic formula); `get_ndotwp` uses its exponential formula for `theta ≤ 2`
and its logarithmic formula only for `theta > 2`.  So at `theta = 2` exactly
`get_ndotwe` evaluates its high-temperature branch and `get_ndotwp` its
low-temperature branch, and at `theta = 0.18` exactly `get_ndotwe` evaluates its
lowest branch. -/
theorem wien_regime_thresholds (L : Libm F) (C : Consts F) (ngamma nprot z theta : F) :
    (theta ≤ 0.18 → get_ndotwe L C ngamma nprot z theta
        = (4.0 * L.M_PI / 27.0) * L.exp (-2.0 / theta) * (1.0 + 27.1 * L.pow theta 0.949)
          * C.alphaf * C.CL * C.RE * C.RE * ngamma * (2.0 * z + 1.0) * nprot)
      ∧ (0.18 < theta → theta < 2 → get_ndotwe L C ngamma nprot z theta
        = (4.0 * L.M_PI / 27.0) * L.exp (-2.0 / theta) * 16.1 * L.pow theta 0.541
          * C.alphaf * C.CL * C.RE * C.RE * ngamma * (2.0 * z + 1.0) * nprot)
      ∧ (2 ≤ theta → get_ndotwe L C ngamma nprot z theta
        = (56.0 / 9.0 * L.log (2.0 * C.eta * theta) - 8.0 / 27.0) / (1.0 + 0.5 / theta)
          * C.alphaf * C.CL * C.RE * C.RE * ngamma * (2.0 * z + 1.0) * nprot)
      ∧ (theta ≤ 2 → get_ndotwp L C ngamma nprot theta
        = L.M_PI * theta * L.exp (-2.0 / theta) / (1.0 + 0.9 * theta)
          * C.alphaf * C.CL * C.RE * C.RE * ngamma * nprot)
      ∧ (2 < theta → get_ndotwp L C ngamma nprot theta
        = ((28.0 / 9.0) * L.log (2.0 * C.eta * theta + 1.7) - 92.0 / 27.0)
          * C.alphaf * C.CL * C.RE * C.RE * ngamma * nprot)
      ∧ get_ndotwe L C ngamma nprot z 2
        = (56.0 / 9.0 * L.log (2.0 * C.eta * 2) - 8.0 / 27.0) / (1.0 + 0.5 / 2)
          * C.alphaf * C.CL * C.RE * C.RE * ngamma * (2.0 * z + 1.0) * nprot
      ∧ get_ndotwp L C ngamma nprot 2
        = L.M_PI * 2 * L.exp (-2.0 / 2) / (1.0 + 0.9 * 2)
          * C.alphaf * C.CL * C.RE * C.RE * ngamma * nprot
      ∧ get_ndotwe L C ngamma nprot z 0.18
        = (4.0 * L.M_PI / 27.0) * L.exp (-2.0 / 0.18) * (1.0 + 27.1 * L.pow 0.18 0.949)
          * C.alphaf * C.CL * C.RE * C.RE * ngamma * (2.0 * z + 1.0) * nprot := by
  have hwe1 : ∀ t : F, t ≤ 0.18 → get_ndotwe L C ngamma nprot z t
      = (4.0 * L.M_PI / 27.0) * L.exp (-2.0 / t) * (1.0 + 27.1 * L.pow t 0.949)
        * C.alphaf * C.CL * C.RE * C.RE * ngamma * (2.0 * z + 1.0) * nprot := by
    intro t h
    simp only [get_ndotwe, if_pos h]
  have hwe3 : ∀ t : F, 2 ≤ t → get_ndotwe L C ngamma nprot z t
      = (56.0 / 9.0 * L.log (2.0 * C.eta * t) - 8.0 / 27.0) / (1.0 + 0.5 / t)
        * C.alphaf * C.CL * C.RE * C.RE * ngamma * (2.0 * z + 1.0) * nprot := by
    intro t h
    have h1 : ¬ (t ≤ 0.18) := by
      rw [not_le]
      exact lt_of_lt_of_le (by norm_num) h
    have h2 : t ≥ 2 := h
    simp only [get_ndotwe, if_neg h1, if_pos h2]
  have hwp1 : ∀ t : F, t ≤ 2 → get_ndotwp L C ngamma nprot t
      = L.M_PI * t * L.exp (-2.0 / t) / (1.0 + 0.9 * t)
        * C.alphaf * C.CL * C.RE * C.RE * ngamma * nprot := by
    intro t h
    have h1 : t ≤ 2.0 := by
      norm_num
      exact h
    simp only [get_ndotwp, if_pos h1]
  refine ⟨hwe1 theta, ?_, hwe3 theta, hwp1 theta, ?_, hwe3 2 (le_refl _), hwp1 2 (le_refl _),
    hwe1 0.18 (le_refl _)⟩
  · intro h1 h2
    have h1' : ¬ (theta ≤ 0.18) := not_le.mpr h1
    have h2' : ¬ (theta ≥ 2) := not_le.mpr h2
    simp only [get_ndotwe, if_neg h1', if_neg h2']
  · intro h
    have h1 : ¬ (theta ≤ 2.0) := by
      norm_num
      exact h
    simp only [get_ndotwp, if_neg h1]

end Regimes

section LastIteration
variable {F : Type} [LinearOrderedField F]

/-- C24.  `find_xs` treats convergence on its last iteration as failure.  If the
convergence test `|1 - xnew/xold| < bisects` first succeeds at the loop index
`n = 999` (the 1000th iteration), `find_xs` terminates the process after
`no solution in xs` and the converged root is discarded; if it first succeeds at
an index `n < 999`, `find_xs` returns `1.5*xnew*v0*thetae^2` for the `xnew` of
that iteration.  The exit test compares `n` with 999, not with the loop bound
1000. -/
theorem find_xs_last_iteration_fatal (L : Libm F) (C : Consts F)
    (thetae nprot zfrac v0 h_scale : F) :
    ((∀ n, n < 999 →
          ¬ newton_test L (find_xs_A_fac L C thetae nprot zfrac v0 h_scale) C.bisects n) →
        newton_test L (find_xs_A_fac L C thetae nprot zfrac v0 h_scale) C.bisects 999 →
        find_xs_loop L (find_xs_A_fac L C thetae nprot zfrac v0 h_scale) C.bisects 1000 0 1.0 0
            = (999, newton_iter L (find_xs_A_fac L C thetae nprot zfrac v0 h_scale) 1000)
          ∧ find_xs L C thetae nprot zfrac v0 h_scale = Except.error Msg.no_solution_in_xs)
      ∧ (∀ n, n < 999 →
        (∀ m, m < n →
          ¬ newton_test L (find_xs_A_fac L C thetae nprot zfrac v0 h_scale) C.bisects m) →
        newton_test L (find_xs_A_fac L C thetae nprot zfrac v0 h_scale) C.bisects n →
        find_xs L C thetae nprot zfrac v0 h_scale
          = Except.ok (1.5 * newton_iter L (find_xs_A_fac L C thetae nprot zfrac v0 h_scale)
              (n + 1) * v0 * thetae * thetae)) := by
  constructor
  · intro hbefore hlast
    have h := find_xs_loop_found L (find_xs_A_fac L C thetae nprot zfrac v0 h_scale) C.bisects
      999 1000 0 0 (by norm_num) (by intro m _ hm; exact hbefore m (by omega))
      (by rw [Nat.zero_add]; exact hlast)
    have e : find_xs_loop L (find_xs_A_fac L C thetae nprot zfrac v0 h_scale) C.bisects 1000 0
        1.0 0 = (999, newton_iter L (find_xs_A_fac L C thetae nprot zfrac v0 h_scale) 1000) := h
    refine ⟨e, ?_⟩
    simp only [find_xs, e, if_true]
  · intro n hn hbefore htest
    have h := find_xs_loop_found L (find_xs_A_fac L C thetae nprot zfrac v0 h_scale) C.bisects
      n 1000 0 0 (by omega) (by intro m _ hm; exact hbefore m (by omega))
      (by rw [Nat.zero_add]; exact htest)
    have e : find_xs_loop L (find_xs_A_fac L C thetae nprot zfrac v0 h_scale) C.bisects 1000 0
        1.0 0 = (n, newton_iter L (find_xs_A_fac L C thetae nprot zfrac v0 h_scale) (n + 1)) := by
      rw [Nat.zero_add] at h
      exact h
    have hn9 : ¬ (n = 999) := by omega
    simp only [find_xs, e, hn9, if_false]

end LastIteration

section ZeroFieldSteps

/-- For positive coefficients and `c ≥ 1/2` the ratio `P/(Q + c*w^4*P)`, with
`P = a*w^6 + b*w^3 + d` and `Q = a/6*w^6 + 5*b/12*w^3 + 2*d/3`, is strictly
decreasing in `w ≥ 1`. -/
theorem step_ratio_anti (a b d c w1 w2 : ℝ) (ha : 0 < a) (hb : 0 < b) (hd : 0 < d)
    (hc : 1 / 2 < c) (hw : 1 ≤ w1) (hlt : w1 < w2) :
    (a * w2 ^ 6 + b * w2 ^ 3 + d)
        / ((a / 6 * w2 ^ 6 + 5 * b / 12 * w2 ^ 3 + 2 * d / 3)
            + c * w2 ^ 4 * (a * w2 ^ 6 + b * w2 ^ 3 + d))
      < (a * w1 ^ 6 + b * w1 ^ 3 + d)
        / ((a / 6 * w1 ^ 6 + 5 * b / 12 * w1 ^ 3 + 2 * d / 3)
            + c * w1 ^ 4 * (a * w1 ^ 6 + b * w1 ^ 3 + d)) := by
  have hw0 : 0 < w1 := by linarith
  have hw2 : 1 ≤ w2 := by linarith
  have hw20 : 0 < w2 := by linarith
  -- the cubes
  obtain ⟨v1, hv1⟩ : ∃ v1, v1 = w1 ^ 3 := ⟨_, rfl⟩
  obtain ⟨v2, hv2⟩ : ∃ v2, v2 = w2 ^ 3 := ⟨_, rfl⟩
  have hv1one : 1 ≤ v1 := by
    rw [hv1]
    exact one_le_pow₀ hw
  have hvlt : v1 < v2 := by
    rw [hv1, hv2]
    exact pow_lt_pow_left₀ hlt hw0.le (by norm_num)
  have hv2one : 1 ≤ v2 := by linarith
  -- the fourth powers grow at least as fast as the cubes
  have h4 : v2 - v1 ≤ w2 ^ 4 - w1 ^ 4 := by
    have hm : w1 ^ 3 * (w1 - 1) ≤ w2 ^ 3 * (w2 - 1) :=
      mul_le_mul (by rw [← hv1, ← hv2]; exact hvlt.le) (by linarith) (by linarith)
        (by positivity)
    rw [hv1, hv2]
    nlinarith
  have h4pos : 0 < w2 ^ 4 - w1 ^ 4 := by linarith
  have hy1 : 0 < w1 ^ 4 := by positivity
  have hy2 : 0 < w2 ^ 4 := by positivity
  have e61 : w1 ^ 6 = v1 ^ 2 := by rw [hv1]; ring
  have e62 : w2 ^ 6 = v2 ^ 2 := by rw [hv2]; ring
  rw [e61, e62, ← hv1, ← hv2]
  generalize w1 ^ 4 = y1 at h4 h4pos hy1 ⊢
  generalize w2 ^ 4 = y2 at h4 h4pos hy2 ⊢
  have hP1 : 0 < a * v1 ^ 2 + b * v1 + d := by positivity
  have hP2 : 0 < a * v2 ^ 2 + b * v2 + d := by positivity
  -- the cross term
  have hB : 0 < a * b * (v1 * v2) / 4 + a * d * (v1 + v2) / 2 + b * d / 4 := by positivity
  have hcross : (a * v2 ^ 2 + b * v2 + d) * (a / 6 * v1 ^ 2 + 5 * b / 12 * v1 + 2 * d / 3)
      - (a * v1 ^ 2 + b * v1 + d) * (a / 6 * v2 ^ 2 + 5 * b / 12 * v2 + 2 * d / 3)
      = (v2 - v1) * (a * b * (v1 * v2) / 4 + a * d * (v1 + v2) / 2 + b * d / 4) := by
    ring
  have hPP : 2 * (a * b * (v1 * v2) / 4 + a * d * (v1 + v2) / 2 + b * d / 4)
      ≤ (a * v1 ^ 2 + b * v1 + d) * (a * v2 ^ 2 + b * v2 + d) := by
    have t1 : 0 ≤ a * b * (v1 * v2) * (v1 + v2 - 2) := by
      apply mul_nonneg (by positivity)
      linarith
    have t2 : 0 ≤ a * d * (v1 * (v1 - 1) + v2 * (v2 - 1)) := by
      apply mul_nonneg (by positivity)
      have := mul_nonneg (by linarith : (0 : ℝ) ≤ v1) (by linarith : (0 : ℝ) ≤ v1 - 1)
      have := mul_nonneg (by linarith : (0 : ℝ) ≤ v2) (by linarith : (0 : ℝ) ≤ v2 - 1)
      linarith
    have t3 : 0 ≤ b * d * (v1 + v2 - 2) := by
      apply mul_nonneg (by positivity)
      linarith
    have t4 : 0 ≤ a ^ 2 * (v1 ^ 2 * v2 ^ 2) + b ^ 2 * (v1 * v2) + d ^ 2 := by positivity
    nlinarith
  have hQ1 : 0 < a / 6 * v1 ^ 2 + 5 * b / 12 * v1 + 2 * d / 3 := by positivity
  have hQ2 : 0 < a / 6 * v2 ^ 2 + 5 * b / 12 * v2 + 2 * d / 3 := by positivity
  generalize a * v1 ^ 2 + b * v1 + d = P1 at hP1 hcross hPP ⊢
  generalize a * v2 ^ 2 + b * v2 + d = P2 at hP2 hcross hPP ⊢
  generalize a / 6 * v1 ^ 2 + 5 * b / 12 * v1 + 2 * d / 3 = Q1 at hcross hQ1 ⊢
  generalize a / 6 * v2 ^ 2 + 5 * b / 12 * v2 + 2 * d / 3 = Q2 at hcross hQ2 ⊢
  generalize a * b * (v1 * v2) / 4 + a * d * (v1 + v2) / 2 + b * d / 4 = B at hB hcross hPP
  have hc0 : 0 < c := by linarith
  have hden1 : 0 < Q1 + c * y1 * P1 := by positivity
  have hden2 : 0 < Q2 + c * y2 * P2 := by positivity
  rw [div_lt_div_iff₀ hden2 hden1]
  have s1 : (v2 - v1) * B ≤ (y2 - y1) * B := mul_le_mul_of_nonneg_right h4 hB.le
  have s2 : (y2 - y1) * (2 * B) ≤ (y2 - y1) * (P1 * P2) :=
    mul_le_mul_of_nonneg_left hPP h4pos.le
  have s3 : 0 < (c - 1 / 2) * ((y2 - y1) * (P1 * P2)) :=
    mul_pos (by linarith) (mul_pos h4pos (mul_pos hP1 hP2))
  nlinarith

/-- One Newton-Raphson step at `A_fac = 0` from `x = w^12`, `w > 0`: the new
iterate is `x*(1 + rho)` and the relative step that the convergence test looks at
is `rho = P/(Q + (i3/3)*w^4*P)`, with `P = i0*w^6 + i1*w^3 + i2` and
`Q = i0/6*w^6 + 5*i1/12*w^3 + 2*i2/3`. -/
theorem zero_field_rel_step (L : Libm ℝ) (hL : L.IsReal) (w : ℝ) (hw : 0 < w) :
    newton_step L 0 (w ^ 12)
        = w ^ 12 * (1 + (i0 * w ^ 6 + i1 * w ^ 3 + i2)
          / ((i0 / 6 * w ^ 6 + 5 * i1 / 12 * w ^ 3 + 2 * i2 / 3)
              + i3 / 3 * w ^ 4 * (i0 * w ^ 6 + i1 * w ^ 3 + i2)))
      ∧ |1.0 - newton_step L 0 (w ^ 12) / w ^ 12|
        = (i0 * w ^ 6 + i1 * w ^ 3 + i2)
          / ((i0 / 6 * w ^ 6 + 5 * i1 / 12 * w ^ 3 + 2 * i2 / 3)
              + i3 / 3 * w ^ 4 * (i0 * w ^ 6 + i1 * w ^ 3 + i2))
      ∧ 0 < (i0 * w ^ 6 + i1 * w ^ 3 + i2)
          / ((i0 / 6 * w ^ 6 + 5 * i1 / 12 * w ^ 3 + 2 * i2 / 3)
              + i3 / 3 * w ^ 4 * (i0 * w ^ 6 + i1 * w ^ 3 + i2)) := by
  have h12 : (0 : ℝ) < w ^ 12 := by positivity
  obtain ⟨w0, hw0, hx, e2, e5, e8, e4, e14, e17, e20, e10, e13, e16⟩ := twelfth_root (w ^ 12) h12
  have hww : w = w0 := (pow_left_inj₀ hw.le hw0.le (by norm_num)).mp hx
  subst hww
  have hstep := newton_step_zero L hL w hw e2 e5 e8 e4 e14 e17 e20 e10 e13 e16
  have hP : 0 < (i0 : ℝ) * w ^ 6 + i1 * w ^ 3 + i2 := by
    simp only [i0, i1, i2]; positivity
  have hden : 0 < ((i0 : ℝ) / 6 * w ^ 6 + 5 * i1 / 12 * w ^ 3 + 2 * i2 / 3)
      + i3 / 3 * w ^ 4 * (i0 * w ^ 6 + i1 * w ^ 3 + i2) := by
    simp only [i0, i1, i2, i3]; positivity
  have hrho := div_pos hP hden
  refine ⟨hstep, ?_, hrho⟩
  rw [hstep]
  generalize (i0 * w ^ 6 + i1 * w ^ 3 + i2)
    / ((i0 / 6 * w ^ 6 + 5 * i1 / 12 * w ^ 3 + 2 * i2 / 3)
        + i3 / 3 * w ^ 4 * (i0 * w ^ 6 + i1 * w ^ 3 + i2)) = rho at hrho
  have e0 : w ^ 12 * (1 + rho) / w ^ 12 = 1 + rho := by
    rw [mul_comm, mul_div_assoc, div_self h12.ne', mul_one]
  have e : (1.0 : ℝ) - w ^ 12 * (1 + rho) / w ^ 12 = -rho := by
    rw [e0]
    norm_num
  rw [e, abs_neg, abs_of_pos hrho]

/-- At `A_fac = 0` every Newton-Raphson iterate is `w^12` for some `w ≥ 1`. -/
theorem zero_field_root (L : Libm ℝ) (hL : L.IsReal) (n : Nat) :
    ∃ w : ℝ, 1 ≤ w ∧ newton_iter L 0 n = w ^ 12 := by
  obtain ⟨h1, _⟩ := zero_field_iterates L hL n
  obtain ⟨w, hw, hx, _⟩ := twelfth_root (newton_iter L 0 n) (by linarith)
  refine ⟨w, ?_, hx⟩
  by_contra hc
  have hlt : w ^ 12 < 1 := pow_lt_one₀ hw.le (not_le.mp hc) (by norm_num)
  linarith

/-- At `A_fac = 0` the relative step of the Newton-Raphson iteration decreases
strictly from each iteration to the next. -/
theorem zero_field_step_decreases (L : Libm ℝ) (hL : L.IsReal) (n : Nat) :
    |1.0 - newton_iter L 0 (n + 2) / newton_iter L 0 (n + 1)|
      < |1.0 - newton_iter L 0 (n + 1) / newton_iter L 0 n| := by
  obtain ⟨w1, hw1, hx1⟩ := zero_field_root L hL n
  obtain ⟨w2, hw2, hx2⟩ := zero_field_root L hL (n + 1)
  have hw10 : 0 < w1 := by linarith
  have hw20 : 0 < w2 := by linarith
  obtain ⟨hs1, hr1, hp1⟩ := zero_field_rel_step L hL w1 hw10
  obtain ⟨_, hr2, _⟩ := zero_field_rel_step L hL w2 hw20
  have e1 : newton_iter L 0 (n + 1) = newton_step L 0 (newton_iter L 0 n) := rfl
  have e2 : newton_iter L 0 (n + 2) = newton_step L 0 (newton_iter L 0 (n + 1)) := rfl
  have hlt : w1 < w2 := by
    apply lt_of_pow_lt_pow_left₀ 12 hw20.le
    rw [← hx2, e1, hx1, hs1]
    have h12 : (0 : ℝ) < w1 ^ 12 := by positivity
    nlinarith [mul_pos h12 hp1]
  have hleft : |1.0 - newton_iter L 0 (n + 2) / newton_iter L 0 (n + 1)|
      = (i0 * w2 ^ 6 + i1 * w2 ^ 3 + i2)
        / ((i0 / 6 * w2 ^ 6 + 5 * i1 / 12 * w2 ^ 3 + 2 * i2 / 3)
            + i3 / 3 * w2 ^ 4 * (i0 * w2 ^ 6 + i1 * w2 ^ 3 + i2)) := by
    rw [e2, hx2]
    exact hr2
  have hright : |1.0 - newton_iter L 0 (n + 1) / newton_iter L 0 n|
      = (i0 * w1 ^ 6 + i1 * w1 ^ 3 + i2)
        / ((i0 / 6 * w1 ^ 6 + 5 * i1 / 12 * w1 ^ 3 + 2 * i2 / 3)
            + i3 / 3 * w1 ^ 4 * (i0 * w1 ^ 6 + i1 * w1 ^ 3 + i2)) := by
    rw [e1, hx1]
    exact hr1
  rw [hleft, hright]
  have hc : (1 : ℝ) / 2 < i3 / 3 := by
    simp only [i3]
    norm_num
  exact step_ratio_anti i0 i1 i2 (i3 / 3) w1 w2 (by simp only [i0]; norm_num)
    (by simp only [i1, i0]; norm_num) (by simp only [i2, i0]; norm_num) hc hw1 hlt

/-- At `A_fac = 0` a later iteration has a strictly smaller relative step. -/
theorem zero_field_steps_anti (L : Libm ℝ) (hL : L.IsReal) (m n : Nat) (h : m < n) :
    |1.0 - newton_iter L 0 (n + 1) / newton_iter L 0 n|
      < |1.0 - newton_iter L 0 (m + 1) / newton_iter L 0 m| := by
  obtain ⟨d, rfl⟩ : ∃ d, n = m + d + 1 := ⟨n - m - 1, by omega⟩
  clear h
  induction d with
  | zero => exact zero_field_step_decreases L hL m
  | succ d ih => exact lt_trans (zero_field_step_decreases L hL (m + d + 1)) ih

/-- Witness of C24.  With zero magnetic field (`v0 = 0`, so `A_fac = 0`) and the
tolerance `bisects` equal to the relative step of iteration 998, the convergence
test of `find_xs` fails in the iterations `0, ..., 998` and succeeds in iteration
999, and `find_xs` terminates the process. -/
theorem find_xs_last_iteration_fatal_witness :
    ∃ L : Libm ℝ, L.IsReal
      ∧ (∀ n, n < 999 → ¬ newton_test L 0
          |1.0 - newton_iter L 0 999 / newton_iter L 0 998| n)
      ∧ newton_test L 0 |1.0 - newton_iter L 0 999 / newton_iter L 0 998| 999
      ∧ find_xs L (cgs |1.0 - newton_iter L 0 999 / newton_iter L 0 998| 0.5) 1 1e15 0 0 1e6
        = Except.error Msg.no_solution_in_xs
      ∧ find_xs L (cgs 2 0.5) 1 1e15 0 0 1e6
        = Except.ok (1.5 * newton_iter L (find_xs_A_fac L (cgs 2 0.5) 1 1e15 0 0 1e6) (0 + 1)
            * 0 * 1 * 1) := by
  obtain ⟨L, _, hL, _⟩ := exists_real_libs
  have hA : find_xs_A_fac L (cgs |1.0 - newton_iter L 0 999 / newton_iter L 0 998| 0.5)
      1 1e15 0 0 1e6 = 0 := by
    simp [find_xs_A_fac]
  have hb : (cgs |1.0 - newton_iter L 0 999 / newton_iter L 0 998| 0.5).bisects
      = |1.0 - newton_iter L 0 999 / newton_iter L 0 998| := rfl
  have hbefore : ∀ n, n < 999 → ¬ newton_test L 0
      |1.0 - newton_iter L 0 999 / newton_iter L 0 998| n := by
    intro n hn
    simp only [newton_test, not_lt]
    rcases Nat.lt_or_ge n 998 with h | h
    · exact (zero_field_steps_anti L hL n 998 h).le
    · have e : n = 998 := by omega
      subst e
      exact le_refl _
  have hlast : newton_test L 0 |1.0 - newton_iter L 0 999 / newton_iter L 0 998| 999 :=
    zero_field_step_decreases L hL 998
  have hA2 : find_xs_A_fac L (cgs 2 0.5) 1 1e15 0 0 1e6 = 0 := by
    simp [find_xs_A_fac]
  refine ⟨L, hL, hbefore, hlast, ?_, ?_⟩
  · refine ((find_xs_last_iteration_fatal L
      (cgs |1.0 - newton_iter L 0 999 / newton_iter L 0 998| 0.5) 1 1e15 0 0 1e6).1 ?_ ?_).2
    · rw [hA, hb]
      exact hbefore
    · rw [hA, hb]
      exact hlast
  · refine (find_xs_last_iteration_fatal L (cgs 2 0.5) 1 1e15 0 0 1e6).2 0 (by norm_num)
      (by intro m hm; exact absurd hm (Nat.not_lt_zero m)) ?_
    rw [hA2]
    exact (newton_first L hL 0 (le_refl 0)).2

end ZeroFieldSteps

section ThickZone

/-- For `z = 0`, `nprot = 1e15`, `theta = 1`, a field of `1e3` G, a positive scale
height and an optical depth above 1 whose `lhs` lies strictly between 0 and 1,
both solvers return and the net pair production rate is strictly positive. -/
theorem thick_ndot_net_pos (L : Libm ℝ) (hL : L.IsReal) (G : Gsl ℝ) (hG : G.IsReal)
    (tau h : ℝ) (htau1 : 1 < tau)
    (h0 : 0 < find_xm_lhs (cgs 2 0.5) 0 tau 1e15 1)
    (h1 : find_xm_lhs (cgs 2 0.5) 0 tau 1e15 1 < 1) (hh : 0 < h) :
    ∃ r, ndot_net L G (cgs 2 0.5) 0 tau 1e15 1 h 1e3 = Except.ok r ∧ 0 < r := by
  obtain ⟨xc, _, hneg, hxm⟩ := find_xm_first L hL G (cgs 2 0.5) 0 tau 1e15 1
    (by norm_num [cgs]) (zone_bracket L hL G hG tau h0 h1)
  have hx0 : (0 : ℝ) < 10 ^ xc * 1 := by positivity
  have hx1 : (10 : ℝ) ^ xc * 1 < 1 := by
    rw [mul_one]
    exact Real.rpow_lt_one_of_one_lt_of_neg (by norm_num) hneg
  have hpi := Real.pi_pos
  have hv0 : 0 < (cgs (2 : ℝ) 0.5).QE * 1e3 / 2.0 / L.M_PI / (cgs (2 : ℝ) 0.5).ME
      / (cgs (2 : ℝ) 0.5).CL := by
    rw [hL.pi_eq]
    simp only [cgs]
    positivity
  have hA : 0 ≤ find_xs_A_fac L (cgs 2 0.5) 1 1e15 0
      ((cgs (2 : ℝ) 0.5).QE * 1e3 / 2.0 / L.M_PI / (cgs (2 : ℝ) 0.5).ME
        / (cgs (2 : ℝ) 0.5).CL) h := by
    generalize (cgs (2 : ℝ) 0.5).QE * 1e3 / 2.0 / L.M_PI / (cgs (2 : ℝ) 0.5).ME
      / (cgs (2 : ℝ) 0.5).CL = v0 at hv0 ⊢
    simp only [find_xs_A_fac, hL.sqrt_eq, hL.pow_eq, cgs]
    positivity
  have hxs := find_xs_first L hL (cgs 2 0.5) 1 1e15 0 _ h (by norm_num [cgs]) hA
  have hnew := (newton_first L hL _ hA).1
  have hnus : 0 < 1.5 * newton_step L (find_xs_A_fac L (cgs 2 0.5) 1 1e15 0
      ((cgs (2 : ℝ) 0.5).QE * 1e3 / 2.0 / L.M_PI / (cgs (2 : ℝ) 0.5).ME
        / (cgs (2 : ℝ) 0.5).CL) h) 1.0
      * ((cgs (2 : ℝ) 0.5).QE * 1e3 / 2.0 / L.M_PI / (cgs (2 : ℝ) 0.5).ME
        / (cgs (2 : ℝ) 0.5).CL) * 1 * 1 := by
    positivity
  have htau : tau > 1.0 := by
    norm_num
    exact htau1
  have htau0 : (0 : ℝ) ≤ tau := by linarith
  have hcorr := (sample_corr L hL G hG).1
  have hbr := get_ndotbr_nonneg L hL G (cgs 2 0.5) (by norm_num [cgs]) (by norm_num [cgs])
    (by norm_num [cgs]) (by norm_num [cgs]) 0 1 (10 ^ xc * 1) 1e15 hcorr (le_refl 0) hx0 hx1
  have hy := comptony1_pos L hL (10 ^ xc * 1) tau 1 (by linarith) hx0 hx1
  have hfb := fbrem_thick_nonneg L hL G _ tau 1 (10 ^ xc * 1) hy htau
  have hn1 := flatn1_nonneg L hL (cgs 2 0.5) (by norm_num [cgs]) (by norm_num [cgs])
    (10 ^ xc * 1) 1 _ hy hx0 hx1
  have hfs := fraction_thick_pos L hL G
    ((cgs (2 : ℝ) 0.5).hplanck * (1.5 * newton_step L (find_xs_A_fac L (cgs 2 0.5) 1 1e15 0
      ((cgs (2 : ℝ) 0.5).QE * 1e3 / 2.0 / L.M_PI / (cgs (2 : ℝ) 0.5).ME
        / (cgs (2 : ℝ) 0.5).CL) h) 1.0
      * ((cgs (2 : ℝ) 0.5).QE * 1e3 / 2.0 / L.M_PI / (cgs (2 : ℝ) 0.5).ME
        / (cgs (2 : ℝ) 0.5).CL) * 1 * 1) / (cgs (2 : ℝ) 0.5).ME / (cgs (2 : ℝ) 0.5).CL
      / (cgs (2 : ℝ) 0.5).CL) tau 1 htau
  have hnd := find_ndots_rate_nonneg L hL G hG (cgs 2 0.5) (by norm_num [cgs])
    (by norm_num [cgs]) 1 1e15 0 h _ _ one_pos (by norm_num) (le_refl 0) hh
    hv0 hnus
  have hng := ngamma_nonneg_hot L hL (cgs 2 0.5) (by norm_num [cgs]) (by norm_num [cgs])
    tau 1 _ _ _ _ h (le_refl 1) htau0 hh.le (mul_nonneg hfb hbr)
    (mul_nonneg hfs.le hnd)
  have hnc := (ncdot_pos_warm L hL (cgs 2 0.5) (by norm_num [cgs]) (by norm_num [cgs])
    (by norm_num [cgs]) _ 1 1e15 0 _ (by norm_num) (le_refl 1) (by norm_num) (le_refl 0)
    hng hn1).2.2.2.2.2
  have hna : nadot L (cgs 2 0.5) 0 1e15 1 = 0 := by simp [nadot]
  simp only [ndot_net, find_ndots, hxm, hxs, bind, Except.bind, pure, Except.pure]
  refine ⟨_, rfl, ?_⟩
  rw [hna, sub_zero]
  exact hnc

/-- The locals of cell `(0, 5, 0)` of the sample zone under `DIRECT_2` with the
units `thick_units`: the column of three zones has the optical depth
`1.995737619`. -/
theorem thick_locals (L : Libm ℝ) (hL : L.IsReal) (G : Gsl ℝ) (dt_step : ℝ) :
    (cell_locals L G (cgs 2 0.5) thick_units (zone_ext (Real.pi / 2)) Compute.DIRECT_2
        zone_state 0 5 0 dt_step).tau_depth = 1.995737619
      ∧ (cell_locals L G (cgs 2 0.5) thick_units (zone_ext (Real.pi / 2)) Compute.DIRECT_2
        zone_state 0 5 0 dt_step).h_th = 3.0e9
      ∧ (cell_locals L G (cgs 2 0.5) thick_units (zone_ext (Real.pi / 2)) Compute.DIRECT_2
        zone_state 0 5 0 dt_step).nprot = 1e15
      ∧ (cell_locals L G (cgs 2 0.5) thick_units (zone_ext (Real.pi / 2)) Compute.DIRECT_2
        zone_state 0 5 0 dt_step).thetae = 1
      ∧ (cell_locals L G (cgs 2 0.5) thick_units (zone_ext (Real.pi / 2)) Compute.DIRECT_2
        zone_state 0 5 0 dt_step).bfield = 1e3 := by
  have hlt : (zone_ext (Real.pi / 2)).bl_theta 0 5 0 < L.M_PI_2 := by
    rw [hL.pi2_eq]
    simp only [zone_ext]
    norm_num
  have hr : List.range' 3 (5 + 1 - 3) = [3, 4, 5] := rfl
  simp only [cell_locals, optical_depth, if_pos hlt, direct2_sum]
  simp only [zone_ext, hr, List.foldl, zone_state, thick_units, cgs, hL.sqrt_eq]
  norm_num

end ThickZone

section ZeroPositrons
variable {F : Type} [LinearOrderedField F]

/-- When the first trial endpoint is 0 and the residual there does not change
sign, every later trial endpoint `0*steps` is 0 again and the bracket loop runs
to its end. -/
theorem bracket_loop_stuck (g : F → Except Msg F) (fl steps v : F)
    (hg : g 0 = Except.ok v) (hv : ¬ (v * fl < 0)) :
    ∀ (fuel o : Nat) (fr0 : F),
      bracket_loop g fl steps (fuel + 1) o 0 fr0 = Except.ok (o + (fuel + 1), 0, v) := by
  intro fuel
  induction fuel with
  | zero =>
    intro o fr0
    simp only [bracket_loop, hg, bind, Except.bind, lit_zero, if_neg hv, zero_mul, pure,
      Except.pure, Nat.zero_add]
  | succ n ih =>
    intro o fr0
    have e : bracket_loop g fl steps (n + 1 + 1) o 0 fr0
        = bracket_loop g fl steps (n + 1) (o + 1) 0 v := by
      simp only [bracket_loop, hg, bind, Except.bind, lit_zero, if_neg hv, zero_mul]
    rw [e, ih (o + 1) v]
    have e2 : o + 1 + (n + 1) = o + (n + 1 + 1) := by omega
    rw [e2]

/-- The first execution of the body of the bracket loop, at `zr = zl = zfrac`,
computes `fr = fl` and does not leave the loop, whatever the rate routine. -/
theorem bracket_first_attempt (rate : F → Except Msg F) (zfrac dt_real nprot ndotl steps : F)
    (fuel o : Nat) (fr0 : F) (hrate : rate zfrac = Except.ok ndotl) :
    bracket_loop (implicit_g rate zfrac dt_real nprot)
        ((zfrac - zfrac) - dt_real * ndotl / nprot) steps (fuel + 1) o zfrac fr0
      = bracket_loop (implicit_g rate zfrac dt_real nprot)
          ((zfrac - zfrac) - dt_real * ndotl / nprot) steps fuel (o + 1) (zfrac * steps)
          ((zfrac - zfrac) - dt_real * ndotl / nprot) := by
  have hno : ¬ (((zfrac - zfrac) - dt_real * ndotl / nprot)
      * ((zfrac - zfrac) - dt_real * ndotl / nprot) < 0) :=
    not_lt.mpr (mul_self_nonneg _)
  simp only [bracket_loop, implicit_g, hrate, bind, Except.bind, pure, Except.pure, lit_zero,
    if_neg hno]

/-- With `npost = 0`, a non-zero net rate at `z = 0` and `dt_real > 0` the update
takes the implicit branch, no bracket is found, and the process is terminated. -/
theorem pair_update_zero_positrons (C : Consts F) (U : Units F) (rate : F → Except Msg F)
    (nprot dt_real net_rate : F) (Sf : FluidState F) (RPL i j k : Nat)
    (hrate : rate 0 = Except.ok net_rate) (hne : net_rate ≠ 0) (hdt : 0 < dt_real) :
    pair_update C U rate nprot 0 dt_real Sf RPL i j k
      = { printed := [Msg.net_rate_too_steep i j k, Msg.failure_in_implicit_method],
          Sf := none } := by
  have hpos : |net_rate| > 0 := abs_pos.mpr hne
  have hstiff : dt_real > C.q_alpha * |(0 : F)| := by
    rw [abs_zero, mul_zero]
    exact hdt
  have hg : implicit_g rate 0 dt_real nprot 0
      = Except.ok ((0 - 0) - dt_real * net_rate / nprot) := by
    simp only [implicit_g, hrate, bind, Except.bind, pure, Except.pure]
  have hno : ¬ (((0 - 0) - dt_real * net_rate / nprot)
      * ((0 - 0) - dt_real * net_rate / nprot) < 0) :=
    not_lt.mpr (mul_self_nonneg _)
  have hloop := bracket_loop_stuck (implicit_g rate 0 dt_real nprot)
    ((0 - 0) - dt_real * net_rate / nprot) (implicit_steps net_rate) _ hg hno 998 0 0
  have h9 : (0 + (998 + 1) : Nat) = 999 := rfl
  rw [h9] at hloop
  simp only [pair_update, zero_div, hrate, lit_zero, hpos, if_true, hstiff, hloop, true_or]

/-- No input makes the first bracket attempt succeed: at `zr = zl` the residual
is `fl` itself and `fl*fl` is not negative. -/
theorem first_attempt_fails (r : F → F) (nprot npost dt_real : F) :
    ¬ sign_change r nprot npost dt_real 0 := by
  simp only [sign_change, trial_zr, pow_zero, mul_one]
  exact not_lt.mpr (mul_self_nonneg _)

/-- C25.  A cell with zero positron density and non-zero net rate is fatal.  In
`pair_production_1zone`, if `Ss->P[RPL][k][j][i] = 0` (so `npost = 0`,
`zfrac = 0` and `qfac = 0`), the net rate at `z = 0` is returned and is not 0, and
`dt_real = dt_step*T_unit > 0`, then the implicit branch is taken, every trial
endpoint is 0, `fr*fl = fl*fl` is never negative, the bracket loop exhausts and
the process is terminated after `Failure in implicit method`.  More generally the
first bracket attempt (`zr = zl`) succeeds for no input. -/
theorem zero_positrons_fatal (L : Libm F) (G : Gsl F) (C : Consts F) (U : Units F) (E : Ext F)
    (cmp : Compute) (Ss Sf : FluidState F) (i j k : Nat) (dt_step net_rate : F)
    (hP : Ss.P E.RPL k j i = 0)
    (hrate : ndot_net L G C 0 (cell_locals L G C U E cmp Ss i j k dt_step).tau_depth
        (cell_locals L G C U E cmp Ss i j k dt_step).nprot
        (cell_locals L G C U E cmp Ss i j k dt_step).thetae
        (cell_locals L G C U E cmp Ss i j k dt_step).h_th
        (cell_locals L G C U E cmp Ss i j k dt_step).bfield = Except.ok net_rate)
    (hne : net_rate ≠ 0) (hdt : 0 < dt_step * U.T_unit) :
    (cell_locals L G C U E cmp Ss i j k dt_step).npost = 0
      ∧ (cell_locals L G C U E cmp Ss i j k dt_step).zfrac = 0
      ∧ |(cell_locals L G C U E cmp Ss i j k dt_step).npost / net_rate| = 0
      ∧ pair_production_1zone L G C U E cmp Ss Sf i j k dt_step
        = { printed := [Msg.net_rate_too_steep i j k, Msg.failure_in_implicit_method],
            Sf := none }
      ∧ (∀ (r : F → F) (nprot npost dt_real : F), ¬ sign_change r nprot npost dt_real 0)
      ∧ (∀ (rate : F → Except Msg F) (zfrac dt_real nprot ndotl steps : F) (fuel o : Nat)
          (fr0 : F), rate zfrac = Except.ok ndotl →
          bracket_loop (implicit_g rate zfrac dt_real nprot)
              ((zfrac - zfrac) - dt_real * ndotl / nprot) steps (fuel + 1) o zfrac fr0
            = bracket_loop (implicit_g rate zfrac dt_real nprot)
                ((zfrac - zfrac) - dt_real * ndotl / nprot) steps fuel (o + 1) (zfrac * steps)
                ((zfrac - zfrac) - dt_real * ndotl / nprot)) := by
  have hnp : (cell_locals L G C U E cmp Ss i j k dt_step).npost = 0 := by
    show Ss.P E.RPL k j i * U.RHO_unit / C.ME = 0
    rw [hP, zero_mul, zero_div]
  have hz : (cell_locals L G C U E cmp Ss i j k dt_step).zfrac = 0 := by
    show Ss.P E.RPL k j i * U.RHO_unit / C.ME / (Ss.P E.RHO k j i * U.RHO_unit / C.MP) = 0
    rw [hP, zero_mul, zero_div, zero_div]
  refine ⟨hnp, hz, ?_, ?_, first_attempt_fails, ?_⟩
  · rw [hnp, zero_div, abs_zero]
  · have h0 : Ss.P E.RPL k j i * U.RHO_unit / C.ME = 0 := hnp
    rw [pair_production_1zone_unfold, h0]
    exact pair_update_zero_positrons C U _ _ _ net_rate Sf E.RPL i j k hrate hne hdt
  · intro rate zfrac dt_real nprot ndotl steps fuel o fr0 h
    exact bracket_first_attempt rate zfrac dt_real nprot ndotl steps fuel o fr0 h

end ZeroPositrons

section ZeroPositronsWitness

/-- Witness of C25: cell `(0, 5, 0)` of the sample zone with the units
`thick_units` and `dt_step = 1`.  The cell has no positrons, the net rate at
`z = 0` is positive, and the call terminates the process. -/
theorem zero_positrons_fatal_witness :
    ∃ (L : Libm ℝ) (G : Gsl ℝ), L.IsReal ∧ G.IsReal
      ∧ pair_production_1zone L G (cgs 2 0.5) thick_units (zone_ext (Real.pi / 2))
          Compute.DIRECT_2 zone_state zone_state 0 5 0 1
        = { printed := [Msg.net_rate_too_steep 0 5 0, Msg.failure_in_implicit_method],
            Sf := none } := by
  obtain ⟨L, G, hL, hG⟩ := exists_real_libs
  obtain ⟨e1, e2, e3, e4, e5⟩ := thick_locals L hL G 1
  obtain ⟨r, hr, hpos⟩ := thick_ndot_net_pos L hL G hG 1.995737619 3.0e9 (by norm_num)
    (by norm_num [find_xm_lhs, cgs]) (by norm_num [find_xm_lhs, cgs]) (by norm_num)
  have h := zero_positrons_fatal L G (cgs 2 0.5) thick_units (zone_ext (Real.pi / 2))
    Compute.DIRECT_2 zone_state zone_state 0 5 0 1 r
    (by norm_num [zone_state, zone_ext])
    (by rw [e1, e2, e3, e4, e5]; exact hr)
    hpos.ne'
    (by norm_num [thick_units])
  exact ⟨L, G, hL, hG, h.2.2.2.1⟩

end ZeroPositronsWitness

section Positivity
variable {F : Type} [LinearOrderedField F]

/-- Starting from a positive trial endpoint, with a positive factor `steps`, the
bracket loop ends with a positive trial endpoint, whatever the residual. -/
theorem bracket_loop_pos (g : F → Except Msg F) (fl steps : F) (hsteps : 0 < steps) :
    ∀ (fuel o : Nat) (zr fr0 : F) (res : Nat × F × F), 0 < zr →
      bracket_loop g fl steps fuel o zr fr0 = Except.ok res → 0 < res.2.1 := by
  intro fuel
  induction fuel with
  | zero =>
    intro o zr fr0 res hzr h
    simp only [bracket_loop, pure, Except.pure] at h
    rw [← Except.ok.inj h]
    exact hzr
  | succ n ih =>
    intro o zr fr0 res hzr h
    cases hg : g zr with
    | error e =>
      simp only [bracket_loop, hg, bind, Except.bind] at h
      exact Except.noConfusion h
    | ok fr =>
      simp only [bracket_loop, hg, bind, Except.bind] at h
      by_cases hs : fr * fl < 0.0
      · rw [if_pos hs] at h
        simp only [pure, Except.pure] at h
        rw [← Except.ok.inj h]
        exact hzr
      · rw [if_neg hs] at h
        exact ih (o + 1) (zr * steps) fr res (mul_pos hzr hsteps) h

/-- Starting from positive endpoints, the bisection loop ends with a positive
midpoint unless it ran out of iterations, whatever the residual. -/
theorem bisect_loop_pos (g : F → Except Msg F) (fl fr b : F) :
    ∀ (fuel count : Nat) (zl zr zc0 : F) (res : Nat × F × F × F), 0 < zl → 0 < zr →
      bisect_loop g fl fr b fuel count zl zr zc0 = Except.ok res →
      0 < res.2.2.2 ∨ res.1 = count + fuel := by
  intro fuel
  induction fuel with
  | zero =>
    intro count zl zr zc0 res _ _ h
    simp only [bisect_loop, pure, Except.pure] at h
    rw [← Except.ok.inj h]
    right
    rfl
  | succ n ih =>
    intro count zl zr zc0 res hzl hzr h
    have hm : (0 : F) < 0.5 * (zl + zr) := by
      rw [lit_half]
      linarith
    cases hg : g (0.5 * (zl + zr)) with
    | error e =>
      simp only [bisect_loop, hg, bind, Except.bind] at h
      exact Except.noConfusion h
    | ok fcen =>
      simp only [bisect_loop, hg, bind, Except.bind] at h
      by_cases ht : count > 0 ∧ |1.0 - zc0 / (0.5 * (zl + zr))| < b
      · rw [if_pos ht] at h
        simp only [pure, Except.pure] at h
        rw [← Except.ok.inj h]
        left
        exact hm
      · rw [if_neg ht] at h
        have h1 : 0 < (if fl * fcen > 0.0 then 0.5 * (zl + zr) else zl) := by
          split_ifs
          · exact hm
          · exact hzl
        have h2 : 0 < (if fl * fcen > 0.0 then zr
            else if fr * fcen > 0.0 then 0.5 * (zl + zr) else zr) := by
          split_ifs
          · exact hzr
          · exact hm
          · exact hzr
        rcases ih (count + 1) _ _ _ res h1 h2 h with hp | hc
        · left
          exact hp
        · right
          rw [hc]
          omega

/-- In the explicit branch, with `npost > 0`, `q_alpha ≤ 1` and `dt_real ≥ 0`,
the change of the positron density is at most `q_alpha*npost` in magnitude, so the
new density is at least `(1 - q_alpha)*npost ≥ 0`. -/
theorem explicit_step_bound (q_alpha npost dt_real net_rate : F) (hnpost : 0 < npost)
    (hq1 : q_alpha ≤ 1) (hdt : 0 ≤ dt_real) (hne : net_rate ≠ 0)
    (hexp : dt_real ≤ q_alpha * |npost / net_rate|) :
    |net_rate * dt_real| ≤ q_alpha * npost
      ∧ (1 - q_alpha) * npost ≤ npost + net_rate * dt_real
      ∧ 0 ≤ npost + net_rate * dt_real := by
  have hpos : 0 < |net_rate| := abs_pos.mpr hne
  have h1 : |net_rate * dt_real| ≤ q_alpha * npost := by
    rw [abs_mul, abs_of_nonneg hdt]
    rw [abs_div, abs_of_pos hnpost] at hexp
    calc |net_rate| * dt_real ≤ |net_rate| * (q_alpha * (npost / |net_rate|)) :=
          mul_le_mul_of_nonneg_left hexp hpos.le
      _ = q_alpha * npost := by
          field_simp
  have h2 := neg_abs_le (net_rate * dt_real)
  have h3 : (1 - q_alpha) * npost ≤ npost + net_rate * dt_real := by linarith
  have h4 : 0 ≤ (1 - q_alpha) * npost := mul_nonneg (by linarith) hnpost.le
  exact ⟨h1, h3, le_trans h4 h3⟩

/-- C26.  Positivity is preserved by the update itself.  For a cell with
`npost > 0`, `nprot > 0`, `q_alpha ≤ 1` (in particular `0 ≤ q_alpha ≤ 1`) and a
time step `dt_real ≥ 0`, whatever the rate routine: every run that returns leaves `Sf` as it was or assigns
`n_new*(ME/RHO_unit)` to `Sf->P[RPL][k][j][i]` for a density `n_new ≥ 0`.  In the
explicit branch `|net_rate*dt_real| ≤ q_alpha*npost`, so
`npost + net_rate*dt_real ≥ (1 - q_alpha)*npost ≥ 0`; in the implicit branch every
trial endpoint `zfrac*steps^m` and every midpoint of the bracket is strictly
positive, so the accepted `zcen*nprot` is. -/
theorem positivity_preserved (C : Consts F) (U : Units F) (rate : F → Except Msg F)
    (nprot npost dt_real : F) (Sf : FluidState F) (RPL i j k : Nat)
    (hnpost : 0 < npost) (hnprot : 0 < nprot) (hq1 : C.q_alpha ≤ 1) (hdt : 0 ≤ dt_real) :
    (∀ S1, (pair_update C U rate nprot npost dt_real Sf RPL i j k).Sf = some S1 →
        S1 = Sf ∨ ∃ n_new, 0 ≤ n_new ∧ S1 = Sf.setP RPL k j i (n_new * (C.ME / U.RHO_unit)))
      ∧ (∀ net_rate, net_rate ≠ 0 → dt_real ≤ C.q_alpha * |npost / net_rate| →
          |net_rate * dt_real| ≤ C.q_alpha * npost
            ∧ (1 - C.q_alpha) * npost ≤ npost + net_rate * dt_real
            ∧ 0 ≤ npost + net_rate * dt_real)
      ∧ (∀ (r : F → F) (m : Nat), 0 < trial_zr r nprot npost m)
      ∧ (∀ (r : F → F) (m n : Nat), 0 < cell_mid r nprot npost dt_real m n
          ∧ 0 < cell_mid r nprot npost dt_real m n * nprot) := by
  have hz : 0 < npost / nprot := div_pos hnpost hnprot
  have htrial : ∀ (r : F → F) (m : Nat), 0 < trial_zr r nprot npost m := by
    intro r m
    exact mul_pos hz (pow_pos (implicit_steps_pos _) m)
  have hexp : ∀ net_rate, net_rate ≠ 0 → dt_real ≤ C.q_alpha * |npost / net_rate| →
      |net_rate * dt_real| ≤ C.q_alpha * npost
        ∧ (1 - C.q_alpha) * npost ≤ npost + net_rate * dt_real
        ∧ 0 ≤ npost + net_rate * dt_real := by
    intro net_rate hne h
    exact explicit_step_bound C.q_alpha npost dt_real net_rate hnpost hq1 hdt hne h
  refine ⟨?_, hexp, htrial, ?_⟩
  · intro S1 h
    cases hrate : rate (npost / nprot) with
    | error e =>
      simp only [pair_update, hrate] at h
      exact Option.noConfusion h
    | ok net_rate =>
      by_cases hpos : |net_rate| > 0.0
      · have hne : net_rate ≠ 0 := by
          rw [lit_zero] at hpos
          exact abs_pos.mp hpos
        by_cases hstiff : dt_real > C.q_alpha * |npost / net_rate|
        · simp only [pair_update, hrate, if_pos hpos, if_pos hstiff] at h
          cases hb : bracket_loop (implicit_g rate (npost / nprot) dt_real nprot)
              (npost / nprot - npost / nprot - dt_real * net_rate / nprot)
              (implicit_steps net_rate) 999 0 (npost / nprot) 0 with
          | error e =>
            rw [hb] at h
            exact Option.noConfusion h
          | ok res =>
            obtain ⟨o, zr, fr⟩ := res
            have hzr : 0 < zr := bracket_loop_pos _ _ _ (implicit_steps_pos net_rate) 999 0
              (npost / nprot) 0 (o, zr, fr) hz hb
            rw [hb] at h
            by_cases ho : o = 999 ∨ isnan fr = true
            · simp only [if_pos ho] at h
              exact Option.noConfusion h
            · simp only [if_neg ho] at h
              cases hbis : bisect_loop (implicit_g rate (npost / nprot) dt_real nprot)
                  (npost / nprot - npost / nprot - dt_real * net_rate / nprot) fr C.bisects
                  99999 0 (npost / nprot) zr 0 with
              | error e =>
                rw [hbis] at h
                exact Option.noConfusion h
              | ok res2 =>
                obtain ⟨count, zl1, zr1, zcen⟩ := res2
                have hzc := bisect_loop_pos _ _ _ _ 99999 0 (npost / nprot) zr 0
                  (count, zl1, zr1, zcen) hz hzr hbis
                rw [hbis] at h
                by_cases hc : count = 99999
                · simp only [if_pos hc] at h
                  left
                  exact (Option.some.inj h).symm
                · simp only [if_neg hc] at h
                  right
                  rcases hzc with hp | he
                  · exact ⟨zcen * nprot, (mul_pos hp hnprot).le, (Option.some.inj h).symm⟩
                  · exact absurd (by simpa using he) hc
        · simp only [pair_update, hrate, if_pos hpos, if_neg hstiff] at h
          right
          exact ⟨npost + net_rate * dt_real, (hexp net_rate hne (not_lt.mp hstiff)).2.2,
            (Option.some.inj h).symm⟩
      · simp only [pair_update, hrate, if_neg hpos] at h
        left
        exact (Option.some.inj h).symm
  · intro r m n
    have hm := (bisect_ends_pos (cell_g r nprot npost dt_real)
      (cell_g r nprot npost dt_real (npost / nprot))
      (cell_g r nprot npost dt_real (trial_zr r nprot npost m)) (npost / nprot)
      (trial_zr r nprot npost m) hz (htrial r m) n).2.2
    exact ⟨hm, mul_pos hm hnprot⟩

end Positivity

section PositivityWitness

/-- Witness of C26: the sample cell with the rate `rateTen` and
`nprot = npost = dt_real = 1`, which takes the implicit branch and accepts the
midpoint `5.5`. -/
theorem positivity_preserved_witness :
    (∀ S1, (pair_update (cgs (1e-10 : ℚ) 0.5) units10 (fun z => Except.ok (rateTen z)) 1 1 1
          zeroState 8 3 4 5).Sf = some S1 →
        S1 = zeroState ∨ ∃ n_new, 0 ≤ n_new
          ∧ S1 = zeroState.setP 8 5 4 3
              (n_new * ((cgs (1e-10 : ℚ) 0.5).ME / units10.RHO_unit)))
      ∧ 0 < cell_mid rateTen 1 1 1 1 1 * 1 :=
  ⟨(positivity_preserved (cgs (1e-10 : ℚ) 0.5) units10 (fun z => Except.ok (rateTen z)) 1 1 1
      zeroState 8 3 4 5 one_pos one_pos (by norm_num [cgs]) zero_le_one).1,
   ((positivity_preserved (cgs (1e-10 : ℚ) 0.5) units10 (fun z => Except.ok (rateTen z)) 1 1 1
      zeroState 8 3 4 5 one_pos one_pos (by norm_num [cgs]) zero_le_one).2.2.2 rateTen 1 1).2⟩

end PositivityWitness

section Cap
variable {F : Type} [LinearOrderedField F]

/-- Under `GAUSSIAN` the scale height among the locals of the cell is
`tau_depth/sigma_t/ntot` with `ntot = 2*npost + nprot`. -/
theorem cell_gaussian_h_th (L : Libm F) (G : Gsl F) (C : Consts F) (U : Units F) (E : Ext F)
    (Ss : FluidState F) (i j k : Nat) (dt_step : F) :
    (cell_locals L G C U E Compute.GAUSSIAN Ss i j k dt_step).h_th
      = (cell_locals L G C U E Compute.GAUSSIAN Ss i j k dt_step).tau_depth / C.sigma_t
          / (cell_locals L G C U E Compute.GAUSSIAN Ss i j k dt_step).ntot :=
  rfl

/-- C27.  The Gaussian strategy caps the optical depth from above at `SMALL`.
With `COMPUTE == GAUSSIAN`,
`tau_depth = fmin(|nt*h_r*rad*L_unit*sqrt(M_PI_2)*dummy*sigma_t|, SMALL)`, so for
every cell and every state `0 ≤ tau_depth ≤ SMALL` (for `SMALL ≥ 0`) and
`h_th = tau_depth/(sigma_t*ntot) ≤ SMALL/(sigma_t*ntot)` (for `sigma_t*ntot > 0`);
whenever the value inside `fmin` is at least `SMALL` the result is `SMALL`,
whatever the density, the radius and the angle. -/
theorem gaussian_caps_depth (L : Libm F) (G : Gsl F) (C : Consts F) (U : Units F) (E : Ext F)
    (Ss : FluidState F) (i j k : Nat) (dt_step : F) (hS : 0 ≤ C.SMALL) :
    (cell_locals L G C U E Compute.GAUSSIAN Ss i j k dt_step).tau_depth
        = min (gaussian_tau_fabs L G C U E Ss i j k) C.SMALL
      ∧ gaussian_tau_fabs L G C U E Ss i j k
        = |(2 * (Ss.P E.RPL k ((E.NG + E.N2 + E.NG) / 2) i * U.RHO_unit / C.ME)
              + Ss.P E.RHO k ((E.NG + E.N2 + E.NG) / 2) i * U.RHO_unit / C.MP)
            * C.h_r * E.bl_rad i j k * U.L_unit * L.sqrt L.M_PI_2
            * gaussian_dummy L G C (E.bl_theta i j k) * C.sigma_t|
      ∧ 0 ≤ (cell_locals L G C U E Compute.GAUSSIAN Ss i j k dt_step).tau_depth
      ∧ (cell_locals L G C U E Compute.GAUSSIAN Ss i j k dt_step).tau_depth ≤ C.SMALL
      ∧ (cell_locals L G C U E Compute.GAUSSIAN Ss i j k dt_step).h_th
        = (cell_locals L G C U E Compute.GAUSSIAN Ss i j k dt_step).tau_depth
          / (C.sigma_t * (cell_locals L G C U E Compute.GAUSSIAN Ss i j k dt_step).ntot)
      ∧ (0 < C.sigma_t * (cell_locals L G C U E Compute.GAUSSIAN Ss i j k dt_step).ntot →
          (cell_locals L G C U E Compute.GAUSSIAN Ss i j k dt_step).h_th
            ≤ C.SMALL
              / (C.sigma_t * (cell_locals L G C U E Compute.GAUSSIAN Ss i j k dt_step).ntot))
      ∧ (C.SMALL ≤ gaussian_tau_fabs L G C U E Ss i j k →
          (cell_locals L G C U E Compute.GAUSSIAN Ss i j k dt_step).tau_depth = C.SMALL
            ∧ (cell_locals L G C U E Compute.GAUSSIAN Ss i j k dt_step).h_th
              = C.SMALL
                / (C.sigma_t
                  * (cell_locals L G C U E Compute.GAUSSIAN Ss i j k dt_step).ntot)) := by
  have htau := cell_gaussian_fabs L G C U E Ss i j k dt_step
  have hle := gaussian_tau_le_small L G C U E Ss i j k dt_step
  have hh : (cell_locals L G C U E Compute.GAUSSIAN Ss i j k dt_step).h_th
      = (cell_locals L G C U E Compute.GAUSSIAN Ss i j k dt_step).tau_depth
        / (C.sigma_t * (cell_locals L G C U E Compute.GAUSSIAN Ss i j k dt_step).ntot) := by
    rw [cell_gaussian_h_th, div_div]
  have hfabs : 0 ≤ gaussian_tau_fabs L G C U E Ss i j k := abs_nonneg _
  refine ⟨htau, ?_, ?_, hle, hh, ?_, ?_⟩
  · simp only [gaussian_tau_fabs]
    have e2 : (2.0 : F) = 2 := by norm_num
    rw [e2]
    congr 1
    ring
  · rw [htau]
    exact le_min hfabs hS
  · intro hpos
    rw [hh]
    exact div_le_div_of_nonneg_right hle hpos.le
  · intro hbig
    have e : (cell_locals L G C U E Compute.GAUSSIAN Ss i j k dt_step).tau_depth = C.SMALL := by
      rw [htau]
      exact min_eq_right hbig
    refine ⟨e, ?_⟩
    rw [hh, e]

end Cap

section CapWitness

/-- Witness of C27: the sample zone with the aspect ratio `h_r = 5/(9√2)`, where
the value inside `fmin` is about `2e-4` and the result is `SMALL = 1e-20`. -/
theorem gaussian_caps_depth_witness :
    ∃ (L : Libm ℝ) (G : Gsl ℝ), L.IsReal ∧ G.IsReal
      ∧ 1.93e-4 ≤ gaussian_tau_fabs L G (cgs_h_r (5 / (9 * Real.sqrt 2))) zone_units
          (zone_ext (Real.pi / 2)) zone_state 0 5 0
      ∧ (cell_locals L G (cgs_h_r (5 / (9 * Real.sqrt 2))) zone_units (zone_ext (Real.pi / 2))
          Compute.GAUSSIAN zone_state 0 5 0 1).tau_depth
        = (cgs_h_r (5 / (9 * Real.sqrt 2))).SMALL := by
  obtain ⟨L, G, hL, hG⟩ := exists_real_libs
  obtain ⟨hv, _⟩ := matched_gaussian_fabs L hL G hG
  have hS : (cgs_h_r (5 / (9 * Real.sqrt 2))).SMALL = 1e-20 := by
    simp only [cgs_h_r, cgs]
    norm_num
  have h := gaussian_caps_depth L G (cgs_h_r (5 / (9 * Real.sqrt 2))) zone_units
    (zone_ext (Real.pi / 2)) zone_state 0 5 0 1 (by rw [hS]; norm_num)
  refine ⟨L, G, hL, hG, hv, (h.2.2.2.2.2.2 ?_).1⟩
  rw [hS]
  norm_num at hv ⊢
  linarith

end CapWitness

section Column
variable {F : Type} [LinearOrderedField F]

/-- The column of a cell in the upper hemisphere is `NG, ..., j`. -/
theorem column_upper (L : Libm F) (E : Ext F) (theta : F) (j : Nat) (h : theta < L.M_PI_2) :
    column_indices L E theta j = List.range' E.NG (j + 1 - E.NG) := by
  simp only [column_indices, m_start, m_end, if_pos h]

/-- The column of a cell in the lower hemisphere is `j, ..., N2 + NG`. -/
theorem column_lower (L : Libm F) (E : Ext F) (theta : F) (j : Nat) (h : ¬ theta < L.M_PI_2) :
    column_indices L E theta j = List.range' j (E.N2 + E.NG + 1 - j) := by
  simp only [column_indices, m_start, m_end, if_neg h]

/-- C28.  Column range of the direct integrations.  For an interior target cell
(`NG ≤ j < N2 + NG`), `DIRECT_1` and `DIRECT_2` sum over `column_indices`: for
`theta < π/2` exactly the indices `NG, ..., j` (`j - NG + 1` cells), for
`theta ≥ π/2` exactly the indices `j, ..., N2 + NG` (`N2 + NG - j + 1` cells),
which includes the index `N2 + NG`, one past the last interior index
`N2 + NG - 1`.  Hence for the mirror-image cells `j` (upper hemisphere) and
`N2 + 2*NG - 1 - j` (lower hemisphere) the lower sum has one more term. -/
theorem direct_column_range (L : Libm F) (E : Ext F) (j : Nat)
    (hj1 : E.NG ≤ j) (hj2 : j < E.N2 + E.NG) :
    (∀ (G : Gsl F) (C : Consts F) (U : Units F) (Ss : FluidState F) (i k : Nat)
        (rad theta nprot npost ntot : F),
        (optical_depth L G C U E Compute.DIRECT_1 Ss i j k rad theta nprot npost ntot).2
            = (direct1_sums L C U E Ss i k (m_start L E theta j) (m_end L E theta j)).1
              / (direct1_sums L C U E Ss i k (m_start L E theta j) (m_end L E theta j)).2
              * U.L_unit
          ∧ direct1_sums L C U E Ss i k (m_start L E theta j) (m_end L E theta j)
            = (column_indices L E theta j).foldl
                (fun (acc : F × F) m =>
                  (acc.1 + (2 * (Ss.P E.RPL k m i * U.RHO_unit / C.ME)
                        + Ss.P E.RHO k m i * U.RHO_unit / C.MP)
                      * |E.bl_theta i m k - L.M_PI_2| * E.gdet m i * L.sqrt (E.gcov22 m i)
                      * E.dx2,
                   acc.2 + (2 * (Ss.P E.RPL k m i * U.RHO_unit / C.ME)
                        + Ss.P E.RHO k m i * U.RHO_unit / C.MP) * E.gdet m i * E.dx2))
                (0.0, 0.0)
          ∧ (optical_depth L G C U E Compute.DIRECT_2 Ss i j k rad theta nprot npost ntot).1
            = (column_indices L E theta j).foldl
                (fun (tau_depth : F) m =>
                  tau_depth + (2 * (Ss.P E.RPL k m i * U.RHO_unit / C.ME)
                      + Ss.P E.RHO k m i * U.RHO_unit / C.MP)
                    * (L.sqrt (E.gcov22 m i) * E.dx2) * U.L_unit * C.sigma_t)
                0.0)
      ∧ (∀ theta : F, theta < L.M_PI_2 →
        (column_indices L E theta j).length = j - E.NG + 1
          ∧ ∀ m, m ∈ column_indices L E theta j ↔ E.NG ≤ m ∧ m ≤ j)
      ∧ (∀ theta : F, ¬ theta < L.M_PI_2 →
        (column_indices L E theta j).length = E.N2 + E.NG - j + 1
          ∧ (∀ m, m ∈ column_indices L E theta j ↔ j ≤ m ∧ m ≤ E.N2 + E.NG)
          ∧ E.N2 + E.NG ∈ column_indices L E theta j)
      ∧ (∀ theta_u theta_l : F, theta_u < L.M_PI_2 → ¬ theta_l < L.M_PI_2 →
        (column_indices L E theta_l (E.N2 + 2 * E.NG - 1 - j)).length
          = (column_indices L E theta_u j).length + 1) := by
  refine ⟨fun _ _ _ _ _ _ _ _ _ _ _ => ⟨rfl, rfl, rfl⟩, ?_, ?_, ?_⟩
  · intro theta h
    rw [column_upper L E theta j h]
    refine ⟨?_, ?_⟩
    · rw [List.length_range']
      omega
    · intro m
      rw [List.mem_range'_1]
      omega
  · intro theta h
    rw [column_lower L E theta j h]
    refine ⟨?_, ?_, ?_⟩
    · rw [List.length_range']
      omega
    · intro m
      rw [List.mem_range'_1]
      omega
    · rw [List.mem_range'_1]
      omega
  · intro theta_u theta_l hu hl
    rw [column_upper L E theta_u j hu, column_lower L E theta_l _ hl, List.length_range',
      List.length_range']
    omega

/-- Witness of C28: the sample zone, target cell `j = 5` of the interior zones
`3, ..., 10`; the cell `j = 8` is its mirror image. -/
theorem direct_column_range_witness :
    ∃ L : Libm ℝ, L.IsReal
      ∧ column_indices L (zone_ext (Real.pi / 2)) (Real.pi / 2 - 0.2) 5 = [3, 4, 5]
      ∧ column_indices L (zone_ext (Real.pi / 2)) (Real.pi / 2 + 0.1) 8 = [8, 9, 10, 11]
      ∧ (column_indices L (zone_ext (Real.pi / 2)) (Real.pi / 2 + 0.1) 8).length
          = (column_indices L (zone_ext (Real.pi / 2)) (Real.pi / 2 - 0.2) 5).length + 1 := by
  obtain ⟨L, _, hL, _⟩ := exists_real_libs
  have hu : Real.pi / 2 - 0.2 < L.M_PI_2 := by
    rw [hL.pi2_eq]
    norm_num
  have hl : ¬ Real.pi / 2 + 0.1 < L.M_PI_2 := by
    rw [hL.pi2_eq]
    norm_num
  have h := direct_column_range L (zone_ext (Real.pi / 2)) 5 (by simp [zone_ext])
    (by simp [zone_ext])
  refine ⟨L, hL, ?_, ?_, ?_⟩
  · rw [column_upper L _ _ 5 hu]
    rfl
  · rw [column_lower L _ _ 8 hl]
    rfl
  · exact h.2.2.2 _ _ hu hl

end Column

section Quadrature
variable {F : Type} [LinearOrderedField F]

/-- One iteration of the loop of `fbrem` with `o ≤ n_grid` adds the panel that
starts at `dh*o` and advances `o` by 4. -/
theorem fbrem_loop_step (G : Gsl F) (n_grid : Nat) (dh log_alpha logA stau : F)
    (fuel o : Nat) (out : F) (h : o ≤ n_grid) :
    fbrem_loop G n_grid dh log_alpha logA stau (fuel + 1) o out
      = fbrem_loop G n_grid dh log_alpha logA stau fuel (o + 4)
          (out + boole_panel (fbrem_integrand G log_alpha logA stau) dh o) := by
  simp only [fbrem_loop, if_pos h, boole_panel, fbrem_integrand]

/-- With `o > n_grid` the loop of `fbrem` ends. -/
theorem fbrem_loop_end (G : Gsl F) (n_grid : Nat) (dh log_alpha logA stau : F)
    (fuel o : Nat) (out : F) (h : n_grid < o) :
    fbrem_loop G n_grid dh log_alpha logA stau fuel o out = out := by
  cases fuel with
  | zero => rfl
  | succ f => simp only [fbrem_loop, if_neg (not_le.mpr h)]

/-- After `n` iterations from `o = 4*p` the loop of `fbrem` has added the panels
number `p, ..., p + n - 1`. -/
theorem fbrem_loop_panels (G : Gsl F) (n_grid : Nat) (dh log_alpha logA stau : F) :
    ∀ (n p fuel : Nat), 4 * (p + n) ≤ n_grid + 4 →
      fbrem_loop G n_grid dh log_alpha logA stau (fuel + n) (4 * p)
          (boole_sum (fbrem_integrand G log_alpha logA stau) dh p)
        = fbrem_loop G n_grid dh log_alpha logA stau fuel (4 * (p + n))
          (boole_sum (fbrem_integrand G log_alpha logA stau) dh (p + n)) := by
  intro n
  induction n with
  | zero => intro p fuel _; rfl
  | succ n ih =>
    intro p fuel h
    have e : fuel + (n + 1) = fuel + n + 1 := rfl
    rw [e, fbrem_loop_step G n_grid dh log_alpha logA stau (fuel + n) (4 * p) _ (by omega)]
    have h1 := ih (p + 1) fuel (by omega)
    have e2 : 4 * (p + 1) = 4 * p + 4 := by ring
    have e3 : p + 1 + n = p + (n + 1) := by omega
    rw [e2, e3] at h1
    exact h1

/-- Boole's rule for the integrand 1 on `n` panels is `4*n*dh`. -/
theorem boole_sum_one (dh : F) : ∀ n : Nat, boole_sum (fun _ => (1 : F)) dh n = 4 * n * dh := by
  intro n
  induction n with
  | zero => norm_num [boole_sum]
  | succ n ih =>
    simp only [boole_sum, ih, boole_panel]
    push_cast
    norm_num
    ring

/-- C29.  Quadrature range of `fbrem` in the optically thin case.  For
`taut ≤ 1` the loop runs for `o = 0, 4, ..., 100` inclusive: `fbrem` is Boole's
rule on 26 panels of width `4*dh` with `dh = log(theta/xm)/100`, applied to
`u*P((u + log 3)/logA, taut + taut^2)`.  The last panel starts at `u0 = 100*dh`
and reaches `u4 = 104*dh = 1.04*log(theta/xm)`, so the rule covers
`[0, 1.04*log(theta/xm)]`, not `[0, log(theta/xm)]`: for the integrand 1 the 26
panels give `1.04*log(theta/xm)`, the first 25 give `log(theta/xm)`. -/
theorem fbrem_quadrature_range (L : Libm F) (G : Gsl F) (y taut theta xm : F)
    (htaut : taut ≤ 1) :
    fbrem L G y taut theta xm
        = boole_sum (fbrem_integrand G (L.log 3.0)
            (L.log (1.0 + 4.0 * theta + 16.0 * theta * theta)) (taut + L.pow taut 2.0))
            (L.log (theta / xm) / 100) 26
      ∧ boole_sum (fbrem_integrand G (L.log 3.0)
            (L.log (1.0 + 4.0 * theta + 16.0 * theta * theta)) (taut + L.pow taut 2.0))
            (L.log (theta / xm) / 100) 26
        = boole_sum (fbrem_integrand G (L.log 3.0)
            (L.log (1.0 + 4.0 * theta + 16.0 * theta * theta)) (taut + L.pow taut 2.0))
            (L.log (theta / xm) / 100) 25
          + boole_panel (fbrem_integrand G (L.log 3.0)
            (L.log (1.0 + 4.0 * theta + 16.0 * theta * theta)) (taut + L.pow taut 2.0))
            (L.log (theta / xm) / 100) 100
      ∧ L.log (theta / xm) / 100 * ((100 : Nat) : F) + 4.0 * (L.log (theta / xm) / 100)
        = 1.04 * L.log (theta / xm)
      ∧ boole_sum (fun _ => (1 : F)) (L.log (theta / xm) / 100) 26 = 1.04 * L.log (theta / xm)
      ∧ boole_sum (fun _ => (1 : F)) (L.log (theta / xm) / 100) 25 = L.log (theta / xm) := by
  refine ⟨?_, rfl, ?_, ?_, ?_⟩
  · have h1 : ¬ (taut > 1.0) := by
      norm_num
      exact htaut
    have hp := fbrem_loop_panels G 100 (L.log (theta / xm) / 100) (L.log 3.0)
      (L.log (1.0 + 4.0 * theta + 16.0 * theta * theta)) (taut + L.pow taut 2.0) 26 0 75
      (by norm_num)
    have hend := fbrem_loop_end G 100 (L.log (theta / xm) / 100) (L.log 3.0)
      (L.log (1.0 + 4.0 * theta + 16.0 * theta * theta)) (taut + L.pow taut 2.0) 75 104
      (boole_sum (fbrem_integrand G (L.log 3.0)
        (L.log (1.0 + 4.0 * theta + 16.0 * theta * theta)) (taut + L.pow taut 2.0))
        (L.log (theta / xm) / 100) 26) (by norm_num)
    simp only [fbrem, if_neg h1]
    have e100 : ((100 : Nat) : F) = 100 := by norm_num
    rw [e100]
    exact hp.trans hend
  · push_cast
    ring
  · rw [boole_sum_one]
    push_cast
    ring
  · rw [boole_sum_one]
    push_cast
    ring

/-- Witness of C29: `taut = 1` is the largest optical depth of the quadrature
branch. -/
theorem fbrem_quadrature_range_witness :
    ∃ (L : Libm ℝ) (G : Gsl ℝ), L.IsReal ∧ G.IsReal
      ∧ fbrem L G 1 1 1 1e-3
        = boole_sum (fbrem_integrand G (L.log 3.0)
            (L.log (1.0 + 4.0 * 1 + 16.0 * 1 * 1)) (1 + L.pow 1 2.0))
            (L.log (1 / 1e-3) / 100) 26 := by
  obtain ⟨L, G, hL, hG⟩ := exists_real_libs
  exact ⟨L, G, hL, hG, (fbrem_quadrature_range L G 1 1 1 1e-3 (le_refl 1)).1⟩

end Quadrature

section Equilibrium

/-- The result of `get_zfrac` in terms of its local `u`. -/
theorem get_zfrac_eq {F : Type} [LinearOrderedField F] (L : Libm F) (C : Consts F)
    (nprot thetae : F) :
    get_zfrac L C nprot thetae = 0.5 * (-1.0 + L.sqrt (1.0 + 4.0 * zfrac_u L C nprot thetae)) :=
  rfl

/-- Over the reals the local `u` of `get_zfrac` is `4*exp(-2/thetae)/(nprot^2*lam_th^6)`
and is not negative. -/
theorem zfrac_u_real (L : Libm ℝ) (hL : L.IsReal) (C : Consts ℝ) (nprot thetae : ℝ) :
    zfrac_u L C nprot thetae
        = 4 * Real.exp (-2 / thetae) / (nprot ^ 2 * zfrac_lam_th L C thetae ^ 6)
      ∧ 0 ≤ zfrac_u L C nprot thetae := by
  have h6 : zfrac_lam_th L C thetae ^ (6.0 : ℝ) = zfrac_lam_th L C thetae ^ 6 := by
    rw [show (6.0 : ℝ) = ((6 : ℕ) : ℝ) by norm_num, Real.rpow_natCast]
  have e : zfrac_u L C nprot thetae
      = 4 * Real.exp (-2 / thetae) / (nprot ^ 2 * zfrac_lam_th L C thetae ^ 6) := by
    simp only [zfrac_u, hL.pow_eq, hL.exp_eq, h6]
    rw [div_div, div_div, div_mul_eq_mul_div]
    norm_num
    ring_nf
  refine ⟨e, ?_⟩
  rw [e]
  have h1 : 0 ≤ zfrac_lam_th L C thetae ^ 6 := by positivity
  have h2 : 0 < Real.exp (-2 / thetae) := Real.exp_pos _
  positivity

/-- C30.  `get_zfrac` returns the non-negative root of the equilibrium quadratic.
Over the reals, with `lam_th = hplanck/sqrt(2π*ME*thetae*ME*CL^2)` and
`u = 4*exp(-2/thetae)/(nprot^2*lam_th^6)`, the result
`z = 0.5*(-1 + sqrt(1 + 4u))` satisfies `z*(1 + z) = u` and `z ≥ 0`, and `z` is
strictly increasing in `u`: of two calls the one with the larger `u` returns the
larger `z`. -/
theorem get_zfrac_root (L : Libm ℝ) (hL : L.IsReal) (C : Consts ℝ) (nprot thetae : ℝ) :
    zfrac_lam_th L C thetae
        = C.hplanck / Real.sqrt (2 * Real.pi * C.ME * (thetae * C.ME * C.CL ^ 2))
      ∧ zfrac_u L C nprot thetae
        = 4 * Real.exp (-2 / thetae) / (nprot ^ 2 * zfrac_lam_th L C thetae ^ 6)
      ∧ get_zfrac L C nprot thetae
        = 0.5 * (-1 + Real.sqrt (1 + 4 * zfrac_u L C nprot thetae))
      ∧ get_zfrac L C nprot thetae * (1 + get_zfrac L C nprot thetae)
        = zfrac_u L C nprot thetae
      ∧ 0 ≤ get_zfrac L C nprot thetae
      ∧ ∀ nprot1 thetae1 : ℝ,
          (zfrac_u L C nprot thetae < zfrac_u L C nprot1 thetae1
            ↔ get_zfrac L C nprot thetae < get_zfrac L C nprot1 thetae1) := by
  have hz : ∀ n t : ℝ, get_zfrac L C n t = 0.5 * (-1 + Real.sqrt (1 + 4 * zfrac_u L C n t)) := by
    intro n t
    rw [get_zfrac_eq, hL.sqrt_eq]
    norm_num
  obtain ⟨hu, hu0⟩ := zfrac_u_real L hL C nprot thetae
  have hs0 : 0 ≤ Real.sqrt (1 + 4 * zfrac_u L C nprot thetae) := Real.sqrt_nonneg _
  have hsq : Real.sqrt (1 + 4 * zfrac_u L C nprot thetae) ^ 2
      = 1 + 4 * zfrac_u L C nprot thetae := Real.sq_sqrt (by linarith)
  have hs1 : 1 ≤ Real.sqrt (1 + 4 * zfrac_u L C nprot thetae) := by
    rw [Real.one_le_sqrt]
    linarith
  refine ⟨?_, hu, hz nprot thetae, ?_, ?_, ?_⟩
  · simp only [zfrac_lam_th, hL.sqrt_eq, hL.pi_eq]
    norm_num
    ring_nf
  · rw [hz]
    generalize Real.sqrt (1 + 4 * zfrac_u L C nprot thetae) = s at hsq
    norm_num
    nlinarith
  · rw [hz]
    norm_num
    linarith
  · intro nprot1 thetae1
    obtain ⟨_, hu1⟩ := zfrac_u_real L hL C nprot1 thetae1
    rw [hz, hz]
    constructor
    · intro h
      have := Real.sqrt_lt_sqrt (by linarith : 0 ≤ 1 + 4 * zfrac_u L C nprot thetae)
        (by linarith : 1 + 4 * zfrac_u L C nprot thetae < 1 + 4 * zfrac_u L C nprot1 thetae1)
      norm_num
      linarith
    · intro h
      have h1 : Real.sqrt (1 + 4 * zfrac_u L C nprot thetae)
          < Real.sqrt (1 + 4 * zfrac_u L C nprot1 thetae1) := by
        norm_num at h
        linarith
      have := (Real.sqrt_lt_sqrt_iff (by linarith)).mp h1
      linarith

/-- Witness of C30: the sample cgs constants at `nprot = 1e15`, `thetae = 1`. -/
theorem get_zfrac_root_witness :
    ∃ L : Libm ℝ, L.IsReal
      ∧ get_zfrac L (cgs 2 0.5) 1e15 1 * (1 + get_zfrac L (cgs 2 0.5) 1e15 1)
        = zfrac_u L (cgs 2 0.5) 1e15 1
      ∧ 0 ≤ get_zfrac L (cgs 2 0.5) 1e15 1 := by
  obtain ⟨L, _, hL, _⟩ := exists_real_libs
  have h := get_zfrac_root L hL (cgs 2 0.5) 1e15 1
  exact ⟨L, hL, h.2.2.2.1, h.2.2.2.2.1⟩

end Equilibrium

/-! ## Locals that the update does not use -/

section Timescales
variable {F : Type} [LinearOrderedField F]

/-- The update depends on the output state only through the final assignment:
what is printed, whether the run returns, and whether and what it writes are the
same for every `Sf`. -/
theorem pair_update_uniform (C : Consts F) (U : Units F) (rate : F → Except Msg F)
    (nprot npost dt_real : F) (RPL i j k : Nat) :
    ∃ (printed : List Msg) (w : Option (Option F)), ∀ Sf : FluidState F,
      pair_update C U rate nprot npost dt_real Sf RPL i j k
        = { printed := printed, Sf := w.map (write_back Sf RPL i j k) } := by
  cases hrate : rate (npost / nprot) with
  | error e =>
    refine ⟨[e], none, fun Sf => ?_⟩
    simp only [pair_update, hrate, Option.map_none']
  | ok net_rate =>
    by_cases hpos : |net_rate| > 0.0
    · by_cases hstiff : dt_real > C.q_alpha * |npost / net_rate|
      · cases hb : bracket_loop (implicit_g rate (npost / nprot) dt_real nprot)
            (npost / nprot - npost / nprot - dt_real * net_rate / nprot)
            (implicit_steps net_rate) 999 0 (npost / nprot) 0 with
        | error e =>
          refine ⟨[Msg.net_rate_too_steep i j k, e], none, fun Sf => ?_⟩
          simp only [pair_update, hrate, if_pos hpos, if_pos hstiff, hb, Option.map_none']
        | ok res =>
          obtain ⟨o, zr, fr⟩ := res
          by_cases ho : o = 999 ∨ isnan fr = true
          · refine ⟨[Msg.net_rate_too_steep i j k, Msg.failure_in_implicit_method], none,
              fun Sf => ?_⟩
            simp only [pair_update, hrate, if_pos hpos, if_pos hstiff, hb, if_pos ho,
              Option.map_none']
          · cases hbis : bisect_loop (implicit_g rate (npost / nprot) dt_real nprot)
                (npost / nprot - npost / nprot - dt_real * net_rate / nprot) fr C.bisects
                99999 0 (npost / nprot) zr 0 with
            | error e =>
              refine ⟨[Msg.net_rate_too_steep i j k, e], none, fun Sf => ?_⟩
              simp only [pair_update, hrate, if_pos hpos, if_pos hstiff, hb, if_neg ho, hbis,
                Option.map_none']
            | ok res2 =>
              obtain ⟨count, zl1, zr1, zcen⟩ := res2
              by_cases hc : count = 99999
              · refine ⟨[Msg.net_rate_too_steep i j k, Msg.no_solution], some none,
                  fun Sf => ?_⟩
                simp only [pair_update, hrate, if_pos hpos, if_pos hstiff, hb, if_neg ho, hbis,
                  if_pos hc, Option.map_some', write_back]
              · refine ⟨[Msg.net_rate_too_steep i j k],
                  some (some (zcen * nprot * (C.ME / U.RHO_unit))), fun Sf => ?_⟩
                simp only [pair_update, hrate, if_pos hpos, if_pos hstiff, hb, if_neg ho, hbis,
                  if_neg hc, Option.map_some', write_back]
      · refine ⟨[], some (some ((npost + net_rate * dt_real) * (C.ME / U.RHO_unit))),
          fun Sf => ?_⟩
        simp only [pair_update, hrate, if_pos hpos, if_neg hstiff, Option.map_some', write_back]
    · refine ⟨[], some none, fun Sf => ?_⟩
      simp only [pair_update, hrate, if_neg hpos, Option.map_some', write_back]

/-- The column sums of `DIRECT_1` read only the density and the positron density
of the column. -/
theorem direct1_sums_congr (L : Libm F) (C : Consts F) (U : Units F) (E : Ext F)
    (Ss1 Ss2 : FluidState F) (i k m_start m_end : Nat)
    (hRHO : ∀ m, Ss1.P E.RHO k m i = Ss2.P E.RHO k m i)
    (hRPL : ∀ m, Ss1.P E.RPL k m i = Ss2.P E.RPL k m i) :
    direct1_sums L C U E Ss1 i k m_start m_end = direct1_sums L C U E Ss2 i k m_start m_end := by
  simp only [direct1_sums, hRHO, hRPL]

/-- The column sum of `DIRECT_2` reads only the density and the positron density
of the column. -/
theorem direct2_sum_congr (L : Libm F) (C : Consts F) (U : Units F) (E : Ext F)
    (Ss1 Ss2 : FluidState F) (i k m_start m_end : Nat)
    (hRHO : ∀ m, Ss1.P E.RHO k m i = Ss2.P E.RHO k m i)
    (hRPL : ∀ m, Ss1.P E.RPL k m i = Ss2.P E.RPL k m i) :
    direct2_sum L C U E Ss1 i k m_start m_end = direct2_sum L C U E Ss2 i k m_start m_end := by
  simp only [direct2_sum, hRHO, hRPL]

/-- The optical depth and the scale height read only the density and the positron
density of the column, under each strategy. -/
theorem optical_depth_congr (L : Libm F) (G : Gsl F) (C : Consts F) (U : Units F) (E : Ext F)
    (cmp : Compute) (Ss1 Ss2 : FluidState F) (i j k : Nat) (rad theta nprot npost ntot : F)
    (hRHO : ∀ m, Ss1.P E.RHO k m i = Ss2.P E.RHO k m i)
    (hRPL : ∀ m, Ss1.P E.RPL k m i = Ss2.P E.RPL k m i) :
    optical_depth L G C U E cmp Ss1 i j k rad theta nprot npost ntot
      = optical_depth L G C U E cmp Ss2 i j k rad theta nprot npost ntot := by
  cases cmp with
  | DIRECT_1 =>
    simp only [optical_depth, direct1_sums_congr L C U E Ss1 Ss2 i k _ _ hRHO hRPL]
  | DIRECT_2 =>
    simp only [optical_depth, direct2_sum_congr L C U E Ss1 Ss2 i k _ _ hRHO hRPL]
  | GAUSSIAN =>
    simp only [optical_depth, hRHO, hRPL]

/-- The locals that the update uses are the same for two input states that agree
on the density and the positron density of the column and on `bsq` at the cell. -/
theorem cell_locals_congr (L : Libm F) (G : Gsl F) (C : Consts F) (U : Units F) (E : Ext F)
    (cmp : Compute) (Ss1 Ss2 : FluidState F) (i j k : Nat) (dt_step : F)
    (hRHO : ∀ m, Ss1.P E.RHO k m i = Ss2.P E.RHO k m i)
    (hRPL : ∀ m, Ss1.P E.RPL k m i = Ss2.P E.RPL k m i)
    (hB : E.bsq_calc Ss1 i j k = E.bsq_calc Ss2 i j k) :
    (cell_locals L G C U E cmp Ss1 i j k dt_step).tau_depth
        = (cell_locals L G C U E cmp Ss2 i j k dt_step).tau_depth
      ∧ (cell_locals L G C U E cmp Ss1 i j k dt_step).h_th
        = (cell_locals L G C U E cmp Ss2 i j k dt_step).h_th
      ∧ (cell_locals L G C U E cmp Ss1 i j k dt_step).nprot
        = (cell_locals L G C U E cmp Ss2 i j k dt_step).nprot
      ∧ (cell_locals L G C U E cmp Ss1 i j k dt_step).npost
        = (cell_locals L G C U E cmp Ss2 i j k dt_step).npost
      ∧ (cell_locals L G C U E cmp Ss1 i j k dt_step).thetae
        = (cell_locals L G C U E cmp Ss2 i j k dt_step).thetae
      ∧ (cell_locals L G C U E cmp Ss1 i j k dt_step).bfield
        = (cell_locals L G C U E cmp Ss2 i j k dt_step).bfield
      ∧ (cell_locals L G C U E cmp Ss1 i j k dt_step).dt_real
        = (cell_locals L G C U E cmp Ss2 i j k dt_step).dt_real := by
  have hn : Ss1.P E.RHO k j i * U.RHO_unit / C.MP = Ss2.P E.RHO k j i * U.RHO_unit / C.MP := by
    rw [hRHO j]
  have hp : Ss1.P E.RPL k j i * U.RHO_unit / C.ME = Ss2.P E.RPL k j i * U.RHO_unit / C.ME := by
    rw [hRPL j]
  have hod : ∀ Ss : FluidState F,
      ((cell_locals L G C U E cmp Ss i j k dt_step).tau_depth,
        (cell_locals L G C U E cmp Ss i j k dt_step).h_th)
      = optical_depth L G C U E cmp Ss i j k (E.bl_rad i j k) (E.bl_theta i j k)
          (Ss.P E.RHO k j i * U.RHO_unit / C.MP) (Ss.P E.RPL k j i * U.RHO_unit / C.ME)
          (2 * (Ss.P E.RPL k j i * U.RHO_unit / C.ME) + Ss.P E.RHO k j i * U.RHO_unit / C.MP) :=
    fun _ => rfl
  have h12 := hod Ss1
  rw [hn, hp, optical_depth_congr L G C U E cmp Ss1 Ss2 i j k _ _ _ _ _ hRHO hRPL,
    ← hod Ss2] at h12
  have ht := congrArg Prod.fst h12
  have hh := congrArg Prod.snd h12
  refine ⟨ht, hh, hn, hp, rfl, ?_, rfl⟩
  show L.sqrt (E.bsq_calc Ss1 i j k) * U.B_unit = L.sqrt (E.bsq_calc Ss2 i j k) * U.B_unit
  rw [hB]

/-- C31.  The Coulomb and orbital timescales do not influence the update.  The
update of a cell uses, of the locals computed before it, only `tau_depth`,
`nprot`, `npost`, `thetae`, `h_th`, `bfield` and `dt_real`; `ang_vel`, `ue`, `up`,
`thetap`, `qcoul`, `tcoul`, `tomega` and `tratio` are not used.  So for two input
states that agree on the density and the positron density of the column and on
`bsq` at the cell (the geometry, the electron temperature and `dt_step` being the
same), whatever their internal energy `P[UU]` and their four-velocity: what is
printed, whether the run returns, whether `Sf->P[RPL][k][j][i]` is written and
the value written are identical, for every output state. -/
theorem timescales_not_used (L : Libm F) (G : Gsl F) (C : Consts F) (U : Units F) (E : Ext F)
    (cmp : Compute) (Ss1 Ss2 : FluidState F) (i j k : Nat) (dt_step : F)
    (hRHO : ∀ m, Ss1.P E.RHO k m i = Ss2.P E.RHO k m i)
    (hRPL : ∀ m, Ss1.P E.RPL k m i = Ss2.P E.RPL k m i)
    (hB : E.bsq_calc Ss1 i j k = E.bsq_calc Ss2 i j k) :
    (∀ Sf : FluidState F,
        pair_production_1zone L G C U E cmp Ss1 Sf i j k dt_step
          = pair_production_1zone L G C U E cmp Ss2 Sf i j k dt_step)
      ∧ (∃ (printed : List Msg) (w : Option (Option F)), ∀ Sf1 Sf2 : FluidState F,
          pair_production_1zone L G C U E cmp Ss1 Sf1 i j k dt_step
              = { printed := printed, Sf := w.map (write_back Sf1 E.RPL i j k) }
            ∧ pair_production_1zone L G C U E cmp Ss2 Sf2 i j k dt_step
              = { printed := printed, Sf := w.map (write_back Sf2 E.RPL i j k) })
      ∧ (∀ (Ss Sf : FluidState F),
          pair_production_1zone L G C U E cmp Ss Sf i j k dt_step
            = pair_update C U
                (fun z => ndot_net L G C z (cell_locals L G C U E cmp Ss i j k dt_step).tau_depth
                  (cell_locals L G C U E cmp Ss i j k dt_step).nprot
                  (cell_locals L G C U E cmp Ss i j k dt_step).thetae
                  (cell_locals L G C U E cmp Ss i j k dt_step).h_th
                  (cell_locals L G C U E cmp Ss i j k dt_step).bfield)
                (cell_locals L G C U E cmp Ss i j k dt_step).nprot
                (cell_locals L G C U E cmp Ss i j k dt_step).npost
                (cell_locals L G C U E cmp Ss i j k dt_step).dt_real Sf E.RPL i j k) := by
  obtain ⟨h1, h2, h3, h4, h5, h6, h7⟩ :=
    cell_locals_congr L G C U E cmp Ss1 Ss2 i j k dt_step hRHO hRPL hB
  have hform : ∀ (Ss Sf : FluidState F),
      pair_production_1zone L G C U E cmp Ss Sf i j k dt_step
        = pair_update C U
            (fun z => ndot_net L G C z (cell_locals L G C U E cmp Ss i j k dt_step).tau_depth
              (cell_locals L G C U E cmp Ss i j k dt_step).nprot
              (cell_locals L G C U E cmp Ss i j k dt_step).thetae
              (cell_locals L G C U E cmp Ss i j k dt_step).h_th
              (cell_locals L G C U E cmp Ss i j k dt_step).bfield)
            (cell_locals L G C U E cmp Ss i j k dt_step).nprot
            (cell_locals L G C U E cmp Ss i j k dt_step).npost
            (cell_locals L G C U E cmp Ss i j k dt_step).dt_real Sf E.RPL i j k :=
    fun _ _ => rfl
  have heq : ∀ Sf : FluidState F,
      pair_production_1zone L G C U E cmp Ss1 Sf i j k dt_step
        = pair_production_1zone L G C U E cmp Ss2 Sf i j k dt_step := by
    intro Sf
    rw [hform Ss1 Sf, hform Ss2 Sf, h1, h2, h3, h4, h5, h6, h7]
  refine ⟨heq, ?_, hform⟩
  obtain ⟨printed, w, hw⟩ := pair_update_uniform C U
    (fun z => ndot_net L G C z (cell_locals L G C U E cmp Ss2 i j k dt_step).tau_depth
      (cell_locals L G C U E cmp Ss2 i j k dt_step).nprot
      (cell_locals L G C U E cmp Ss2 i j k dt_step).thetae
      (cell_locals L G C U E cmp Ss2 i j k dt_step).h_th
      (cell_locals L G C U E cmp Ss2 i j k dt_step).bfield)
    (cell_locals L G C U E cmp Ss2 i j k dt_step).nprot
    (cell_locals L G C U E cmp Ss2 i j k dt_step).npost
    (cell_locals L G C U E cmp Ss2 i j k dt_step).dt_real E.RPL i j k
  refine ⟨printed, w, fun Sf1 Sf2 => ⟨?_, ?_⟩⟩
  · rw [heq Sf1, hform Ss2 Sf1]
    exact hw Sf1
  · rw [hform Ss2 Sf2]
    exact hw Sf2

end Timescales

section TimescalesWitness

/-- Witness of C31: the states `zone_state` and `spin_state` on the grid column
`spin_ext`.  They have the same density and no positrons, but different internal
energy (`up` is 0 for one and not for the other) and different angular velocity
(0 and 0.5); the runs are the same. -/
theorem timescales_not_used_witness :
    ∃ (L : Libm ℝ) (G : Gsl ℝ), L.IsReal ∧ G.IsReal
      ∧ (cell_locals L G (cgs 2 0.5) zone_units (spin_ext (Real.pi / 2)) Compute.DIRECT_2
          zone_state 0 5 0 1).up = 0
      ∧ (cell_locals L G (cgs 2 0.5) zone_units (spin_ext (Real.pi / 2)) Compute.DIRECT_2
          spin_state 0 5 0 1).up ≠ 0
      ∧ (cell_locals L G (cgs 2 0.5) zone_units (spin_ext (Real.pi / 2)) Compute.DIRECT_2
          zone_state 0 5 0 1).ang_vel = 0
      ∧ (cell_locals L G (cgs 2 0.5) zone_units (spin_ext (Real.pi / 2)) Compute.DIRECT_2
          spin_state 0 5 0 1).ang_vel = 0.5
      ∧ ∀ Sf : FluidState ℝ,
          pair_production_1zone L G (cgs 2 0.5) zone_units (spin_ext (Real.pi / 2))
              Compute.DIRECT_2 zone_state Sf 0 5 0 1
            = pair_production_1zone L G (cgs 2 0.5) zone_units (spin_ext (Real.pi / 2))
              Compute.DIRECT_2 spin_state Sf 0 5 0 1 := by
  obtain ⟨L, G, hL, hG⟩ := exists_real_libs
  refine ⟨L, G, hL, hG, ?_, ?_, ?_, ?_, ?_⟩
  · simp only [cell_locals, spin_ext, zone_state]
    norm_num
  · simp only [cell_locals, spin_ext, spin_state, zone_units]
    norm_num
  · simp only [cell_locals, spin_ext, zone_state]
    norm_num
  · simp only [cell_locals, spin_ext, spin_state]
    norm_num
  · exact (timescales_not_used L G (cgs 2 0.5) zone_units (spin_ext (Real.pi / 2))
      Compute.DIRECT_2 zone_state spin_state 0 5 0 1
      (by intro m; simp [spin_ext, zone_state, spin_state])
      (by intro m; simp [spin_ext, zone_state, spin_state])
      rfl).1

end TimescalesWitness

end Positrons
